import Mathlib

/-!
# Ingress configuration synthesis (`internal/configs/ingress.go`)

A shallow embedding of the functions of `internal/configs/ingress.go` that turn an
`IngressEx` into the `version1.IngressNginxConfig` model, followed by theorems
about them.

Conventions of the embedding

* A Go `string` is a Lean `String`.  Go compares strings byte by byte; on
  well-formed UTF-8 text that order is the code point order, which is the order
  `<` of `String`.
* A Go `map[string]T` is an association list `GoMap T`.  `GoMap.lookup` is the
  two-valued read `v, ok := m[k]`, `GoMap.get` the one-valued read `m[k]`
  (zero value when the key is absent) and `GoMap.insert` the write `m[k] = v`.
  The order of the list is the order in which `range` visits the map.
* A pointer that the code tests against `nil` or dereferences is an `Option`.
  A map of pointers `map[string]*T` is a `GoMap T`: a key is absent, and read as a
  nil pointer, or holds a non-nil pointer.
  A run-time panic (nil dereference, index out of range) is the result `none`.
* `int`, `int32` and `int64` values are only copied and compared with zero, so
  they are `Int`.
* `ingEx`, `ingEx.Ingress`, `baseCfgParams` and `staticParams` are non-nil.
-/

namespace Configs

/-! ## Go maps -/

/-- A Go `map[string]α`. -/
abbrev GoMap (α : Type) := List (String × α)

namespace GoMap

/-- The read `v, ok := m[k]`. -/
def lookup {α : Type} : GoMap α → String → Option α
  | [], _ => none
  | (k', v) :: rest, k => if k' = k then some v else lookup rest k

/-- The read `m[k]`: the zero value of `α` when `k` is absent. -/
def get {α : Type} [Inhabited α] (m : GoMap α) (k : String) : α :=
  (lookup m k).getD default

/-- The write `m[k] = v`. -/
def insert {α : Type} : GoMap α → String → α → GoMap α
  | [], k, v => [(k, v)]
  | (k', v') :: rest, k, v =>
    if k' = k then (k, v) :: rest else (k', v') :: insert rest k v

/-- The keys of the map, in `range` order. -/
def keys {α : Type} (m : GoMap α) : List String := m.map Prod.fst

/-- The values of the map, in `range` order. -/
def values {α : Type} (m : GoMap α) : List α := m.map Prod.snd

end GoMap

/-! ## Kubernetes API types (`k8s.io/api`) -/

/-- The type `intstr.IntOrString`. -/
inductive IntOrString where
  | int (v : Int)
  | str (s : String)
  deriving DecidableEq, Repr, Inhabited

/-- The method `IntOrString.String()`. -/
def IntOrString.string : IntOrString → String
  | .int v => toString v
  | .str s => s

/-- The type `networking.PathType`, a Go string type. -/
abbrev PathType := String

def PathTypeExact : PathType := "Exact"
def PathTypePrefix : PathType := "Prefix"
def PathTypeImplementationSpecific : PathType := "ImplementationSpecific"

/-- The constant `api_v1.SecretTypeTLS`. -/
def SecretTypeTLS : String := "kubernetes.io/tls"

structure IngressBackend where
  ServiceName : String
  ServicePort : IntOrString
  deriving DecidableEq, Repr, Inhabited

structure HTTPIngressPath where
  Path : String
  PathType : Option PathType
  Backend : IngressBackend
  deriving DecidableEq, Repr, Inhabited

structure HTTPIngressRuleValue where
  Paths : List HTTPIngressPath
  deriving DecidableEq, Repr, Inhabited

structure IngressRule where
  Host : String
  HTTP : Option HTTPIngressRuleValue
  deriving DecidableEq, Repr, Inhabited

structure IngressTLS where
  Hosts : List String
  SecretName : String
  deriving DecidableEq, Repr, Inhabited

structure IngressSpec where
  Backend : Option IngressBackend
  TLS : List IngressTLS
  Rules : List IngressRule
  deriving DecidableEq, Repr, Inhabited

structure Ingress where
  Namespace : String
  Name : String
  Annotations : GoMap String
  Spec : IngressSpec
  deriving DecidableEq, Repr, Inhabited

structure HTTPHeader where
  Name : String
  Value : String
  deriving DecidableEq, Repr, Inhabited

structure HTTPGetAction where
  Path : String
  Scheme : String
  HTTPHeaders : List HTTPHeader
  deriving DecidableEq, Repr, Inhabited

/-- The type `api_v1.Probe`; `HTTPGet` is a pointer of the embedded `Handler`. -/
structure Probe where
  HTTPGet : Option HTTPGetAction
  TimeoutSeconds : Int
  PeriodSeconds : Int
  SuccessThreshold : Int
  FailureThreshold : Int
  deriving DecidableEq, Repr, Inhabited

/-! ## Types of this repository declared outside `ingress.go`

Each structure lists the fields that `ingress.go` reads or writes. -/

/-- The type `SecretReference`; `Error` is `nil` (`none`) for a valid secret. -/
structure SecretReference where
  Typ : String
  Path : String
  Error : Option String
  deriving DecidableEq, Repr, Inhabited

/-- The type `ConfigParams`, the resolved parameter set. -/
structure ConfigParams where
  ClientMaxBodySize : String
  FailTimeout : String
  HealthCheckEnabled : Bool
  HealthCheckMandatory : Bool
  HealthCheckMandatoryQueue : Int
  HSTS : Bool
  HSTSBehindProxy : Bool
  HSTSIncludeSubdomains : Bool
  HSTSMaxAge : Int
  HTTP2 : Bool
  Keepalive : Int
  LBMethod : String
  LocationSnippets : List String
  MaxConns : Int
  MaxFails : Int
  ProxyBuffering : Bool
  ProxyBuffers : String
  ProxyBufferSize : String
  ProxyConnectTimeout : String
  ProxyHideHeaders : List String
  ProxyMaxTempFileSize : String
  ProxyPassHeaders : List String
  ProxyProtocol : Bool
  ProxyReadTimeout : String
  ProxySendTimeout : String
  RedirectToHTTPS : Bool
  ServerSnippets : List String
  ServerTokens : String
  SlowStart : String
  SSLRedirect : Bool
  UpstreamZoneSize : String
  RealIPHeader : String
  RealIPRecursive : Bool
  SetRealIPFrom : List String
  Ports : List Int
  SSLPorts : List Int
  SpiffeServerCerts : Bool
  JWTKey : String
  JWTLoginURL : String
  JWTRealm : String
  JWTToken : String
  AppProtectEnable : String
  AppProtectLogEnable : String
  deriving DecidableEq, Repr, Inhabited

/-- The type `StaticConfigParams`. -/
structure StaticConfigParams where
  TLSPassthrough : Bool
  EnableInternalRoutes : Bool
  MainAppProtectLoadModule : Bool
  NginxServiceMesh : Bool
  EnableLatencyMetrics : Bool
  deriving DecidableEq, Repr, Inhabited

/-- The type `version1.UpstreamLabels`. -/
structure UpstreamLabels where
  Service : String
  ResourceType : String
  ResourceName : String
  ResourceNamespace : String
  deriving DecidableEq, Repr, Inhabited

/-- The type `version1.UpstreamServer`. -/
structure UpstreamServer where
  Address : String
  Port : String
  MaxFails : Int
  MaxConns : Int
  FailTimeout : String
  SlowStart : String
  Resolve : Bool
  deriving DecidableEq, Repr, Inhabited

/-- The type `version1.Upstream`. -/
structure Upstream where
  Name : String
  UpstreamServers : List UpstreamServer
  StickyCookie : String
  LBMethod : String
  Queue : Int
  QueueTimeout : Int
  UpstreamZoneSize : String
  UpstreamLabels : UpstreamLabels
  deriving DecidableEq, Repr, Inhabited

/-- The type `version1.HealthCheck`. -/
structure HealthCheck where
  UpstreamName : String
  URI : String
  Interval : Int
  Fails : Int
  Passes : Int
  Scheme : String
  Mandatory : Bool
  Headers : GoMap String
  TimeoutSeconds : Int
  deriving DecidableEq, Repr, Inhabited

/-- The type `version1.JWTAuth`. -/
structure JWTAuth where
  Key : String
  Realm : String
  Token : String
  RedirectLocationName : String
  deriving DecidableEq, Repr, Inhabited

/-- The type `version1.JWTRedirectLocation`. -/
structure JWTRedirectLocation where
  Name : String
  LoginURL : String
  deriving DecidableEq, Repr, Inhabited

/-- The type `version1.Ingress`: the identity of the originating resource. -/
structure IngressIdentity where
  Name : String
  Namespace : String
  Annotations : GoMap String
  deriving DecidableEq, Repr, Inhabited

/-- The type `version1.Location`. -/
structure Location where
  Path : String
  Upstream : Upstream
  ProxyConnectTimeout : String
  ProxyReadTimeout : String
  ProxySendTimeout : String
  ClientMaxBodySize : String
  Websocket : Bool
  Rewrite : String
  SSL : Bool
  GRPC : Bool
  ProxyBuffering : Bool
  ProxyBuffers : String
  ProxyBufferSize : String
  ProxyMaxTempFileSize : String
  ProxySSLName : String
  JWTAuth : Option JWTAuth
  LocationSnippets : List String
  ServiceName : String
  MinionIngress : Option IngressIdentity
  deriving DecidableEq, Repr, Inhabited

/-- The type `version1.Server`. -/
structure Server where
  ServerSnippets : List String
  Name : String
  ServerTokens : String
  Locations : List Location
  SSL : Bool
  SSLCertificate : String
  SSLCertificateKey : String
  SSLCiphers : String
  TLSPassthrough : Bool
  GRPCOnly : Bool
  StatusZone : String
  HTTP2 : Bool
  RedirectToHTTPS : Bool
  SSLRedirect : Bool
  ProxyProtocol : Bool
  HSTS : Bool
  HSTSMaxAge : Int
  HSTSIncludeSubdomains : Bool
  HSTSBehindProxy : Bool
  ProxyHideHeaders : List String
  ProxyPassHeaders : List String
  HealthChecks : GoMap HealthCheck
  RealIPHeader : String
  SetRealIPFrom : List String
  RealIPRecursive : Bool
  JWTAuth : Option JWTAuth
  JWTRedirectLocations : List JWTRedirectLocation
  Ports : List Int
  SSLPorts : List Int
  AppProtectEnable : String
  AppProtectPolicy : String
  AppProtectLogConf : String
  AppProtectLogEnable : String
  SpiffeCerts : Bool
  deriving DecidableEq, Repr, Inhabited

/-- The type `version1.IngressNginxConfig`. -/
structure IngressNginxConfig where
  Upstreams : List Upstream
  Servers : List Server
  Keepalive : String
  Ingress : IngressIdentity
  SpiffeClientCerts : Bool
  deriving DecidableEq, Repr, Inhabited

/-! ## `ingress.go` -/

/-- The constant `emptyHost`. -/
def emptyHost : String := ""
/-- The constant `appProtectPolicyKey`. -/
def appProtectPolicyKey : String := "policy"
/-- The constant `appProtectLogConfKey`. -/
def appProtectLogConfKey : String := "logconf"

/-- The type `IngressEx`, with the fields that `ingress.go` reads. -/
structure IngressEx where
  Ingress : Ingress
  Endpoints : GoMap (List String)
  HealthChecks : GoMap Probe
  ExternalNameSvcs : GoMap Bool
  ValidHosts : GoMap Bool
  ValidMinionPaths : GoMap Bool
  Secrets : GoMap SecretReference
  deriving DecidableEq, Repr, Inhabited

/-- The declarations of this package that `ingress.go` uses and that are defined
in other files: the annotation readers of `annotations.go`, the constructor
`version1.NewUpstreamWithDefaultServer` and the two certificate file names. -/
structure External where
  parseAnnotations : IngressEx → ConfigParams → Bool → Bool → Bool → ConfigParams
  getWebsocketServices : IngressEx → GoMap Bool
  getSessionPersistenceServices : IngressEx → GoMap String
  getRewrites : IngressEx → GoMap String
  getSSLServices : IngressEx → GoMap Bool
  getGrpcServices : IngressEx → GoMap Bool
  generateProxySSLName : String → String → String
  NewUpstreamWithDefaultServer : String → Upstream
  pemFileNameForMissingTLSSecret : String
  pemFileNameForWildcardTLSSecret : String

/-- The function `pathOrDefault`. -/
def pathOrDefault (path : String) : String :=
  if path = "" then "/" else path

/-- The function `getNameForUpstream`: `fmt.Sprintf("%v-%v-%v-%v-%v", ...)`. -/
def getNameForUpstream (ing : Ingress) (host : String) (backend : IngressBackend) : String :=
  ing.Namespace ++ "-" ++ ing.Name ++ "-" ++ host ++ "-" ++ backend.ServiceName ++ "-"
    ++ backend.ServicePort.string

/-- The function `getNameForRedirectLocation`. -/
def getNameForRedirectLocation (ing : Ingress) : String :=
  "@login_url_" ++ ing.Namespace ++ "-" ++ ing.Name

/-- The function `generateIngressPath`. -/
def generateIngressPath (path : String) (pathType : Option PathType) : String :=
  match pathType with
  | none => path
  | some t => if t = PathTypeExact then "= " ++ path else path

/-- The function `createLocation`. -/
def createLocation (path : String) (upstream : Upstream) (cfg : ConfigParams) (websocket : Bool)
    (rewrite : String) (ssl : Bool) (grpc : Bool) (proxySSLName : String)
    (pathType : Option PathType) (serviceName : String) : Location :=
  { Path := generateIngressPath path pathType
    Upstream := upstream
    ProxyConnectTimeout := cfg.ProxyConnectTimeout
    ProxyReadTimeout := cfg.ProxyReadTimeout
    ProxySendTimeout := cfg.ProxySendTimeout
    ClientMaxBodySize := cfg.ClientMaxBodySize
    Websocket := websocket
    Rewrite := rewrite
    SSL := ssl
    GRPC := grpc
    ProxyBuffering := cfg.ProxyBuffering
    ProxyBuffers := cfg.ProxyBuffers
    ProxyBufferSize := cfg.ProxyBufferSize
    ProxyMaxTempFileSize := cfg.ProxyMaxTempFileSize
    ProxySSLName := proxySSLName
    JWTAuth := none
    LocationSnippets := cfg.LocationSnippets
    ServiceName := serviceName
    MinionIngress := none }

/-- The function `isSSLEnabled`. -/
def isSSLEnabled (isSSLService : Bool) (cfgParams : ConfigParams)
    (staticCfgParams : StaticConfigParams) : Bool :=
  isSSLService || (staticCfgParams.NginxServiceMesh && !cfgParams.SpiffeServerCerts)

/-- The function `generateJWTConfig`.  `secrets[cfgParams.JWTKey]` is a nil pointer
when the key is absent, and `secret.Error` then panics. -/
def generateJWTConfig (secrets : GoMap SecretReference) (cfgParams : ConfigParams)
    (redirectLocationName : String) : Option (JWTAuth × Option JWTRedirectLocation) :=
  match GoMap.lookup secrets cfgParams.JWTKey with
  | none => none
  | some secret =>
    -- both branches of the test on `secret.Error` and `secret.Type` are empty
    let jwtAuth : JWTAuth :=
      { Key := secret.Path, Realm := cfgParams.JWTRealm, Token := cfgParams.JWTToken,
        RedirectLocationName := "" }
    if cfgParams.JWTLoginURL ≠ "" then
      some ({ jwtAuth with RedirectLocationName := redirectLocationName },
            some { Name := redirectLocationName, LoginURL := cfgParams.JWTLoginURL })
    else
      some (jwtAuth, none)

/-- The inner loop of `addSSLConfig` over `tls.Hosts`, with its `break`. -/
def addSSLConfig.hosts (host : String) (secretName : String) :
    List String → Bool × String → Bool × String
  | [], st => st
  | h :: hs, st => if h = host then (true, secretName) else addSSLConfig.hosts host secretName hs st

/-- The outer loop of `addSSLConfig` over `ingressTLS`; the state is
`(tlsEnabled, tlsSecret)`. -/
def addSSLConfig.entries (host : String) : List IngressTLS → Bool × String → Bool × String
  | [], st => st
  | tls :: rest, st =>
    addSSLConfig.entries host rest (addSSLConfig.hosts host tls.SecretName tls.Hosts st)

/-- The choice of `pemFile` in `addSSLConfig`.  `secrets[tlsSecret]` is a nil
pointer when the key is absent, and `secret.Error` then panics. -/
def addSSLConfig.pemFile (ext : External) (tlsSecret : String) (secrets : GoMap SecretReference)
    (isWildcardEnabled : Bool) : Option String :=
  if tlsSecret ≠ "" then
    match GoMap.lookup secrets tlsSecret with
    | none => none
    | some secret =>
      if secret.Error ≠ none then some ext.pemFileNameForMissingTLSSecret
      else if secret.Typ ≠ SecretTypeTLS then some ext.pemFileNameForMissingTLSSecret
      else some secret.Path
  else if isWildcardEnabled then some ext.pemFileNameForWildcardTLSSecret
  else some ext.pemFileNameForMissingTLSSecret

/-- The function `addSSLConfig`; the result is the server after the call. -/
def addSSLConfig (ext : External) (server : Server) (host : String) (ingressTLS : List IngressTLS)
    (secrets : GoMap SecretReference) (isWildcardEnabled : Bool) : Option Server :=
  let st := addSSLConfig.entries host ingressTLS (false, "")
  if !st.1 then some server
  else
    match addSSLConfig.pemFile ext st.2 secrets isWildcardEnabled with
    | none => none
    | some pemFile =>
      let server := { server with SSL := true, SSLCertificate := pemFile,
                                  SSLCertificateKey := pemFile }
      if pemFile = ext.pemFileNameForMissingTLSSecret then
        some { server with SSLCiphers := "NULL" }
      else some server

/-- The function `upstreamRequiresQueue`. -/
def upstreamRequiresQueue (name : String) (ingEx : IngressEx) (cfg : ConfigParams) : Int × Int :=
  if cfg.HealthCheckEnabled && cfg.HealthCheckMandatory && decide (cfg.HealthCheckMandatoryQueue > 0)
  then
    match GoMap.lookup ingEx.HealthChecks name with
    | some hc => (cfg.HealthCheckMandatoryQueue, hc.TimeoutSeconds)
    | none => (0, 0)
  else (0, 0)

/-- The function `strings.Split(s, sep)` for a one-character separator, on the
characters of `s`. -/
def splitChars (sep : Char) : List Char → List (List Char)
  | [] => [[]]
  | c :: cs =>
    if c = sep then [] :: splitChars sep cs
    else
      match splitChars sep cs with
      | [] => [[c]]
      | w :: ws => (c :: w) :: ws

/-- The call `strings.Split(s, ":")`. -/
def splitColon (s : String) : List String := (splitChars ':' s.data).map String.mk

/-- The loop of `createUpstream` over the endpoints; `addressport[1]` panics on an
endpoint without a colon. -/
def createUpstream.servers (cfg : ConfigParams) (isExternalNameSvc : Bool) :
    List String → List UpstreamServer → Option (List UpstreamServer)
  | [], upsServers => some upsServers
  | endp :: rest, upsServers =>
    match splitColon endp with
    | address :: port :: _ =>
      createUpstream.servers cfg isExternalNameSvc rest
        (upsServers ++ [{ Address := address, Port := port, MaxFails := cfg.MaxFails,
                          MaxConns := cfg.MaxConns, FailTimeout := cfg.FailTimeout,
                          SlowStart := cfg.SlowStart, Resolve := isExternalNameSvc }])
    | _ => none

/-- Lines 376-391 of `createUpstream`: the upstream before its servers are set. -/
def createUpstream.base (ext : External) (ingEx : IngressEx) (name : String)
    (backend : IngressBackend) (stickyCookie : String) (cfg : ConfigParams) (isPlus : Bool)
    (isLatencyMetricsEnabled : Bool) : Upstream :=
  let labels : UpstreamLabels :=
    { Service := backend.ServiceName, ResourceType := "ingress",
      ResourceName := ingEx.Ingress.Name, ResourceNamespace := ingEx.Ingress.Namespace }
  if isPlus then
    let qt := upstreamRequiresQueue (backend.ServiceName ++ backend.ServicePort.string) ingEx cfg
    { Name := name, StickyCookie := stickyCookie, Queue := qt.1, QueueTimeout := qt.2,
      UpstreamLabels := labels, UpstreamServers := [], LBMethod := "", UpstreamZoneSize := "" }
  else
    let ups := ext.NewUpstreamWithDefaultServer name
    if isLatencyMetricsEnabled then { ups with UpstreamLabels := labels } else ups

/-- Lines 393-418 of `createUpstream`: the servers of the upstream, one per endpoint. -/
def createUpstream.endpoints (ingEx : IngressEx) (backend : IngressBackend) (cfg : ConfigParams)
    (isResolverConfigured : Bool) (ups : Upstream) : Option Upstream :=
  match GoMap.lookup ingEx.Endpoints (backend.ServiceName ++ backend.ServicePort.string) with
  | none => some ups
  | some endps =>
    -- `_, isExternalNameSvc := ingEx.ExternalNameSvcs[backend.ServiceName]`
    let isExternalNameSvc := (GoMap.lookup ingEx.ExternalNameSvcs backend.ServiceName).isSome
    let endps := if isExternalNameSvc && !isResolverConfigured then [] else endps
    (createUpstream.servers cfg isExternalNameSvc endps []).bind fun upsServers =>
      if upsServers.length > 0 then some { ups with UpstreamServers := upsServers }
      else some ups

/-- The function `createUpstream`. -/
def createUpstream (ext : External) (ingEx : IngressEx) (name : String) (backend : IngressBackend)
    (stickyCookie : String) (cfg : ConfigParams) (isPlus : Bool) (isResolverConfigured : Bool)
    (isLatencyMetricsEnabled : Bool) : Option Upstream :=
  (createUpstream.endpoints ingEx backend cfg isResolverConfigured
    (createUpstream.base ext ingEx name backend stickyCookie cfg isPlus
      isLatencyMetricsEnabled)).bind fun ups =>
    some { ups with LBMethod := cfg.LBMethod, UpstreamZoneSize := cfg.UpstreamZoneSize }

/-- The function `headersToString`. -/
def headersToString (headers : List HTTPHeader) : GoMap String :=
  headers.foldl (fun m header => GoMap.insert m header.Name header.Value) []

/-- The call `strings.ToLower`, on the ASCII letters of a URI scheme. -/
def stringsToLower (s : String) : String := s.map Char.toLower

/-- The function `createHealthCheck`; `hc.HTTPGet.Path` panics when the probe has no
`HTTPGet` handler. -/
def createHealthCheck (hc : Probe) (upstreamName : String) (cfg : ConfigParams) :
    Option HealthCheck :=
  match hc.HTTPGet with
  | none => none
  | some httpGet =>
    some { UpstreamName := upstreamName
           Fails := hc.FailureThreshold
           Interval := hc.PeriodSeconds
           Passes := hc.SuccessThreshold
           URI := httpGet.Path
           Scheme := stringsToLower httpGet.Scheme
           Mandatory := cfg.HealthCheckMandatory
           Headers := headersToString httpGet.HTTPHeaders
           TimeoutSeconds := hc.TimeoutSeconds }

/-- The lexical comparison `a <= b` on the characters of two strings. -/
def charsLe : List Char → List Char → Bool
  | [], _ => true
  | _ :: _, [] => false
  | a :: as, b :: bs => if a = b then charsLe as bs else decide (a.toNat < b.toNat)

/-- The comparison `a <= b` of two Go strings (`stringLe_iff`: it is `a ≤ b`). -/
def stringLe (a b : String) : Bool := charsLe a.data b.data

/-- The call `sort.Strings`: the keys in ascending order. -/
def sortStrings (keys : List String) : List String :=
  keys.insertionSort (fun a b => stringLe a b = true)

/-- The function `upstreamMapToSlice`. -/
def upstreamMapToSlice (upstreams : GoMap Upstream) : List Upstream :=
  let keys := GoMap.keys upstreams
  let keys := sortStrings keys
  keys.map (fun k => GoMap.get upstreams k)

/-- The parameters of `generateNginxCfg` that its body only reads, together with
the locals it computes from the annotations before the first loop (lines 58-65):
`cfgParams`, `wsServices`, `spServices`, `rewrites`, `sslServices` and
`grpcServices`. -/
structure Env where
  ext : External
  ingEx : IngressEx
  apResources : GoMap String
  isMinion : Bool
  isPlus : Bool
  isResolverConfigured : Bool
  staticParams : StaticConfigParams
  isWildcardEnabled : Bool
  cfgParams : ConfigParams
  wsServices : GoMap Bool
  spServices : GoMap String
  rewrites : GoMap String
  sslServices : GoMap Bool
  grpcServices : GoMap Bool

/-- Lines 58-65 of `generateNginxCfg`: the annotations are resolved. -/
def generateNginxCfg.locals (ext : External) (ingEx : IngressEx) (apResources : GoMap String)
    (isMinion : Bool) (baseCfgParams : ConfigParams) (isPlus : Bool) (isResolverConfigured : Bool)
    (staticParams : StaticConfigParams) (isWildcardEnabled : Bool) : Env :=
  { ext := ext
    ingEx := ingEx
    apResources := apResources
    isMinion := isMinion
    isPlus := isPlus
    isResolverConfigured := isResolverConfigured
    staticParams := staticParams
    isWildcardEnabled := isWildcardEnabled
    cfgParams := ext.parseAnnotations ingEx baseCfgParams isPlus
      staticParams.MainAppProtectLoadModule staticParams.EnableInternalRoutes
    wsServices := ext.getWebsocketServices ingEx
    spServices := ext.getSessionPersistenceServices ingEx
    rewrites := ext.getRewrites ingEx
    sslServices := ext.getSSLServices ingEx
    grpcServices := ext.getGrpcServices ingEx }

/-- Lines 71-74: HTTP2 is required for gRPC to function. -/
def generateNginxCfg.grpcGate (e : Env) : Env :=
  if e.grpcServices.length > 0 && !e.cfgParams.HTTP2 then { e with grpcServices := [] } else e

/-- The health-check block that occurs at lines 82-86, 174-178 and 215-219: when
health checks are enabled and a probe exists for the backend, `healthChecks[name]`
is set. -/
def generateNginxCfg.healthCheck (e : Env) (healthChecks : GoMap HealthCheck)
    (backend : IngressBackend) (name : String) : Option (GoMap HealthCheck) :=
  if e.cfgParams.HealthCheckEnabled then
    match GoMap.lookup e.ingEx.HealthChecks (backend.ServiceName ++ backend.ServicePort.string) with
    | some hc =>
      (createHealthCheck hc name e.cfgParams).bind fun h => some (GoMap.insert healthChecks name h)
    | none => some healthChecks
  else some healthChecks

/-- Lines 76-87: the upstream of the default backend, and the function-level
`healthChecks` map, which the loop over the rules shadows. -/
def generateNginxCfg.defaultBackend (e : Env) : Option (GoMap Upstream × GoMap HealthCheck) :=
  match e.ingEx.Ingress.Spec.Backend with
  | none => some ([], [])
  | some backend =>
    let name := getNameForUpstream e.ingEx.Ingress emptyHost backend
    (createUpstream e.ext e.ingEx name backend (GoMap.get e.spServices backend.ServiceName)
      e.cfgParams e.isPlus e.isResolverConfigured e.staticParams.EnableLatencyMetrics).bind
    fun upstream =>
      (generateNginxCfg.healthCheck e [] backend name).bind fun healthChecks =>
        some (GoMap.insert [] name upstream, healthChecks)

/-- The variables that the loop over the paths of one rule updates. -/
structure PathState where
  upstreams : GoMap Upstream
  healthChecks : GoMap HealthCheck
  server : Server
  locations : List Location
  rootLocation : Bool
  deriving DecidableEq, Repr

/-- A JWT block of `generateNginxCfg` (lines 142-147 and 191-196): the redirect
location, when there is one, is appended to `server.JWTRedirectLocations`. -/
def generateNginxCfg.jwt (e : Env) (server : Server) : Option (JWTAuth × Server) :=
  (generateJWTConfig e.ingEx.Secrets e.cfgParams (getNameForRedirectLocation e.ingEx.Ingress)).bind
  fun r =>
    match r.2 with
    | some redirectLoc =>
      some (r.1, { server with JWTRedirectLocations := server.JWTRedirectLocations ++ [redirectLoc] })
    | none => some (r.1, server)

/-- Lines 180-183: the upstream of a backend is created unless the map already holds
an upstream of that name. -/
def generateNginxCfg.upstream (e : Env) (upstreams : GoMap Upstream) (backend : IngressBackend)
    (upsName : String) : Option (GoMap Upstream) :=
  match GoMap.lookup upstreams upsName with
  | some _ => some upstreams
  | none =>
    (createUpstream e.ext e.ingEx upsName backend (GoMap.get e.spServices backend.ServiceName)
      e.cfgParams e.isPlus e.isResolverConfigured e.staticParams.EnableLatencyMetrics).bind
    fun upstream => some (GoMap.insert upstreams upsName upstream)

/-- Lines 185-188 and 207-212: the location of a backend, whose flags are read from
the service maps under the service name. -/
def generateNginxCfg.location (e : Env) (upstreams : GoMap Upstream) (upsName : String)
    (path : String) (pathType : Option PathType) (backend : IngressBackend) : Location :=
  let ssl := isSSLEnabled (GoMap.get e.sslServices backend.ServiceName) e.cfgParams e.staticParams
  let proxySSLName := e.ext.generateProxySSLName backend.ServiceName e.ingEx.Ingress.Namespace
  createLocation (pathOrDefault path) (GoMap.get upstreams upsName) e.cfgParams
    (GoMap.get e.wsServices backend.ServiceName) (GoMap.get e.rewrites backend.ServiceName) ssl
    (GoMap.get e.grpcServices backend.ServiceName) proxySSLName pathType backend.ServiceName

/-- Lines 190-196: in minion mode with a JWT key, the location carries the JWT block. -/
def generateNginxCfg.locationJWT (e : Env) (loc : Location) (server : Server) :
    Option (Location × Server) :=
  if e.isMinion && e.cfgParams.JWTKey ≠ "" then
    (generateNginxCfg.jwt e server).bind fun r => some ({ loc with JWTAuth := some r.1 }, r.2)
  else some (loc, server)

/-- One iteration of the loop over the paths of a rule (lines 166-203). -/
def generateNginxCfg.path (e : Env) (host : String) (st : PathState) (path : HTTPIngressPath) :
    Option PathState :=
  -- skip invalid paths for minions
  if e.isMinion && !GoMap.get e.ingEx.ValidMinionPaths path.Path then some st
  else
    let upsName := getNameForUpstream e.ingEx.Ingress host path.Backend
    (generateNginxCfg.healthCheck e st.healthChecks path.Backend upsName).bind fun healthChecks =>
    (generateNginxCfg.upstream e st.upstreams path.Backend upsName).bind fun upstreams =>
    (generateNginxCfg.locationJWT e
      (generateNginxCfg.location e upstreams upsName path.Path path.PathType path.Backend)
      st.server).bind fun r =>
    some { upstreams := upstreams
           healthChecks := healthChecks
           server := r.2
           locations := st.locations ++ [r.1]
           rootLocation := if r.1.Path = "/" then true else st.rootLocation }

/-- The loop over the paths of a rule (lines 166-203). -/
def generateNginxCfg.paths (e : Env) (host : String) :
    List HTTPIngressPath → PathState → Option PathState
  | [], st => some st
  | path :: rest, st =>
    (generateNginxCfg.path e host st path).bind fun st => generateNginxCfg.paths e host rest st

/-- Lines 154-164: a rule is gRPC-only when the gRPC service set is not empty and
names the service of every path of the rule. -/
def generateNginxCfg.grpcOnly (e : Env) (paths : List HTTPIngressPath) : Bool :=
  if e.grpcServices.length > 0 then
    paths.all fun path => (GoMap.lookup e.grpcServices path.Backend.ServiceName).isSome
  else false

/-- Lines 205-224: the implicit location for the default backend.  The result is the
state after the block and the new value of `grpcOnly`. -/
def generateNginxCfg.defaultLocation (e : Env) (st : PathState) (grpcOnly : Bool) :
    Option (PathState × Bool) :=
  match e.ingEx.Ingress.Spec.Backend with
  | none => some (st, grpcOnly)
  | some backend =>
    if st.rootLocation then some (st, grpcOnly)
    else
      let upsName := getNameForUpstream e.ingEx.Ingress emptyHost backend
      let loc := generateNginxCfg.location e st.upstreams upsName "/" (some PathTypePrefix) backend
      (generateNginxCfg.healthCheck e st.healthChecks backend upsName).bind fun healthChecks =>
      some ({ st with locations := st.locations ++ [loc], healthChecks := healthChecks },
            if (GoMap.lookup e.grpcServices backend.ServiceName).isSome then grpcOnly else false)

/-- Lines 97-102: the paths of a rule; a nil `rule.HTTP` is replaced by an empty
`HTTPIngressRuleValue`. -/
def generateNginxCfg.rulePaths (rule : IngressRule) : List HTTPIngressPath :=
  match rule.HTTP with
  | none => []
  | some httpIngressRuleValue => httpIngressRuleValue.Paths

/-- The server literal of lines 108-132. -/
def generateNginxCfg.newServer (e : Env) (rule : IngressRule) : Server :=
  { (default : Server) with
    Name := rule.Host
    ServerTokens := e.cfgParams.ServerTokens
    HTTP2 := e.cfgParams.HTTP2
    RedirectToHTTPS := e.cfgParams.RedirectToHTTPS
    SSLRedirect := e.cfgParams.SSLRedirect
    ProxyProtocol := e.cfgParams.ProxyProtocol
    HSTS := e.cfgParams.HSTS
    HSTSMaxAge := e.cfgParams.HSTSMaxAge
    HSTSIncludeSubdomains := e.cfgParams.HSTSIncludeSubdomains
    HSTSBehindProxy := e.cfgParams.HSTSBehindProxy
    StatusZone := rule.Host
    RealIPHeader := e.cfgParams.RealIPHeader
    SetRealIPFrom := e.cfgParams.SetRealIPFrom
    RealIPRecursive := e.cfgParams.RealIPRecursive
    ProxyHideHeaders := e.cfgParams.ProxyHideHeaders
    ProxyPassHeaders := e.cfgParams.ProxyPassHeaders
    ServerSnippets := e.cfgParams.ServerSnippets
    Ports := e.cfgParams.Ports
    SSLPorts := e.cfgParams.SSLPorts
    TLSPassthrough := e.staticParams.TLSPassthrough
    AppProtectEnable := e.cfgParams.AppProtectEnable
    AppProtectLogEnable := e.cfgParams.AppProtectLogEnable
    SpiffeCerts := e.cfgParams.SpiffeServerCerts }

/-- Lines 136-139: the App Protect resources of the server. -/
def generateNginxCfg.appProtect (e : Env) (server : Server) : Server :=
  if e.staticParams.MainAppProtectLoadModule then
    { server with AppProtectPolicy := GoMap.get e.apResources appProtectPolicyKey
                  AppProtectLogConf := GoMap.get e.apResources appProtectLogConfKey }
  else server

/-- Lines 141-147: outside minion mode and with a JWT key, the server carries the JWT
block. -/
def generateNginxCfg.serverJWT (e : Env) (server : Server) : Option Server :=
  if !e.isMinion && e.cfgParams.JWTKey ≠ "" then
    (generateNginxCfg.jwt e server).bind fun r => some { r.2 with JWTAuth := some r.1 }
  else some server

/-- The body of the loop over the rules for a rule with a valid host (lines 97-230):
the result is the `upstreams` map after the iteration and the server built. -/
def generateNginxCfg.rule (e : Env) (upstreams : GoMap Upstream) (rule : IngressRule) :
    Option (GoMap Upstream × Server) :=
  let paths := generateNginxCfg.rulePaths rule
  (addSSLConfig e.ext (generateNginxCfg.newServer e rule) rule.Host e.ingEx.Ingress.Spec.TLS
    e.ingEx.Secrets e.isWildcardEnabled).bind fun server =>
  (generateNginxCfg.serverJWT e (generateNginxCfg.appProtect e server)).bind fun server =>
  let grpcOnly := generateNginxCfg.grpcOnly e paths
  (generateNginxCfg.paths e rule.Host paths
    { upstreams := upstreams, healthChecks := [], server := server, locations := [],
      rootLocation := false }).bind fun st =>
  (generateNginxCfg.defaultLocation e st grpcOnly).bind fun r =>
  some (r.1.upstreams,
        { r.1.server with Locations := r.1.locations, HealthChecks := r.1.healthChecks,
                          GRPCOnly := r.2 })

/-- The loop over the rules (lines 91-231); the state is `(upstreams, servers)`. -/
def generateNginxCfg.rules (e : Env) :
    List IngressRule → GoMap Upstream × List Server → Option (GoMap Upstream × List Server)
  | [], st => some st
  | rule :: rest, st =>
    -- skipping invalid hosts
    if !GoMap.get e.ingEx.ValidHosts rule.Host then generateNginxCfg.rules e rest st
    else
      (generateNginxCfg.rule e st.1 rule).bind fun r =>
        generateNginxCfg.rules e rest (r.1, st.2 ++ [r.2])

/-- The final value of the `upstreams` map and of `servers` (lines 67-231). -/
def generateNginxCfg.synth (e : Env) : Option (GoMap Upstream × List Server) :=
  let e := generateNginxCfg.grpcGate e
  (generateNginxCfg.defaultBackend e).bind fun d =>
    generateNginxCfg.rules e e.ingEx.Ingress.Spec.Rules (d.1, [])

/-- Lines 67-248 of `generateNginxCfg`, on the resolved locals. -/
def generateNginxCfg.body (e : Env) : Option IngressNginxConfig :=
  (generateNginxCfg.synth e).bind fun r =>
    let keepalive : String :=
      if e.cfgParams.Keepalive > 0 then toString e.cfgParams.Keepalive else ""
    some { Upstreams := upstreamMapToSlice r.1
           Servers := r.2
           Keepalive := keepalive
           Ingress := { Name := e.ingEx.Ingress.Name, Namespace := e.ingEx.Ingress.Namespace,
                        Annotations := e.ingEx.Ingress.Annotations }
           SpiffeClientCerts := e.staticParams.NginxServiceMesh && !e.cfgParams.SpiffeServerCerts }

/-- The function `generateNginxCfg`. -/
def generateNginxCfg (ext : External) (ingEx : IngressEx) (apResources : GoMap String)
    (isMinion : Bool) (baseCfgParams : ConfigParams) (isPlus : Bool) (isResolverConfigured : Bool)
    (staticParams : StaticConfigParams) (isWildcardEnabled : Bool) : Option IngressNginxConfig :=
  generateNginxCfg.body (generateNginxCfg.locals ext ingEx apResources isMinion baseCfgParams isPlus
    isResolverConfigured staticParams isWildcardEnabled)

/-! ## Notions used in the statements -/

/-- The rules of the ingress whose host `ValidHosts` marks as valid, in declaration
order. -/
def validRules (ingEx : IngressEx) : List IngressRule :=
  ingEx.Ingress.Spec.Rules.filter fun rule => GoMap.get ingEx.ValidHosts rule.Host

/-- The honored paths of a rule, in declaration order: all its paths, and in minion
mode those that `ValidMinionPaths` marks as valid. -/
def honoredPaths (isMinion : Bool) (ingEx : IngressEx) (rule : IngressRule) :
    List HTTPIngressPath :=
  (generateNginxCfg.rulePaths rule).filter fun path =>
    !(isMinion && !GoMap.get ingEx.ValidMinionPaths path.Path)

/-- The names of the upstreams that a call has to build: the one of the default
backend, under the empty host, and the one of every honored path of every rule with a
valid host. -/
def builtUpstreamNames (isMinion : Bool) (ingEx : IngressEx) : List String :=
  (match ingEx.Ingress.Spec.Backend with
    | none => []
    | some backend => [getNameForUpstream ingEx.Ingress emptyHost backend])
  ++ ((validRules ingEx).map fun rule =>
        (honoredPaths isMinion ingEx rule).map fun path =>
          getNameForUpstream ingEx.Ingress rule.Host path.Backend).flatten

/-- The invariant of the `upstreams` map: a key occurs once, and is the name of the
upstream stored under it. -/
def UpstreamsNamed (m : GoMap Upstream) : Prop :=
  (GoMap.keys m).Nodup ∧ ∀ p ∈ m, p.2.Name = p.1

/-! ## Example inputs -/

/-- An instance of the declarations of other files: the annotations resolve to the
base parameters and no service is listed in an annotation. -/
def exampleExternal : External :=
  { parseAnnotations := fun _ baseCfgParams _ _ _ => baseCfgParams
    getWebsocketServices := fun _ => []
    getSessionPersistenceServices := fun _ => []
    getRewrites := fun _ => []
    getSSLServices := fun _ => []
    getGrpcServices := fun _ => []
    generateProxySSLName := fun service ns => service ++ "." ++ ns ++ ".svc"
    NewUpstreamWithDefaultServer := fun name =>
      { (default : Upstream) with
        Name := name
        UpstreamZoneSize := "256k"
        UpstreamServers := [{ (default : UpstreamServer) with
                              Address := "127.0.0.1", Port := "8181", MaxFails := 1,
                              FailTimeout := "10s" }] }
    pemFileNameForMissingTLSSecret := "/etc/nginx/secrets/default"
    pemFileNameForWildcardTLSSecret := "/etc/nginx/secrets/wildcard" }

/-- The cafe ingress: a default backend, a rule with two paths under a valid host with
a TLS secret, and a rule under a host that is not valid. -/
def exampleIngress : IngressEx :=
  { Ingress :=
      { Namespace := "default"
        Name := "cafe"
        Annotations := []
        Spec :=
          { Backend := some { ServiceName := "dflt", ServicePort := .int 80 }
            TLS := [{ Hosts := ["cafe.example.com"], SecretName := "cafe-secret" }]
            Rules :=
              [{ Host := "cafe.example.com"
                 HTTP := some { Paths :=
                   [{ Path := "/tea", PathType := none
                      Backend := { ServiceName := "tea-svc", ServicePort := .int 80 } },
                    { Path := "/coffee", PathType := some PathTypeExact
                      Backend := { ServiceName := "coffee-svc", ServicePort := .str "http" } }] } },
               { Host := "bad.example.com"
                 HTTP := some { Paths :=
                   [{ Path := "/", PathType := none
                      Backend := { ServiceName := "bad-svc", ServicePort := .int 80 } }] } }] } }
    Endpoints := [("tea-svc80", ["10.0.0.1:80", "10.0.0.2:80"])]
    HealthChecks := []
    ExternalNameSvcs := []
    ValidHosts := [("cafe.example.com", true)]
    ValidMinionPaths := [("/tea", true)]
    Secrets := [("cafe-secret", { Typ := SecretTypeTLS
                                  Path := "/etc/nginx/secrets/default-cafe-secret"
                                  Error := none })] }

/-- `IsLocationOf e upstreams host path loc`: `loc` is the location that lines 185-196
build for `path` under `host`, with the upstream read from `upstreams`. -/
def IsLocationOf (e : Env) (upstreams : GoMap Upstream) (host : String) (path : HTTPIngressPath)
    (loc : Location) : Prop :=
  ∃ server server',
    generateNginxCfg.locationJWT e
      (generateNginxCfg.location e upstreams (getNameForUpstream e.ingEx.Ingress host path.Backend)
        path.Path path.PathType path.Backend) server = some (loc, server')

/-- The implicit location of the default backend (lines 206-213), when the ingress
declares a default backend and none of the locations `locs` has the path `/`. -/
def implicitLocations (e : Env) (upstreams : GoMap Upstream) (locs : List Location) :
    List Location :=
  match e.ingEx.Ingress.Spec.Backend with
  | none => []
  | some backend =>
    if locs.any (fun l => l.Path = "/") then []
    else [generateNginxCfg.location e upstreams
            (getNameForUpstream e.ingEx.Ingress emptyHost backend) "/" (some PathTypePrefix)
            backend]

/-- A backend gets a health check when health checks are enabled in the resolved
parameters and `ingEx.HealthChecks` holds a probe under the service and port. -/
def hasProbe (e : Env) (backend : IngressBackend) : Bool :=
  e.cfgParams.HealthCheckEnabled &&
    (GoMap.lookup e.ingEx.HealthChecks
      (backend.ServiceName ++ backend.ServicePort.string)).isSome

/-- `IsServerOf e upstreams rule server`: `server` is the server that the body of the
loop over the rules builds for `rule`, with the upstreams read from `upstreams`: the
server literal after `addSSLConfig`, the App Protect and the JWT block, with one location
per honored path followed by the implicit location, the health checks of the backends of
these locations, and the `GRPCOnly` flag. -/
def IsServerOf (e : Env) (upstreams : GoMap Upstream) (rule : IngressRule) (server : Server) :
    Prop :=
  ∃ s0 s1 locs jwts,
    addSSLConfig e.ext (generateNginxCfg.newServer e rule) rule.Host e.ingEx.Ingress.Spec.TLS
      e.ingEx.Secrets e.isWildcardEnabled = some s0 ∧
    generateNginxCfg.serverJWT e (generateNginxCfg.appProtect e s0) = some s1 ∧
    List.Forall₂ (IsLocationOf e upstreams rule.Host) (honoredPaths e.isMinion e.ingEx rule) locs ∧
    (∀ n, n ∈ GoMap.keys server.HealthChecks ↔
      (∃ p ∈ honoredPaths e.isMinion e.ingEx rule,
        hasProbe e p.Backend = true ∧ n = getNameForUpstream e.ingEx.Ingress rule.Host p.Backend) ∨
      (∃ backend, e.ingEx.Ingress.Spec.Backend = some backend ∧
        (∀ l ∈ locs, l.Path ≠ "/") ∧ hasProbe e backend = true ∧
        n = getNameForUpstream e.ingEx.Ingress emptyHost backend)) ∧
    (∀ p ∈ server.HealthChecks, p.2.UpstreamName = p.1) ∧
    server =
      { s1 with
        JWTRedirectLocations := s1.JWTRedirectLocations ++ jwts
        Locations := locs ++ implicitLocations e upstreams locs
        HealthChecks := server.HealthChecks
        GRPCOnly := generateNginxCfg.grpcOnly e (generateNginxCfg.rulePaths rule) &&
          (implicitLocations e upstreams locs).all fun l =>
            (GoMap.lookup e.grpcServices l.ServiceName).isSome }

/-- The environment of a call on the same ingress with the list of rules replaced. -/
def Env.withRules (e : Env) (rules : List IngressRule) : Env :=
  { e with
    ingEx := { e.ingEx with
      Ingress := { e.ingEx.Ingress with Spec := { e.ingEx.Ingress.Spec with Rules := rules } } } }

/-- The environment of a call on the same ingress with `ValidMinionPaths` replaced. -/
def Env.withValidMinionPaths (e : Env) (validMinionPaths : GoMap Bool) : Env :=
  { e with ingEx := { e.ingEx with ValidMinionPaths := validMinionPaths } }

/-- The declarations of other files with `grpc-svc` listed as a gRPC service. -/
def grpcExternal : External :=
  { exampleExternal with getGrpcServices := fun _ => [("grpc-svc", true)] }

/-- Base parameters with HTTP/2 enabled. -/
def http2CfgParams : ConfigParams := { (default : ConfigParams) with HTTP2 := true }

/-- An ingress with one rule under a valid host, without paths and without a default
backend. -/
def emptyRuleIngress : IngressEx :=
  { Ingress :=
      { Namespace := "default"
        Name := "grpc"
        Annotations := [("nginx.org/grpc-services", "grpc-svc")]
        Spec := { Backend := none, TLS := [], Rules := [{ Host := "grpc.example.com", HTTP := none }] } }
    Endpoints := []
    HealthChecks := []
    ExternalNameSvcs := []
    ValidHosts := [("grpc.example.com", true)]
    ValidMinionPaths := []
    Secrets := [] }

/-- An ingress with one rule under a valid host and one path to the gRPC service. -/
def grpcIngress : IngressEx :=
  { emptyRuleIngress with
    Ingress :=
      { emptyRuleIngress.Ingress with
        Spec :=
          { Backend := none
            TLS := []
            Rules :=
              [{ Host := "grpc.example.com"
                 HTTP := some { Paths :=
                   [{ Path := "/grpc", PathType := none
                      Backend := { ServiceName := "grpc-svc", ServicePort := .int 50051 } }] } }] } } }

/-- The references of the input resolve: every stored probe is an HTTP probe, every
endpoint has the form `address:port`, every secret that a TLS entry names is in `Secrets`,
and so is the secret of the JWT key when one is configured. -/
def ReferencesResolve (e : Env) : Prop :=
  (∀ p ∈ e.ingEx.HealthChecks, p.2.HTTPGet ≠ none) ∧
  (∀ p ∈ e.ingEx.Endpoints, ∀ endp ∈ p.2, ':' ∈ endp.data) ∧
  (∀ tls ∈ e.ingEx.Ingress.Spec.TLS, tls.SecretName ≠ "" →
    (GoMap.lookup e.ingEx.Secrets tls.SecretName).isSome = true) ∧
  (e.cfgParams.JWTKey ≠ "" → (GoMap.lookup e.ingEx.Secrets e.cfgParams.JWTKey).isSome = true)

/-- The environment of a call with the gRPC service set replaced. -/
def Env.withGrpcServices (e : Env) (grpcServices : GoMap Bool) : Env :=
  { e with grpcServices := grpcServices }

/-- The cafe ingress with HTTP/2 disabled and `tea-svc` listed as a gRPC service. -/
def grpcTeaExternal : External :=
  { exampleExternal with getGrpcServices := fun _ => [("tea-svc", true)] }

/-- An ingress with two rules whose backends differ in host and in service and get the
same upstream name: service `svc` under the host `cafe-tea` and service `tea-svc` under
the host `cafe`. -/
def collidingIngress : IngressEx :=
  { Ingress :=
      { Namespace := "default"
        Name := "shop"
        Annotations := []
        Spec :=
          { Backend := none
            TLS := []
            Rules :=
              [{ Host := "cafe-tea"
                 HTTP := some { Paths :=
                   [{ Path := "/", PathType := none
                      Backend := { ServiceName := "svc", ServicePort := .int 80 } }] } },
               { Host := "cafe"
                 HTTP := some { Paths :=
                   [{ Path := "/", PathType := none
                      Backend := { ServiceName := "tea-svc", ServicePort := .int 80 } }] } }] } }
    Endpoints := [("svc80", ["10.0.0.1:80"]), ("tea-svc80", ["10.0.0.2:80"])]
    HealthChecks := []
    ExternalNameSvcs := []
    ValidHosts := [("cafe-tea", true), ("cafe", true)]
    ValidMinionPaths := []
    Secrets := [] }

/-- The cafe ingress with `tea-svc` stored in `ExternalNameSvcs` under the value
`false`. -/
def flaggedFalseIngress : IngressEx :=
  { exampleIngress with ExternalNameSvcs := [("tea-svc", false)] }

/-- The backend `tea-svc:80` of the cafe ingress. -/
def teaBackend : IngressBackend := { ServiceName := "tea-svc", ServicePort := .int 80 }

/-- The cafe ingress with an empty `Secrets` map: the TLS entry names a secret that has
no entry. -/
def missingSecretIngress : IngressEx := { exampleIngress with Secrets := [] }

/-- The cafe ingress whose TLS secret is stored with an error. -/
def invalidSecretIngress : IngressEx :=
  { exampleIngress with
    Secrets := [("cafe-secret", { Typ := SecretTypeTLS
                                  Path := "/etc/nginx/secrets/default-cafe-secret"
                                  Error := some "secret is invalid" })] }

/-- An HTTP probe with a timeout of 7 seconds. -/
def teaProbe : Probe :=
  { HTTPGet := some { Path := "/healthz", Scheme := "HTTP", HTTPHeaders := [] }
    TimeoutSeconds := 7
    PeriodSeconds := 5
    SuccessThreshold := 1
    FailureThreshold := 3 }

/-- The cafe ingress with a probe on `tea-svc`, port 80. -/
def probeIngress : IngressEx :=
  { exampleIngress with HealthChecks := [("tea-svc80", teaProbe)] }

/-- Base parameters with mandatory health checks and a queue of 50. -/
def queueCfgParams : ConfigParams :=
  { (default : ConfigParams) with
    HealthCheckEnabled := true, HealthCheckMandatory := true, HealthCheckMandatoryQueue := 50 }

/-- A `Secrets` map whose JWT key is stored with an error and is not of the JWK type. -/
def jwtSecrets : GoMap SecretReference :=
  [("jwk", { Typ := "Opaque", Path := "/etc/nginx/secrets/jwk", Error := some "invalid" })]

/-- Base parameters with a JWT key, realm, token and login URL. -/
def jwtCfgParams : ConfigParams :=
  { (default : ConfigParams) with
    JWTKey := "jwk", JWTRealm := "cafe", JWTToken := "$cookie_t",
    JWTLoginURL := "https://login.example.com" }

/-- The cafe ingress with `tea-svc` stored in `ExternalNameSvcs` under the value
`true`. -/
def externalNameIngress : IngressEx :=
  { exampleIngress with ExternalNameSvcs := [("tea-svc", true)] }

/-- The auth block that a JWT block of `generateNginxCfg` (lines 142 and 191) gets from
`generateJWTConfig`. -/
def jwtAuthOf (e : Env) : Option JWTAuth :=
  (generateJWTConfig e.ingEx.Secrets e.cfgParams
    (getNameForRedirectLocation e.ingEx.Ingress)).map Prod.fst

/-- The redirect locations that one JWT block appends to the server: one when
`JWTLoginURL` is not empty. -/
def redirectLocations (e : Env) : List JWTRedirectLocation :=
  if e.cfgParams.JWTLoginURL ≠ "" then
    [{ Name := getNameForRedirectLocation e.ingEx.Ingress, LoginURL := e.cfgParams.JWTLoginURL }]
  else []

/-- Where the JWT blocks of `generateNginxCfg` put the auth block and the redirect
locations of the server of `rule`: outside minion mode on the server, in minion mode on
the location of every honored path, which are the first locations of the server; the
implicit location, which follows them, never carries an auth block. -/
def JWTPlacement (e : Env) (rule : IngressRule) (server : Server) : Prop :=
  (server.JWTAuth =
    if e.isMinion = false ∧ e.cfgParams.JWTKey ≠ "" then jwtAuthOf e else none) ∧
  (server.JWTRedirectLocations =
    (if e.isMinion = false ∧ e.cfgParams.JWTKey ≠ "" then redirectLocations e else []) ++
    (if e.isMinion = true ∧ e.cfgParams.JWTKey ≠ "" then
      (List.replicate (honoredPaths e.isMinion e.ingEx rule).length
        (redirectLocations e)).flatten
     else [])) ∧
  (∀ l ∈ server.Locations.take (honoredPaths e.isMinion e.ingEx rule).length,
    l.JWTAuth = if e.isMinion = true ∧ e.cfgParams.JWTKey ≠ "" then jwtAuthOf e else none) ∧
  (∀ l ∈ server.Locations.drop (honoredPaths e.isMinion e.ingEx rule).length,
    l.JWTAuth = none) ∧
  (e.cfgParams.JWTKey ≠ "" →
    e.isMinion = false ∨ honoredPaths e.isMinion e.ingEx rule ≠ [] → jwtAuthOf e ≠ none)

/-- The cafe ingress with the JWT key stored in `Secrets`. -/
def jwtIngress : IngressEx :=
  { exampleIngress with Secrets := exampleIngress.Secrets ++ jwtSecrets }

/-- Base parameters with health checks enabled. -/
def healthCheckCfgParams : ConfigParams :=
  { (default : ConfigParams) with HealthCheckEnabled := true }

/-- An ingress with a default backend and one rule, under a valid host, whose only path
is `/`. -/
def rootIngress : IngressEx :=
  { Ingress :=
      { Namespace := "default"
        Name := "web"
        Annotations := [("nginx.org/client-max-body-size", "16M")]
        Spec :=
          { Backend := some { ServiceName := "dflt", ServicePort := .int 80 }
            TLS := []
            Rules :=
              [{ Host := "web.example.com"
                 HTTP := some { Paths :=
                   [{ Path := "/", PathType := some PathTypePrefix
                      Backend := { ServiceName := "web-svc", ServicePort := .int 80 } }] } }] } }
    Endpoints := [("web-svc80", ["10.0.0.1:80"])]
    HealthChecks := [("web-svc80", teaProbe)]
    ExternalNameSvcs := []
    ValidHosts := [("web.example.com", true)]
    ValidMinionPaths := []
    Secrets := [] }

/-- Base parameters with `ClientMaxBodySize` set to `16M` and health checks disabled. -/
def bodySizeCfgParams : ConfigParams :=
  { (default : ConfigParams) with ClientMaxBodySize := "16M", HealthCheckEnabled := false }

/-- Static parameters with the NGINX Service Mesh integration enabled. -/
def meshStaticParams : StaticConfigParams :=
  { (default : StaticConfigParams) with NginxServiceMesh := true }

/-- The declarations of other files with `tea-svc` listed in every service annotation. -/
def listedExternal : External :=
  { exampleExternal with
    getWebsocketServices := fun _ => [("tea-svc", true)]
    getRewrites := fun _ => [("tea-svc", "/tea-rewritten")]
    getSSLServices := fun _ => [("tea-svc", true)]
    getGrpcServices := fun _ => [("tea-svc", true)] }

/-! ## `generateNginxCfgForMergeableIngresses` -/

/-- The type `MergeableIngresses`: a master and its minions.  The entries of `Minions`
are distinct pointers. -/
structure MergeableIngresses where
  Master : IngressEx
  Minions : List IngressEx
  deriving DecidableEq, Repr, Inhabited

/-- The functions of `annotations.go` that `generateNginxCfgForMergeableIngresses` calls.
The two filters delete keys of the map they are given and return the deleted keys: here
they return the map after the call and the deleted keys.  `mergeMasterAnnotationsIntoMinion
minion master` writes into the minion map: here it returns the minion map after the
call. -/
structure AnnotationFilters where
  filterMasterAnnotations : GoMap String → GoMap String × List String
  filterMinionAnnotations : GoMap String → GoMap String × List String
  mergeMasterAnnotationsIntoMinion : GoMap String → GoMap String → GoMap String

/-- Lines 492-499: the master after its annotations are filtered. -/
def generateNginxCfgForMergeableIngresses.master (flt : AnnotationFilters) (master : IngressEx) :
    IngressEx :=
  { master with
    Ingress := { master.Ingress with
      Annotations := (flt.filterMasterAnnotations master.Ingress.Annotations).1 } }

/-- Lines 515-528: a minion after its default backend is removed, the master annotations
are merged into its annotations and its annotations are filtered; `master` is the master
after line 495. -/
def generateNginxCfgForMergeableIngresses.minion (flt : AnnotationFilters) (master : IngressEx)
    (minion : IngressEx) : IngressEx :=
  { minion with
    Ingress := { minion.Ingress with
      Spec := { minion.Ingress.Spec with Backend := none }
      Annotations :=
        (flt.filterMinionAnnotations
          (flt.mergeMasterAnnotationsIntoMinion minion.Ingress.Annotations
            master.Ingress.Annotations)).1 } }

/-- The variables that the loop over the minions updates. -/
structure MergeState where
  masterServer : Server
  locations : List Location
  upstreams : List Upstream
  healthChecks : GoMap HealthCheck
  deriving DecidableEq, Repr

/-- Lines 535-544: the loop over the servers of the config of one minion. -/
def generateNginxCfgForMergeableIngresses.servers (ingress : IngressIdentity) :
    List Server → MergeState → MergeState
  | [], st => st
  | server :: rest, st =>
    generateNginxCfgForMergeableIngresses.servers ingress rest
      { st with
        locations := st.locations ++
          server.Locations.map fun loc => { loc with MinionIngress := some ingress }
        healthChecks :=
          server.HealthChecks.foldl (fun m p => GoMap.insert m p.1 p.2) st.healthChecks
        masterServer := { st.masterServer with
          JWTRedirectLocations :=
            st.masterServer.JWTRedirectLocations ++ server.JWTRedirectLocations } }

/-- Lines 513-547: the loop over the minions; `master` is the master after line 495. -/
def generateNginxCfgForMergeableIngresses.minions (ext : External) (flt : AnnotationFilters)
    (master : IngressEx) (baseCfgParams : ConfigParams) (isPlus isResolverConfigured : Bool)
    (staticParams : StaticConfigParams) (isWildcardEnabled : Bool) :
    List IngressEx → MergeState → Option MergeState
  | [], st => some st
  | minion :: rest, st =>
    -- App Protect Resources not allowed in minions - pass empty map
    (generateNginxCfg ext (generateNginxCfgForMergeableIngresses.minion flt master minion) [] true
      baseCfgParams isPlus isResolverConfigured staticParams isWildcardEnabled).bind fun nginxCfg =>
    let st := generateNginxCfgForMergeableIngresses.servers nginxCfg.Ingress nginxCfg.Servers st
    generateNginxCfgForMergeableIngresses.minions ext flt master baseCfgParams isPlus
      isResolverConfigured staticParams isWildcardEnabled rest
      { st with upstreams := st.upstreams ++ nginxCfg.Upstreams }

/-- The function `generateNginxCfgForMergeableIngresses`; `masterNginxCfg.Servers[0]`
panics when the config of the master has no server. -/
def generateNginxCfgForMergeableIngresses (ext : External) (flt : AnnotationFilters)
    (mergeableIngs : MergeableIngresses) (masterApResources : GoMap String)
    (baseCfgParams : ConfigParams) (isPlus : Bool) (isResolverConfigured : Bool)
    (staticParams : StaticConfigParams) (isWildcardEnabled : Bool) : Option IngressNginxConfig :=
  let master := generateNginxCfgForMergeableIngresses.master flt mergeableIngs.Master
  (generateNginxCfg ext master masterApResources false baseCfgParams isPlus isResolverConfigured
    staticParams isWildcardEnabled).bind fun masterNginxCfg =>
  match masterNginxCfg.Servers with
  | [] => none
  | masterServer :: _ =>
    let keepalive := if masterNginxCfg.Keepalive ≠ "" then masterNginxCfg.Keepalive else ""
    (generateNginxCfgForMergeableIngresses.minions ext flt master baseCfgParams isPlus
      isResolverConfigured staticParams isWildcardEnabled mergeableIngs.Minions
      { masterServer := { masterServer with Locations := [] }
        locations := []
        upstreams := masterNginxCfg.Upstreams
        healthChecks := [] }).bind fun st =>
    some { Servers := [{ st.masterServer with HealthChecks := st.healthChecks
                                              Locations := st.locations }]
           Upstreams := st.upstreams
           Keepalive := keepalive
           Ingress := masterNginxCfg.Ingress
           SpiffeClientCerts := staticParams.NginxServiceMesh && !baseCfgParams.SpiffeServerCerts }

/-- The environment of the call of `generateNginxCfg` on the master. -/
def generateNginxCfgForMergeableIngresses.masterEnv (ext : External) (flt : AnnotationFilters)
    (mergeableIngs : MergeableIngresses) (masterApResources : GoMap String)
    (baseCfgParams : ConfigParams) (isPlus isResolverConfigured : Bool)
    (staticParams : StaticConfigParams) (isWildcardEnabled : Bool) : Env :=
  generateNginxCfg.locals ext
    (generateNginxCfgForMergeableIngresses.master flt mergeableIngs.Master) masterApResources false
    baseCfgParams isPlus isResolverConfigured staticParams isWildcardEnabled

/-- The environment of the call of `generateNginxCfg` on a minion. -/
def generateNginxCfgForMergeableIngresses.minionEnv (ext : External) (flt : AnnotationFilters)
    (mergeableIngs : MergeableIngresses) (baseCfgParams : ConfigParams)
    (isPlus isResolverConfigured : Bool) (staticParams : StaticConfigParams)
    (isWildcardEnabled : Bool) (minion : IngressEx) : Env :=
  generateNginxCfg.locals ext
    (generateNginxCfgForMergeableIngresses.minion flt
      (generateNginxCfgForMergeableIngresses.master flt mergeableIngs.Master) minion) [] true
    baseCfgParams isPlus isResolverConfigured staticParams isWildcardEnabled

/-- An instance of the annotation functions: the filters delete nothing and the merge
copies the master annotations that the minion does not declare. -/
def exampleFilters : AnnotationFilters :=
  { filterMasterAnnotations := fun m => (m, [])
    filterMinionAnnotations := fun m => (m, [])
    mergeMasterAnnotationsIntoMinion := fun minion master =>
      master.foldl
        (fun m p => if (GoMap.lookup m p.1).isSome then m else GoMap.insert m p.1 p.2) minion }

/-- A master whose only rule has a host that `ValidHosts` does not mark as valid. -/
def hostlessMaster : IngressEx :=
  { Ingress :=
      { Namespace := "default"
        Name := "cafe-master"
        Annotations := [("nginx.org/mergeable-ingress-type", "master")]
        Spec := { Backend := none, TLS := []
                  Rules := [{ Host := "cafe.example.com", HTTP := none }] } }
    Endpoints := []
    HealthChecks := []
    ExternalNameSvcs := []
    ValidHosts := [("cafe.example.com", false)]
    ValidMinionPaths := []
    Secrets := [] }

/-- The same master with a valid host. -/
def cafeMaster : IngressEx :=
  { hostlessMaster with ValidHosts := [("cafe.example.com", true)] }

/-- A minion of the cafe master with the path `/tea`. -/
def teaMinion : IngressEx :=
  { Ingress :=
      { Namespace := "default"
        Name := "cafe-tea-minion"
        Annotations := [("nginx.org/mergeable-ingress-type", "minion")]
        Spec :=
          { Backend := some { ServiceName := "dflt", ServicePort := .int 80 }
            TLS := []
            Rules :=
              [{ Host := "cafe.example.com"
                 HTTP := some { Paths :=
                   [{ Path := "/tea", PathType := none
                      Backend := { ServiceName := "tea-svc", ServicePort := .int 80 } }] } }] } }
    Endpoints := [("tea-svc80", ["10.0.0.1:80"])]
    HealthChecks := []
    ExternalNameSvcs := []
    ValidHosts := [("cafe.example.com", true)]
    ValidMinionPaths := [("/tea", true)]
    Secrets := [] }

/-- The configs `cfgs` are those that `generateNginxCfg` returns in minion mode for the
minions of `mergeableIngs`, in input order, each minion after lines 515-528. -/
def MinionConfigs (ext : External) (flt : AnnotationFilters) (mergeableIngs : MergeableIngresses)
    (baseCfgParams : ConfigParams) (isPlus isResolverConfigured : Bool)
    (staticParams : StaticConfigParams) (isWildcardEnabled : Bool)
    (cfgs : List IngressNginxConfig) : Prop :=
  List.Forall₂
    (fun minion cfg =>
      generateNginxCfg ext
        (generateNginxCfgForMergeableIngresses.minion flt
          (generateNginxCfgForMergeableIngresses.master flt mergeableIngs.Master) minion) [] true
        baseCfgParams isPlus isResolverConfigured staticParams isWildcardEnabled = some cfg)
    mergeableIngs.Minions cfgs

/-- The locations of the config of one minion as the loop of lines 535-539 appends them:
those of every server, in order, with `MinionIngress` pointing to the `Ingress` of that
config. -/
def taggedLocations (cfg : IngressNginxConfig) : List Location :=
  (cfg.Servers.map fun server =>
    server.Locations.map fun loc => { loc with MinionIngress := some cfg.Ingress }).flatten

/-- The map after the entries `entries` are written, in order, into the map `m`. -/
def GoMap.insertAll {α : Type} (m : GoMap α) (entries : List (String × α)) : GoMap α :=
  entries.foldl (fun m p => GoMap.insert m p.1 p.2) m

/-- An instance of the declarations of other files for the composite scenario: of the
annotations only `nginx.org/hsts` and `nginx.org/client-max-body-size` are resolved. -/
def scenarioExternal : External :=
  { exampleExternal with
    parseAnnotations := fun ingEx baseCfgParams _ _ _ =>
      { baseCfgParams with
        HSTS :=
          match GoMap.lookup ingEx.Ingress.Annotations "nginx.org/hsts" with
          | some v => if v = "true" then true else baseCfgParams.HSTS
          | none => baseCfgParams.HSTS
        ClientMaxBodySize :=
          (GoMap.lookup ingEx.Ingress.Annotations "nginx.org/client-max-body-size").getD
            baseCfgParams.ClientMaxBodySize } }

/-- The cafe master with the annotation `nginx.org/hsts: true`. -/
def hstsMaster : IngressEx :=
  { cafeMaster with
    Ingress := { cafeMaster.Ingress with
      Annotations := cafeMaster.Ingress.Annotations ++ [("nginx.org/hsts", "true")] } }

/-- The minion `/tea` with the annotation `nginx.org/client-max-body-size: 2m`. -/
def bodySizeMinion : IngressEx :=
  { teaMinion with
    Ingress := { teaMinion.Ingress with
      Annotations :=
        teaMinion.Ingress.Annotations ++ [("nginx.org/client-max-body-size", "2m")] } }

/-- A master that declares the path `/coffee` itself, with a probe on its backend. -/
def coffeeMaster : IngressEx :=
  { Ingress :=
      { Namespace := "default"
        Name := "cafe-master"
        Annotations := [("nginx.org/mergeable-ingress-type", "master")]
        Spec :=
          { Backend := none
            TLS := []
            Rules :=
              [{ Host := "cafe.example.com"
                 HTTP := some { Paths :=
                   [{ Path := "/coffee", PathType := none
                      Backend := { ServiceName := "coffee-svc", ServicePort := .int 80 } }] } }] } }
    Endpoints := [("coffee-svc80", ["10.0.0.2:80"])]
    HealthChecks := [("coffee-svc80", teaProbe)]
    ExternalNameSvcs := []
    ValidHosts := [("cafe.example.com", true)]
    ValidMinionPaths := []
    Secrets := [] }

/-- A minion of the cafe master with the path `/juice`. -/
def juiceMinion : IngressEx :=
  { Ingress :=
      { Namespace := "default"
        Name := "cafe-juice-minion"
        Annotations := [("nginx.org/mergeable-ingress-type", "minion")]
        Spec :=
          { Backend := none
            TLS := []
            Rules :=
              [{ Host := "cafe.example.com"
                 HTTP := some { Paths :=
                   [{ Path := "/juice", PathType := none
                      Backend := { ServiceName := "juice-svc", ServicePort := .int 80 } }] } }] } }
    Endpoints := [("juice-svc80", ["10.0.0.3:80"])]
    HealthChecks := [("juice-svc80", teaProbe)]
    ExternalNameSvcs := []
    ValidHosts := [("cafe.example.com", true)]
    ValidMinionPaths := [("/juice", true)]
    Secrets := [] }

/-! ## `annotations.go`: the compound directive parser -/

/-- The rest of `token` after the key `key`, when `token` starts with it. -/
def afterKey : List Char → List Char → Option (List Char)
  | [], token => some token
  | _ :: _, [] => none
  | k :: key, c :: token => if k = c then afterKey key token else none

/-- The call `strings.TrimSpace`, on the characters of a string. -/
def trimSpace (s : List Char) : List Char :=
  ((s.dropWhile Char.isWhitespace).reverse.dropWhile Char.isWhitespace).reverse

/-- The text without its trailing white space. -/
def trimRight (s : List Char) : List Char := (s.reverse.dropWhile Char.isWhitespace).reverse

/-- Modelled from the spec: the compound directive parser of `annotations.go`, which is
not among the sources.  The directive is a sequence of tokens delimited by white space.
Its first token, which ends at the first white space character, has to read
`serviceName=<value>`, a parseable `key=value` token: the key is `serviceName` and the
value holds no further `=`.  What follows the white space character that ends the token
is the payload.  The result is the value and the payload. -/
def parseServiceName (directive : List Char) : Option (List Char × List Char) :=
  match afterKey "serviceName=".data (directive.takeWhile fun c => !c.isWhitespace) with
  | none => none
  | some value =>
    if '=' ∈ value then none
    else some (value, (directive.dropWhile fun c => !c.isWhitespace).drop 1)

/-- Modelled from the spec: `parseRewrites` of `annotations.go`, which is not among the
sources.  Leading and trailing white space of the directive is insignificant; the payload
after the `serviceName=<value>` token has to read `rewrite=<path>`, and the result is the
service name and the target path.  A failure returns an error that names the directive. -/
def parseRewrites (service : String) : Except String (String × String) :=
  match parseServiceName (trimSpace service.data) with
  | none => .error service
  | some (serviceName, payload) =>
    match afterKey "rewrite=".data payload with
    | none => .error service
    | some rewrite => .ok (String.mk serviceName, String.mk rewrite)

/-- Modelled from the spec: `parseStickyService` of `annotations.go`, which is not among
the sources.  Leading and trailing white space of the directive is insignificant; the
payload after the `serviceName=<value>` token is the cookie specification, a remainder
that is not parsed and is returned as it stands.  A failure returns an error that names
the directive. -/
def parseStickyService (service : String) : Except String (String × String) :=
  match parseServiceName (trimSpace service.data) with
  | none => .error service
  | some (serviceName, stickyCookie) => .ok (String.mk serviceName, String.mk stickyCookie)

/-- The directive `directive` starts with a parseable token `serviceName=<value>`: the
value holds no white space and no `=`, and the token ends with the directive or at a
white space character. -/
def ServiceNameToken (directive value : List Char) : Prop :=
  ∃ rest, directive = "serviceName=".data ++ value ++ rest ∧
    (∀ c ∈ value, c.isWhitespace = false ∧ c ≠ '=') ∧
    ∀ c, rest.head? = some c → c.isWhitespace = true

/-! ## `annotations.go`: the annotations of masters and minions -/

/-- Modelled from the spec: the fixed key lists of `annotations.go`, which is not among
the sources.  `masterAllowed` and `minionAllowed` are the two allow-lists that classify
every annotation.  `inherited` marks the keys that `mergeMasterAnnotationsIntoMinion`
copies: `TestMergeMasterAnnotationsIntoMinion` has it leave `nginx.org/hsts` out, a key
that `TestFilterMasterAnnotations` keeps on a master, so these keys are a list of their
own. -/
structure AnnotationLists where
  masterAllowed : String → Bool
  minionAllowed : String → Bool
  inherited : String → Bool

/-- Modelled from the spec: `filterMasterAnnotations` of `annotations.go`, which is not
among the sources.  It removes from the map the keys that are not master-allowed and
returns them; here the result is the map after the call and the removed keys. -/
def filterMasterAnnotations (lists : AnnotationLists) (annotations : GoMap String) :
    GoMap String × List String :=
  (annotations.filter fun p => lists.masterAllowed p.1,
   (annotations.filter fun p => !lists.masterAllowed p.1).map Prod.fst)

/-- Modelled from the spec: `filterMinionAnnotations` of `annotations.go`, which is not
among the sources.  It removes from the map the keys that are not minion-allowed and
returns them; here the result is the map after the call and the removed keys. -/
def filterMinionAnnotations (lists : AnnotationLists) (annotations : GoMap String) :
    GoMap String × List String :=
  (annotations.filter fun p => lists.minionAllowed p.1,
   (annotations.filter fun p => !lists.minionAllowed p.1).map Prod.fst)

/-- Modelled from the spec: `mergeMasterAnnotationsIntoMinion` of `annotations.go`, which
is not among the sources.  It copies a key of the master into the minion map only if the
minion does not declare that key, and only a key of the list `inherited`; the master map
is only read.  Here the result is the minion map after the call. -/
def mergeMasterAnnotationsIntoMinion (lists : AnnotationLists)
    (minionAnnotations masterAnnotations : GoMap String) : GoMap String :=
  masterAnnotations.foldl
    (fun minion p =>
      if (GoMap.lookup minion p.1).isNone ∧ lists.inherited p.1 = true then
        GoMap.insert minion p.1 p.2
      else minion)
    minionAnnotations

/-- The key lists as far as the tests of `annotations_test.go` show them: the keys that
`TestFilterMasterAnnotations` and `TestFilterMinionAnnotations` have removed, and the keys
that `TestMergeMasterAnnotationsIntoMinion` has copied, with
`nginx.org/proxy-connect-timeout`, which that test declares on both sides. -/
def testLists : AnnotationLists :=
  { masterAllowed := fun k => decide (k ∉ ["nginx.org/rewrites", "nginx.org/ssl-services"])
    minionAllowed := fun k =>
      decide (k ∉ ["nginx.org/hsts", "nginx.org/hsts-max-age",
                   "nginx.org/hsts-include-subdomains"])
    inherited := fun k =>
      decide (k ∈ ["nginx.org/proxy-buffering", "nginx.org/proxy-buffers",
                   "nginx.org/proxy-buffer-size", "nginx.org/proxy-connect-timeout"]) }

/-- The annotations of `TestFilterMasterAnnotations` and `TestFilterMinionAnnotations`. -/
def testAnnotations : GoMap String :=
  [("nginx.org/rewrites", "serviceName=service1 rewrite=rewrite1"),
   ("nginx.org/ssl-services", "service1"),
   ("nginx.org/hsts", "True"),
   ("nginx.org/hsts-max-age", "2700000"),
   ("nginx.org/hsts-include-subdomains", "True")]

/-- The master annotations of `TestMergeMasterAnnotationsIntoMinion`. -/
def testMasterAnnotations : GoMap String :=
  [("nginx.org/proxy-buffering", "True"),
   ("nginx.org/proxy-buffers", "2"),
   ("nginx.org/proxy-buffer-size", "8k"),
   ("nginx.org/hsts", "True"),
   ("nginx.org/hsts-max-age", "2700000"),
   ("nginx.org/proxy-connect-timeout", "50s"),
   ("nginx.com/jwt-token", "$cookie_auth_token")]

/-- The minion annotations of `TestMergeMasterAnnotationsIntoMinion`. -/
def testMinionAnnotations : GoMap String :=
  [("nginx.org/client-max-body-size", "2m"),
   ("nginx.org/proxy-connect-timeout", "20s")]

/-- An instance of the declarations of other files for the JWT scenario: of the
annotations only `nginx.com/jwt-key` and `nginx.com/jwt-login-url` are resolved, and only
for NGINX Plus. -/
def jwtExternal : External :=
  { exampleExternal with
    parseAnnotations := fun ingEx baseCfgParams isPlus _ _ =>
      if isPlus then
        { baseCfgParams with
          JWTKey :=
            (GoMap.lookup ingEx.Ingress.Annotations "nginx.com/jwt-key").getD
              baseCfgParams.JWTKey
          JWTLoginURL :=
            (GoMap.lookup ingEx.Ingress.Annotations "nginx.com/jwt-login-url").getD
              baseCfgParams.JWTLoginURL }
      else baseCfgParams }

/-- A minion of the cafe master with the two paths `/tea` and `/coffee`, both valid, a
JWT key and a login URL. -/
def teaCoffeeMinion : IngressEx :=
  { Ingress :=
      { Namespace := "default"
        Name := "cafe-minion"
        Annotations := [("nginx.org/mergeable-ingress-type", "minion"),
                        ("nginx.com/jwt-key", "jwk"),
                        ("nginx.com/jwt-login-url", "https://login.example.com")]
        Spec :=
          { Backend := none
            TLS := []
            Rules :=
              [{ Host := "cafe.example.com"
                 HTTP := some { Paths :=
                   [{ Path := "/tea", PathType := none
                      Backend := { ServiceName := "tea-svc", ServicePort := .int 80 } },
                    { Path := "/coffee", PathType := none
                      Backend := { ServiceName := "coffee-svc", ServicePort := .int 80 } }] } }] } }
    Endpoints := [("tea-svc80", ["10.0.0.1:80"]), ("coffee-svc80", ["10.0.0.2:80"])]
    HealthChecks := []
    ExternalNameSvcs := []
    ValidHosts := [("cafe.example.com", true)]
    ValidMinionPaths := [("/tea", true), ("/coffee", true)]
    Secrets := [("jwk", { Typ := "nginx.org/jwk", Path := "/etc/nginx/secrets/default-jwk",
                          Error := none })] }

/-- The ingress with its default backend `Spec.Backend` replaced, or removed. -/
def IngressEx.withBackend (ingEx : IngressEx) (backend : Option IngressBackend) : IngressEx :=
  { ingEx with
    Ingress := { ingEx.Ingress with
      Spec := { ingEx.Ingress.Spec with Backend := backend } } }

/-- An ingress with a default backend and one rule, under a valid host, whose paths are
`/` with the path type `Exact` and `/tea`. -/
def exactRootIngress : IngressEx :=
  { rootIngress with
    Ingress := { rootIngress.Ingress with
      Spec := { rootIngress.Ingress.Spec with
        Rules :=
          [{ Host := "web.example.com"
             HTTP := some { Paths :=
               [{ Path := "/", PathType := some PathTypeExact
                  Backend := { ServiceName := "web-svc", ServicePort := .int 80 } },
                { Path := "/tea", PathType := none
                  Backend := { ServiceName := "tea-svc", ServicePort := .int 80 } }] } }] } } }

/-- The same ingress with the empty path in place of `/`. -/
def exactEmptyIngress : IngressEx :=
  { rootIngress with
    Ingress := { rootIngress.Ingress with
      Spec := { rootIngress.Ingress.Spec with
        Rules :=
          [{ Host := "web.example.com"
             HTTP := some { Paths :=
               [{ Path := "", PathType := some PathTypeExact
                  Backend := { ServiceName := "web-svc", ServicePort := .int 80 } },
                { Path := "/tea", PathType := none
                  Backend := { ServiceName := "tea-svc", ServicePort := .int 80 } }] } }] } } }

/-- The TLS entries of an ingress that lists the host `cafe.example.com` twice: first with
the secret `cafe-secret`, then without a secret name. -/
def repeatedTLS : List IngressTLS :=
  [{ Hosts := ["tea.example.com", "cafe.example.com", "cafe.example.com"],
     SecretName := "cafe-secret" },
   { Hosts := ["cafe.example.com"], SecretName := "" },
   { Hosts := ["coffee.example.com"], SecretName := "coffee-secret" }]

/-- The ingress with the default backend `dflt` and one rule whose only path is `/`, with
a probe on the backend of the path and a probe on the default backend. -/
def rootProbeIngress : IngressEx :=
  { rootIngress with HealthChecks := [("web-svc80", teaProbe), ("dflt80", teaProbe)] }

/-- The same ingress with the path `/tea` in place of `/`. -/
def teaProbeIngress : IngressEx :=
  { rootProbeIngress with
    Ingress := { rootProbeIngress.Ingress with
      Spec := { rootProbeIngress.Ingress.Spec with
        Rules :=
          [{ Host := "web.example.com"
             HTTP := some { Paths :=
               [{ Path := "/tea", PathType := some PathTypePrefix
                  Backend := { ServiceName := "web-svc", ServicePort := .int 80 } }] } }] } } }

/-! ## `annotations.go` and `configmaps.go`: the typed scalar keys -/

/-- The wording `<integer>` of the validators: a sequence of decimal digits that is not
empty. -/
def IsInteger (s : List Char) : Prop := s ≠ [] ∧ ∀ c ∈ s, c.isDigit = true

instance (s : List Char) : Decidable (IsInteger s) := by
  unfold IsInteger
  infer_instance

/-- The number that a sequence of decimal digits denotes. -/
def digitsValue (s : List Char) : Nat :=
  s.foldl (fun n c => 10 * n + (c.toNat - '0'.toNat)) 0

/-- Modelled from the spec: the fixed unit set of the duration validator, which is not
among the sources.  The spec does not list it and the tests use `s` and `m`; the units of
an NGINX time are taken. -/
def timeUnits : List (List Char) :=
  ["ms".data, "s".data, "m".data, "h".data, "d".data, "w".data, "M".data, "y".data]

/-- Modelled from the spec: the units that the size-offset validator accepts for
`client-max-body-size`, a constant that is not among the sources: `k`, `m` and `g` in both
cases. -/
def offsetUnits : List Char := ['k', 'K', 'm', 'M', 'g', 'G']

/-- Modelled from the spec: the units that the size-offset validator accepts for
`proxy-buffer-size`, `proxy-max-temp-file-size`, `upstream-zone-size` and the size of
`proxy-buffers`, a constant that is not among the sources: `k` and `m` in both cases,
without the gigabyte unit. -/
def sizeUnits : List Char := ['k', 'K', 'm', 'M']

/-- The grammar of the duration validator: one or more tokens `<integer><unit>` with a
unit of the fixed set, separated by spaces; `TestParseProxyConnectTimeoutAnnotation`
accepts `1m30s`, so a token may follow another without a space. -/
inductive IsDuration : List Char → Prop
  | token (digits unit : List Char) :
      IsInteger digits → unit ∈ timeUnits → IsDuration (digits ++ unit)
  | cons (digits unit spaces rest : List Char) :
      IsInteger digits → unit ∈ timeUnits → (∀ c ∈ spaces, c = ' ') → IsDuration rest →
      IsDuration (digits ++ unit ++ spaces ++ rest)

/-- The grammar of the size-offset validator: `<integer>` followed by an optional unit
of one letter from the set `units`. -/
def IsSizeOffset (units : List Char) (s : List Char) : Prop :=
  ∃ digits unit, s = digits ++ unit ∧ IsInteger digits ∧ (unit = [] ∨ ∃ u ∈ units, unit = [u])

/-- The grammar of the size-pair validator: exactly two tokens separated by a space, a
bare count `<integer>` and a size-offset without the gigabyte unit. -/
def IsSizePair (s : List Char) : Prop :=
  ∃ count size, s = count ++ ' ' :: size ∧ IsInteger count ∧ IsSizeOffset sizeUnits size

/-- The grammar of the non-negative-integer validator: an unsigned integer in base 10.
The fields `MaxFails` and `MaxConns` are Go `int`s, so the integer is one that an `int`
of 64 bits holds. -/
def IsNonNegativeInteger (s : List Char) : Prop := IsInteger s ∧ digitsValue s < 2 ^ 63

instance (s : List Char) : Decidable (IsNonNegativeInteger s) := by
  unfold IsNonNegativeInteger
  infer_instance

/-- Modelled from the spec: a step of the duration validator, which is not among the
sources: the rest of the text after a unit of `timeUnits` at its start. -/
def durationValidator.unit : List Char → Option (List Char)
  | 'm' :: 's' :: rest => some rest
  | c :: rest => if c ∈ ['s', 'm', 'h', 'd', 'w', 'M', 'y'] then some rest else none
  | [] => none

/-- Modelled from the spec: the scan of the duration validator, which is not among the
sources, over the tokens: the text starts with `<integer><unit>` and ends there, or goes
on, after any spaces, with further tokens.  `fuel` bounds the number of tokens. -/
def durationValidator.tokens : Nat → List Char → Bool
  | 0, _ => false
  | fuel + 1, s =>
    if (s.takeWhile Char.isDigit).isEmpty then false
    else
      match durationValidator.unit (s.dropWhile Char.isDigit) with
      | none => false
      | some [] => true
      | some (c :: rest) =>
        durationValidator.tokens fuel ((c :: rest).dropWhile fun x => x = ' ')

/-- Modelled from the spec: the duration validator of §4.1, which is not among the
sources.  It accepts one or more tokens `<integer><unit>` and passes the string through
unmodified; `none` is the parse failure. -/
def durationValidator (s : String) : Option String :=
  if durationValidator.tokens (s.data.length + 1) s.data then some s else none

/-- Modelled from the spec: the check of the size-offset validator, which is not among
the sources, on the characters of the value. -/
def sizeOffsetValidator.check (units : List Char) (s : List Char) : Bool :=
  !(s.takeWhile Char.isDigit).isEmpty &&
    match s.dropWhile Char.isDigit with
    | [] => true
    | [u] => decide (u ∈ units)
    | _ => false

/-- Modelled from the spec: the size-offset validator of §4.1, which is not among the
sources.  It accepts `<integer>` followed by an optional unit of one letter from the set
of the setting and passes the string through unmodified; `none` is the parse failure. -/
def sizeOffsetValidator (units : List Char) (s : String) : Option String :=
  if sizeOffsetValidator.check units s.data then some s else none

/-- Modelled from the spec: the check of the size-pair validator, which is not among the
sources, on the characters of the value. -/
def sizePairValidator.check (s : List Char) : Bool :=
  !(s.takeWhile Char.isDigit).isEmpty &&
    match s.dropWhile Char.isDigit with
    | ' ' :: size => sizeOffsetValidator.check sizeUnits size
    | _ => false

/-- Modelled from the spec: the size-pair validator of §4.1, which is not among the
sources.  It requires exactly two tokens separated by a space, a bare count and a size,
and passes the string through unmodified; `none` is the parse failure. -/
def sizePairValidator (s : String) : Option String :=
  if sizePairValidator.check s.data then some s else none

/-- Modelled from the spec: the non-negative-integer validator of §4.1, which is not
among the sources.  It accepts only unsigned integers in base 10 and returns the integer;
`none` is the parse failure. -/
def nonNegativeIntegerValidator (s : String) : Option Int :=
  if !s.data.isEmpty && s.data.all Char.isDigit && decide (digitsValue s.data < 2 ^ 63) then
    some (digitsValue s.data : Int)
  else none

/-- Modelled from the spec: the resolution of one field in §4.2, which is not among the
sources.  An absent key keeps the value of the base; the value of a present key
overwrites the field when the validator of the key accepts it, and the base value is
kept, without an error, when it does not. -/
def resolveField {α : Type} (validator : String → Option α) (raw : GoMap String) (key : String)
    (base : α) : α :=
  match GoMap.lookup raw key with
  | none => base
  | some value =>
    match validator value with
    | some resolved => resolved
    | none => base

/-- Modelled from the spec: `parseAnnotations` of `annotations.go`, which is not among
the sources, on the typed scalar keys: the four timeouts, the four sizes, `proxy-buffers`,
`max-fails` and `max-conns`, none of which depends on a capability flag.  The other
annotation keys are outside the model: their fields are left as in the base. -/
def parseAnnotations (ingEx : IngressEx) (baseCfgParams : ConfigParams)
    (_isPlus _hasAppProtect _enableInternalRoutes : Bool) : ConfigParams :=
  let annotations := ingEx.Ingress.Annotations
  { baseCfgParams with
    ProxyConnectTimeout := resolveField durationValidator annotations
      "nginx.org/proxy-connect-timeout" baseCfgParams.ProxyConnectTimeout
    ProxyReadTimeout := resolveField durationValidator annotations
      "nginx.org/proxy-read-timeout" baseCfgParams.ProxyReadTimeout
    ProxySendTimeout := resolveField durationValidator annotations
      "nginx.org/proxy-send-timeout" baseCfgParams.ProxySendTimeout
    FailTimeout := resolveField durationValidator annotations
      "nginx.org/fail-timeout" baseCfgParams.FailTimeout
    ClientMaxBodySize := resolveField (sizeOffsetValidator offsetUnits) annotations
      "nginx.org/client-max-body-size" baseCfgParams.ClientMaxBodySize
    ProxyBufferSize := resolveField (sizeOffsetValidator sizeUnits) annotations
      "nginx.org/proxy-buffer-size" baseCfgParams.ProxyBufferSize
    ProxyMaxTempFileSize := resolveField (sizeOffsetValidator sizeUnits) annotations
      "nginx.org/proxy-max-temp-file-size" baseCfgParams.ProxyMaxTempFileSize
    UpstreamZoneSize := resolveField (sizeOffsetValidator sizeUnits) annotations
      "nginx.org/upstream-zone-size" baseCfgParams.UpstreamZoneSize
    ProxyBuffers := resolveField sizePairValidator annotations
      "nginx.org/proxy-buffers" baseCfgParams.ProxyBuffers
    MaxFails := resolveField nonNegativeIntegerValidator annotations
      "nginx.org/max-fails" baseCfgParams.MaxFails
    MaxConns := resolveField nonNegativeIntegerValidator annotations
      "nginx.org/max-conns" baseCfgParams.MaxConns }

/-- Modelled from the spec: `ParseConfigMap` of `configmaps.go`, which is not among the
sources, on the typed scalar keys.  The global layering of §4.3 overlays the values of
the ConfigMap on the built-in defaults `NewDefaultConfigParams()`, here the parameter
`defaults`, with the resolution of §4.2 for every field; the keys carry no `nginx.org/`.
The other keys are outside the model: their fields are left as in the defaults. -/
def ParseConfigMap (defaults : ConfigParams) (cfgm : GoMap String)
    (_nginxPlus _hasAppProtect : Bool) : ConfigParams :=
  { defaults with
    ProxyConnectTimeout := resolveField durationValidator cfgm
      "proxy-connect-timeout" defaults.ProxyConnectTimeout
    ProxyReadTimeout := resolveField durationValidator cfgm
      "proxy-read-timeout" defaults.ProxyReadTimeout
    ProxySendTimeout := resolveField durationValidator cfgm
      "proxy-send-timeout" defaults.ProxySendTimeout
    FailTimeout := resolveField durationValidator cfgm
      "fail-timeout" defaults.FailTimeout
    ClientMaxBodySize := resolveField (sizeOffsetValidator offsetUnits) cfgm
      "client-max-body-size" defaults.ClientMaxBodySize
    ProxyBufferSize := resolveField (sizeOffsetValidator sizeUnits) cfgm
      "proxy-buffer-size" defaults.ProxyBufferSize
    ProxyMaxTempFileSize := resolveField (sizeOffsetValidator sizeUnits) cfgm
      "proxy-max-temp-file-size" defaults.ProxyMaxTempFileSize
    UpstreamZoneSize := resolveField (sizeOffsetValidator sizeUnits) cfgm
      "upstream-zone-size" defaults.UpstreamZoneSize
    ProxyBuffers := resolveField sizePairValidator cfgm
      "proxy-buffers" defaults.ProxyBuffers
    MaxFails := resolveField nonNegativeIntegerValidator cfgm
      "max-fails" defaults.MaxFails
    MaxConns := resolveField nonNegativeIntegerValidator cfgm
      "max-conns" defaults.MaxConns }

/-- The typed scalar keys. -/
inductive TypedKey where
  | proxyConnectTimeout
  | proxyReadTimeout
  | proxySendTimeout
  | failTimeout
  | clientMaxBodySize
  | proxyBufferSize
  | proxyMaxTempFileSize
  | upstreamZoneSize
  | proxyBuffers
  | maxFails
  | maxConns
  deriving DecidableEq, Repr

/-- The value of a typed scalar field: a string or an integer. -/
inductive TypedValue where
  | str (s : String)
  | int (n : Int)
  deriving DecidableEq, Repr

/-- The name of a typed scalar key in a ConfigMap; an annotation carries `nginx.org/`
before it. -/
def TypedKey.name : TypedKey → String
  | .proxyConnectTimeout => "proxy-connect-timeout"
  | .proxyReadTimeout => "proxy-read-timeout"
  | .proxySendTimeout => "proxy-send-timeout"
  | .failTimeout => "fail-timeout"
  | .clientMaxBodySize => "client-max-body-size"
  | .proxyBufferSize => "proxy-buffer-size"
  | .proxyMaxTempFileSize => "proxy-max-temp-file-size"
  | .upstreamZoneSize => "upstream-zone-size"
  | .proxyBuffers => "proxy-buffers"
  | .maxFails => "max-fails"
  | .maxConns => "max-conns"

/-- The field of the parameter set that a typed scalar key resolves. -/
def TypedKey.field : TypedKey → ConfigParams → TypedValue
  | .proxyConnectTimeout, cfg => .str cfg.ProxyConnectTimeout
  | .proxyReadTimeout, cfg => .str cfg.ProxyReadTimeout
  | .proxySendTimeout, cfg => .str cfg.ProxySendTimeout
  | .failTimeout, cfg => .str cfg.FailTimeout
  | .clientMaxBodySize, cfg => .str cfg.ClientMaxBodySize
  | .proxyBufferSize, cfg => .str cfg.ProxyBufferSize
  | .proxyMaxTempFileSize, cfg => .str cfg.ProxyMaxTempFileSize
  | .upstreamZoneSize, cfg => .str cfg.UpstreamZoneSize
  | .proxyBuffers, cfg => .str cfg.ProxyBuffers
  | .maxFails, cfg => .int cfg.MaxFails
  | .maxConns, cfg => .int cfg.MaxConns

/-- The accepted grammar of a typed scalar key. -/
def TypedKey.Accepts : TypedKey → String → Prop
  | .proxyConnectTimeout, v => IsDuration v.data
  | .proxyReadTimeout, v => IsDuration v.data
  | .proxySendTimeout, v => IsDuration v.data
  | .failTimeout, v => IsDuration v.data
  | .clientMaxBodySize, v => IsSizeOffset offsetUnits v.data
  | .proxyBufferSize, v => IsSizeOffset sizeUnits v.data
  | .proxyMaxTempFileSize, v => IsSizeOffset sizeUnits v.data
  | .upstreamZoneSize, v => IsSizeOffset sizeUnits v.data
  | .proxyBuffers, v => IsSizePair v.data
  | .maxFails, v => IsNonNegativeInteger v.data
  | .maxConns, v => IsNonNegativeInteger v.data

/-- The value that an accepted string gives to the field of a typed scalar key: the same
string, or the integer it denotes. -/
def TypedKey.denotes : TypedKey → String → TypedValue
  | .maxFails, v => .int (digitsValue v.data)
  | .maxConns, v => .int (digitsValue v.data)
  | _, v => .str v

/-- An ingress that carries the given annotations and nothing else, as `createTestIngress`
of `annotations_test.go` builds it. -/
def createTestIngress (annotations : GoMap String) : IngressEx :=
  { (default : IngressEx) with
    Ingress := { (default : Ingress) with Annotations := annotations } }

/-- Built-in defaults for the evaluations; `NewDefaultConfigParams` is not among the
sources. -/
def exampleDefaults : ConfigParams :=
  { (default : ConfigParams) with
    ProxyConnectTimeout := "60s", ProxyReadTimeout := "60s", ProxySendTimeout := "60s"
    FailTimeout := "10s", ClientMaxBodySize := "1m", ProxyBufferSize := "4k"
    ProxyMaxTempFileSize := "1024m", UpstreamZoneSize := "256k", ProxyBuffers := "8 4k"
    MaxFails := 1, MaxConns := 7 }

/-- The validator of a typed scalar key, with its result as a value of the field. -/
def TypedKey.validator : TypedKey → String → Option TypedValue
  | .proxyConnectTimeout, v => (durationValidator v).map .str
  | .proxyReadTimeout, v => (durationValidator v).map .str
  | .proxySendTimeout, v => (durationValidator v).map .str
  | .failTimeout, v => (durationValidator v).map .str
  | .clientMaxBodySize, v => (sizeOffsetValidator offsetUnits v).map .str
  | .proxyBufferSize, v => (sizeOffsetValidator sizeUnits v).map .str
  | .proxyMaxTempFileSize, v => (sizeOffsetValidator sizeUnits v).map .str
  | .upstreamZoneSize, v => (sizeOffsetValidator sizeUnits v).map .str
  | .proxyBuffers, v => (sizePairValidator v).map .str
  | .maxFails, v => (nonNegativeIntegerValidator v).map .int
  | .maxConns, v => (nonNegativeIntegerValidator v).map .int

/-! ## Theorems -/

/-! ## Go maps -/

theorem GoMap.lookup_insert {α : Type} (m : GoMap α) (k : String) (v : α) (k' : String) :
    GoMap.lookup (GoMap.insert m k v) k' = if k = k' then some v else GoMap.lookup m k' := by
  induction m with
  | nil => simp [GoMap.insert, GoMap.lookup]
  | cons p rest ih =>
    obtain ⟨k0, v0⟩ := p
    by_cases h0 : k0 = k
    · subst h0
      simp only [GoMap.insert, GoMap.lookup, if_true]
      split_ifs <;> rfl
    · simp only [GoMap.insert, h0, if_false, GoMap.lookup, ih]
      by_cases h1 : k0 = k'
      · subst h1
        simp [Ne.symm h0]
      · simp [h1]

theorem GoMap.lookup_eq_none_iff {α : Type} (m : GoMap α) (k : String) :
    GoMap.lookup m k = none ↔ k ∉ GoMap.keys m := by
  induction m with
  | nil => simp [GoMap.lookup, GoMap.keys]
  | cons p rest ih =>
    obtain ⟨k0, v0⟩ := p
    by_cases h0 : k0 = k
    · simp [GoMap.lookup, GoMap.keys, h0]
    · have h1 : ¬ k = k0 := fun h => h0 h.symm
      simpa [GoMap.lookup, GoMap.keys, h0, h1] using ih

theorem GoMap.lookup_isSome_iff {α : Type} (m : GoMap α) (k : String) :
    (GoMap.lookup m k).isSome = true ↔ k ∈ GoMap.keys m := by
  rw [← not_iff_not, ← GoMap.lookup_eq_none_iff]
  cases GoMap.lookup m k <;> simp

theorem GoMap.mem_of_lookup {α : Type} (m : GoMap α) (k : String) (v : α)
    (h : GoMap.lookup m k = some v) : (k, v) ∈ m := by
  induction m with
  | nil => simp [GoMap.lookup] at h
  | cons p rest ih =>
    obtain ⟨k0, v0⟩ := p
    by_cases h0 : k0 = k
    · simp [GoMap.lookup, h0] at h
      simp [h0, h]
    · simp only [GoMap.lookup, h0, if_false] at h
      exact List.mem_cons_of_mem _ (ih h)

theorem GoMap.lookup_of_mem {α : Type} (m : GoMap α) (k : String) (v : α)
    (hnd : (GoMap.keys m).Nodup) (h : (k, v) ∈ m) : GoMap.lookup m k = some v := by
  induction m with
  | nil => simp at h
  | cons p rest ih =>
    obtain ⟨k0, v0⟩ := p
    simp only [GoMap.keys, List.map_cons, List.nodup_cons] at hnd
    rcases List.mem_cons.1 h with h1 | h1
    · cases h1
      simp [GoMap.lookup]
    · have h0 : k0 ≠ k := by
        rintro rfl
        exact hnd.1 (List.mem_map_of_mem Prod.fst h1)
      simp only [GoMap.lookup, h0, if_false]
      exact ih hnd.2 h1

theorem GoMap.mem_keys_insert {α : Type} (m : GoMap α) (k : String) (v : α) (k' : String) :
    k' ∈ GoMap.keys (GoMap.insert m k v) ↔ k' = k ∨ k' ∈ GoMap.keys m := by
  rw [← GoMap.lookup_isSome_iff, ← GoMap.lookup_isSome_iff, GoMap.lookup_insert]
  by_cases h : k = k'
  · simp [h]
  · have h' : ¬ k' = k := fun e => h e.symm
    simp [h, h']

theorem GoMap.mem_insert {α : Type} (m : GoMap α) (k : String) (v : α) (p : String × α)
    (h : p ∈ GoMap.insert m k v) : p = (k, v) ∨ p ∈ m := by
  induction m with
  | nil => simpa [GoMap.insert] using h
  | cons q rest ih =>
    obtain ⟨k0, v0⟩ := q
    by_cases h0 : k0 = k
    · simp only [GoMap.insert, h0, if_true, List.mem_cons] at h
      rcases h with h | h
      · exact Or.inl h
      · exact Or.inr (List.mem_cons_of_mem _ h)
    · simp only [GoMap.insert, h0, if_false, List.mem_cons] at h
      rcases h with h | h
      · exact Or.inr (by simp [h])
      · rcases ih h with h | h
        · exact Or.inl h
        · exact Or.inr (List.mem_cons_of_mem _ h)

theorem GoMap.nodup_keys_insert {α : Type} (m : GoMap α) (k : String) (v : α)
    (hnd : (GoMap.keys m).Nodup) : (GoMap.keys (GoMap.insert m k v)).Nodup := by
  induction m with
  | nil => simp [GoMap.insert, GoMap.keys]
  | cons q rest ih =>
    obtain ⟨k0, v0⟩ := q
    have hnd' := hnd
    simp only [GoMap.keys, List.map_cons, List.nodup_cons] at hnd'
    by_cases h0 : k0 = k
    · subst h0
      simpa [GoMap.insert, GoMap.keys] using hnd
    · simp only [GoMap.insert, h0, if_false]
      have h1 := ih hnd'.2
      have h2 : k0 ∉ GoMap.keys (GoMap.insert rest k v) := by
        rw [GoMap.mem_keys_insert]
        rintro (h | h)
        · exact h0 h
        · exact hnd'.1 h
      show (k0 :: GoMap.keys (GoMap.insert rest k v)).Nodup
      exact List.nodup_cons.2 ⟨h2, h1⟩

theorem GoMap.lookup_perm {α : Type} {m m' : GoMap α} (h : m'.Perm m)
    (hnd : (GoMap.keys m).Nodup) (k : String) : GoMap.lookup m' k = GoMap.lookup m k := by
  have hnd' : (GoMap.keys m').Nodup := (List.Perm.nodup_iff (h.map Prod.fst)).2 hnd
  cases hv : GoMap.lookup m k with
  | none =>
    rw [GoMap.lookup_eq_none_iff] at hv ⊢
    intro hk
    exact hv ((h.map Prod.fst).subset hk)
  | some v =>
    exact GoMap.lookup_of_mem m' k v hnd' (h.symm.subset (GoMap.mem_of_lookup m k v hv))

/-! ## `sort.Strings` -/

theorem cons_le_cons_iff (a b : Char) (as bs : List Char) :
    a :: as ≤ b :: bs ↔ (if a = b then as ≤ bs else a < b) := by
  split_ifs with h
  · subst h
    rw [← not_lt, ← not_lt]
    exact not_congr List.Lex.cons_iff
  · rw [← not_lt]
    constructor
    · intro h1
      rcases lt_trichotomy a b with h2 | h2 | h2
      · exact h2
      · exact absurd h2 h
      · exact absurd (List.Lex.rel h2) h1
    · intro h1 h2
      cases h2 with
      | cons h3 => exact h rfl
      | rel h3 => exact absurd h1 (not_lt_of_lt h3)

theorem charsLe_iff : ∀ (as bs : List Char), charsLe as bs = true ↔ as ≤ bs
  | [], bs => by simp [charsLe]
  | a :: as, [] => by
      simp only [charsLe, Bool.false_eq_true, false_iff, not_le]
      exact List.nil_lt_cons a as
  | a :: as, b :: bs => by
      rw [cons_le_cons_iff, charsLe]
      split_ifs with h
      · exact charsLe_iff as bs
      · simp only [decide_eq_true_eq]
        exact Iff.rfl

/-- The comparison of `sort.Strings` is the order `≤` of `String`. -/
theorem stringLe_iff (a b : String) : stringLe a b = true ↔ a ≤ b := by
  rw [stringLe, charsLe_iff, String.le_iff_toList_le]
  rfl

theorem sortStrings_eq (keys : List String) :
    sortStrings keys = keys.insertionSort (fun a b => a ≤ b) := by
  unfold sortStrings
  induction keys with
  | nil => rfl
  | cons k rest ih =>
    simp only [List.insertionSort, ih]
    generalize List.insertionSort (fun a b => a ≤ b) rest = l
    induction l with
    | nil => rfl
    | cons x l ihl =>
      simp only [List.orderedInsert, stringLe_iff, ihl]

theorem sortStrings_perm (keys : List String) : (sortStrings keys).Perm keys := by
  rw [sortStrings_eq]
  exact List.perm_insertionSort _ keys

theorem sortStrings_sorted (keys : List String) : (sortStrings keys).Sorted (fun a b => a ≤ b) := by
  rw [sortStrings_eq]
  exact List.sorted_insertionSort _ keys

theorem sortStrings_strict (keys : List String) (hnd : keys.Nodup) :
    (sortStrings keys).Sorted (fun a b => a < b) := by
  have h1 := sortStrings_sorted keys
  have h2 : (sortStrings keys).Nodup := (sortStrings_perm keys).nodup_iff.2 hnd
  exact (List.Sorted.lt_of_le h1 h2)

theorem sortStrings_congr {ks ks' : List String} (h : ks'.Perm ks) :
    sortStrings ks' = sortStrings ks := by
  apply List.eq_of_perm_of_sorted (r := fun a b => a ≤ b)
  · exact ((sortStrings_perm ks').trans h).trans (sortStrings_perm ks).symm
  · exact sortStrings_sorted ks'
  · exact sortStrings_sorted ks

/-! ## `upstreamMapToSlice` -/

theorem GoMap.get_of_mem {α : Type} [Inhabited α] (m : GoMap α) (hnd : (GoMap.keys m).Nodup)
    (p : String × α) (h : p ∈ m) : GoMap.get m p.1 = p.2 := by
  unfold GoMap.get
  rw [GoMap.lookup_of_mem m p.1 p.2 hnd h]
  rfl

theorem map_get_keys {α : Type} [Inhabited α] (m : GoMap α) (hnd : (GoMap.keys m).Nodup) :
    (GoMap.keys m).map (fun k => GoMap.get m k) = GoMap.values m := by
  unfold GoMap.keys GoMap.values
  rw [List.map_map]
  apply List.map_congr_left
  intro p hp
  exact GoMap.get_of_mem m hnd p hp

theorem upstreamMapToSlice_perm (m : GoMap Upstream) (hnd : (GoMap.keys m).Nodup) :
    (upstreamMapToSlice m).Perm (GoMap.values m) := by
  unfold upstreamMapToSlice
  rw [← map_get_keys m hnd]
  exact (sortStrings_perm (GoMap.keys m)).map _

theorem upstreamMapToSlice_names (m : GoMap Upstream) (h : UpstreamsNamed m) :
    (upstreamMapToSlice m).map (fun u => u.Name) = sortStrings (GoMap.keys m) := by
  unfold upstreamMapToSlice
  rw [List.map_map]
  conv_rhs => rw [← List.map_id (sortStrings (GoMap.keys m))]
  apply List.map_congr_left
  intro k hk
  have hk' : k ∈ GoMap.keys m := (sortStrings_perm _).subset hk
  obtain ⟨p, hp, rfl⟩ := List.mem_map.1 hk'
  simp only [Function.comp, id]
  rw [GoMap.get_of_mem m h.1 p hp]
  exact h.2 p hp

theorem upstreamMapToSlice_congr {m m' : GoMap Upstream} (h : m'.Perm m)
    (hnd : (GoMap.keys m).Nodup) : upstreamMapToSlice m' = upstreamMapToSlice m := by
  unfold upstreamMapToSlice
  have hk : sortStrings (GoMap.keys m') = sortStrings (GoMap.keys m) :=
    sortStrings_congr (h.map Prod.fst)
  simp only [hk]
  apply List.map_congr_left
  intro k _
  unfold GoMap.get
  rw [GoMap.lookup_perm h hnd]

/-! ## The `upstreams` map of `generateNginxCfg` -/

theorem UpstreamsNamed.insert {m : GoMap Upstream} (h : UpstreamsNamed m) (k : String)
    (u : Upstream) (hu : u.Name = k) : UpstreamsNamed (GoMap.insert m k u) := by
  refine ⟨GoMap.nodup_keys_insert m k u h.1, ?_⟩
  intro p hp
  rcases GoMap.mem_insert m k u p hp with rfl | hp
  · exact hu
  · exact h.2 p hp

theorem createUpstream.base_name (ext : External) (ingEx : IngressEx) (name : String)
    (backend : IngressBackend) (stickyCookie : String) (cfg : ConfigParams)
    (isPlus isLatencyMetricsEnabled : Bool)
    (hN : ∀ n, (ext.NewUpstreamWithDefaultServer n).Name = n) :
    (createUpstream.base ext ingEx name backend stickyCookie cfg isPlus
      isLatencyMetricsEnabled).Name = name := by
  unfold createUpstream.base
  cases isPlus <;> cases isLatencyMetricsEnabled <;> simp [hN]

theorem createUpstream.endpoints_name (ingEx : IngressEx) (backend : IngressBackend)
    (cfg : ConfigParams) (isResolverConfigured : Bool) (ups u : Upstream)
    (h : createUpstream.endpoints ingEx backend cfg isResolverConfigured ups = some u) :
    u.Name = ups.Name := by
  unfold createUpstream.endpoints at h
  split at h
  · simp only [Option.some.injEq] at h
    rw [← h]
  · simp only [Option.bind_eq_some] at h
    obtain ⟨l, _, h⟩ := h
    split at h <;> simp only [Option.some.injEq] at h <;> rw [← h]

theorem createUpstream_name (ext : External) (ingEx : IngressEx) (name : String)
    (backend : IngressBackend) (stickyCookie : String) (cfg : ConfigParams)
    (isPlus isResolverConfigured isLatencyMetricsEnabled : Bool)
    (hN : ∀ n, (ext.NewUpstreamWithDefaultServer n).Name = n) (u : Upstream)
    (h : createUpstream ext ingEx name backend stickyCookie cfg isPlus isResolverConfigured
      isLatencyMetricsEnabled = some u) : u.Name = name := by
  unfold createUpstream at h
  simp only [Option.bind_eq_some, Option.some.injEq] at h
  obtain ⟨w, hw, rfl⟩ := h
  simp only
  rw [createUpstream.endpoints_name _ _ _ _ _ _ hw]
  exact createUpstream.base_name ext ingEx name backend stickyCookie cfg isPlus _ hN

/-- The effect of lines 180-183 on the `upstreams` map. -/
theorem generateNginxCfg.upstream_spec (e : Env) (upstreams upstreams' : GoMap Upstream)
    (backend : IngressBackend) (upsName : String)
    (h : generateNginxCfg.upstream e upstreams backend upsName = some upstreams') :
    (∃ u, GoMap.lookup upstreams upsName = some u ∧ upstreams' = upstreams) ∨
    (∃ u, GoMap.lookup upstreams upsName = none ∧
      createUpstream e.ext e.ingEx upsName backend (GoMap.get e.spServices backend.ServiceName)
        e.cfgParams e.isPlus e.isResolverConfigured e.staticParams.EnableLatencyMetrics = some u ∧
      upstreams' = GoMap.insert upstreams upsName u) := by
  unfold generateNginxCfg.upstream at h
  split at h
  · rename_i u hu
    simp only [Option.some.injEq] at h
    exact Or.inl ⟨u, hu, h.symm⟩
  · rename_i hu
    simp only [Option.bind_eq_some, Option.some.injEq] at h
    obtain ⟨u, hc, rfl⟩ := h
    exact Or.inr ⟨u, hu, hc, rfl⟩

theorem generateNginxCfg.upstream_named (e : Env) (upstreams upstreams' : GoMap Upstream)
    (backend : IngressBackend) (upsName : String)
    (hN : ∀ n, (e.ext.NewUpstreamWithDefaultServer n).Name = n)
    (h : generateNginxCfg.upstream e upstreams backend upsName = some upstreams')
    (hinv : UpstreamsNamed upstreams) : UpstreamsNamed upstreams' := by
  rcases generateNginxCfg.upstream_spec e _ _ _ _ h with ⟨u, _, rfl⟩ | ⟨u, _, hc, rfl⟩
  · exact hinv
  · exact hinv.insert upsName u (createUpstream_name _ _ _ _ _ _ _ _ _ hN u hc)

theorem generateNginxCfg.upstream_keys (e : Env) (upstreams upstreams' : GoMap Upstream)
    (backend : IngressBackend) (upsName : String)
    (h : generateNginxCfg.upstream e upstreams backend upsName = some upstreams') (n : String) :
    n ∈ GoMap.keys upstreams' ↔ n ∈ GoMap.keys upstreams ∨ n = upsName := by
  rcases generateNginxCfg.upstream_spec e _ _ _ _ h with ⟨u, hu, rfl⟩ | ⟨u, _, _, rfl⟩
  · constructor
    · exact Or.inl
    · rintro (h1 | rfl)
      · exact h1
      · rw [← GoMap.lookup_isSome_iff, hu]
        rfl
  · rw [GoMap.mem_keys_insert]
    exact or_comm

theorem generateNginxCfg.upstream_lookup (e : Env) (upstreams upstreams' : GoMap Upstream)
    (backend : IngressBackend) (upsName : String)
    (h : generateNginxCfg.upstream e upstreams backend upsName = some upstreams') (k : String)
    (u : Upstream) (hk : GoMap.lookup upstreams k = some u) :
    GoMap.lookup upstreams' k = some u := by
  rcases generateNginxCfg.upstream_spec e _ _ _ _ h with ⟨_, _, rfl⟩ | ⟨u', hu, _, rfl⟩
  · exact hk
  · rw [GoMap.lookup_insert]
    have : upsName ≠ k := by
      rintro rfl
      rw [hu] at hk
      exact absurd hk (by simp)
    simp [this, hk]

/-- One iteration of the loop over the paths, unfolded: a skipped path leaves the state
unchanged, an honored path runs the four blocks of the body in sequence. -/
theorem generateNginxCfg.path_spec (e : Env) (host : String) (st st' : PathState)
    (path : HTTPIngressPath) (h : generateNginxCfg.path e host st path = some st') :
    ((e.isMinion && !GoMap.get e.ingEx.ValidMinionPaths path.Path) = true ∧ st' = st) ∨
    ((e.isMinion && !GoMap.get e.ingEx.ValidMinionPaths path.Path) = false ∧
      ∃ healthChecks upstreams r,
        generateNginxCfg.healthCheck e st.healthChecks path.Backend
          (getNameForUpstream e.ingEx.Ingress host path.Backend) = some healthChecks ∧
        generateNginxCfg.upstream e st.upstreams path.Backend
          (getNameForUpstream e.ingEx.Ingress host path.Backend) = some upstreams ∧
        generateNginxCfg.locationJWT e
          (generateNginxCfg.location e upstreams
            (getNameForUpstream e.ingEx.Ingress host path.Backend) path.Path path.PathType
            path.Backend) st.server = some r ∧
        st' = { upstreams := upstreams, healthChecks := healthChecks, server := r.2,
                locations := st.locations ++ [r.1],
                rootLocation := if r.1.Path = "/" then true else st.rootLocation }) := by
  unfold generateNginxCfg.path at h
  split at h
  · rename_i hs
    simp only [Option.some.injEq] at h
    exact Or.inl ⟨hs, h.symm⟩
  · rename_i hs
    simp only [Option.bind_eq_some, Option.some.injEq] at h
    obtain ⟨hc, h1, ups, h2, r, h3, rfl⟩ := h
    exact Or.inr ⟨by simpa using hs, hc, ups, r, h1, h2, h3, rfl⟩

theorem honoredPaths_cons_aux (e : Env) (path : HTTPIngressPath) (rest : List HTTPIngressPath) :
    (path :: rest).filter (fun p => !(e.isMinion && !GoMap.get e.ingEx.ValidMinionPaths p.Path)) =
    if (e.isMinion && !GoMap.get e.ingEx.ValidMinionPaths path.Path) = true then
      rest.filter (fun p => !(e.isMinion && !GoMap.get e.ingEx.ValidMinionPaths p.Path))
    else path ::
      rest.filter (fun p => !(e.isMinion && !GoMap.get e.ingEx.ValidMinionPaths p.Path)) := by
  by_cases h : (e.isMinion && !GoMap.get e.ingEx.ValidMinionPaths path.Path) = true
  · rw [if_pos h, List.filter_cons_of_neg]
    simp [h]
  · rw [if_neg h, List.filter_cons_of_pos]
    rw [Bool.not_eq_true] at h
    rw [h]
    rfl

/-- The `upstreams` map after the loop over the paths of a rule. -/
theorem generateNginxCfg.paths_upstreams (e : Env) (host : String) :
    ∀ (paths : List HTTPIngressPath) (st st' : PathState),
      generateNginxCfg.paths e host paths st = some st' →
      (∀ n, n ∈ GoMap.keys st'.upstreams ↔
        n ∈ GoMap.keys st.upstreams ∨
        n ∈ (paths.filter fun p =>
              !(e.isMinion && !GoMap.get e.ingEx.ValidMinionPaths p.Path)).map
            (fun p => getNameForUpstream e.ingEx.Ingress host p.Backend)) ∧
      (∀ k u, GoMap.lookup st.upstreams k = some u → GoMap.lookup st'.upstreams k = some u) ∧
      ((∀ n, (e.ext.NewUpstreamWithDefaultServer n).Name = n) →
        UpstreamsNamed st.upstreams → UpstreamsNamed st'.upstreams)
  | [], st, st', h => by
    simp only [generateNginxCfg.paths, Option.some.injEq] at h
    subst h
    simp
  | path :: rest, st, st', h => by
    simp only [generateNginxCfg.paths, Option.bind_eq_some] at h
    obtain ⟨st1, h1, h2⟩ := h
    obtain ⟨ih1, ih2, ih3⟩ := generateNginxCfg.paths_upstreams e host rest st1 st' h2
    rw [honoredPaths_cons_aux]
    rcases generateNginxCfg.path_spec e host st st1 path h1 with ⟨hs, rfl⟩ | ⟨hs, hc, ups, r, _, hu, _, rfl⟩
    · rw [if_pos hs]
      exact ⟨ih1, ih2, ih3⟩
    · rw [if_neg (by simp [hs])]
      refine ⟨?_, ?_, ?_⟩
      · intro n
        rw [ih1 n]
        simp only [generateNginxCfg.upstream_keys e _ _ _ _ hu n, List.map_cons, List.mem_cons]
        tauto
      · intro k u hk
        exact ih2 k u (generateNginxCfg.upstream_lookup e _ _ _ _ hu k u hk)
      · intro hN hinv
        exact ih3 hN (generateNginxCfg.upstream_named e _ _ _ _ hN hu hinv)

/-- The body of the loop over the rules, unfolded into its blocks. -/
theorem generateNginxCfg.rule_spec (e : Env) (upstreams upstreams' : GoMap Upstream)
    (rule : IngressRule) (server : Server)
    (h : generateNginxCfg.rule e upstreams rule = some (upstreams', server)) :
    ∃ s0 s1 st r,
      addSSLConfig e.ext (generateNginxCfg.newServer e rule) rule.Host e.ingEx.Ingress.Spec.TLS
        e.ingEx.Secrets e.isWildcardEnabled = some s0 ∧
      generateNginxCfg.serverJWT e (generateNginxCfg.appProtect e s0) = some s1 ∧
      generateNginxCfg.paths e rule.Host (generateNginxCfg.rulePaths rule)
        { upstreams := upstreams, healthChecks := [], server := s1, locations := [],
          rootLocation := false } = some st ∧
      generateNginxCfg.defaultLocation e st
        (generateNginxCfg.grpcOnly e (generateNginxCfg.rulePaths rule)) = some r ∧
      upstreams' = r.1.upstreams ∧
      server = { r.1.server with Locations := r.1.locations, HealthChecks := r.1.healthChecks,
                                 GRPCOnly := r.2 } := by
  unfold generateNginxCfg.rule at h
  simp only [Option.bind_eq_some, Option.some.injEq, Prod.mk.injEq] at h
  obtain ⟨s0, h0, s1, h1, st, h2, r, h3, h4, h5⟩ := h
  exact ⟨s0, s1, st, r, h0, h1, h2, h3, h4.symm, h5.symm⟩

/-- The implicit default location, unfolded. -/
theorem generateNginxCfg.defaultLocation_spec (e : Env) (st : PathState) (grpcOnly : Bool)
    (r : PathState × Bool) (h : generateNginxCfg.defaultLocation e st grpcOnly = some r) :
    ((e.ingEx.Ingress.Spec.Backend = none ∨ st.rootLocation = true) ∧ r = (st, grpcOnly)) ∨
    (∃ backend healthChecks,
      e.ingEx.Ingress.Spec.Backend = some backend ∧ st.rootLocation = false ∧
      generateNginxCfg.healthCheck e st.healthChecks backend
        (getNameForUpstream e.ingEx.Ingress emptyHost backend) = some healthChecks ∧
      r = ({ st with
              locations := st.locations ++
                [generateNginxCfg.location e st.upstreams
                  (getNameForUpstream e.ingEx.Ingress emptyHost backend) "/"
                  (some PathTypePrefix) backend],
              healthChecks := healthChecks },
           if (GoMap.lookup e.grpcServices backend.ServiceName).isSome then grpcOnly
           else false)) := by
  unfold generateNginxCfg.defaultLocation at h
  split at h
  · rename_i hb
    simp only [Option.some.injEq] at h
    exact Or.inl ⟨Or.inl hb, h.symm⟩
  · rename_i backend hb
    split at h
    · rename_i hr
      simp only [Option.some.injEq] at h
      exact Or.inl ⟨Or.inr hr, h.symm⟩
    · rename_i hr
      simp only [Option.bind_eq_some, Option.some.injEq] at h
      obtain ⟨hc, h1, h2⟩ := h
      exact Or.inr ⟨backend, hc, hb, by simpa using hr, h1, h2.symm⟩

theorem generateNginxCfg.defaultLocation_upstreams (e : Env) (st : PathState) (grpcOnly : Bool)
    (r : PathState × Bool) (h : generateNginxCfg.defaultLocation e st grpcOnly = some r) :
    r.1.upstreams = st.upstreams ∧ r.1.server = st.server := by
  rcases generateNginxCfg.defaultLocation_spec e st grpcOnly r h with
    ⟨_, rfl⟩ | ⟨_, _, _, _, _, rfl⟩ <;> exact ⟨rfl, rfl⟩

/-- The `upstreams` map after the body of the loop over the rules. -/
theorem generateNginxCfg.rule_upstreams (e : Env) (upstreams upstreams' : GoMap Upstream)
    (rule : IngressRule) (server : Server)
    (h : generateNginxCfg.rule e upstreams rule = some (upstreams', server)) :
    (∀ n, n ∈ GoMap.keys upstreams' ↔
      n ∈ GoMap.keys upstreams ∨
      n ∈ (honoredPaths e.isMinion e.ingEx rule).map
            (fun p => getNameForUpstream e.ingEx.Ingress rule.Host p.Backend)) ∧
    (∀ k u, GoMap.lookup upstreams k = some u → GoMap.lookup upstreams' k = some u) ∧
    ((∀ n, (e.ext.NewUpstreamWithDefaultServer n).Name = n) →
      UpstreamsNamed upstreams → UpstreamsNamed upstreams') := by
  obtain ⟨s0, s1, st, r, _, _, h2, h3, rfl, _⟩ := generateNginxCfg.rule_spec e _ _ _ _ h
  rw [(generateNginxCfg.defaultLocation_upstreams e st _ r h3).1]
  exact generateNginxCfg.paths_upstreams e rule.Host _ _ st h2

theorem validRules_cons_aux (ingEx : IngressEx) (rule : IngressRule) (rest : List IngressRule) :
    (rule :: rest).filter (fun r => GoMap.get ingEx.ValidHosts r.Host) =
    if GoMap.get ingEx.ValidHosts rule.Host = true then
      rule :: rest.filter (fun r => GoMap.get ingEx.ValidHosts r.Host)
    else rest.filter (fun r => GoMap.get ingEx.ValidHosts r.Host) := by
  by_cases h : GoMap.get ingEx.ValidHosts rule.Host = true
  · simp [List.filter_cons, h]
  · simp [List.filter_cons, h]

/-- The loop over the rules, one step: a rule with an invalid host is skipped. -/
theorem generateNginxCfg.rules_cons (e : Env) (rule : IngressRule) (rest : List IngressRule)
    (st : GoMap Upstream × List Server) :
    generateNginxCfg.rules e (rule :: rest) st =
    if GoMap.get e.ingEx.ValidHosts rule.Host = true then
      (generateNginxCfg.rule e st.1 rule).bind fun r =>
        generateNginxCfg.rules e rest (r.1, st.2 ++ [r.2])
    else generateNginxCfg.rules e rest st := by
  by_cases h : GoMap.get e.ingEx.ValidHosts rule.Host = true
  · simp [generateNginxCfg.rules, h]
  · simp [generateNginxCfg.rules, h]

/-- The `upstreams` map after the loop over the rules. -/
theorem generateNginxCfg.rules_upstreams (e : Env) :
    ∀ (rules : List IngressRule) (st st' : GoMap Upstream × List Server),
      generateNginxCfg.rules e rules st = some st' →
      (∀ n, n ∈ GoMap.keys st'.1 ↔
        n ∈ GoMap.keys st.1 ∨
        n ∈ ((rules.filter fun r => GoMap.get e.ingEx.ValidHosts r.Host).map fun rule =>
              (honoredPaths e.isMinion e.ingEx rule).map fun p =>
                getNameForUpstream e.ingEx.Ingress rule.Host p.Backend).flatten) ∧
      (∀ k u, GoMap.lookup st.1 k = some u → GoMap.lookup st'.1 k = some u) ∧
      ((∀ n, (e.ext.NewUpstreamWithDefaultServer n).Name = n) →
        UpstreamsNamed st.1 → UpstreamsNamed st'.1)
  | [], st, st', h => by
    simp only [generateNginxCfg.rules, Option.some.injEq] at h
    subst h
    simp
  | rule :: rest, st, st', h => by
    rw [generateNginxCfg.rules_cons] at h
    rw [validRules_cons_aux]
    split_ifs at h with hv
    · simp only [Option.bind_eq_some] at h
      obtain ⟨r, h1, h2⟩ := h
      obtain ⟨ih1, ih2, ih3⟩ := generateNginxCfg.rules_upstreams e rest _ st' h2
      obtain ⟨r1, r2, r3⟩ := generateNginxCfg.rule_upstreams e st.1 r.1 rule r.2 h1
      rw [if_pos hv]
      refine ⟨?_, ?_, ?_⟩
      · intro n
        rw [ih1 n]
        simp only [r1 n, List.map_cons, List.flatten_cons, List.mem_append]
        tauto
      · intro k u hk
        exact ih2 k u (r2 k u hk)
      · intro hN hinv
        exact ih3 hN (r3 hN hinv)
    · rw [if_neg hv]
      exact generateNginxCfg.rules_upstreams e rest st st' h

/-- The `upstreams` map after lines 76-87. -/
theorem generateNginxCfg.defaultBackend_spec (e : Env) (d : GoMap Upstream × GoMap HealthCheck)
    (h : generateNginxCfg.defaultBackend e = some d) :
    (e.ingEx.Ingress.Spec.Backend = none ∧ d.1 = []) ∨
    (∃ backend upstream,
      e.ingEx.Ingress.Spec.Backend = some backend ∧
      createUpstream e.ext e.ingEx (getNameForUpstream e.ingEx.Ingress emptyHost backend) backend
        (GoMap.get e.spServices backend.ServiceName) e.cfgParams e.isPlus e.isResolverConfigured
        e.staticParams.EnableLatencyMetrics = some upstream ∧
      d.1 = [(getNameForUpstream e.ingEx.Ingress emptyHost backend, upstream)]) := by
  unfold generateNginxCfg.defaultBackend at h
  split at h
  · rename_i hb
    simp only [Option.some.injEq] at h
    exact Or.inl ⟨hb, by rw [← h]⟩
  · rename_i backend hb
    simp only [Option.bind_eq_some, Option.some.injEq] at h
    obtain ⟨u, h1, hc, _, h2⟩ := h
    exact Or.inr ⟨backend, u, hb, h1, by rw [← h2]; rfl⟩

theorem generateNginxCfg.grpcGate_fields (e : Env) :
    (generateNginxCfg.grpcGate e).ext = e.ext ∧ (generateNginxCfg.grpcGate e).ingEx = e.ingEx ∧
    (generateNginxCfg.grpcGate e).isMinion = e.isMinion ∧
    (generateNginxCfg.grpcGate e).cfgParams = e.cfgParams ∧
    (generateNginxCfg.grpcGate e).isPlus = e.isPlus ∧
    (generateNginxCfg.grpcGate e).staticParams = e.staticParams ∧
    (generateNginxCfg.grpcGate e).isResolverConfigured = e.isResolverConfigured ∧
    (generateNginxCfg.grpcGate e).spServices = e.spServices := by
  unfold generateNginxCfg.grpcGate
  split <;> simp

/-- The `upstreams` map at the end of `generateNginxCfg`: its keys are the names of
the upstreams to build, each once, and each upstream is stored under its name. -/
theorem generateNginxCfg.synth_upstreams (e : Env) (r : GoMap Upstream × List Server)
    (h : generateNginxCfg.synth e = some r) :
    (∀ n, n ∈ GoMap.keys r.1 ↔ n ∈ builtUpstreamNames e.isMinion e.ingEx) ∧
    ((∀ n, (e.ext.NewUpstreamWithDefaultServer n).Name = n) → UpstreamsNamed r.1) := by
  unfold generateNginxCfg.synth at h
  simp only [Option.bind_eq_some] at h
  obtain ⟨d, hd, hr⟩ := h
  obtain ⟨g1, g2, g3, g4, g5, g6, g7, g8⟩ := generateNginxCfg.grpcGate_fields e
  obtain ⟨k1, _, k3⟩ := generateNginxCfg.rules_upstreams _ _ _ r hr
  simp only [g1, g2, g3] at k1 k3
  unfold builtUpstreamNames validRules
  rcases generateNginxCfg.defaultBackend_spec _ d hd with ⟨hb, hd1⟩ | ⟨b, u, hb, hc, hd1⟩
  · simp only [g2] at hb
    rw [hd1] at k1 k3
    refine ⟨?_, fun hN => k3 hN ⟨List.nodup_nil, fun p hp => absurd hp (List.not_mem_nil p)⟩⟩
    intro n
    rw [k1 n, hb]
    simp [GoMap.keys]
  · simp only [g1, g2, g4, g5, g6, g7, g8] at hb hc hd1
    rw [hd1] at k1 k3
    refine ⟨?_, fun hN => k3 hN ⟨?_, ?_⟩⟩
    · intro n
      rw [k1 n, hb]
      simp [GoMap.keys]
    · simp [GoMap.keys]
    · intro p hp
      simp only [List.mem_singleton] at hp
      subst hp
      exact createUpstream_name _ _ _ _ _ _ _ _ _ hN u hc

/-! ## C1: the returned upstream list -/

/-- C1. For every input on which `generateNginxCfg` returns a config `cfg` (with
`NewUpstreamWithDefaultServer name` named `name`): the names of `cfg.Upstreams` are
strictly ascending in the order of strings, so none occurs twice; they are exactly the
names of the upstreams the call has to build (default backend and honored paths of the
valid rules); `cfg.Upstreams` holds exactly the values of the `upstreams` map, whose keys
are distinct and are the names of the upstreams stored under them; and the list is the
same for every order in which `range` visits that map. -/
theorem generateNginxCfg_upstreams_sorted (ext : External) (ingEx : IngressEx)
    (apResources : GoMap String) (isMinion : Bool) (baseCfgParams : ConfigParams)
    (isPlus isResolverConfigured : Bool) (staticParams : StaticConfigParams)
    (isWildcardEnabled : Bool) (cfg : IngressNginxConfig)
    (hN : ∀ name, (ext.NewUpstreamWithDefaultServer name).Name = name)
    (h : generateNginxCfg ext ingEx apResources isMinion baseCfgParams isPlus
      isResolverConfigured staticParams isWildcardEnabled = some cfg) :
    (cfg.Upstreams.map fun u => u.Name).Sorted (fun a b => a < b) ∧
    (∀ n, n ∈ (cfg.Upstreams.map fun u => u.Name) ↔ n ∈ builtUpstreamNames isMinion ingEx) ∧
    ∃ upstreams servers,
      generateNginxCfg.synth (generateNginxCfg.locals ext ingEx apResources isMinion
        baseCfgParams isPlus isResolverConfigured staticParams isWildcardEnabled)
        = some (upstreams, servers) ∧
      (GoMap.keys upstreams).Nodup ∧
      (∀ p ∈ upstreams, p.2.Name = p.1) ∧
      cfg.Upstreams.Perm (GoMap.values upstreams) ∧
      ∀ upstreams' : GoMap Upstream, upstreams'.Perm upstreams →
        upstreamMapToSlice upstreams' = cfg.Upstreams := by
  unfold generateNginxCfg generateNginxCfg.body at h
  simp only [Option.bind_eq_some, Option.some.injEq] at h
  obtain ⟨r, hr, rfl⟩ := h
  obtain ⟨hk, hnamed⟩ := generateNginxCfg.synth_upstreams _ r hr
  have hk : ∀ n, n ∈ GoMap.keys r.1 ↔ n ∈ builtUpstreamNames isMinion ingEx := hk
  have hnamed := hnamed hN
  have hnames := upstreamMapToSlice_names r.1 hnamed
  refine ⟨?_, ?_, r.1, r.2, hr, hnamed.1, hnamed.2, upstreamMapToSlice_perm r.1 hnamed.1,
    fun m' hm' => upstreamMapToSlice_congr hm' hnamed.1⟩
  · show ((upstreamMapToSlice r.1).map fun u => u.Name).Sorted _
    rw [hnames]
    exact sortStrings_strict _ hnamed.1
  · intro n
    show n ∈ ((upstreamMapToSlice r.1).map fun u => u.Name) ↔ _
    rw [hnames, ← hk n]
    exact (sortStrings_perm _).mem_iff

/-- C1 on the cafe ingress: the three upstreams are returned in ascending order of
their names. -/
theorem generateNginxCfg_upstreams_sorted_witness :
    (generateNginxCfg exampleExternal exampleIngress [] false default true false default
        false).map (fun cfg => cfg.Upstreams.map fun u => u.Name)
      = some ["default-cafe--dflt-80", "default-cafe-cafe.example.com-coffee-svc-http",
              "default-cafe-cafe.example.com-tea-svc-80"] ∧
    List.Sorted (fun a b : String => a < b)
      ["default-cafe--dflt-80", "default-cafe-cafe.example.com-coffee-svc-http",
       "default-cafe-cafe.example.com-tea-svc-80"] := by
  have hrun : generateNginxCfg exampleExternal exampleIngress [] false default true false default
      false = some ((generateNginxCfg exampleExternal exampleIngress [] false default true false
        default false).getD default) := by rfl
  have hnames : (((generateNginxCfg exampleExternal exampleIngress [] false default true false
      default false).getD default).Upstreams.map fun u => u.Name)
      = ["default-cafe--dflt-80", "default-cafe-cafe.example.com-coffee-svc-http",
         "default-cafe-cafe.example.com-tea-svc-80"] := by rfl
  have key := (generateNginxCfg_upstreams_sorted exampleExternal exampleIngress [] false default
    true false default false _ (fun _ => rfl) hrun).1
  rw [hnames] at key
  refine ⟨?_, key⟩
  rw [hrun]
  exact congrArg some hnames

/-! ## The locations of a server -/

theorem generateNginxCfg.location_congr (e : Env) (upstreams upstreams' : GoMap Upstream)
    (upsName path : String) (pathType : Option PathType) (backend : IngressBackend)
    (h : GoMap.lookup upstreams' upsName = GoMap.lookup upstreams upsName) :
    generateNginxCfg.location e upstreams' upsName path pathType backend =
    generateNginxCfg.location e upstreams upsName path pathType backend := by
  unfold generateNginxCfg.location GoMap.get
  rw [h]

/-- The JWT block of a server or location changes `server.JWTRedirectLocations` only. -/
theorem generateNginxCfg.jwt_server (e : Env) (server : Server) (r : JWTAuth × Server)
    (h : generateNginxCfg.jwt e server = some r) :
    ∃ jwts, r.2 = { server with JWTRedirectLocations := server.JWTRedirectLocations ++ jwts } := by
  unfold generateNginxCfg.jwt at h
  simp only [Option.bind_eq_some] at h
  obtain ⟨x, _, hx⟩ := h
  split at hx
  · rename_i redirectLoc _
    simp only [Option.some.injEq] at hx
    exact ⟨[redirectLoc], by rw [← hx]⟩
  · simp only [Option.some.injEq] at hx
    exact ⟨[], by rw [← hx]; simp⟩

theorem generateNginxCfg.locationJWT_spec (e : Env) (loc : Location) (server : Server)
    (r : Location × Server) (h : generateNginxCfg.locationJWT e loc server = some r) :
    (∃ jwt, r.1 = { loc with JWTAuth := jwt }) ∧
    ∃ jwts, r.2 = { server with JWTRedirectLocations := server.JWTRedirectLocations ++ jwts } := by
  unfold generateNginxCfg.locationJWT at h
  split at h
  · simp only [Option.bind_eq_some, Option.some.injEq] at h
    obtain ⟨x, hx, rfl⟩ := h
    exact ⟨⟨_, rfl⟩, generateNginxCfg.jwt_server e server x hx⟩
  · simp only [Option.some.injEq] at h
    subst h
    exact ⟨⟨loc.JWTAuth, rfl⟩, [], by simp⟩

theorem IsLocationOf.fields {e : Env} {upstreams : GoMap Upstream} {host : String}
    {path : HTTPIngressPath} {loc : Location} (h : IsLocationOf e upstreams host path loc) :
    ∃ jwt, loc =
      { generateNginxCfg.location e upstreams
          (getNameForUpstream e.ingEx.Ingress host path.Backend) path.Path path.PathType
          path.Backend with JWTAuth := jwt } := by
  obtain ⟨s, s', h⟩ := h
  exact (generateNginxCfg.locationJWT_spec e _ s _ h).1

theorem IsLocationOf.congrLocation {e : Env} {upstreams upstreams' : GoMap Upstream} {host : String}
    {path : HTTPIngressPath} {loc : Location} (h : IsLocationOf e upstreams host path loc)
    (hl : GoMap.lookup upstreams' (getNameForUpstream e.ingEx.Ingress host path.Backend) =
      GoMap.lookup upstreams (getNameForUpstream e.ingEx.Ingress host path.Backend)) :
    IsLocationOf e upstreams' host path loc := by
  obtain ⟨s, s', h⟩ := h
  refine ⟨s, s', ?_⟩
  rw [generateNginxCfg.location_congr e upstreams upstreams' _ _ _ _ hl]
  exact h

theorem generateNginxCfg.upstream_lookup_self (e : Env) (upstreams upstreams' : GoMap Upstream)
    (backend : IngressBackend) (upsName : String)
    (h : generateNginxCfg.upstream e upstreams backend upsName = some upstreams') :
    ∃ u, GoMap.lookup upstreams' upsName = some u := by
  rcases generateNginxCfg.upstream_spec e _ _ _ _ h with ⟨u, hu, rfl⟩ | ⟨u, _, _, rfl⟩
  · exact ⟨u, hu⟩
  · exact ⟨u, by rw [GoMap.lookup_insert]; simp⟩

/-- The locations, the `rootLocation` flag and the server after the loop over the
paths of a rule: one location per honored path, in order. -/
theorem generateNginxCfg.paths_locations (e : Env) (host : String) :
    ∀ (paths : List HTTPIngressPath) (st st' : PathState),
      generateNginxCfg.paths e host paths st = some st' →
      ∃ locs,
        st'.locations = st.locations ++ locs ∧
        List.Forall₂ (IsLocationOf e st'.upstreams host)
          (paths.filter fun p => !(e.isMinion && !GoMap.get e.ingEx.ValidMinionPaths p.Path))
          locs ∧
        (st'.rootLocation = true ↔ st.rootLocation = true ∨ ∃ l ∈ locs, l.Path = "/") ∧
        ∃ jwts, st'.server =
          { st.server with JWTRedirectLocations := st.server.JWTRedirectLocations ++ jwts }
  | [], st, st', h => by
    simp only [generateNginxCfg.paths, Option.some.injEq] at h
    subst h
    exact ⟨[], by simp, by simp, by simp, [], by simp⟩
  | path :: rest, st, st', h => by
    simp only [generateNginxCfg.paths, Option.bind_eq_some] at h
    obtain ⟨st1, h1, h2⟩ := h
    obtain ⟨locs, il, ifa, ir, jwts, is⟩ := generateNginxCfg.paths_locations e host rest st1 st' h2
    obtain ⟨_, plk, _⟩ := generateNginxCfg.paths_upstreams e host rest st1 st' h2
    rw [honoredPaths_cons_aux]
    rcases generateNginxCfg.path_spec e host st st1 path h1 with
      ⟨hs, rfl⟩ | ⟨hs, hc, ups, r, _, hu, hj, rfl⟩
    · rw [if_pos hs]
      exact ⟨locs, il, ifa, ir, jwts, is⟩
    · rw [if_neg (by simp [hs])]
      obtain ⟨u, hlu⟩ := generateNginxCfg.upstream_lookup_self e _ _ _ _ hu
      obtain ⟨_, jwts1, hs1⟩ := generateNginxCfg.locationJWT_spec e _ _ r hj
      refine ⟨r.1 :: locs, ?_, ?_, ?_, jwts1 ++ jwts, ?_⟩
      · rw [il]
        simp
      · refine List.Forall₂.cons ?_ ifa
        have hloc : IsLocationOf e ups host path r.1 := ⟨st.server, r.2, hj⟩
        refine hloc.congrLocation ?_
        rw [hlu]
        exact plk _ u hlu
      · rw [ir]
        simp only [List.mem_cons, exists_eq_or_imp]
        by_cases hp : r.1.Path = "/"
        · simp [hp]
        · simp [hp]
      · rw [is]
        simp only
        rw [hs1]
        simp

/-! ## The health checks of a server -/

theorem createHealthCheck_name (hc : Probe) (upstreamName : String) (cfg : ConfigParams)
    (h : HealthCheck) (hh : createHealthCheck hc upstreamName cfg = some h) :
    h.UpstreamName = upstreamName := by
  unfold createHealthCheck at hh
  split at hh
  · exact absurd hh (by simp)
  · simp only [Option.some.injEq] at hh
    rw [← hh]

/-- The health-check block, unfolded. -/
theorem generateNginxCfg.healthCheck_spec (e : Env) (healthChecks healthChecks' : GoMap HealthCheck)
    (backend : IngressBackend) (name : String)
    (h : generateNginxCfg.healthCheck e healthChecks backend name = some healthChecks') :
    (hasProbe e backend = true ∧ ∃ hc, hc.UpstreamName = name ∧
      healthChecks' = GoMap.insert healthChecks name hc) ∨
    (hasProbe e backend = false ∧ healthChecks' = healthChecks) := by
  unfold generateNginxCfg.healthCheck at h
  unfold hasProbe
  split at h
  · rename_i hen
    split at h
    · rename_i probe hp
      simp only [Option.bind_eq_some, Option.some.injEq] at h
      obtain ⟨hc, h1, rfl⟩ := h
      exact Or.inl ⟨by simp [hen, hp], hc, createHealthCheck_name _ _ _ _ h1, rfl⟩
    · rename_i hp
      simp only [Option.some.injEq] at h
      exact Or.inr ⟨by simp [hp], h.symm⟩
  · rename_i hen
    simp only [Option.some.injEq] at h
    exact Or.inr ⟨by simp [hen], h.symm⟩

theorem generateNginxCfg.healthCheck_keys (e : Env) (healthChecks healthChecks' : GoMap HealthCheck)
    (backend : IngressBackend) (name : String)
    (h : generateNginxCfg.healthCheck e healthChecks backend name = some healthChecks') :
    (∀ n, n ∈ GoMap.keys healthChecks' ↔
      n ∈ GoMap.keys healthChecks ∨ (hasProbe e backend = true ∧ n = name)) ∧
    ((∀ p ∈ healthChecks, p.2.UpstreamName = p.1) →
      ∀ p ∈ healthChecks', p.2.UpstreamName = p.1) := by
  rcases generateNginxCfg.healthCheck_spec e _ _ _ _ h with ⟨hp, hc, hn, rfl⟩ | ⟨hp, rfl⟩
  · refine ⟨fun n => ?_, fun hinv p hm => ?_⟩
    · rw [GoMap.mem_keys_insert]
      simp only [hp, true_and]
      exact or_comm
    · rcases GoMap.mem_insert _ _ _ p hm with rfl | hm
      · exact hn
      · exact hinv p hm
  · exact ⟨fun n => by simp [hp], fun hinv => hinv⟩

/-- The `healthChecks` map after the loop over the paths of a rule. -/
theorem generateNginxCfg.paths_healthChecks (e : Env) (host : String) :
    ∀ (paths : List HTTPIngressPath) (st st' : PathState),
      generateNginxCfg.paths e host paths st = some st' →
      (∀ n, n ∈ GoMap.keys st'.healthChecks ↔
        n ∈ GoMap.keys st.healthChecks ∨
        ∃ p ∈ (paths.filter fun p =>
                !(e.isMinion && !GoMap.get e.ingEx.ValidMinionPaths p.Path)),
          hasProbe e p.Backend = true ∧ n = getNameForUpstream e.ingEx.Ingress host p.Backend) ∧
      ((∀ p ∈ st.healthChecks, p.2.UpstreamName = p.1) →
        ∀ p ∈ st'.healthChecks, p.2.UpstreamName = p.1)
  | [], st, st', h => by
    simp only [generateNginxCfg.paths, Option.some.injEq] at h
    subst h
    simp
  | path :: rest, st, st', h => by
    simp only [generateNginxCfg.paths, Option.bind_eq_some] at h
    obtain ⟨st1, h1, h2⟩ := h
    obtain ⟨ih1, ih2⟩ := generateNginxCfg.paths_healthChecks e host rest st1 st' h2
    rw [honoredPaths_cons_aux]
    rcases generateNginxCfg.path_spec e host st st1 path h1 with
      ⟨hs, rfl⟩ | ⟨hs, hc, ups, r, hh, _, _, rfl⟩
    · rw [if_pos hs]
      exact ⟨ih1, ih2⟩
    · rw [if_neg (by simp [hs])]
      obtain ⟨k1, k2⟩ := generateNginxCfg.healthCheck_keys e _ _ _ _ hh
      refine ⟨fun n => ?_, fun hinv => ih2 (k2 hinv)⟩
      rw [ih1 n]
      simp only [k1 n, List.mem_cons, exists_eq_or_imp]
      tauto

/-! ## The server of a rule -/

theorem implicitLocations_congr (e : Env) (upstreams upstreams' : GoMap Upstream)
    (locs : List Location)
    (h : ∀ backend, e.ingEx.Ingress.Spec.Backend = some backend →
      GoMap.lookup upstreams' (getNameForUpstream e.ingEx.Ingress emptyHost backend) =
      GoMap.lookup upstreams (getNameForUpstream e.ingEx.Ingress emptyHost backend)) :
    implicitLocations e upstreams' locs = implicitLocations e upstreams locs := by
  unfold implicitLocations
  split
  · rfl
  · rename_i backend hb
    rw [generateNginxCfg.location_congr e upstreams upstreams' _ _ _ _ (h backend hb)]

theorem generateNginxCfg.location_serviceName (e : Env) (upstreams : GoMap Upstream)
    (upsName path : String) (pathType : Option PathType) (backend : IngressBackend) :
    (generateNginxCfg.location e upstreams upsName path pathType backend).ServiceName =
      backend.ServiceName := rfl

theorem forall₂_imp_of_mem {α β : Type} {R S : α → β → Prop} {l1 : List α} {l2 : List β}
    (h : List.Forall₂ R l1 l2) (hi : ∀ a ∈ l1, ∀ b, R a b → S a b) : List.Forall₂ S l1 l2 := by
  induction h with
  | nil => exact List.Forall₂.nil
  | cons hab _ ih =>
    exact List.Forall₂.cons (hi _ (List.mem_cons_self _ _) _ hab)
      (ih fun a ha b hr => hi a (List.mem_cons_of_mem _ ha) b hr)

theorem IsServerOf.congrServer {e : Env} {upstreams upstreams' : GoMap Upstream} {rule : IngressRule}
    {server : Server} (h : IsServerOf e upstreams rule server)
    (hl : ∀ k u, GoMap.lookup upstreams k = some u → GoMap.lookup upstreams' k = some u)
    (hd : ∀ backend, e.ingEx.Ingress.Spec.Backend = some backend →
      ∃ u, GoMap.lookup upstreams (getNameForUpstream e.ingEx.Ingress emptyHost backend) = some u)
    (hp : ∀ p ∈ honoredPaths e.isMinion e.ingEx rule,
      ∃ u, GoMap.lookup upstreams (getNameForUpstream e.ingEx.Ingress rule.Host p.Backend) =
        some u) :
    IsServerOf e upstreams' rule server := by
  obtain ⟨s0, s1, locs, jwts, h0, h1, hfa, hk, hn, hs⟩ := h
  have himp : implicitLocations e upstreams' locs = implicitLocations e upstreams locs := by
    apply implicitLocations_congr
    intro b hb
    obtain ⟨u, hu⟩ := hd b hb
    rw [hu, hl _ u hu]
  refine ⟨s0, s1, locs, jwts, h0, h1, ?_, hk, hn, ?_⟩
  · refine forall₂_imp_of_mem hfa ?_
    intro p hpm l hlo
    obtain ⟨u, hu⟩ := hp p hpm
    exact hlo.congrLocation (by rw [hu, hl _ u hu])
  · rw [himp]
    exact hs

/-- The server that the body of the loop over the rules returns. -/
theorem generateNginxCfg.rule_server (e : Env) (upstreams upstreams' : GoMap Upstream)
    (rule : IngressRule) (server : Server)
    (h : generateNginxCfg.rule e upstreams rule = some (upstreams', server)) :
    IsServerOf e upstreams' rule server := by
  obtain ⟨s0, s1, st, r, h0, h1, h2, h3, rfl, rfl⟩ := generateNginxCfg.rule_spec e _ _ _ _ h
  obtain ⟨locs, hl, hfa, hroot, jwts, hsrv⟩ := generateNginxCfg.paths_locations e _ _ _ st h2
  obtain ⟨hk, hn⟩ := generateNginxCfg.paths_healthChecks e _ _ _ st h2
  simp only [List.nil_append] at hl
  simp only [Bool.false_eq_true, false_or] at hroot
  have hk : ∀ n, n ∈ GoMap.keys st.healthChecks ↔
      ∃ p ∈ honoredPaths e.isMinion e.ingEx rule,
        hasProbe e p.Backend = true ∧ n = getNameForUpstream e.ingEx.Ingress rule.Host p.Backend := by
    intro n
    rw [hk n]
    simp [GoMap.keys, honoredPaths]
  have hn : ∀ p ∈ st.healthChecks, p.2.UpstreamName = p.1 :=
    hn (fun p hp => absurd hp (List.not_mem_nil p))
  have hany : locs.any (fun l => decide (l.Path = "/")) = st.rootLocation := by
    rw [Bool.eq_iff_iff, hroot]
    simp
  rcases generateNginxCfg.defaultLocation_spec e st _ r h3 with
    ⟨hcond, rfl⟩ | ⟨b, hcs, hb, hr, hh, rfl⟩
  · have himp : implicitLocations e st.upstreams locs = [] := by
      unfold implicitLocations
      rcases hcond with hb | hr
      · rw [hb]
      · split
        · rfl
        · rw [hany, hr]
          rfl
    refine ⟨s0, s1, locs, jwts, h0, h1, hfa, ?_, hn, ?_⟩
    · intro n
      show n ∈ GoMap.keys st.healthChecks ↔ _
      rw [hk n]
      constructor
      · exact Or.inl
      · rintro (h | ⟨b, hb, hnr, _⟩)
        · exact h
        · exfalso
          rcases hcond with hb' | hr
          · rw [hb'] at hb
            exact absurd hb (by simp)
          · obtain ⟨l, hl1, hl2⟩ := hroot.1 hr
            exact hnr l hl1 hl2
    · rw [himp, hsrv, hl]
      simp
  · have himp : implicitLocations e st.upstreams locs =
        [generateNginxCfg.location e st.upstreams
          (getNameForUpstream e.ingEx.Ingress emptyHost b) "/" (some PathTypePrefix) b] := by
      unfold implicitLocations
      rw [hb]
      simp only
      rw [hany, hr]
      rfl
    obtain ⟨k1, k2⟩ := generateNginxCfg.healthCheck_keys e _ _ _ _ hh
    refine ⟨s0, s1, locs, jwts, h0, h1, hfa, ?_, k2 hn, ?_⟩
    · intro n
      show n ∈ GoMap.keys hcs ↔ _
      rw [k1 n, hk n]
      have hnr : ∀ l ∈ locs, l.Path ≠ "/" := by
        intro l hl1 hl2
        have := hroot.2 ⟨l, hl1, hl2⟩
        rw [hr] at this
        exact absurd this (by simp)
      constructor
      · rintro (h | ⟨h1, h2⟩)
        · exact Or.inl h
        · exact Or.inr ⟨b, hb, hnr, h1, h2⟩
      · rintro (h | ⟨b', hb', _, h1, h2⟩)
        · exact Or.inl h
        · rw [hb] at hb'
          cases hb'
          exact Or.inr ⟨h1, h2⟩
    · rw [himp, hsrv, hl]
      simp only [List.all_cons, List.all_nil, Bool.and_true,
        generateNginxCfg.location_serviceName]
      cases hg : (GoMap.lookup e.grpcServices b.ServiceName).isSome <;> simp

/-! ## The servers of a config -/

/-- The servers after the loop over the rules: one per rule with a valid host, in
order, appended to the servers built before. -/
theorem generateNginxCfg.rules_servers (e : Env) :
    ∀ (rules : List IngressRule) (st st' : GoMap Upstream × List Server),
      generateNginxCfg.rules e rules st = some st' →
      (∀ backend, e.ingEx.Ingress.Spec.Backend = some backend →
        ∃ u, GoMap.lookup st.1 (getNameForUpstream e.ingEx.Ingress emptyHost backend) = some u) →
      ∃ servers, st'.2 = st.2 ++ servers ∧
        List.Forall₂ (IsServerOf e st'.1)
          (rules.filter fun r => GoMap.get e.ingEx.ValidHosts r.Host) servers
  | [], st, st', h, _ => by
    simp only [generateNginxCfg.rules, Option.some.injEq] at h
    subst h
    exact ⟨[], by simp, by simp⟩
  | rule :: rest, st, st', h, hd => by
    rw [generateNginxCfg.rules_cons] at h
    rw [validRules_cons_aux]
    split_ifs at h with hv
    · simp only [Option.bind_eq_some] at h
      obtain ⟨r, h1, h2⟩ := h
      obtain ⟨r1, r2, _⟩ := generateNginxCfg.rule_upstreams e st.1 r.1 rule r.2 h1
      have hd1 : ∀ backend, e.ingEx.Ingress.Spec.Backend = some backend →
          ∃ u, GoMap.lookup r.1 (getNameForUpstream e.ingEx.Ingress emptyHost backend) = some u := by
        intro b hb
        obtain ⟨u, hu⟩ := hd b hb
        exact ⟨u, r2 _ u hu⟩
      obtain ⟨servers, hs, hfa⟩ := generateNginxCfg.rules_servers e rest _ st' h2 hd1
      obtain ⟨_, k2, _⟩ := generateNginxCfg.rules_upstreams e rest _ st' h2
      have hsrv : IsServerOf e st'.1 rule r.2 := by
        refine (generateNginxCfg.rule_server e st.1 r.1 rule r.2 h1).congrServer k2 hd1 ?_
        intro p hp
        have hk : getNameForUpstream e.ingEx.Ingress rule.Host p.Backend ∈ GoMap.keys r.1 :=
          (r1 _).2 (Or.inr (List.mem_map_of_mem _ hp))
        rw [← GoMap.lookup_isSome_iff] at hk
        exact Option.isSome_iff_exists.1 hk
      rw [if_pos hv]
      refine ⟨r.2 :: servers, ?_, List.Forall₂.cons hsrv hfa⟩
      rw [hs]
      simp
    · rw [if_neg hv]
      exact generateNginxCfg.rules_servers e rest st st' h hd

/-- The result of lines 67-231: every server is the server of a rule with a valid
host, in declaration order, and the upstream of the default backend is in the map. -/
theorem generateNginxCfg.synth_servers (e : Env) (r : GoMap Upstream × List Server)
    (h : generateNginxCfg.synth e = some r) :
    List.Forall₂ (IsServerOf (generateNginxCfg.grpcGate e) r.1) (validRules e.ingEx) r.2 ∧
    ∀ backend, e.ingEx.Ingress.Spec.Backend = some backend →
      ∃ u, createUpstream e.ext e.ingEx (getNameForUpstream e.ingEx.Ingress emptyHost backend)
          backend (GoMap.get e.spServices backend.ServiceName) e.cfgParams e.isPlus
          e.isResolverConfigured e.staticParams.EnableLatencyMetrics = some u ∧
        GoMap.lookup r.1 (getNameForUpstream e.ingEx.Ingress emptyHost backend) = some u := by
  unfold generateNginxCfg.synth at h
  simp only [Option.bind_eq_some] at h
  obtain ⟨d, hd, hr⟩ := h
  obtain ⟨g1, g2, g3, g4, g5, g6, g7, g8⟩ := generateNginxCfg.grpcGate_fields e
  have hdef : ∀ backend, (generateNginxCfg.grpcGate e).ingEx.Ingress.Spec.Backend = some backend →
      ∃ u, createUpstream e.ext e.ingEx (getNameForUpstream e.ingEx.Ingress emptyHost backend)
          backend (GoMap.get e.spServices backend.ServiceName) e.cfgParams e.isPlus
          e.isResolverConfigured e.staticParams.EnableLatencyMetrics = some u ∧
        GoMap.lookup d.1
          (getNameForUpstream (generateNginxCfg.grpcGate e).ingEx.Ingress emptyHost backend) =
          some u := by
    intro b hb
    rcases generateNginxCfg.defaultBackend_spec _ d hd with ⟨hb', _⟩ | ⟨b', u, hb', hc, hd1⟩
    · rw [hb'] at hb
      exact absurd hb (by simp)
    · rw [hb'] at hb
      cases hb
      simp only [g1, g2, g4, g5, g6, g7, g8] at hc
      refine ⟨u, hc, ?_⟩
      rw [hd1]
      simp [GoMap.lookup]
  obtain ⟨servers, hs, hfa⟩ := generateNginxCfg.rules_servers _ _ _ r hr
    (fun b hb => (hdef b hb).imp fun u hu => hu.2)
  obtain ⟨_, k2, _⟩ := generateNginxCfg.rules_upstreams _ _ _ r hr
  simp only [List.nil_append] at hs
  refine ⟨?_, ?_⟩
  · rw [hs]
    unfold validRules
    simp only [g2] at hfa
    exact hfa
  · intro b hb
    obtain ⟨u, hc, hl⟩ := hdef b (by rw [g2]; exact hb)
    simp only [g2] at hl
    exact ⟨u, hc, k2 _ u hl⟩

/-! ## C3: one server per rule with a valid host -/

theorem generateNginxCfg.path_withRules (e : Env) (rules : List IngressRule) (host : String)
    (st : PathState) (path : HTTPIngressPath) :
    generateNginxCfg.path (e.withRules rules) host st path = generateNginxCfg.path e host st path :=
  rfl

theorem generateNginxCfg.paths_withRules (e : Env) (rules : List IngressRule) (host : String) :
    ∀ (paths : List HTTPIngressPath) (st : PathState),
      generateNginxCfg.paths (e.withRules rules) host paths st =
      generateNginxCfg.paths e host paths st
  | [], _ => rfl
  | path :: rest, st => by
    simp only [generateNginxCfg.paths, generateNginxCfg.path_withRules]
    cases generateNginxCfg.path e host st path with
    | none => rfl
    | some st1 => exact generateNginxCfg.paths_withRules e rules host rest st1

theorem generateNginxCfg.rule_withRules (e : Env) (rules : List IngressRule)
    (upstreams : GoMap Upstream) (rule : IngressRule) :
    generateNginxCfg.rule (e.withRules rules) upstreams rule =
    generateNginxCfg.rule e upstreams rule := by
  unfold generateNginxCfg.rule
  simp only [generateNginxCfg.paths_withRules]
  rfl

theorem generateNginxCfg.rules_withRules (e : Env) (rules : List IngressRule) :
    ∀ (l : List IngressRule) (st : GoMap Upstream × List Server),
      generateNginxCfg.rules (e.withRules rules) l st = generateNginxCfg.rules e l st
  | [], _ => rfl
  | rule :: rest, st => by
    rw [generateNginxCfg.rules_cons, generateNginxCfg.rules_cons,
      generateNginxCfg.rule_withRules]
    have hv : (e.withRules rules).ingEx.ValidHosts = e.ingEx.ValidHosts := rfl
    rw [hv]
    split_ifs
    · cases generateNginxCfg.rule e st.1 rule with
      | none => rfl
      | some r => exact generateNginxCfg.rules_withRules e rules rest _
    · exact generateNginxCfg.rules_withRules e rules rest st

/-- The loop over the rules skips the rules with an invalid host. -/
theorem generateNginxCfg.rules_filter (e : Env) :
    ∀ (l : List IngressRule) (st : GoMap Upstream × List Server),
      generateNginxCfg.rules e (l.filter fun r => GoMap.get e.ingEx.ValidHosts r.Host) st =
      generateNginxCfg.rules e l st
  | [], _ => rfl
  | rule :: rest, st => by
    rw [validRules_cons_aux, generateNginxCfg.rules_cons]
    split_ifs with hv
    · rw [generateNginxCfg.rules_cons, if_pos hv]
      cases generateNginxCfg.rule e st.1 rule with
      | none => rfl
      | some r => exact generateNginxCfg.rules_filter e rest _
    · exact generateNginxCfg.rules_filter e rest st

theorem generateNginxCfg.grpcGate_withRules (e : Env) (rules : List IngressRule) :
    generateNginxCfg.grpcGate (e.withRules rules) = (generateNginxCfg.grpcGate e).withRules rules := by
  unfold generateNginxCfg.grpcGate
  have h1 : (e.withRules rules).grpcServices = e.grpcServices := rfl
  have h2 : (e.withRules rules).cfgParams = e.cfgParams := rfl
  rw [h1, h2]
  split <;> rfl

theorem generateNginxCfg.synth_validRules (e : Env) :
    generateNginxCfg.synth (e.withRules (validRules e.ingEx)) = generateNginxCfg.synth e := by
  unfold generateNginxCfg.synth
  simp only [generateNginxCfg.grpcGate_withRules]
  show (generateNginxCfg.defaultBackend (generateNginxCfg.grpcGate e)).bind (fun d =>
      generateNginxCfg.rules ((generateNginxCfg.grpcGate e).withRules (validRules e.ingEx))
        (validRules e.ingEx) (d.1, [])) = _
  simp only [generateNginxCfg.rules_withRules]
  have hg : e.ingEx = (generateNginxCfg.grpcGate e).ingEx :=
    (generateNginxCfg.grpcGate_fields e).2.1.symm
  have hf : ∀ st, generateNginxCfg.rules (generateNginxCfg.grpcGate e) (validRules e.ingEx) st =
      generateNginxCfg.rules (generateNginxCfg.grpcGate e)
        (generateNginxCfg.grpcGate e).ingEx.Ingress.Spec.Rules st := by
    intro st
    unfold validRules
    rw [hg]
    exact generateNginxCfg.rules_filter _ _ st
  simp only [hf]

/-- The rules with an invalid host contribute nothing: the synthesis of the ingress
without them gives the same result. -/
theorem generateNginxCfg.body_validRules (e : Env) :
    generateNginxCfg.body (e.withRules (validRules e.ingEx)) = generateNginxCfg.body e := by
  unfold generateNginxCfg.body
  rw [generateNginxCfg.synth_validRules]
  rfl

/-- `addSSLConfig` changes the four TLS fields of the server only. -/
theorem addSSLConfig_frame (ext : External) (server server' : Server) (host : String)
    (ingressTLS : List IngressTLS) (secrets : GoMap SecretReference) (isWildcardEnabled : Bool)
    (h : addSSLConfig ext server host ingressTLS secrets isWildcardEnabled = some server') :
    server' = { server with SSL := server'.SSL, SSLCertificate := server'.SSLCertificate,
                            SSLCertificateKey := server'.SSLCertificateKey,
                            SSLCiphers := server'.SSLCiphers } := by
  unfold addSSLConfig at h
  simp only at h
  split at h
  · simp only [Option.some.injEq] at h
    rw [← h]
  · split at h
    · exact absurd h (by simp)
    · split at h <;> simp only [Option.some.injEq] at h <;> rw [← h]

/-- The JWT block of a server changes `JWTAuth` and `JWTRedirectLocations` only. -/
theorem generateNginxCfg.serverJWT_frame (e : Env) (server server' : Server)
    (h : generateNginxCfg.serverJWT e server = some server') :
    server' = { server with JWTAuth := server'.JWTAuth,
                            JWTRedirectLocations := server'.JWTRedirectLocations } := by
  unfold generateNginxCfg.serverJWT at h
  split at h
  · simp only [Option.bind_eq_some, Option.some.injEq] at h
    obtain ⟨r, hr, rfl⟩ := h
    obtain ⟨jwts, hj⟩ := generateNginxCfg.jwt_server e server r hr
    rw [hj]
  · simp only [Option.some.injEq] at h
    rw [← h]

theorem generateNginxCfg.appProtect_name (e : Env) (server : Server) :
    (generateNginxCfg.appProtect e server).Name = server.Name ∧
    (generateNginxCfg.appProtect e server).StatusZone = server.StatusZone := by
  unfold generateNginxCfg.appProtect
  split <;> exact ⟨rfl, rfl⟩

theorem IsServerOf.name {e : Env} {upstreams : GoMap Upstream} {rule : IngressRule}
    {server : Server} (h : IsServerOf e upstreams rule server) :
    server.Name = rule.Host ∧ server.StatusZone = rule.Host := by
  obtain ⟨s0, s1, locs, jwts, h0, h1, _, _, _, hs⟩ := h
  have f0 := addSSLConfig_frame _ _ _ _ _ _ _ h0
  have f1 := generateNginxCfg.serverJWT_frame _ _ _ h1
  have a0 : s0.Name = rule.Host := (congrArg Server.Name f0).trans rfl
  have b0 : s0.StatusZone = rule.Host := (congrArg Server.StatusZone f0).trans rfl
  have a1 : s1.Name = rule.Host :=
    ((congrArg Server.Name f1).trans (generateNginxCfg.appProtect_name e s0).1).trans a0
  have b1 : s1.StatusZone = rule.Host :=
    ((congrArg Server.StatusZone f1).trans (generateNginxCfg.appProtect_name e s0).2).trans b0
  exact ⟨(congrArg Server.Name hs).trans a1, (congrArg Server.StatusZone hs).trans b1⟩

/-- C3. For every input on which `generateNginxCfg` returns a config `cfg`: the servers
of `cfg` are, in declaration order, one per rule whose host `ValidHosts` marks true, with
`Name` and `StatusZone` equal to the host of the rule; and the rules with another host
contribute nothing, since the synthesis of the ingress without them, with the same
resolved annotations, returns the same config. -/
theorem generateNginxCfg_servers (ext : External) (ingEx : IngressEx)
    (apResources : GoMap String) (isMinion : Bool) (baseCfgParams : ConfigParams)
    (isPlus isResolverConfigured : Bool) (staticParams : StaticConfigParams)
    (isWildcardEnabled : Bool) (cfg : IngressNginxConfig)
    (h : generateNginxCfg ext ingEx apResources isMinion baseCfgParams isPlus
      isResolverConfigured staticParams isWildcardEnabled = some cfg) :
    List.Forall₂ (fun rule server => server.Name = rule.Host ∧ server.StatusZone = rule.Host)
      (ingEx.Ingress.Spec.Rules.filter fun rule => GoMap.get ingEx.ValidHosts rule.Host)
      cfg.Servers ∧
    generateNginxCfg.body
      ((generateNginxCfg.locals ext ingEx apResources isMinion baseCfgParams isPlus
        isResolverConfigured staticParams isWildcardEnabled).withRules
        (ingEx.Ingress.Spec.Rules.filter fun rule => GoMap.get ingEx.ValidHosts rule.Host))
      = some cfg := by
  refine ⟨?_, ?_⟩
  · unfold generateNginxCfg generateNginxCfg.body at h
    simp only [Option.bind_eq_some, Option.some.injEq] at h
    obtain ⟨r, hr, rfl⟩ := h
    exact forall₂_imp_of_mem (generateNginxCfg.synth_servers _ r hr).1
      (fun _ _ _ hs => hs.name)
  · rw [← h]
    exact generateNginxCfg.body_validRules _

/-- C3 on the cafe ingress: one server, for the valid host. -/
theorem generateNginxCfg_servers_witness :
    (generateNginxCfg exampleExternal exampleIngress [] false default true false default
        false).map (fun cfg => cfg.Servers.map fun s => (s.Name, s.StatusZone))
      = some [("cafe.example.com", "cafe.example.com")] ∧
    List.Forall₂ (fun (rule : IngressRule) (server : Server) =>
        server.Name = rule.Host ∧ server.StatusZone = rule.Host)
      (exampleIngress.Ingress.Spec.Rules.filter fun rule =>
        GoMap.get exampleIngress.ValidHosts rule.Host)
      ((generateNginxCfg exampleExternal exampleIngress [] false default true false default
        false).getD default).Servers :=
  ⟨by rfl,
   (generateNginxCfg_servers exampleExternal exampleIngress [] false default true false default
      false _ (by rfl)).1⟩

/-! ## C4 and C5: the locations of a server -/

theorem IsLocationOf.path {e : Env} {upstreams : GoMap Upstream} {host : String}
    {path : HTTPIngressPath} {loc : Location} (h : IsLocationOf e upstreams host path loc) :
    loc.Path = generateIngressPath (pathOrDefault path.Path) path.PathType ∧
    loc.ServiceName = path.Backend.ServiceName := by
  obtain ⟨jwt, rfl⟩ := h.fields
  exact ⟨rfl, rfl⟩

theorem implicitLocations_spec (e : Env) (upstreams : GoMap Upstream) (locs : List Location) :
    ((e.ingEx.Ingress.Spec.Backend = none ∨ ∃ l ∈ locs, l.Path = "/") →
      implicitLocations e upstreams locs = []) ∧
    (∀ backend, e.ingEx.Ingress.Spec.Backend = some backend → (∀ l ∈ locs, l.Path ≠ "/") →
      implicitLocations e upstreams locs =
        [generateNginxCfg.location e upstreams
          (getNameForUpstream e.ingEx.Ingress emptyHost backend) "/" (some PathTypePrefix)
          backend]) := by
  unfold implicitLocations
  refine ⟨?_, ?_⟩
  · rintro (hb | ⟨l, hl, hp⟩)
    · rw [hb]
    · split
      · rfl
      · rw [if_pos]
        simp only [List.any_eq_true, decide_eq_true_eq]
        exact ⟨l, hl, hp⟩
  · intro b hb hn
    rw [hb]
    simp only
    rw [if_neg]
    simp only [List.any_eq_true, decide_eq_true_eq, not_exists, not_and]
    exact hn

/-- C4. For every input on which `generateNginxCfg` returns a config `cfg`, and for
every rule with a valid host and its server: the locations of the server are one
location per honored path, in declaration order, with the path and the service of that
path, followed by nothing when the ingress declares no default backend or one of these
locations has the path `/`, and otherwise by exactly one location, with the path `/`, for
the service of the default backend, whose `Upstream` is the upstream created for the
default backend under the empty host. -/
theorem generateNginxCfg_locations (ext : External) (ingEx : IngressEx)
    (apResources : GoMap String) (isMinion : Bool) (baseCfgParams : ConfigParams)
    (isPlus isResolverConfigured : Bool) (staticParams : StaticConfigParams)
    (isWildcardEnabled : Bool) (cfg : IngressNginxConfig)
    (h : generateNginxCfg ext ingEx apResources isMinion baseCfgParams isPlus
      isResolverConfigured staticParams isWildcardEnabled = some cfg) :
    List.Forall₂
      (fun rule server =>
        ∃ locs : List Location,
          List.Forall₂
            (fun path loc =>
              loc.Path = generateIngressPath (pathOrDefault path.Path) path.PathType ∧
              loc.ServiceName = path.Backend.ServiceName)
            (honoredPaths isMinion ingEx rule) locs ∧
          ((ingEx.Ingress.Spec.Backend = none ∨ ∃ l ∈ locs, l.Path = "/") →
            server.Locations = locs) ∧
          (∀ backend, ingEx.Ingress.Spec.Backend = some backend → (∀ l ∈ locs, l.Path ≠ "/") →
            ∃ loc, server.Locations = locs ++ [loc] ∧ loc.Path = "/" ∧
              loc.ServiceName = backend.ServiceName ∧
              createUpstream ext ingEx (getNameForUpstream ingEx.Ingress emptyHost backend) backend
                (GoMap.get (ext.getSessionPersistenceServices ingEx) backend.ServiceName)
                (ext.parseAnnotations ingEx baseCfgParams isPlus
                  staticParams.MainAppProtectLoadModule staticParams.EnableInternalRoutes)
                isPlus isResolverConfigured staticParams.EnableLatencyMetrics
                = some loc.Upstream))
      (validRules ingEx) cfg.Servers := by
  unfold generateNginxCfg generateNginxCfg.body at h
  simp only [Option.bind_eq_some, Option.some.injEq] at h
  obtain ⟨r, hr, rfl⟩ := h
  obtain ⟨hfa, hdef⟩ := generateNginxCfg.synth_servers _ r hr
  obtain ⟨_, g2, g3, _⟩ := generateNginxCfg.grpcGate_fields
    (generateNginxCfg.locals ext ingEx apResources isMinion baseCfgParams isPlus
      isResolverConfigured staticParams isWildcardEnabled)
  refine forall₂_imp_of_mem hfa ?_
  intro rule _ server hs
  obtain ⟨s0, s1, locs, jwts, _, _, hl, _, _, hsrv⟩ := hs
  have hlocs : server.Locations = locs ++ implicitLocations _ r.1 locs :=
    congrArg Server.Locations hsrv
  obtain ⟨i1, i2⟩ := implicitLocations_spec
    (generateNginxCfg.grpcGate (generateNginxCfg.locals ext ingEx apResources isMinion
      baseCfgParams isPlus isResolverConfigured staticParams isWildcardEnabled)) r.1 locs
  rw [g2] at i1 i2
  rw [g2, g3] at hl
  refine ⟨locs, forall₂_imp_of_mem hl (fun _ _ _ hloc => hloc.path), ?_, ?_⟩
  · intro hc
    rw [hlocs, i1 hc, List.append_nil]
  · intro b hb hn
    obtain ⟨u, hu, hlk⟩ := hdef b hb
    refine ⟨_, by rw [hlocs, i2 b hb hn], rfl, rfl, ?_⟩
    rw [show createUpstream ext ingEx (getNameForUpstream ingEx.Ingress emptyHost b) b
        (GoMap.get (ext.getSessionPersistenceServices ingEx) b.ServiceName)
        (ext.parseAnnotations ingEx baseCfgParams isPlus
          staticParams.MainAppProtectLoadModule staticParams.EnableInternalRoutes)
        isPlus isResolverConfigured staticParams.EnableLatencyMetrics = some u from hu]
    show some u = some (GoMap.get r.1 _)
    unfold GoMap.get
    rw [hlk]
    rfl

/-- C4 on the cafe ingress: the locations `/tea` and `= /coffee` of the two paths,
followed by the implicit location `/` of the default backend `dflt`. -/
theorem generateNginxCfg_locations_witness :
    (generateNginxCfg exampleExternal exampleIngress [] false default true false default
        false).map (fun cfg => cfg.Servers.map fun s =>
          s.Locations.map fun l => (l.Path, l.ServiceName, l.Upstream.Name))
      = some [[("/tea", "tea-svc", "default-cafe-cafe.example.com-tea-svc-80"),
               ("= /coffee", "coffee-svc", "default-cafe-cafe.example.com-coffee-svc-http"),
               ("/", "dflt", "default-cafe--dflt-80")]] ∧
    List.Forall₂
      (fun (rule : IngressRule) (server : Server) =>
        ∃ locs : List Location,
          List.Forall₂
            (fun (path : HTTPIngressPath) (loc : Location) =>
              loc.Path = generateIngressPath (pathOrDefault path.Path) path.PathType ∧
              loc.ServiceName = path.Backend.ServiceName)
            (honoredPaths false exampleIngress rule) locs ∧
          ((exampleIngress.Ingress.Spec.Backend = none ∨ ∃ l ∈ locs, l.Path = "/") →
            server.Locations = locs) ∧
          (∀ backend, exampleIngress.Ingress.Spec.Backend = some backend →
            (∀ l ∈ locs, l.Path ≠ "/") →
            ∃ loc, server.Locations = locs ++ [loc] ∧ loc.Path = "/" ∧
              loc.ServiceName = backend.ServiceName ∧
              createUpstream exampleExternal exampleIngress
                (getNameForUpstream exampleIngress.Ingress emptyHost backend) backend
                (GoMap.get (exampleExternal.getSessionPersistenceServices exampleIngress)
                  backend.ServiceName)
                (exampleExternal.parseAnnotations exampleIngress default true
                  (default : StaticConfigParams).MainAppProtectLoadModule
                  (default : StaticConfigParams).EnableInternalRoutes)
                true false (default : StaticConfigParams).EnableLatencyMetrics
                = some loc.Upstream))
      (validRules exampleIngress)
      ((generateNginxCfg exampleExternal exampleIngress [] false default true false default
        false).getD default).Servers :=
  ⟨by rfl,
   generateNginxCfg_locations exampleExternal exampleIngress [] false default true false default
      false _ (by rfl)⟩

/-- C5. The path of the location of a declared path `p` with path type `t`: with `p'`
the path `/` when `p` is empty and `p` otherwise, it is `p'` when `t` is absent, `Prefix`
or `ImplementationSpecific`, and `= ` followed by `p'` when `t` is `Exact`. -/
theorem createLocation_path (p : String) (t : Option PathType) (upstream : Upstream)
    (cfg : ConfigParams) (websocket : Bool) (rewrite : String) (ssl grpc : Bool)
    (proxySSLName serviceName : String) :
    (pathOrDefault p = if p = "" then "/" else p) ∧
    ((t = none ∨ t = some PathTypePrefix ∨ t = some PathTypeImplementationSpecific) →
      (createLocation (pathOrDefault p) upstream cfg websocket rewrite ssl grpc proxySSLName t
        serviceName).Path = pathOrDefault p) ∧
    (t = some PathTypeExact →
      (createLocation (pathOrDefault p) upstream cfg websocket rewrite ssl grpc proxySSLName t
        serviceName).Path = "= " ++ pathOrDefault p) := by
  refine ⟨rfl, ?_, ?_⟩
  · rintro (rfl | rfl | rfl)
    · rfl
    · show generateIngressPath (pathOrDefault p) (some PathTypePrefix) = pathOrDefault p
      unfold generateIngressPath
      simp only
      rw [if_neg (by decide)]
    · show generateIngressPath (pathOrDefault p) (some PathTypeImplementationSpecific) =
        pathOrDefault p
      unfold generateIngressPath
      simp only
      rw [if_neg (by decide)]
  · rintro rfl
    show generateIngressPath (pathOrDefault p) (some PathTypeExact) = "= " ++ pathOrDefault p
    unfold generateIngressPath
    simp

/-- C5 on the four path types and on the empty path. -/
theorem createLocation_path_witness :
    (createLocation (pathOrDefault "/tea") default default false "" false false "" none
      "tea-svc").Path = "/tea" ∧
    (createLocation (pathOrDefault "/tea") default default false "" false false ""
      (some PathTypePrefix) "tea-svc").Path = "/tea" ∧
    (createLocation (pathOrDefault "/tea") default default false "" false false ""
      (some PathTypeImplementationSpecific) "tea-svc").Path = "/tea" ∧
    (createLocation (pathOrDefault "/tea") default default false "" false false ""
      (some PathTypeExact) "tea-svc").Path = "= /tea" ∧
    (createLocation (pathOrDefault "") default default false "" false false ""
      (some PathTypeExact) "tea-svc").Path = "= /" :=
  ⟨((createLocation_path "/tea" none default default false "" false false "" "tea-svc").2.1
      (Or.inl rfl)).trans (by decide),
   ((createLocation_path "/tea" (some PathTypePrefix) default default false "" false false ""
      "tea-svc").2.1 (Or.inr (Or.inl rfl))).trans (by decide),
   ((createLocation_path "/tea" (some PathTypeImplementationSpecific) default default false ""
      false false "" "tea-svc").2.1 (Or.inr (Or.inr rfl))).trans (by decide),
   ((createLocation_path "/tea" (some PathTypeExact) default default false "" false false ""
      "tea-svc").2.2 rfl).trans (by decide),
   ((createLocation_path "" (some PathTypeExact) default default false "" false false ""
      "tea-svc").2.2 rfl).trans (by decide)⟩

/-! ## C6: the paths honored in minion mode -/

theorem honoredPaths_eq (isMinion : Bool) (ingEx : IngressEx) (rule : IngressRule) :
    honoredPaths isMinion ingEx rule =
    if isMinion = true then
      (generateNginxCfg.rulePaths rule).filter fun path =>
        GoMap.get ingEx.ValidMinionPaths path.Path
    else generateNginxCfg.rulePaths rule := by
  unfold honoredPaths
  cases isMinion <;> simp

theorem generateNginxCfg.path_withValidMinionPaths (e : Env) (v : GoMap Bool)
    (hm : e.isMinion = false) (host : String) (st : PathState) (path : HTTPIngressPath) :
    generateNginxCfg.path (e.withValidMinionPaths v) host st path =
    generateNginxCfg.path e host st path := by
  have h1 : (e.withValidMinionPaths v).isMinion = false := hm
  unfold generateNginxCfg.path
  rw [h1, hm]
  simp only [Bool.false_and, Bool.false_eq_true, if_false]
  rfl

theorem generateNginxCfg.paths_withValidMinionPaths (e : Env) (v : GoMap Bool)
    (hm : e.isMinion = false) (host : String) :
    ∀ (paths : List HTTPIngressPath) (st : PathState),
      generateNginxCfg.paths (e.withValidMinionPaths v) host paths st =
      generateNginxCfg.paths e host paths st
  | [], _ => rfl
  | path :: rest, st => by
    simp only [generateNginxCfg.paths, generateNginxCfg.path_withValidMinionPaths e v hm]
    cases generateNginxCfg.path e host st path with
    | none => rfl
    | some st1 => exact generateNginxCfg.paths_withValidMinionPaths e v hm host rest st1

theorem generateNginxCfg.rule_withValidMinionPaths (e : Env) (v : GoMap Bool)
    (hm : e.isMinion = false) (upstreams : GoMap Upstream) (rule : IngressRule) :
    generateNginxCfg.rule (e.withValidMinionPaths v) upstreams rule =
    generateNginxCfg.rule e upstreams rule := by
  unfold generateNginxCfg.rule
  simp only [generateNginxCfg.paths_withValidMinionPaths e v hm]
  rfl

theorem generateNginxCfg.rules_withValidMinionPaths (e : Env) (v : GoMap Bool)
    (hm : e.isMinion = false) :
    ∀ (l : List IngressRule) (st : GoMap Upstream × List Server),
      generateNginxCfg.rules (e.withValidMinionPaths v) l st = generateNginxCfg.rules e l st
  | [], _ => rfl
  | rule :: rest, st => by
    rw [generateNginxCfg.rules_cons, generateNginxCfg.rules_cons,
      generateNginxCfg.rule_withValidMinionPaths e v hm]
    have hv : (e.withValidMinionPaths v).ingEx.ValidHosts = e.ingEx.ValidHosts := rfl
    rw [hv]
    split_ifs
    · cases generateNginxCfg.rule e st.1 rule with
      | none => rfl
      | some r => exact generateNginxCfg.rules_withValidMinionPaths e v hm rest _
    · exact generateNginxCfg.rules_withValidMinionPaths e v hm rest st

theorem generateNginxCfg.grpcGate_withValidMinionPaths (e : Env) (v : GoMap Bool) :
    generateNginxCfg.grpcGate (e.withValidMinionPaths v) =
    (generateNginxCfg.grpcGate e).withValidMinionPaths v := by
  unfold generateNginxCfg.grpcGate
  have h1 : (e.withValidMinionPaths v).grpcServices = e.grpcServices := rfl
  have h2 : (e.withValidMinionPaths v).cfgParams = e.cfgParams := rfl
  rw [h1, h2]
  split <;> rfl

/-- Outside minion mode the result does not depend on `ValidMinionPaths`. -/
theorem generateNginxCfg.body_withValidMinionPaths (e : Env) (v : GoMap Bool)
    (hm : e.isMinion = false) :
    generateNginxCfg.body (e.withValidMinionPaths v) = generateNginxCfg.body e := by
  have hs : generateNginxCfg.synth (e.withValidMinionPaths v) = generateNginxCfg.synth e := by
    unfold generateNginxCfg.synth
    simp only [generateNginxCfg.grpcGate_withValidMinionPaths]
    have hm' : (generateNginxCfg.grpcGate e).isMinion = false := by
      rw [(generateNginxCfg.grpcGate_fields e).2.2.1]
      exact hm
    show (generateNginxCfg.defaultBackend (generateNginxCfg.grpcGate e)).bind (fun d =>
        generateNginxCfg.rules ((generateNginxCfg.grpcGate e).withValidMinionPaths v)
          (generateNginxCfg.grpcGate e).ingEx.Ingress.Spec.Rules (d.1, [])) = _
    simp only [generateNginxCfg.rules_withValidMinionPaths _ v hm']
  unfold generateNginxCfg.body
  rw [hs]
  rfl

/-- The names of the returned upstreams are the names of the upstreams to build. -/
theorem generateNginxCfg_upstreams_names (ext : External) (ingEx : IngressEx)
    (apResources : GoMap String) (isMinion : Bool) (baseCfgParams : ConfigParams)
    (isPlus isResolverConfigured : Bool) (staticParams : StaticConfigParams)
    (isWildcardEnabled : Bool) (cfg : IngressNginxConfig)
    (hN : ∀ name, (ext.NewUpstreamWithDefaultServer name).Name = name)
    (h : generateNginxCfg ext ingEx apResources isMinion baseCfgParams isPlus
      isResolverConfigured staticParams isWildcardEnabled = some cfg) :
    ∀ n, n ∈ (cfg.Upstreams.map fun u => u.Name) ↔ n ∈ builtUpstreamNames isMinion ingEx := by
  unfold generateNginxCfg generateNginxCfg.body at h
  simp only [Option.bind_eq_some, Option.some.injEq] at h
  obtain ⟨r, hr, rfl⟩ := h
  obtain ⟨hk, hnamed⟩ := generateNginxCfg.synth_upstreams _ r hr
  have hk : ∀ n, n ∈ GoMap.keys r.1 ↔ n ∈ builtUpstreamNames isMinion ingEx := hk
  intro n
  show n ∈ ((upstreamMapToSlice r.1).map fun u => u.Name) ↔ _
  rw [upstreamMapToSlice_names r.1 (hnamed hN), ← hk n]
  exact (sortStrings_perm _).mem_iff

/-- C6. For every input on which `generateNginxCfg` returns a config `cfg` (with
`NewUpstreamWithDefaultServer name` named `name`), call honored the paths of a rule that
`ValidMinionPaths` maps to true in minion mode, and all the paths of the rule outside
minion mode.  The upstreams of `cfg` are those of the default backend and of the honored
paths of the rules with a valid host; the locations of the server of such a rule are one
per honored path, in order, followed by at most the implicit location; its health checks
are those of the honored paths, and of the default backend when the implicit location is
built, that have a probe while health checks are enabled.  Outside minion mode the
config is the same whatever `ValidMinionPaths` contains. -/
theorem generateNginxCfg_honoredPaths (ext : External) (ingEx : IngressEx)
    (apResources : GoMap String) (isMinion : Bool) (baseCfgParams : ConfigParams)
    (isPlus isResolverConfigured : Bool) (staticParams : StaticConfigParams)
    (isWildcardEnabled : Bool) (cfg : IngressNginxConfig)
    (hN : ∀ name, (ext.NewUpstreamWithDefaultServer name).Name = name)
    (h : generateNginxCfg ext ingEx apResources isMinion baseCfgParams isPlus
      isResolverConfigured staticParams isWildcardEnabled = some cfg) :
    let honored : IngressRule → List HTTPIngressPath := fun rule =>
      if isMinion = true then
        (generateNginxCfg.rulePaths rule).filter fun path =>
          GoMap.get ingEx.ValidMinionPaths path.Path
      else generateNginxCfg.rulePaths rule
    let probed : IngressBackend → Prop := fun backend =>
      (ext.parseAnnotations ingEx baseCfgParams isPlus staticParams.MainAppProtectLoadModule
        staticParams.EnableInternalRoutes).HealthCheckEnabled = true ∧
      (GoMap.lookup ingEx.HealthChecks
        (backend.ServiceName ++ backend.ServicePort.string)).isSome = true
    (∀ n, n ∈ (cfg.Upstreams.map fun u => u.Name) ↔
      (∃ backend, ingEx.Ingress.Spec.Backend = some backend ∧
        n = getNameForUpstream ingEx.Ingress emptyHost backend) ∨
      ∃ rule ∈ validRules ingEx, ∃ path ∈ honored rule,
        n = getNameForUpstream ingEx.Ingress rule.Host path.Backend) ∧
    List.Forall₂
      (fun rule server =>
        ∃ locs : List Location,
          List.Forall₂
            (fun path loc =>
              loc.Path = generateIngressPath (pathOrDefault path.Path) path.PathType ∧
              loc.ServiceName = path.Backend.ServiceName)
            (honored rule) locs ∧
          locs <+: server.Locations ∧ server.Locations.length ≤ locs.length + 1 ∧
          ∀ n, n ∈ GoMap.keys server.HealthChecks ↔
            (∃ path ∈ honored rule, probed path.Backend ∧
              n = getNameForUpstream ingEx.Ingress rule.Host path.Backend) ∨
            (∃ backend, ingEx.Ingress.Spec.Backend = some backend ∧
              server.Locations.length = locs.length + 1 ∧ probed backend ∧
              n = getNameForUpstream ingEx.Ingress emptyHost backend))
      (validRules ingEx) cfg.Servers ∧
    (isMinion = false → ∀ validMinionPaths : GoMap Bool,
      generateNginxCfg.body
        ((generateNginxCfg.locals ext ingEx apResources isMinion baseCfgParams isPlus
          isResolverConfigured staticParams isWildcardEnabled).withValidMinionPaths
          validMinionPaths) = some cfg) := by
  intro honored probed
  have hhon : ∀ rule, honored rule = honoredPaths isMinion ingEx rule :=
    fun rule => (honoredPaths_eq isMinion ingEx rule).symm
  refine ⟨?_, ?_, ?_⟩
  · intro n
    rw [(generateNginxCfg_upstreams_names ext ingEx apResources isMinion baseCfgParams isPlus
      isResolverConfigured staticParams isWildcardEnabled cfg hN h) n]
    unfold builtUpstreamNames
    simp only [List.mem_append, List.mem_flatten, List.mem_map, hhon]
    constructor
    · rintro (h1 | ⟨l, ⟨rule, hr, rfl⟩, hn⟩)
      · left
        cases hb : ingEx.Ingress.Spec.Backend with
        | none => rw [hb] at h1; simp at h1
        | some b =>
          rw [hb] at h1
          simp only [List.mem_singleton] at h1
          exact ⟨b, rfl, h1⟩
      · obtain ⟨path, hp, rfl⟩ := List.mem_map.1 hn
        exact Or.inr ⟨rule, hr, path, hp, rfl⟩
    · rintro (⟨b, hb, rfl⟩ | ⟨rule, hr, path, hp, rfl⟩)
      · left
        rw [hb]
        simp
      · exact Or.inr ⟨_, ⟨rule, hr, rfl⟩, List.mem_map_of_mem _ hp⟩
  · unfold generateNginxCfg generateNginxCfg.body at h
    simp only [Option.bind_eq_some, Option.some.injEq] at h
    obtain ⟨r, hr, rfl⟩ := h
    obtain ⟨hfa, _⟩ := generateNginxCfg.synth_servers _ r hr
    obtain ⟨_, g2, g3, g4, _⟩ := generateNginxCfg.grpcGate_fields
      (generateNginxCfg.locals ext ingEx apResources isMinion baseCfgParams isPlus
        isResolverConfigured staticParams isWildcardEnabled)
    refine forall₂_imp_of_mem hfa ?_
    intro rule _ server hs
    obtain ⟨s0, s1, locs, jwts, _, _, hl, hk, _, hsrv⟩ := hs
    have hlocs : server.Locations = locs ++ implicitLocations _ r.1 locs :=
      congrArg Server.Locations hsrv
    obtain ⟨i1, i2⟩ := implicitLocations_spec
      (generateNginxCfg.grpcGate (generateNginxCfg.locals ext ingEx apResources isMinion
        baseCfgParams isPlus isResolverConfigured staticParams isWildcardEnabled)) r.1 locs
    have hprobe : ∀ b, hasProbe (generateNginxCfg.grpcGate (generateNginxCfg.locals ext ingEx
        apResources isMinion baseCfgParams isPlus isResolverConfigured staticParams
        isWildcardEnabled)) b = true ↔ probed b := by
      intro b
      unfold hasProbe
      rw [g2, g4]
      simp only [Bool.and_eq_true]
      exact Iff.rfl
    rw [g2] at i1 i2
    rw [g2, g3] at hl hk
    simp only [hprobe] at hk
    change List.Forall₂ _ (honoredPaths isMinion ingEx rule) locs at hl
    rw [hhon]
    refine ⟨locs, forall₂_imp_of_mem hl (fun _ _ _ hloc => hloc.path), ?_, ?_, ?_⟩
    · rw [hlocs]
      exact List.prefix_append _ _
    · rw [hlocs, List.length_append]
      unfold implicitLocations
      split
      · simp
      · split <;> simp
    · intro n
      rw [hk n]
      refine or_congr Iff.rfl ?_
      constructor
      · rintro ⟨b, hb, hn, hp, rfl⟩
        refine ⟨b, hb, ?_, hp, rfl⟩
        rw [hlocs, i2 b hb hn]
        simp
      · rintro ⟨b, hb, hlen, hp, rfl⟩
        refine ⟨b, hb, ?_, hp, rfl⟩
        intro l hl1 hl2
        rw [hlocs, i1 (Or.inr ⟨l, hl1, hl2⟩)] at hlen
        simp at hlen
  · intro hm v
    rw [← h]
    exact generateNginxCfg.body_withValidMinionPaths _ v hm
/-- C6 on the cafe ingress: in minion mode only `/tea`, which `ValidMinionPaths` marks
valid, gives a location and an upstream; outside minion mode the config does not depend on
`ValidMinionPaths`. -/
theorem generateNginxCfg_honoredPaths_witness :
    (generateNginxCfg exampleExternal exampleIngress [] true default true false default
        false).map (fun cfg =>
          (cfg.Upstreams.map fun u => u.Name,
           cfg.Servers.map fun s => s.Locations.map fun l => l.Path))
      = some (["default-cafe--dflt-80", "default-cafe-cafe.example.com-tea-svc-80"],
              [["/tea", "/"]]) ∧
    (∀ n, n ∈ (((generateNginxCfg exampleExternal exampleIngress [] true default true false
          default false).getD default).Upstreams.map fun u => u.Name) ↔
      (∃ backend, exampleIngress.Ingress.Spec.Backend = some backend ∧
        n = getNameForUpstream exampleIngress.Ingress emptyHost backend) ∨
      ∃ rule ∈ validRules exampleIngress,
        ∃ path ∈ (generateNginxCfg.rulePaths rule).filter (fun path =>
            GoMap.get exampleIngress.ValidMinionPaths path.Path),
          n = getNameForUpstream exampleIngress.Ingress rule.Host path.Backend) ∧
    ∀ validMinionPaths : GoMap Bool,
      generateNginxCfg.body
        ((generateNginxCfg.locals exampleExternal exampleIngress [] false default true false
          default false).withValidMinionPaths validMinionPaths)
      = generateNginxCfg exampleExternal exampleIngress [] false default true false default
          false :=
  ⟨by rfl,
   (generateNginxCfg_honoredPaths exampleExternal exampleIngress [] true default true false
      default false _ (fun _ => rfl) (by rfl)).1,
   fun v =>
    ((generateNginxCfg_honoredPaths exampleExternal exampleIngress [] false default true false
      default false ((generateNginxCfg exampleExternal exampleIngress [] false default true
        false default false).getD default) (fun _ => rfl) (by rfl)).2.2 rfl v).trans
      (by rfl)⟩

/-! ## C7: gRPC-only servers -/

theorem generateNginxCfg.grpcGate_grpcServices (e : Env) :
    (generateNginxCfg.grpcGate e).grpcServices =
    if e.grpcServices ≠ [] ∧ e.cfgParams.HTTP2 = true then e.grpcServices else [] := by
  unfold generateNginxCfg.grpcGate
  cases hg : e.grpcServices with
  | nil => simp [hg]
  | cons a l => cases hh : e.cfgParams.HTTP2 <;> simp [hg, hh]

theorem all_eq_of_forall₂ {α β : Type} {R : α → β → Prop} {f : α → Bool} {g : β → Bool}
    {l1 : List α} {l2 : List β} (h : List.Forall₂ R l1 l2) (hfg : ∀ a b, R a b → f a = g b) :
    l1.all f = l2.all g := by
  induction h with
  | nil => rfl
  | cons hab _ ih => simp only [List.all_cons, hfg _ _ hab, ih]

theorem exists_of_forall₂_mem_right {α β : Type} {R : α → β → Prop} {l1 : List α}
    {l2 : List β} (h : List.Forall₂ R l1 l2) (b : β) (hb : b ∈ l2) : ∃ a ∈ l1, R a b := by
  induction h with
  | nil => exact absurd hb (List.not_mem_nil _)
  | cons hab _ ih =>
    rcases List.mem_cons.1 hb with rfl | hm
    · exact ⟨_, List.mem_cons_self _ _, hab⟩
    · obtain ⟨a, ha1, ha2⟩ := ih hm
      exact ⟨a, List.mem_cons_of_mem _ ha1, ha2⟩

/-- C7, amended. Outside minion mode, for every returned config and every server of
it, `GRPCOnly` is true exactly when the gRPC service set is not empty, HTTP/2 is enabled
in the resolved parameters, and every location of the server, the implicit one included,
targets a service that is a key of the gRPC service set.  A server without any location
satisfies the last condition. -/
theorem generateNginxCfg_grpcOnly (ext : External) (ingEx : IngressEx)
    (apResources : GoMap String) (baseCfgParams : ConfigParams)
    (isPlus isResolverConfigured : Bool) (staticParams : StaticConfigParams)
    (isWildcardEnabled : Bool) (cfg : IngressNginxConfig)
    (h : generateNginxCfg ext ingEx apResources false baseCfgParams isPlus
      isResolverConfigured staticParams isWildcardEnabled = some cfg) :
    ∀ server ∈ cfg.Servers,
      (server.GRPCOnly = true ↔
        ext.getGrpcServices ingEx ≠ [] ∧
        (ext.parseAnnotations ingEx baseCfgParams isPlus staticParams.MainAppProtectLoadModule
          staticParams.EnableInternalRoutes).HTTP2 = true ∧
        ∀ l ∈ server.Locations,
          (GoMap.lookup (ext.getGrpcServices ingEx) l.ServiceName).isSome = true) := by
  unfold generateNginxCfg generateNginxCfg.body at h
  simp only [Option.bind_eq_some, Option.some.injEq] at h
  obtain ⟨r, hr, rfl⟩ := h
  obtain ⟨hfa, _⟩ := generateNginxCfg.synth_servers _ r hr
  obtain ⟨_, g2, g3, g4, _⟩ := generateNginxCfg.grpcGate_fields
    (generateNginxCfg.locals ext ingEx apResources false baseCfgParams isPlus
      isResolverConfigured staticParams isWildcardEnabled)
  have gg : (generateNginxCfg.grpcGate (generateNginxCfg.locals ext ingEx apResources false
      baseCfgParams isPlus isResolverConfigured staticParams isWildcardEnabled)).grpcServices =
      if ext.getGrpcServices ingEx ≠ [] ∧
        (ext.parseAnnotations ingEx baseCfgParams isPlus staticParams.MainAppProtectLoadModule
          staticParams.EnableInternalRoutes).HTTP2 = true then ext.getGrpcServices ingEx
      else [] :=
    generateNginxCfg.grpcGate_grpcServices _
  intro server hmem
  obtain ⟨rule, _, hs⟩ := exists_of_forall₂_mem_right hfa server hmem
  obtain ⟨s0, s1, locs, jwts, _, _, hl, _, _, hsrv⟩ := hs
  have hlocs : server.Locations = locs ++ implicitLocations _ r.1 locs :=
    congrArg Server.Locations hsrv
  have hgo : server.GRPCOnly = (generateNginxCfg.grpcOnly _ (generateNginxCfg.rulePaths rule) &&
      (implicitLocations _ r.1 locs).all fun l => (GoMap.lookup _ l.ServiceName).isSome) :=
    congrArg Server.GRPCOnly hsrv
  rw [g2, g3] at hl
  have hhon : honoredPaths false ingEx rule = generateNginxCfg.rulePaths rule := by
    rw [honoredPaths_eq]
    simp
  change List.Forall₂ _ (honoredPaths false ingEx rule) locs at hl
  rw [hhon] at hl
  have hall : ∀ G : GoMap Bool,
      ((generateNginxCfg.rulePaths rule).all fun path =>
        (GoMap.lookup G path.Backend.ServiceName).isSome) =
      locs.all fun l => (GoMap.lookup G l.ServiceName).isSome := by
    intro G
    refine all_eq_of_forall₂ hl ?_
    intro p l hpl
    rw [hpl.path.2]
  rw [hgo, hlocs]
  unfold generateNginxCfg.grpcOnly
  rw [hall, gg]
  by_cases hc : ext.getGrpcServices ingEx ≠ [] ∧
      (ext.parseAnnotations ingEx baseCfgParams isPlus staticParams.MainAppProtectLoadModule
        staticParams.EnableInternalRoutes).HTTP2 = true
  · rw [if_pos hc]
    have hlen : (ext.getGrpcServices ingEx).length > 0 := List.length_pos.2 hc.1
    rw [if_pos hlen]
    simp only [Bool.and_eq_true, List.all_eq_true, List.mem_append]
    constructor
    · rintro ⟨h1, h2⟩
      exact ⟨hc.1, hc.2, fun l hl' => hl'.elim (h1 l) (h2 l)⟩
    · rintro ⟨_, _, h3⟩
      exact ⟨fun l hl' => h3 l (Or.inl hl'), fun l hl' => h3 l (Or.inr hl')⟩
  · rw [if_neg hc]
    simp only [List.length_nil, gt_iff_lt, lt_self_iff_false, if_false, Bool.false_and,
      Bool.false_eq_true, false_iff]
    rintro ⟨h1, h2, _⟩
    exact hc ⟨h1, h2⟩

/-- C7 as stated fails: with a non-empty gRPC service set and HTTP/2 enabled, the
server of a rule without paths (and without default backend) has no location at all and
is gRPC-only. -/
theorem generateNginxCfg_grpcOnly_counterexample :
    (generateNginxCfg grpcExternal emptyRuleIngress [] false http2CfgParams true false default
        false).map (fun cfg => cfg.Servers.map fun s => (s.Name, s.GRPCOnly, s.Locations.length))
      = some [("grpc.example.com", true, 0)] := by
  rfl

/-- C7, amended, on an ingress whose only path targets the gRPC service. -/
theorem generateNginxCfg_grpcOnly_witness :
    (generateNginxCfg grpcExternal grpcIngress [] false http2CfgParams true false default
        false).map (fun cfg => cfg.Servers.map fun s =>
          (s.GRPCOnly, s.Locations.map fun l => l.ServiceName))
      = some [(true, ["grpc-svc"])] ∧
    ∀ server ∈ ((generateNginxCfg grpcExternal grpcIngress [] false http2CfgParams true false
        default false).getD default).Servers,
      (server.GRPCOnly = true ↔
        grpcExternal.getGrpcServices grpcIngress ≠ [] ∧
        (grpcExternal.parseAnnotations grpcIngress http2CfgParams true
          (default : StaticConfigParams).MainAppProtectLoadModule
          (default : StaticConfigParams).EnableInternalRoutes).HTTP2 = true ∧
        ∀ l ∈ server.Locations,
          (GoMap.lookup (grpcExternal.getGrpcServices grpcIngress) l.ServiceName).isSome = true) :=
  ⟨by rfl,
   generateNginxCfg_grpcOnly grpcExternal grpcIngress [] http2CfgParams true false default false
      _ (by rfl)⟩

/-! ## C9 and C10: `addSSLConfig` -/

theorem addSSLConfig.hosts_eq (host secretName : String) :
    ∀ (hosts : List String) (st : Bool × String),
      addSSLConfig.hosts host secretName hosts st =
      if host ∈ hosts then (true, secretName) else st
  | [], st => by simp [addSSLConfig.hosts]
  | h :: hs, st => by
    unfold addSSLConfig.hosts
    by_cases hh : h = host
    · simp [hh]
    · have hh' : ¬ host = h := fun e => hh e.symm
      simp [hh, hh', addSSLConfig.hosts_eq host secretName hs st]

/-- The loops of `addSSLConfig`: the last entry that lists the host decides. -/
theorem addSSLConfig.entries_eq (host : String) :
    ∀ (ingressTLS : List IngressTLS) (st : Bool × String),
      addSSLConfig.entries host ingressTLS st =
      match (ingressTLS.filter fun t => decide (host ∈ t.Hosts)).getLast? with
      | none => st
      | some tls => (true, tls.SecretName)
  | [], st => by simp [addSSLConfig.entries]
  | tls :: rest, st => by
    unfold addSSLConfig.entries
    rw [addSSLConfig.entries_eq host rest, addSSLConfig.hosts_eq]
    by_cases hh : host ∈ tls.Hosts
    · rw [if_pos hh, List.filter_cons_of_pos (by simpa using hh), List.getLast?_cons]
      cases (rest.filter fun t => decide (host ∈ t.Hosts)).getLast? <;> rfl
    · rw [if_neg hh, List.filter_cons_of_neg (by simpa using hh)]

theorem addSSLConfig.entries_none (host : String) (ingressTLS : List IngressTLS)
    (h : ∀ tls ∈ ingressTLS, host ∉ tls.Hosts) :
    addSSLConfig.entries host ingressTLS (false, "") = (false, "") := by
  rw [addSSLConfig.entries_eq]
  have : (ingressTLS.filter fun t => decide (host ∈ t.Hosts)) = [] := by
    rw [List.filter_eq_nil_iff]
    intro t ht
    simpa using h t ht
  rw [this]
  rfl

theorem addSSLConfig.entries_some (host : String) (ingressTLS : List IngressTLS)
    (h : ∃ tls ∈ ingressTLS, host ∈ tls.Hosts) :
    ∃ tls ∈ ingressTLS, host ∈ tls.Hosts ∧
      (ingressTLS.filter fun t => decide (host ∈ t.Hosts)).getLast? = some tls ∧
      addSSLConfig.entries host ingressTLS (false, "") = (true, tls.SecretName) := by
  obtain ⟨t0, ht0, hh0⟩ := h
  have hne : (ingressTLS.filter fun t => decide (host ∈ t.Hosts)) ≠ [] := by
    intro hnil
    rw [List.filter_eq_nil_iff] at hnil
    exact hnil t0 ht0 (by simpa using hh0)
  cases hl : (ingressTLS.filter fun t => decide (host ∈ t.Hosts)).getLast? with
  | none => exact absurd (List.getLast?_eq_none_iff.1 hl) hne
  | some tls =>
    have hm : tls ∈ ingressTLS.filter fun t => decide (host ∈ t.Hosts) :=
      List.mem_of_getLast?_eq_some hl
    rw [List.mem_filter] at hm
    refine ⟨tls, hm.1, by simpa using hm.2, rfl, ?_⟩
    rw [addSSLConfig.entries_eq, hl]

/-- `addSSLConfig` once the deciding entry is known: the server gets the certificate
chosen by `addSSLConfig.pemFile`, and the cipher `NULL` with the placeholder. -/
theorem addSSLConfig_of_entries (ext : External) (server : Server) (host : String)
    (ingressTLS : List IngressTLS) (secrets : GoMap SecretReference) (isWildcardEnabled : Bool)
    (secretName : String)
    (h : addSSLConfig.entries host ingressTLS (false, "") = (true, secretName)) :
    addSSLConfig ext server host ingressTLS secrets isWildcardEnabled =
      (addSSLConfig.pemFile ext secretName secrets isWildcardEnabled).bind fun pemFile =>
        some { server with
          SSL := true
          SSLCertificate := pemFile
          SSLCertificateKey := pemFile
          SSLCiphers := if pemFile = ext.pemFileNameForMissingTLSSecret then "NULL"
            else server.SSLCiphers } := by
  unfold addSSLConfig
  simp only [h, Bool.not_true, Bool.false_eq_true, if_false]
  cases addSSLConfig.pemFile ext secretName secrets isWildcardEnabled with
  | none => rfl
  | some pemFile =>
    simp only [Option.bind]
    split <;> rfl

/-- C9. `addSSLConfig` leaves the server completely unchanged when no TLS entry of the
ingress lists the host; when some entry lists it, the server it returns has `SSL` true; so
on a server with `SSL` false, `SSL` is true afterwards if and only if some entry lists the
host.  The call fails only on an entry that lists the host and names a secret that is not
in `secrets`. -/
theorem addSSLConfig_ssl (ext : External) (server : Server) (host : String)
    (ingressTLS : List IngressTLS) (secrets : GoMap SecretReference) (isWildcardEnabled : Bool) :
    ((∀ tls ∈ ingressTLS, host ∉ tls.Hosts) →
      addSSLConfig ext server host ingressTLS secrets isWildcardEnabled = some server) ∧
    ((∃ tls ∈ ingressTLS, host ∈ tls.Hosts) → ∀ server',
      addSSLConfig ext server host ingressTLS secrets isWildcardEnabled = some server' →
      server'.SSL = true) ∧
    (server.SSL = false → ∀ server',
      addSSLConfig ext server host ingressTLS secrets isWildcardEnabled = some server' →
      (server'.SSL = true ↔ ∃ tls ∈ ingressTLS, host ∈ tls.Hosts)) ∧
    (addSSLConfig ext server host ingressTLS secrets isWildcardEnabled = none →
      ∃ tls ∈ ingressTLS, host ∈ tls.Hosts ∧ tls.SecretName ≠ "" ∧
        GoMap.lookup secrets tls.SecretName = none) := by
  have hnone : (∀ tls ∈ ingressTLS, host ∉ tls.Hosts) →
      addSSLConfig ext server host ingressTLS secrets isWildcardEnabled = some server := by
    intro h
    unfold addSSLConfig
    simp [addSSLConfig.entries_none host ingressTLS h]
  have hsome : (∃ tls ∈ ingressTLS, host ∈ tls.Hosts) → ∀ server',
      addSSLConfig ext server host ingressTLS secrets isWildcardEnabled = some server' →
      server'.SSL = true := by
    intro h server' hs
    obtain ⟨tls, _, _, _, he⟩ := addSSLConfig.entries_some host ingressTLS h
    rw [addSSLConfig_of_entries ext server host ingressTLS secrets isWildcardEnabled _ he] at hs
    simp only [Option.bind_eq_some, Option.some.injEq] at hs
    obtain ⟨pem, _, rfl⟩ := hs
    rfl
  refine ⟨hnone, hsome, ?_, ?_⟩
  · intro hf server' hs
    constructor
    · intro ht
      by_contra hno
      have hall : ∀ tls ∈ ingressTLS, host ∉ tls.Hosts := by
        intro tls ht1 ht2
        exact hno ⟨tls, ht1, ht2⟩
      rw [hnone hall] at hs
      simp only [Option.some.injEq] at hs
      rw [← hs, hf] at ht
      exact absurd ht (by simp)
    · intro h
      exact hsome h server' hs
  · intro hn
    by_cases hex : ∃ tls ∈ ingressTLS, host ∈ tls.Hosts
    · obtain ⟨tls, ht1, ht2, _, he⟩ := addSSLConfig.entries_some host ingressTLS hex
      rw [addSSLConfig_of_entries ext server host ingressTLS secrets isWildcardEnabled _ he] at hn
      refine ⟨tls, ht1, ht2, ?_⟩
      cases hp : addSSLConfig.pemFile ext tls.SecretName secrets isWildcardEnabled with
      | some pem =>
        rw [hp] at hn
        exact absurd hn (by simp)
      | none =>
        unfold addSSLConfig.pemFile at hp
        split at hp
        · rename_i hne
          refine ⟨hne, ?_⟩
          split at hp
          · assumption
          · split at hp
            · exact absurd hp (by simp)
            · split at hp <;> exact absurd hp (by simp)
        · split at hp <;> exact absurd hp (by simp)
    · have hall : ∀ tls ∈ ingressTLS, host ∉ tls.Hosts := by
        intro tls ht1 ht2
        exact hex ⟨tls, ht1, ht2⟩
      rw [hnone hall] at hn
      exact absurd hn (by simp)

/-- C9 on the cafe ingress: TLS is enabled for the listed host and the server of
another host is unchanged. -/
theorem addSSLConfig_ssl_witness :
    (addSSLConfig exampleExternal default "cafe.example.com" exampleIngress.Ingress.Spec.TLS
      exampleIngress.Secrets false).map (fun s => s.SSL) = some true ∧
    addSSLConfig exampleExternal default "tea.example.com" exampleIngress.Ingress.Spec.TLS
      exampleIngress.Secrets false = some default :=
  ⟨by
    have h := (addSSLConfig_ssl exampleExternal default "cafe.example.com"
      exampleIngress.Ingress.Spec.TLS exampleIngress.Secrets false).2.1
        ⟨_, List.mem_cons_self _ _, List.mem_cons_self _ _⟩ _ (by rfl)
    exact (by rfl : _ = some ((addSSLConfig exampleExternal default "cafe.example.com"
      exampleIngress.Ingress.Spec.TLS exampleIngress.Secrets false).getD default).SSL).trans
      (congrArg some h),
   (addSSLConfig_ssl exampleExternal default "tea.example.com" exampleIngress.Ingress.Spec.TLS
      exampleIngress.Secrets false).1 (by decide)⟩

/-- C10. When TLS is enabled for the host, `tls` being the entry that decides (the last
one that lists the host): with a secret name whose secret is in `secrets`, the certificate
is the path of the secret when it has no error and the type TLS, and the missing-secret
placeholder otherwise; without a secret name it is the wildcard certificate when the
wildcard is enabled and the placeholder otherwise.  In every case the call returns a
server with `SSL` true, the key equal to the certificate, and the ciphers `NULL` exactly
when the certificate is the placeholder (they are not touched otherwise). -/
theorem addSSLConfig_certificate (ext : External) (server : Server) (host : String)
    (ingressTLS : List IngressTLS) (secrets : GoMap SecretReference) (isWildcardEnabled : Bool)
    (tls : IngressTLS)
    (hsel : (ingressTLS.filter fun t => decide (host ∈ t.Hosts)).getLast? = some tls) :
    (∀ secret, tls.SecretName ≠ "" → GoMap.lookup secrets tls.SecretName = some secret →
      ∃ server', addSSLConfig ext server host ingressTLS secrets isWildcardEnabled = some server' ∧
        server'.SSL = true ∧
        server'.SSLCertificate =
          (if secret.Error = none ∧ secret.Typ = SecretTypeTLS then secret.Path
           else ext.pemFileNameForMissingTLSSecret) ∧
        server'.SSLCertificateKey = server'.SSLCertificate ∧
        server'.SSLCiphers =
          (if server'.SSLCertificate = ext.pemFileNameForMissingTLSSecret then "NULL"
           else server.SSLCiphers)) ∧
    (tls.SecretName = "" →
      ∃ server', addSSLConfig ext server host ingressTLS secrets isWildcardEnabled = some server' ∧
        server'.SSL = true ∧
        server'.SSLCertificate =
          (if isWildcardEnabled = true then ext.pemFileNameForWildcardTLSSecret
           else ext.pemFileNameForMissingTLSSecret) ∧
        server'.SSLCertificateKey = server'.SSLCertificate ∧
        server'.SSLCiphers =
          (if server'.SSLCertificate = ext.pemFileNameForMissingTLSSecret then "NULL"
           else server.SSLCiphers)) := by
  have he : addSSLConfig.entries host ingressTLS (false, "") = (true, tls.SecretName) := by
    rw [addSSLConfig.entries_eq, hsel]
  have hrun := addSSLConfig_of_entries ext server host ingressTLS secrets isWildcardEnabled _ he
  refine ⟨?_, ?_⟩
  · intro secret hne hlk
    have hp : addSSLConfig.pemFile ext tls.SecretName secrets isWildcardEnabled =
        some (if secret.Error = none ∧ secret.Typ = SecretTypeTLS then secret.Path
              else ext.pemFileNameForMissingTLSSecret) := by
      unfold addSSLConfig.pemFile
      rw [if_pos hne, hlk]
      simp only
      by_cases h1 : secret.Error = none
      · by_cases h2 : secret.Typ = SecretTypeTLS
        · simp [h1, h2]
        · simp [h1, h2]
      · simp [h1]
    rw [hp] at hrun
    exact ⟨_, hrun, rfl, rfl, rfl, rfl⟩
  · intro hempty
    have hp : addSSLConfig.pemFile ext tls.SecretName secrets isWildcardEnabled =
        some (if isWildcardEnabled = true then ext.pemFileNameForWildcardTLSSecret
              else ext.pemFileNameForMissingTLSSecret) := by
      unfold addSSLConfig.pemFile
      rw [if_neg (by simp [hempty])]
      split <;> rfl
    rw [hp] at hrun
    exact ⟨_, hrun, rfl, rfl, rfl, rfl⟩

/-- C10 on the cafe ingress: the valid TLS secret gives its path as certificate and
key, and the ciphers are not set. -/
theorem addSSLConfig_certificate_witness :
    (addSSLConfig exampleExternal default "cafe.example.com" exampleIngress.Ingress.Spec.TLS
      exampleIngress.Secrets false).map
        (fun s => (s.SSL, s.SSLCertificate, s.SSLCertificateKey, s.SSLCiphers))
      = some (true, "/etc/nginx/secrets/default-cafe-secret",
              "/etc/nginx/secrets/default-cafe-secret", "") := by
  obtain ⟨s, h1, h2, h3, h4, h5⟩ :=
    (addSSLConfig_certificate exampleExternal default "cafe.example.com"
      exampleIngress.Ingress.Spec.TLS exampleIngress.Secrets false
      { Hosts := ["cafe.example.com"], SecretName := "cafe-secret" } (by rfl)).1
      { Typ := SecretTypeTLS, Path := "/etc/nginx/secrets/default-cafe-secret", Error := none }
      (by decide) (by rfl)
  have e3 : s.SSLCertificate = "/etc/nginx/secrets/default-cafe-secret" := h3.trans (by decide)
  have e5 : s.SSLCiphers = "" := by
    rw [h5, e3]
    decide
  rw [h1]
  show some (s.SSL, s.SSLCertificate, s.SSLCertificateKey, s.SSLCiphers) = _
  rw [h2, h4, e5, e3]

/-! ## `generateNginxCfg` returns when the references resolve -/

theorem splitChars_ne_nil (sep : Char) : ∀ cs : List Char, splitChars sep cs ≠ []
  | [] => by simp [splitChars]
  | c :: cs => by
    unfold splitChars
    split
    · simp
    · split <;> simp

theorem splitChars_of_mem (sep : Char) :
    ∀ cs : List Char, sep ∈ cs → ∃ a b rest, splitChars sep cs = a :: b :: rest
  | [], h => absurd h (List.not_mem_nil _)
  | c :: cs, h => by
    unfold splitChars
    by_cases hc : c = sep
    · rw [if_pos hc]
      cases hs : splitChars sep cs with
      | nil => exact absurd hs (splitChars_ne_nil sep cs)
      | cons b rest => exact ⟨[], b, rest, rfl⟩
    · rw [if_neg hc]
      have hm : sep ∈ cs := by
        rcases List.mem_cons.1 h with h1 | h1
        · exact absurd h1.symm hc
        · exact h1
      obtain ⟨a, b, rest, hs⟩ := splitChars_of_mem sep cs hm
      rw [hs]
      exact ⟨c :: a, b, rest, rfl⟩

theorem createUpstream.servers_isSome (cfg : ConfigParams) (isExternalNameSvc : Bool) :
    ∀ (endps : List String) (upsServers : List UpstreamServer),
      (∀ endp ∈ endps, ':' ∈ endp.data) →
      ∃ l, createUpstream.servers cfg isExternalNameSvc endps upsServers = some l
  | [], upsServers, _ => ⟨upsServers, rfl⟩
  | endp :: rest, upsServers, h => by
    obtain ⟨a, b, r, hs⟩ := splitChars_of_mem ':' endp.data (h endp (List.mem_cons_self _ _))
    unfold createUpstream.servers splitColon
    rw [hs]
    simp only [List.map_cons]
    exact createUpstream.servers_isSome cfg isExternalNameSvc rest _
      (fun e he => h e (List.mem_cons_of_mem _ he))

theorem createUpstream.endpoints_isSome (ingEx : IngressEx) (backend : IngressBackend)
    (cfg : ConfigParams) (isResolverConfigured : Bool) (ups : Upstream)
    (h : ∀ p ∈ ingEx.Endpoints, ∀ endp ∈ p.2, ':' ∈ endp.data) :
    ∃ u, createUpstream.endpoints ingEx backend cfg isResolverConfigured ups = some u := by
  unfold createUpstream.endpoints
  cases hl : GoMap.lookup ingEx.Endpoints (backend.ServiceName ++ backend.ServicePort.string) with
  | none => exact ⟨_, rfl⟩
  | some endps =>
    have hm := GoMap.mem_of_lookup _ _ _ hl
    have hall : ∀ endp ∈ (if ((GoMap.lookup ingEx.ExternalNameSvcs backend.ServiceName).isSome &&
        !isResolverConfigured) = true then [] else endps), ':' ∈ endp.data := by
      split
      · intro e he
        exact absurd he (List.not_mem_nil _)
      · exact h _ hm
    obtain ⟨l, hs⟩ := createUpstream.servers_isSome cfg
      (GoMap.lookup ingEx.ExternalNameSvcs backend.ServiceName).isSome _ [] hall
    simp only [hs]
    by_cases hlen : l.length > 0
    · simp only [Option.bind, if_pos hlen]
      exact ⟨_, rfl⟩
    · simp only [Option.bind, if_neg hlen]
      exact ⟨_, rfl⟩

theorem createUpstream_isSome (ext : External) (ingEx : IngressEx) (name : String)
    (backend : IngressBackend) (stickyCookie : String) (cfg : ConfigParams)
    (isPlus isResolverConfigured isLatencyMetricsEnabled : Bool)
    (h : ∀ p ∈ ingEx.Endpoints, ∀ endp ∈ p.2, ':' ∈ endp.data) :
    ∃ u, createUpstream ext ingEx name backend stickyCookie cfg isPlus isResolverConfigured
      isLatencyMetricsEnabled = some u := by
  unfold createUpstream
  obtain ⟨w, hw⟩ := createUpstream.endpoints_isSome ingEx backend cfg isResolverConfigured
    (createUpstream.base ext ingEx name backend stickyCookie cfg isPlus isLatencyMetricsEnabled) h
  rw [hw]
  exact ⟨_, rfl⟩

theorem generateNginxCfg.healthCheck_isSome (e : Env) (hw : ReferencesResolve e)
    (healthChecks : GoMap HealthCheck) (backend : IngressBackend) (name : String) :
    ∃ r, generateNginxCfg.healthCheck e healthChecks backend name = some r := by
  unfold generateNginxCfg.healthCheck
  split
  · split
    · rename_i hc hl
      have hm := GoMap.mem_of_lookup _ _ _ hl
      have hg := hw.1 _ hm
      unfold createHealthCheck
      cases hh : hc.HTTPGet with
      | none => exact absurd hh hg
      | some g => exact ⟨_, rfl⟩
    · exact ⟨_, rfl⟩
  · exact ⟨_, rfl⟩

theorem generateNginxCfg.jwt_isSome (e : Env) (hw : ReferencesResolve e)
    (hk : e.cfgParams.JWTKey ≠ "") (server : Server) :
    ∃ r, generateNginxCfg.jwt e server = some r := by
  unfold generateNginxCfg.jwt generateJWTConfig
  obtain ⟨secret, hs⟩ := Option.isSome_iff_exists.1 (hw.2.2.2 hk)
  rw [hs]
  simp only
  split
  · simp only [Option.bind]
    exact ⟨_, rfl⟩
  · simp only [Option.bind]
    exact ⟨_, rfl⟩

theorem generateNginxCfg.locationJWT_isSome (e : Env) (hw : ReferencesResolve e)
    (loc : Location) (server : Server) :
    ∃ r, generateNginxCfg.locationJWT e loc server = some r := by
  unfold generateNginxCfg.locationJWT
  split
  · rename_i hc
    simp only [Bool.and_eq_true, decide_eq_true_eq] at hc
    obtain ⟨r, hr⟩ := generateNginxCfg.jwt_isSome e hw hc.2 server
    rw [hr]
    exact ⟨_, rfl⟩
  · exact ⟨_, rfl⟩

theorem generateNginxCfg.serverJWT_isSome (e : Env) (hw : ReferencesResolve e) (server : Server) :
    ∃ r, generateNginxCfg.serverJWT e server = some r := by
  unfold generateNginxCfg.serverJWT
  split
  · rename_i hc
    simp only [Bool.and_eq_true, decide_eq_true_eq] at hc
    obtain ⟨r, hr⟩ := generateNginxCfg.jwt_isSome e hw hc.2 server
    rw [hr]
    exact ⟨_, rfl⟩
  · exact ⟨_, rfl⟩

theorem addSSLConfig_isSome (ext : External) (server : Server) (host : String)
    (ingressTLS : List IngressTLS) (secrets : GoMap SecretReference) (isWildcardEnabled : Bool)
    (h : ∀ tls ∈ ingressTLS, tls.SecretName ≠ "" →
      (GoMap.lookup secrets tls.SecretName).isSome = true) :
    ∃ r, addSSLConfig ext server host ingressTLS secrets isWildcardEnabled = some r := by
  by_cases hex : ∃ tls ∈ ingressTLS, host ∈ tls.Hosts
  · obtain ⟨tls, ht1, _, _, he⟩ := addSSLConfig.entries_some host ingressTLS hex
    rw [addSSLConfig_of_entries ext server host ingressTLS secrets isWildcardEnabled _ he]
    have hp : ∃ pem, addSSLConfig.pemFile ext tls.SecretName secrets isWildcardEnabled =
        some pem := by
      unfold addSSLConfig.pemFile
      split
      · rename_i hne
        obtain ⟨secret, hs⟩ := Option.isSome_iff_exists.1 (h tls ht1 hne)
        rw [hs]
        simp only
        split
        · exact ⟨_, rfl⟩
        · split <;> exact ⟨_, rfl⟩
      · split <;> exact ⟨_, rfl⟩
    obtain ⟨pem, hp⟩ := hp
    rw [hp]
    exact ⟨_, rfl⟩
  · have hall : ∀ tls ∈ ingressTLS, host ∉ tls.Hosts := by
      intro tls ht1 ht2
      exact hex ⟨tls, ht1, ht2⟩
    unfold addSSLConfig
    simp [addSSLConfig.entries_none host ingressTLS hall]

theorem generateNginxCfg.upstream_isSome (e : Env) (hw : ReferencesResolve e)
    (upstreams : GoMap Upstream) (backend : IngressBackend) (upsName : String) :
    ∃ r, generateNginxCfg.upstream e upstreams backend upsName = some r := by
  unfold generateNginxCfg.upstream
  split
  · exact ⟨_, rfl⟩
  · obtain ⟨u, hu⟩ := createUpstream_isSome e.ext e.ingEx upsName backend
      (GoMap.get e.spServices backend.ServiceName) e.cfgParams e.isPlus e.isResolverConfigured
      e.staticParams.EnableLatencyMetrics hw.2.1
    rw [hu]
    exact ⟨_, rfl⟩

theorem generateNginxCfg.path_isSome (e : Env) (hw : ReferencesResolve e) (host : String)
    (st : PathState) (path : HTTPIngressPath) :
    ∃ r, generateNginxCfg.path e host st path = some r := by
  unfold generateNginxCfg.path
  split
  · exact ⟨_, rfl⟩
  · obtain ⟨hc, h1⟩ := generateNginxCfg.healthCheck_isSome e hw st.healthChecks path.Backend
      (getNameForUpstream e.ingEx.Ingress host path.Backend)
    obtain ⟨ups, h2⟩ := generateNginxCfg.upstream_isSome e hw st.upstreams path.Backend
      (getNameForUpstream e.ingEx.Ingress host path.Backend)
    obtain ⟨r, h3⟩ := generateNginxCfg.locationJWT_isSome e hw
      (generateNginxCfg.location e ups (getNameForUpstream e.ingEx.Ingress host path.Backend)
        path.Path path.PathType path.Backend) st.server
    simp only [h1, h2, h3, Option.bind]
    exact ⟨_, rfl⟩

theorem generateNginxCfg.paths_isSome (e : Env) (hw : ReferencesResolve e) (host : String) :
    ∀ (paths : List HTTPIngressPath) (st : PathState),
      ∃ r, generateNginxCfg.paths e host paths st = some r
  | [], st => ⟨st, rfl⟩
  | path :: rest, st => by
    obtain ⟨st1, h1⟩ := generateNginxCfg.path_isSome e hw host st path
    obtain ⟨r, h2⟩ := generateNginxCfg.paths_isSome e hw host rest st1
    refine ⟨r, ?_⟩
    simp only [generateNginxCfg.paths, h1, Option.bind]
    exact h2

theorem generateNginxCfg.defaultLocation_isSome (e : Env) (hw : ReferencesResolve e)
    (st : PathState) (grpcOnly : Bool) :
    ∃ r, generateNginxCfg.defaultLocation e st grpcOnly = some r := by
  unfold generateNginxCfg.defaultLocation
  split
  · exact ⟨_, rfl⟩
  · split
    · exact ⟨_, rfl⟩
    · rename_i backend _ _
      obtain ⟨hc, h1⟩ := generateNginxCfg.healthCheck_isSome e hw st.healthChecks backend
        (getNameForUpstream e.ingEx.Ingress emptyHost backend)
      simp only [h1, Option.bind]
      exact ⟨_, rfl⟩

theorem generateNginxCfg.rule_isSome (e : Env) (hw : ReferencesResolve e)
    (upstreams : GoMap Upstream) (rule : IngressRule) :
    ∃ r, generateNginxCfg.rule e upstreams rule = some r := by
  unfold generateNginxCfg.rule
  obtain ⟨s0, h0⟩ := addSSLConfig_isSome e.ext (generateNginxCfg.newServer e rule) rule.Host
    e.ingEx.Ingress.Spec.TLS e.ingEx.Secrets e.isWildcardEnabled hw.2.2.1
  obtain ⟨s1, h1⟩ := generateNginxCfg.serverJWT_isSome e hw (generateNginxCfg.appProtect e s0)
  obtain ⟨st, h2⟩ := generateNginxCfg.paths_isSome e hw rule.Host
    (generateNginxCfg.rulePaths rule)
    { upstreams := upstreams, healthChecks := [], server := s1, locations := [],
      rootLocation := false }
  obtain ⟨r, h3⟩ := generateNginxCfg.defaultLocation_isSome e hw st
    (generateNginxCfg.grpcOnly e (generateNginxCfg.rulePaths rule))
  simp only [h0, h1, h2, h3, Option.bind]
  exact ⟨_, rfl⟩

theorem generateNginxCfg.rules_isSome (e : Env) (hw : ReferencesResolve e) :
    ∀ (rules : List IngressRule) (st : GoMap Upstream × List Server),
      ∃ r, generateNginxCfg.rules e rules st = some r
  | [], st => ⟨st, rfl⟩
  | rule :: rest, st => by
    rw [generateNginxCfg.rules_cons]
    split
    · obtain ⟨r, hr⟩ := generateNginxCfg.rule_isSome e hw st.1 rule
      rw [hr]
      exact generateNginxCfg.rules_isSome e hw rest _
    · exact generateNginxCfg.rules_isSome e hw rest st

theorem generateNginxCfg.grpcGate_resolve (e : Env) (hw : ReferencesResolve e) :
    ReferencesResolve (generateNginxCfg.grpcGate e) := by
  unfold generateNginxCfg.grpcGate
  split
  · exact hw
  · exact hw

/-- When the references of the input resolve, `generateNginxCfg` returns a config. -/
theorem generateNginxCfg.body_isSome (e : Env) (hw : ReferencesResolve e) :
    ∃ cfg, generateNginxCfg.body e = some cfg := by
  unfold generateNginxCfg.body generateNginxCfg.synth
  have hw' := generateNginxCfg.grpcGate_resolve e hw
  have hd : ∃ d, generateNginxCfg.defaultBackend (generateNginxCfg.grpcGate e) = some d := by
    unfold generateNginxCfg.defaultBackend
    split
    · exact ⟨_, rfl⟩
    · rename_i backend _
      obtain ⟨u, hu⟩ := createUpstream_isSome (generateNginxCfg.grpcGate e).ext
        (generateNginxCfg.grpcGate e).ingEx
        (getNameForUpstream (generateNginxCfg.grpcGate e).ingEx.Ingress emptyHost backend) backend
        (GoMap.get (generateNginxCfg.grpcGate e).spServices backend.ServiceName)
        (generateNginxCfg.grpcGate e).cfgParams (generateNginxCfg.grpcGate e).isPlus
        (generateNginxCfg.grpcGate e).isResolverConfigured
        (generateNginxCfg.grpcGate e).staticParams.EnableLatencyMetrics hw'.2.1
      obtain ⟨hc, h1⟩ := generateNginxCfg.healthCheck_isSome _ hw' [] backend
        (getNameForUpstream (generateNginxCfg.grpcGate e).ingEx.Ingress emptyHost backend)
      simp only [hu, h1, Option.bind]
      exact ⟨_, rfl⟩
  obtain ⟨d, hd⟩ := hd
  obtain ⟨r, hr⟩ := generateNginxCfg.rules_isSome _ hw'
    (generateNginxCfg.grpcGate e).ingEx.Ingress.Spec.Rules (d.1, [])
  simp only [hd, hr, Option.bind]
  exact ⟨_, rfl⟩

/-! ## C8: gRPC services without HTTP/2 -/

theorem generateNginxCfg.grpcGate_of_http2_false (e : Env) (h : e.cfgParams.HTTP2 = false) :
    generateNginxCfg.grpcGate e = e.withGrpcServices [] := by
  unfold generateNginxCfg.grpcGate Env.withGrpcServices
  cases hg : e.grpcServices with
  | nil =>
    simp only [List.length_nil, gt_iff_lt, lt_self_iff_false, decide_False, Bool.false_and,
      Bool.false_eq_true, if_false]
    cases e
    simp only at hg
    subst hg
    rfl
  | cons a l => simp [h]

theorem generateNginxCfg.grpcGate_withGrpcServices_nil (e : Env) :
    generateNginxCfg.grpcGate (e.withGrpcServices []) = e.withGrpcServices [] := by
  unfold generateNginxCfg.grpcGate Env.withGrpcServices
  simp

/-- Without HTTP/2 the synthesis is the synthesis with an empty gRPC service set. -/
theorem generateNginxCfg.body_of_http2_false (e : Env) (h : e.cfgParams.HTTP2 = false) :
    generateNginxCfg.body e = generateNginxCfg.body (e.withGrpcServices []) := by
  unfold generateNginxCfg.body generateNginxCfg.synth
  simp only [generateNginxCfg.grpcGate_of_http2_false e h,
    generateNginxCfg.grpcGate_withGrpcServices_nil]
  rfl

theorem IsLocationOf.grpc {e : Env} {upstreams : GoMap Upstream} {host : String}
    {path : HTTPIngressPath} {loc : Location} (h : IsLocationOf e upstreams host path loc) :
    loc.GRPC = GoMap.get e.grpcServices path.Backend.ServiceName := by
  obtain ⟨jwt, rfl⟩ := h.fields
  rfl

theorem mem_right_of_forall₂ {α β : Type} {R : α → β → Prop} {l1 : List α} {l2 : List β}
    (h : List.Forall₂ R l1 l2) (b : β) (hb : b ∈ l2) : ∃ a, R a b := by
  obtain ⟨a, _, hab⟩ := exists_of_forall₂_mem_right h b hb
  exact ⟨a, hab⟩

/-- C8. If the resolved parameters have HTTP2 false then, whatever the gRPC service set
names: the call behaves exactly as the same synthesis with an empty gRPC service set (the
same config, every field included, or the same failure); it returns a config whenever the
references of the input resolve; and in a returned config every server has `GRPCOnly`
false and every location has `GRPC` false. -/
theorem generateNginxCfg_grpc_requires_http2 (ext : External) (ingEx : IngressEx)
    (apResources : GoMap String) (isMinion : Bool) (baseCfgParams : ConfigParams)
    (isPlus isResolverConfigured : Bool) (staticParams : StaticConfigParams)
    (isWildcardEnabled : Bool)
    (hh : (ext.parseAnnotations ingEx baseCfgParams isPlus staticParams.MainAppProtectLoadModule
      staticParams.EnableInternalRoutes).HTTP2 = false) :
    generateNginxCfg ext ingEx apResources isMinion baseCfgParams isPlus isResolverConfigured
        staticParams isWildcardEnabled =
      generateNginxCfg.body
        ((generateNginxCfg.locals ext ingEx apResources isMinion baseCfgParams isPlus
          isResolverConfigured staticParams isWildcardEnabled).withGrpcServices []) ∧
    (ReferencesResolve (generateNginxCfg.locals ext ingEx apResources isMinion baseCfgParams
        isPlus isResolverConfigured staticParams isWildcardEnabled) →
      ∃ cfg, generateNginxCfg ext ingEx apResources isMinion baseCfgParams isPlus
        isResolverConfigured staticParams isWildcardEnabled = some cfg) ∧
    ∀ cfg, generateNginxCfg ext ingEx apResources isMinion baseCfgParams isPlus
        isResolverConfigured staticParams isWildcardEnabled = some cfg →
      ∀ server ∈ cfg.Servers,
        server.GRPCOnly = false ∧ ∀ l ∈ server.Locations, l.GRPC = false := by
  refine ⟨generateNginxCfg.body_of_http2_false _ hh, generateNginxCfg.body_isSome _, ?_⟩
  intro cfg h server hmem
  unfold generateNginxCfg generateNginxCfg.body at h
  simp only [Option.bind_eq_some, Option.some.injEq] at h
  obtain ⟨r, hr, rfl⟩ := h
  obtain ⟨hfa, _⟩ := generateNginxCfg.synth_servers _ r hr
  obtain ⟨rule, _, hs⟩ := exists_of_forall₂_mem_right hfa server hmem
  have gg : (generateNginxCfg.grpcGate (generateNginxCfg.locals ext ingEx apResources isMinion
      baseCfgParams isPlus isResolverConfigured staticParams isWildcardEnabled)).grpcServices
      = [] := by
    rw [generateNginxCfg.grpcGate_of_http2_false _ hh]
    rfl
  obtain ⟨s0, s1, locs, jwts, _, _, hl, _, _, hsrv⟩ := hs
  have hlocs : server.Locations = locs ++ implicitLocations _ r.1 locs :=
    congrArg Server.Locations hsrv
  have hgo : server.GRPCOnly = (generateNginxCfg.grpcOnly _ (generateNginxCfg.rulePaths rule) &&
      (implicitLocations _ r.1 locs).all fun l => (GoMap.lookup _ l.ServiceName).isSome) :=
    congrArg Server.GRPCOnly hsrv
  refine ⟨?_, ?_⟩
  · rw [hgo]
    unfold generateNginxCfg.grpcOnly
    rw [gg]
    rfl
  · intro l hlm
    rw [hlocs, List.mem_append] at hlm
    rcases hlm with hlm | hlm
    · obtain ⟨p, hp⟩ := mem_right_of_forall₂ hl l hlm
      rw [hp.grpc, gg]
      rfl
    · unfold implicitLocations at hlm
      split at hlm
      · exact absurd hlm (List.not_mem_nil _)
      · split at hlm
        · exact absurd hlm (List.not_mem_nil _)
        · rw [List.mem_singleton] at hlm
          rw [hlm]
          show GoMap.get _ _ = false
          rw [gg]
          rfl

/-- C8 on the cafe ingress with `tea-svc` declared as a gRPC service and HTTP/2
disabled: the config is returned, no server is gRPC-only and no location is a gRPC
location. -/
theorem generateNginxCfg_grpc_requires_http2_witness :
    (generateNginxCfg grpcTeaExternal exampleIngress [] false default true false default
        false).map (fun cfg => cfg.Servers.map fun s =>
          (s.GRPCOnly, s.Locations.map fun l => (l.ServiceName, l.GRPC)))
      = some [(false, [("tea-svc", false), ("coffee-svc", false), ("dflt", false)])] ∧
    generateNginxCfg grpcTeaExternal exampleIngress [] false default true false default false =
      generateNginxCfg.body
        ((generateNginxCfg.locals grpcTeaExternal exampleIngress [] false default true false
          default false).withGrpcServices []) ∧
    ReferencesResolve (generateNginxCfg.locals grpcTeaExternal exampleIngress [] false default
      true false default false) ∧
    ∃ cfg, generateNginxCfg grpcTeaExternal exampleIngress [] false default true false default
      false = some cfg :=
  have hres : ReferencesResolve (generateNginxCfg.locals grpcTeaExternal exampleIngress [] false
      default true false default false) := by
    unfold ReferencesResolve
    decide
  ⟨by rfl,
   (generateNginxCfg_grpc_requires_http2 grpcTeaExternal exampleIngress [] false default true
      false default false rfl).1,
   hres,
   (generateNginxCfg_grpc_requires_http2 grpcTeaExternal exampleIngress [] false default true
      false default false rfl).2.1 hres⟩

/-! ## C2: upstream names of distinct backends -/

/-- C2 fails on the code. The backends (`cafe-tea`, `svc`, 80) and (`cafe`, `tea-svc`,
80) of one ingress get the same upstream name, so `generateNginxCfg` builds a single
upstream for the two and the location of `tea-svc` under the host `cafe` is given the
upstream built for `svc`, with the endpoint of `svc`. -/
theorem getNameForUpstream_collision :
    getNameForUpstream collidingIngress.Ingress "cafe-tea"
        { ServiceName := "svc", ServicePort := .int 80 } =
      getNameForUpstream collidingIngress.Ingress "cafe"
        { ServiceName := "tea-svc", ServicePort := .int 80 } ∧
    (generateNginxCfg exampleExternal collidingIngress [] false default true false default
        false).map (fun cfg =>
          (cfg.Upstreams.map fun u => u.Name,
           cfg.Servers.map fun s => (s.Name, s.Locations.map fun l =>
             (l.ServiceName, l.Upstream.UpstreamLabels.Service,
              l.Upstream.UpstreamServers.map fun srv => srv.Address))))
      = some (["default-shop-cafe-tea-svc-80"],
              [("cafe-tea", [("svc", "svc", ["10.0.0.1"])]),
               ("cafe", [("tea-svc", "svc", ["10.0.0.1"])])]) :=
  ⟨by decide, by rfl⟩

/-! ## `createUpstream` -/

theorem splitChars_of_not_mem (sep : Char) :
    ∀ cs : List Char, sep ∉ cs → splitChars sep cs = [cs]
  | [], _ => rfl
  | c :: cs, h => by
    have hc : c ≠ sep := fun e => h (e ▸ List.mem_cons_self _ _)
    have hcs : sep ∉ cs := fun m => h (List.mem_cons_of_mem _ m)
    unfold splitChars
    rw [if_neg hc, splitChars_of_not_mem sep cs hcs]

theorem splitChars_append (sep : Char) (rest : List Char) :
    ∀ cs : List Char, sep ∉ cs →
      splitChars sep (cs ++ sep :: rest) = cs :: splitChars sep rest
  | [], _ => by
    show splitChars sep (sep :: rest) = _
    conv_lhs => unfold splitChars
    rw [if_pos rfl]
  | c :: cs, h => by
    have hc : c ≠ sep := fun e => h (e ▸ List.mem_cons_self _ _)
    have hcs : sep ∉ cs := fun m => h (List.mem_cons_of_mem _ m)
    show splitChars sep (c :: (cs ++ sep :: rest)) = _
    conv_lhs => unfold splitChars
    rw [if_neg hc, splitChars_append sep rest cs hcs]

/-- The call `strings.Split(s, ":")` on `address:port` with one colon. -/
theorem splitColon_pair (address port : String) (ha : ':' ∉ address.data)
    (hp : ':' ∉ port.data) : splitColon (address ++ ":" ++ port) = [address, port] := by
  unfold splitColon
  have hd : (address ++ ":" ++ port).data = address.data ++ ':' :: port.data := by
    simp [String.data_append]
  rw [hd, splitChars_append ':' port.data address.data ha, splitChars_of_not_mem ':' port.data hp]
  rfl

/-- The loop over the endpoints on endpoints of the form `address:port`. -/
theorem createUpstream.servers_pairs (cfg : ConfigParams) (isExternalNameSvc : Bool) :
    ∀ (pairs : List (String × String)) (upsServers : List UpstreamServer),
      (∀ ap ∈ pairs, ':' ∉ ap.1.data ∧ ':' ∉ ap.2.data) →
      createUpstream.servers cfg isExternalNameSvc (pairs.map fun ap => ap.1 ++ ":" ++ ap.2)
        upsServers =
      some (upsServers ++ pairs.map fun ap =>
        { Address := ap.1, Port := ap.2, MaxFails := cfg.MaxFails, MaxConns := cfg.MaxConns,
          FailTimeout := cfg.FailTimeout, SlowStart := cfg.SlowStart,
          Resolve := isExternalNameSvc })
  | [], upsServers, _ => by simp [createUpstream.servers]
  | ap :: rest, upsServers, h => by
    have h1 := h ap (List.mem_cons_self _ _)
    rw [List.map_cons]
    unfold createUpstream.servers
    rw [splitColon_pair ap.1 ap.2 h1.1 h1.2]
    simp only
    rw [createUpstream.servers_pairs cfg isExternalNameSvc rest _
      (fun a ha => h a (List.mem_cons_of_mem _ ha))]
    simp

/-- The loop over the endpoints appends one server per endpoint, each with `Resolve`
equal to `isExternalNameSvc`. -/
theorem createUpstream.servers_spec (cfg : ConfigParams) (isExternalNameSvc : Bool) :
    ∀ (endps : List String) (upsServers r : List UpstreamServer),
      createUpstream.servers cfg isExternalNameSvc endps upsServers = some r →
      r.length = upsServers.length + endps.length ∧
      ∀ s ∈ r, s ∈ upsServers ∨ s.Resolve = isExternalNameSvc
  | [], upsServers, r, h => by
    unfold createUpstream.servers at h
    simp only [Option.some.injEq] at h
    subst h
    exact ⟨rfl, fun s hs => Or.inl hs⟩
  | endp :: rest, upsServers, r, h => by
    unfold createUpstream.servers at h
    split at h
    · obtain ⟨h1, h2⟩ := createUpstream.servers_spec cfg isExternalNameSvc rest _ r h
      refine ⟨?_, ?_⟩
      · rw [h1]
        simp only [List.length_append, List.length_cons, List.length_nil]
        omega
      · intro s hs
        rcases h2 s hs with hm | hr
        · rcases List.mem_append.1 hm with hm | hm
          · exact Or.inl hm
          · rw [List.mem_singleton] at hm
            rw [hm]
            exact Or.inr rfl
        · exact Or.inr hr
    · exact absurd h (by simp)

/-- `createUpstream` on a backend whose service and port have an entry in `Endpoints`. -/
theorem createUpstream_of_endpoints (ext : External) (ingEx : IngressEx) (name : String)
    (backend : IngressBackend) (stickyCookie : String) (cfg : ConfigParams)
    (isPlus isResolverConfigured isLatencyMetricsEnabled : Bool) (endps : List String)
    (h : GoMap.lookup ingEx.Endpoints (backend.ServiceName ++ backend.ServicePort.string) =
      some endps) :
    createUpstream ext ingEx name backend stickyCookie cfg isPlus isResolverConfigured
      isLatencyMetricsEnabled =
    (createUpstream.servers cfg (GoMap.lookup ingEx.ExternalNameSvcs backend.ServiceName).isSome
      (if ((GoMap.lookup ingEx.ExternalNameSvcs backend.ServiceName).isSome &&
          !isResolverConfigured) = true then [] else endps) []).bind fun upsServers =>
      some { createUpstream.base ext ingEx name backend stickyCookie cfg isPlus
              isLatencyMetricsEnabled with
        UpstreamServers :=
          if upsServers.length > 0 then upsServers
          else (createUpstream.base ext ingEx name backend stickyCookie cfg isPlus
            isLatencyMetricsEnabled).UpstreamServers
        LBMethod := cfg.LBMethod
        UpstreamZoneSize := cfg.UpstreamZoneSize } := by
  unfold createUpstream createUpstream.endpoints
  simp only [h]
  cases createUpstream.servers cfg (GoMap.lookup ingEx.ExternalNameSvcs backend.ServiceName).isSome
    (if ((GoMap.lookup ingEx.ExternalNameSvcs backend.ServiceName).isSome &&
      !isResolverConfigured) = true then [] else endps) [] with
  | none => rfl
  | some l =>
    by_cases hlen : l.length > 0
    · simp only [Option.bind, if_pos hlen]
    · simp only [Option.bind, if_neg hlen]

/-- `createUpstream` changes the upstream of lines 376-391 only in its servers, its
method and its zone size. -/
theorem createUpstream_frame (ext : External) (ingEx : IngressEx) (name : String)
    (backend : IngressBackend) (stickyCookie : String) (cfg : ConfigParams)
    (isPlus isResolverConfigured isLatencyMetricsEnabled : Bool) (ups : Upstream)
    (h : createUpstream ext ingEx name backend stickyCookie cfg isPlus isResolverConfigured
      isLatencyMetricsEnabled = some ups) :
    ups = { createUpstream.base ext ingEx name backend stickyCookie cfg isPlus
              isLatencyMetricsEnabled with
            UpstreamServers := ups.UpstreamServers
            LBMethod := cfg.LBMethod
            UpstreamZoneSize := cfg.UpstreamZoneSize } := by
  cases hl : GoMap.lookup ingEx.Endpoints (backend.ServiceName ++ backend.ServicePort.string) with
  | none =>
    unfold createUpstream createUpstream.endpoints at h
    simp only [hl, Option.bind, Option.some.injEq] at h
    rw [← h]
  | some endps =>
    rw [createUpstream_of_endpoints _ _ _ _ _ _ _ _ _ endps hl] at h
    simp only [Option.bind_eq_some, Option.some.injEq] at h
    obtain ⟨l, _, h⟩ := h
    rw [← h]

/-! ## C11: a TLS entry that names a missing secret -/

/-- C11 as stated fails: on the cafe ingress with an empty `Secrets` map the TLS entry of
the host names the secret `cafe-secret`, the map has no entry under that name, and
`addSSLConfig` does not complete: `secrets[tlsSecret]` is a nil pointer and
`secret.Error` panics.  No placeholder certificate is bound and the synthesis of the
ingress stops. -/
theorem addSSLConfig_missing_secret_counterexample :
    missingSecretIngress.Ingress.Spec.TLS =
      [{ Hosts := ["cafe.example.com"], SecretName := "cafe-secret" }] ∧
    GoMap.lookup missingSecretIngress.Secrets "cafe-secret" = none ∧
    addSSLConfig exampleExternal default "cafe.example.com"
      missingSecretIngress.Ingress.Spec.TLS missingSecretIngress.Secrets false = none ∧
    generateNginxCfg exampleExternal missingSecretIngress [] false default false false default
      false = none :=
  ⟨by rfl, by rfl, by rfl, by rfl⟩

/-- C11, amended. When the entry that decides for the host (the last one that lists it)
names a secret and `secrets` holds an entry under that name, the resolution result of the
secret: if the entry carries an error, as a missing secret does, or is not of the type
TLS, `addSSLConfig` completes and returns the server with `SSL` true, the missing-secret
placeholder as certificate and key and the ciphers `NULL`, the same server in both
cases.  The map has to hold an entry for the name: without one the call does not
complete. -/
theorem addSSLConfig_missing_secret (ext : External) (server : Server) (host : String)
    (ingressTLS : List IngressTLS) (secrets : GoMap SecretReference) (isWildcardEnabled : Bool)
    (tls : IngressTLS)
    (hsel : (ingressTLS.filter fun t => decide (host ∈ t.Hosts)).getLast? = some tls)
    (hname : tls.SecretName ≠ "") :
    (∀ secret, GoMap.lookup secrets tls.SecretName = some secret →
      (secret.Error ≠ none ∨ secret.Typ ≠ SecretTypeTLS) →
      addSSLConfig ext server host ingressTLS secrets isWildcardEnabled =
        some { server with
          SSL := true
          SSLCertificate := ext.pemFileNameForMissingTLSSecret
          SSLCertificateKey := ext.pemFileNameForMissingTLSSecret
          SSLCiphers := "NULL" }) ∧
    (GoMap.lookup secrets tls.SecretName = none →
      addSSLConfig ext server host ingressTLS secrets isWildcardEnabled = none) := by
  have he : addSSLConfig.entries host ingressTLS (false, "") = (true, tls.SecretName) := by
    rw [addSSLConfig.entries_eq, hsel]
  have hrun := addSSLConfig_of_entries ext server host ingressTLS secrets isWildcardEnabled _ he
  refine ⟨?_, ?_⟩
  · intro secret hlk hbad
    have hp : addSSLConfig.pemFile ext tls.SecretName secrets isWildcardEnabled =
        some ext.pemFileNameForMissingTLSSecret := by
      unfold addSSLConfig.pemFile
      rw [if_pos hname, hlk]
      simp only
      by_cases h1 : secret.Error = none
      · rcases hbad with h2 | h2
        · exact absurd h1 h2
        · simp [h1, h2]
      · simp [h1]
    rw [hrun, hp]
    simp only [Option.bind, if_true]
  · intro hmiss
    rw [hrun]
    unfold addSSLConfig.pemFile
    rw [if_pos hname, hmiss]
    rfl

/-- C11, amended, on the cafe ingress whose TLS secret is stored with an error: the
server gets the placeholder certificate and the ciphers `NULL`, and the synthesis of the
ingress completes. -/
theorem addSSLConfig_missing_secret_witness :
    (generateNginxCfg exampleExternal invalidSecretIngress [] false default false false default
      false).map (fun cfg => cfg.Servers.map fun s => (s.SSL, s.SSLCertificate, s.SSLCiphers))
      = some [(true, "/etc/nginx/secrets/default", "NULL")] ∧
    addSSLConfig exampleExternal default "cafe.example.com"
      invalidSecretIngress.Ingress.Spec.TLS invalidSecretIngress.Secrets false =
      some { (default : Server) with
        SSL := true
        SSLCertificate := exampleExternal.pemFileNameForMissingTLSSecret
        SSLCertificateKey := exampleExternal.pemFileNameForMissingTLSSecret
        SSLCiphers := "NULL" } :=
  ⟨by rfl,
   (addSSLConfig_missing_secret exampleExternal default "cafe.example.com"
      invalidSecretIngress.Ingress.Spec.TLS invalidSecretIngress.Secrets false
      { Hosts := ["cafe.example.com"], SecretName := "cafe-secret" } (by rfl) (by decide)).1
      { Typ := SecretTypeTLS, Path := "/etc/nginx/secrets/default-cafe-secret",
        Error := some "secret is invalid" } (by rfl) (Or.inl (by decide))⟩

/-! ## C12: `generateJWTConfig` -/

/-- C12. For every secret stored under the JWT key, whatever its error and type,
`generateJWTConfig` returns an auth block whose `Key` is the path of the secret, whose
`Realm` is `JWTRealm` and whose `Token` is `JWTToken`.  It returns a redirect location if
and only if `JWTLoginURL` is not empty; the redirect location then has the given name and
that login URL, and `RedirectLocationName` of the auth block is that name; otherwise
`RedirectLocationName` is empty. -/
theorem generateJWTConfig_spec (secrets : GoMap SecretReference) (cfgParams : ConfigParams)
    (redirectLocationName : String) (secret : SecretReference)
    (h : GoMap.lookup secrets cfgParams.JWTKey = some secret) :
    ∃ jwtAuth redirectLoc,
      generateJWTConfig secrets cfgParams redirectLocationName = some (jwtAuth, redirectLoc) ∧
      jwtAuth.Key = secret.Path ∧
      jwtAuth.Realm = cfgParams.JWTRealm ∧
      jwtAuth.Token = cfgParams.JWTToken ∧
      (redirectLoc ≠ none ↔ cfgParams.JWTLoginURL ≠ "") ∧
      (cfgParams.JWTLoginURL ≠ "" →
        redirectLoc = some { Name := redirectLocationName, LoginURL := cfgParams.JWTLoginURL } ∧
        jwtAuth.RedirectLocationName = redirectLocationName) ∧
      (cfgParams.JWTLoginURL = "" → jwtAuth.RedirectLocationName = "") := by
  unfold generateJWTConfig
  simp only [h]
  by_cases hu : cfgParams.JWTLoginURL = ""
  · rw [if_neg (not_not.2 hu)]
    exact ⟨_, _, rfl, rfl, rfl, rfl, by simp [hu], fun hne => absurd hu hne, fun _ => rfl⟩
  · rw [if_pos hu]
    exact ⟨_, _, rfl, rfl, rfl, rfl, by simp [hu], fun _ => ⟨rfl, rfl⟩, fun he => absurd he hu⟩

/-- C12 on a secret stored with an error and of another type, with a login URL. -/
theorem generateJWTConfig_spec_witness :
    generateJWTConfig jwtSecrets jwtCfgParams (getNameForRedirectLocation exampleIngress.Ingress) =
      some ({ Key := "/etc/nginx/secrets/jwk", Realm := "cafe", Token := "$cookie_t",
              RedirectLocationName := "@login_url_default-cafe" },
            some { Name := "@login_url_default-cafe", LoginURL := "https://login.example.com" }) ∧
    ∃ jwtAuth redirectLoc,
      generateJWTConfig jwtSecrets jwtCfgParams (getNameForRedirectLocation exampleIngress.Ingress)
        = some (jwtAuth, redirectLoc) ∧
      jwtAuth.Key = "/etc/nginx/secrets/jwk" ∧
      jwtAuth.Realm = jwtCfgParams.JWTRealm ∧
      jwtAuth.Token = jwtCfgParams.JWTToken ∧
      (redirectLoc ≠ none ↔ jwtCfgParams.JWTLoginURL ≠ "") ∧
      (jwtCfgParams.JWTLoginURL ≠ "" →
        redirectLoc = some { Name := getNameForRedirectLocation exampleIngress.Ingress,
                             LoginURL := jwtCfgParams.JWTLoginURL } ∧
        jwtAuth.RedirectLocationName = getNameForRedirectLocation exampleIngress.Ingress) ∧
      (jwtCfgParams.JWTLoginURL = "" → jwtAuth.RedirectLocationName = "") :=
  ⟨by rfl,
   generateJWTConfig_spec jwtSecrets jwtCfgParams (getNameForRedirectLocation exampleIngress.Ingress)
     { Typ := "Opaque", Path := "/etc/nginx/secrets/jwk", Error := some "invalid" } (by rfl)⟩

/-! ## C14: `upstreamRequiresQueue` -/

/-- C14. `upstreamRequiresQueue` returns `(HealthCheckMandatoryQueue, TimeoutSeconds of
the probe)` when health checks are enabled and mandatory, the queue is positive and a
probe is stored under the name, and `(0, 0)` in every other case; so a non-zero queue
is returned only when the three conditions hold.  For NGINX Plus `createUpstream` calls it
with the service and port key of the backend and stores the pair in `Queue` and
`QueueTimeout` of the upstream. -/
theorem upstreamRequiresQueue_spec (name : String) (ingEx : IngressEx) (cfg : ConfigParams) :
    (∀ hc, cfg.HealthCheckEnabled = true → cfg.HealthCheckMandatory = true →
      0 < cfg.HealthCheckMandatoryQueue → GoMap.lookup ingEx.HealthChecks name = some hc →
      upstreamRequiresQueue name ingEx cfg = (cfg.HealthCheckMandatoryQueue, hc.TimeoutSeconds)) ∧
    (¬ (cfg.HealthCheckEnabled = true ∧ cfg.HealthCheckMandatory = true ∧
        0 < cfg.HealthCheckMandatoryQueue ∧ GoMap.lookup ingEx.HealthChecks name ≠ none) →
      upstreamRequiresQueue name ingEx cfg = (0, 0)) ∧
    ((upstreamRequiresQueue name ingEx cfg).1 ≠ 0 →
      cfg.HealthCheckEnabled = true ∧ cfg.HealthCheckMandatory = true ∧
      0 < cfg.HealthCheckMandatoryQueue) ∧
    (∀ (ext : External) (upsName : String) (backend : IngressBackend) (stickyCookie : String)
      (isResolverConfigured isLatencyMetricsEnabled : Bool) (ups : Upstream),
      name = backend.ServiceName ++ backend.ServicePort.string →
      createUpstream ext ingEx upsName backend stickyCookie cfg true isResolverConfigured
        isLatencyMetricsEnabled = some ups →
      (ups.Queue, ups.QueueTimeout) = upstreamRequiresQueue name ingEx cfg) := by
  refine ⟨?_, ?_, ?_, ?_⟩
  · intro hc h1 h2 h3 h4
    unfold upstreamRequiresQueue
    simp [h1, h2, h3, h4]
  · intro hn
    unfold upstreamRequiresQueue
    split
    · rename_i hc
      simp only [Bool.and_eq_true, decide_eq_true_eq, gt_iff_lt] at hc
      cases hl : GoMap.lookup ingEx.HealthChecks name with
      | none => rfl
      | some hc' => exact absurd ⟨hc.1.1, hc.1.2, hc.2, by simp [hl]⟩ hn
    · rfl
  · intro hne
    unfold upstreamRequiresQueue at hne
    split at hne
    · rename_i hc
      simp only [Bool.and_eq_true, decide_eq_true_eq, gt_iff_lt] at hc
      exact ⟨hc.1.1, hc.1.2, hc.2⟩
    · exact absurd rfl hne
  · intro ext upsName backend stickyCookie isResolverConfigured isLatencyMetricsEnabled ups hn h
    rw [createUpstream_frame _ _ _ _ _ _ _ _ _ _ h, hn]
    rfl

/-- C14 on an ingress with a probe on `tea-svc80`: the queue is returned with mandatory
health checks and a positive queue, and `(0, 0)` for a service without probe or when
health checks are not mandatory. -/
theorem upstreamRequiresQueue_spec_witness :
    upstreamRequiresQueue "tea-svc80" probeIngress queueCfgParams = (50, 7) ∧
    upstreamRequiresQueue "coffee-svchttp" probeIngress queueCfgParams = (0, 0) ∧
    upstreamRequiresQueue "tea-svc80" probeIngress
      { queueCfgParams with HealthCheckMandatory := false } = (0, 0) ∧
    (createUpstream exampleExternal probeIngress "default-cafe-cafe.example.com-tea-svc-80"
      teaBackend "" queueCfgParams true false false).map (fun ups => (ups.Queue, ups.QueueTimeout))
      = some (50, 7) :=
  ⟨(upstreamRequiresQueue_spec "tea-svc80" probeIngress queueCfgParams).1 teaProbe
      (by rfl) (by rfl) (by decide) (by rfl),
   (upstreamRequiresQueue_spec "coffee-svchttp" probeIngress queueCfgParams).2.1
      (by decide),
   (upstreamRequiresQueue_spec "tea-svc80" probeIngress
      { queueCfgParams with HealthCheckMandatory := false }).2.1 (by decide),
   by rfl⟩

/-! ## C15: the servers of an upstream -/

/-- C15. When the service and port key of the backend has a non-empty list of endpoints
`address:port` with one colon each, unless the service is a key of `ExternalNameSvcs` and
no resolver is configured, `createUpstream` returns an upstream with exactly one
server per endpoint, in the order of the endpoints, whose `Address` is the text before
the colon and whose `Port` is the text after it, with the resolved `MaxFails`, `MaxConns`,
`FailTimeout` and `SlowStart`.  For a service that is a key of `ExternalNameSvcs` without
a configured resolver, no server is created from the endpoints: the servers are those of
the upstream before the endpoints are read (none for NGINX Plus).  `LBMethod` and
`UpstreamZoneSize` of every returned upstream are the resolved parameters. -/
theorem createUpstream_servers (ext : External) (ingEx : IngressEx) (name : String)
    (backend : IngressBackend) (stickyCookie : String) (cfg : ConfigParams)
    (isPlus isResolverConfigured isLatencyMetricsEnabled : Bool) :
    (∀ pairs : List (String × String), pairs ≠ [] →
      (∀ ap ∈ pairs, ':' ∉ ap.1.data ∧ ':' ∉ ap.2.data) →
      GoMap.lookup ingEx.Endpoints (backend.ServiceName ++ backend.ServicePort.string) =
        some (pairs.map fun ap => ap.1 ++ ":" ++ ap.2) →
      ¬ ((GoMap.lookup ingEx.ExternalNameSvcs backend.ServiceName).isSome = true ∧
          isResolverConfigured = false) →
      ∃ ups, createUpstream ext ingEx name backend stickyCookie cfg isPlus isResolverConfigured
          isLatencyMetricsEnabled = some ups ∧
        ups.UpstreamServers = pairs.map fun ap =>
          { Address := ap.1, Port := ap.2, MaxFails := cfg.MaxFails, MaxConns := cfg.MaxConns,
            FailTimeout := cfg.FailTimeout, SlowStart := cfg.SlowStart,
            Resolve := (GoMap.lookup ingEx.ExternalNameSvcs backend.ServiceName).isSome }) ∧
    (∀ endps, GoMap.lookup ingEx.Endpoints (backend.ServiceName ++ backend.ServicePort.string) =
        some endps →
      (GoMap.lookup ingEx.ExternalNameSvcs backend.ServiceName).isSome = true →
      isResolverConfigured = false →
      ∃ ups, createUpstream ext ingEx name backend stickyCookie cfg isPlus isResolverConfigured
          isLatencyMetricsEnabled = some ups ∧
        ups.UpstreamServers = (createUpstream.base ext ingEx name backend stickyCookie cfg isPlus
          isLatencyMetricsEnabled).UpstreamServers ∧
        (isPlus = true → ups.UpstreamServers = [])) ∧
    (∀ ups, createUpstream ext ingEx name backend stickyCookie cfg isPlus isResolverConfigured
        isLatencyMetricsEnabled = some ups →
      ups.LBMethod = cfg.LBMethod ∧ ups.UpstreamZoneSize = cfg.UpstreamZoneSize) := by
  refine ⟨?_, ?_, ?_⟩
  · intro pairs hne hform hl hext
    have hc : ¬ ((GoMap.lookup ingEx.ExternalNameSvcs backend.ServiceName).isSome &&
        !isResolverConfigured) = true := by
      intro hc
      simp only [Bool.and_eq_true, Bool.not_eq_true'] at hc
      exact hext hc
    rw [createUpstream_of_endpoints _ _ _ _ _ _ _ _ _ _ hl, if_neg hc,
      createUpstream.servers_pairs cfg _ pairs [] hform]
    have hlen : (pairs.map fun ap =>
        ({ Address := ap.1, Port := ap.2, MaxFails := cfg.MaxFails, MaxConns := cfg.MaxConns,
           FailTimeout := cfg.FailTimeout, SlowStart := cfg.SlowStart,
           Resolve := (GoMap.lookup ingEx.ExternalNameSvcs backend.ServiceName).isSome } :
          UpstreamServer)).length > 0 := by
      rw [List.length_map]
      exact List.length_pos.2 hne
    refine ⟨_, rfl, ?_⟩
    simp only [List.nil_append]
    exact if_pos hlen
  · intro endps hl hext hres
    have hc : ((GoMap.lookup ingEx.ExternalNameSvcs backend.ServiceName).isSome &&
        !isResolverConfigured) = true := by
      rw [hext, hres]
      rfl
    rw [createUpstream_of_endpoints _ _ _ _ _ _ _ _ _ _ hl, if_pos hc]
    refine ⟨_, rfl, rfl, ?_⟩
    intro hp
    subst hp
    rfl
  · intro ups h
    rw [createUpstream_frame _ _ _ _ _ _ _ _ _ _ h]
    exact ⟨rfl, rfl⟩

/-- C15 on the cafe ingress: `tea-svc`, port 80, has two endpoints and gets two servers;
stored in `ExternalNameSvcs` and without resolver it gets none. -/
theorem createUpstream_servers_witness :
    (createUpstream exampleExternal exampleIngress "default-cafe-cafe.example.com-tea-svc-80"
      teaBackend "" default true false false).map
      (fun ups => ups.UpstreamServers.map fun s => (s.Address, s.Port, s.Resolve)) =
      some [("10.0.0.1", "80", false), ("10.0.0.2", "80", false)] ∧
    (createUpstream exampleExternal externalNameIngress "default-cafe-cafe.example.com-tea-svc-80"
      teaBackend "" default true false false).map (fun ups => ups.UpstreamServers) = some [] := by
  obtain ⟨ups, h1, h2⟩ :=
    (createUpstream_servers exampleExternal exampleIngress
      "default-cafe-cafe.example.com-tea-svc-80" teaBackend "" default true false false).1
      [("10.0.0.1", "80"), ("10.0.0.2", "80")] (by simp) (by decide) (by rfl) (by decide)
  obtain ⟨ups', h3, _, h4⟩ :=
    (createUpstream_servers exampleExternal externalNameIngress
      "default-cafe-cafe.example.com-tea-svc-80" teaBackend "" default true false false).2.1
      _ (by rfl) (by rfl) rfl
  refine ⟨?_, ?_⟩
  · rw [h1]
    show some (ups.UpstreamServers.map fun s => (s.Address, s.Port, s.Resolve)) = _
    rw [h2]
    rfl
  · rw [h3]
    show some ups'.UpstreamServers = _
    rw [h4 rfl]

/-! ## C16: `Resolve` and the `ExternalNameSvcs` map -/

/-- C16 as stated fails: `tea-svc` is stored in `ExternalNameSvcs` under the value
`false`; with a resolver its servers have `Resolve` true, and without a resolver its two
endpoints give no server. -/
theorem createUpstream_resolve_counterexample :
    GoMap.lookup flaggedFalseIngress.ExternalNameSvcs teaBackend.ServiceName = some false ∧
    (createUpstream exampleExternal flaggedFalseIngress "default-cafe-cafe.example.com-tea-svc-80"
      teaBackend "" default true true false).map
      (fun ups => ups.UpstreamServers.map fun s => (s.Address, s.Port, s.Resolve)) =
      some [("10.0.0.1", "80", true), ("10.0.0.2", "80", true)] ∧
    (createUpstream exampleExternal flaggedFalseIngress "default-cafe-cafe.example.com-tea-svc-80"
      teaBackend "" default true false false).map (fun ups => ups.UpstreamServers) = some [] :=
  ⟨by rfl, by rfl, by rfl⟩

/-- C16, amended. For a backend whose service and port key has endpoints, and every
upstream that `createUpstream` returns: when the service is not a key of
`ExternalNameSvcs`, the upstream has one server per endpoint, also when no resolver is
configured, and each has `Resolve` false; when the service is a key of `ExternalNameSvcs`,
whatever boolean is stored under it, and a resolver is configured, the upstream has one
server per endpoint and each has `Resolve` true; when the service is a key and no
resolver is configured, the endpoints give no server. -/
theorem createUpstream_resolve (ext : External) (ingEx : IngressEx) (name : String)
    (backend : IngressBackend) (stickyCookie : String) (cfg : ConfigParams)
    (isPlus isResolverConfigured isLatencyMetricsEnabled : Bool) (endps : List String)
    (ups : Upstream)
    (hl : GoMap.lookup ingEx.Endpoints (backend.ServiceName ++ backend.ServicePort.string) =
      some endps)
    (h : createUpstream ext ingEx name backend stickyCookie cfg isPlus isResolverConfigured
      isLatencyMetricsEnabled = some ups) :
    (GoMap.lookup ingEx.ExternalNameSvcs backend.ServiceName = none → endps ≠ [] →
      ups.UpstreamServers.length = endps.length ∧
      ∀ s ∈ ups.UpstreamServers, s.Resolve = false) ∧
    (∀ flag, GoMap.lookup ingEx.ExternalNameSvcs backend.ServiceName = some flag →
      isResolverConfigured = true → endps ≠ [] →
      ups.UpstreamServers.length = endps.length ∧
      ∀ s ∈ ups.UpstreamServers, s.Resolve = true) ∧
    (∀ flag, GoMap.lookup ingEx.ExternalNameSvcs backend.ServiceName = some flag →
      isResolverConfigured = false →
      ups.UpstreamServers = (createUpstream.base ext ingEx name backend stickyCookie cfg isPlus
        isLatencyMetricsEnabled).UpstreamServers) := by
  rw [createUpstream_of_endpoints _ _ _ _ _ _ _ _ _ _ hl] at h
  simp only [Option.bind_eq_some, Option.some.injEq] at h
  obtain ⟨l, hs, hu⟩ := h
  have hservers : ups.UpstreamServers =
      if l.length > 0 then l
      else (createUpstream.base ext ingEx name backend stickyCookie cfg isPlus
        isLatencyMetricsEnabled).UpstreamServers := by
    rw [← hu]
  have key : ∀ b : Bool, (GoMap.lookup ingEx.ExternalNameSvcs backend.ServiceName).isSome = b →
      ¬ (b && !isResolverConfigured) = true → endps ≠ [] →
      ups.UpstreamServers.length = endps.length ∧ ∀ s ∈ ups.UpstreamServers, s.Resolve = b := by
    intro b hb hc hne
    rw [hb, if_neg hc] at hs
    obtain ⟨h1, h2⟩ := createUpstream.servers_spec cfg b endps [] l hs
    have hlen : l.length > 0 := by
      rw [h1]
      simp only [List.length_nil, Nat.zero_add]
      exact List.length_pos.2 hne
    rw [hservers, if_pos hlen]
    refine ⟨by simpa using h1, ?_⟩
    intro s hm
    rcases h2 s hm with hn | hr
    · exact absurd hn (List.not_mem_nil _)
    · exact hr
  refine ⟨?_, ?_, ?_⟩
  · intro hn hne
    exact key false (by rw [hn]; rfl) (by simp) hne
  · intro flag hf hres hne
    exact key true (by rw [hf]; rfl) (by simp [hres]) hne
  · intro flag hf hres
    rw [hf, hres] at hs
    simp only [Option.isSome_some, Bool.not_false, Bool.and_self, if_true] at hs
    unfold createUpstream.servers at hs
    simp only [Option.some.injEq] at hs
    rw [hservers, ← hs]
    rfl

/-- C16, amended, on the cafe ingress: `tea-svc` is not in `ExternalNameSvcs` and keeps
its two endpoints without a resolver, with `Resolve` false. -/
theorem createUpstream_resolve_witness :
    (createUpstream exampleExternal exampleIngress "default-cafe-cafe.example.com-tea-svc-80"
      teaBackend "" default true false false).map
      (fun ups => ups.UpstreamServers.map fun s => s.Resolve) = some [false, false] ∧
    (((createUpstream exampleExternal exampleIngress "default-cafe-cafe.example.com-tea-svc-80"
      teaBackend "" default true false false).getD default).UpstreamServers.length = 2 ∧
    ∀ s ∈ ((createUpstream exampleExternal exampleIngress
      "default-cafe-cafe.example.com-tea-svc-80" teaBackend "" default true false
      false).getD default).UpstreamServers, s.Resolve = false) :=
  ⟨by rfl,
   (createUpstream_resolve exampleExternal exampleIngress
      "default-cafe-cafe.example.com-tea-svc-80" teaBackend "" default true false false
      ["10.0.0.1:80", "10.0.0.2:80"] _ (by rfl) (by rfl)).1 (by rfl) (by simp)⟩

/-! ## The JWT blocks -/

/-- A JWT block: the auth block is the one of `generateJWTConfig`, and the redirect
location, when there is one, is appended to the redirect locations of the server. -/
theorem generateNginxCfg.jwt_spec (e : Env) (server : Server) (r : JWTAuth × Server)
    (h : generateNginxCfg.jwt e server = some r) :
    jwtAuthOf e = some r.1 ∧
    r.2 = { server with
            JWTRedirectLocations := server.JWTRedirectLocations ++ redirectLocations e } := by
  unfold generateNginxCfg.jwt at h
  simp only [Option.bind_eq_some] at h
  obtain ⟨x, hx, h⟩ := h
  have ha : jwtAuthOf e = some x.1 := by
    unfold jwtAuthOf
    rw [hx]
    rfl
  unfold generateJWTConfig at hx
  split at hx
  · exact absurd hx (by simp)
  · unfold redirectLocations
    split_ifs at hx with hu
    · simp only [Option.some.injEq] at hx
      subst hx
      simp only [Option.some.injEq] at h
      subst h
      exact ⟨ha, by rw [if_pos hu]⟩
    · simp only [Option.some.injEq] at hx
      subst hx
      simp only [Option.some.injEq] at h
      subst h
      exact ⟨ha, by rw [if_neg hu]; simp⟩

/-- The JWT block of a server (lines 141-147). -/
theorem generateNginxCfg.serverJWT_spec (e : Env) (server server' : Server)
    (h : generateNginxCfg.serverJWT e server = some server') :
    (e.isMinion = false ∧ e.cfgParams.JWTKey ≠ "" →
      jwtAuthOf e ≠ none ∧
      server' = { server with
        JWTAuth := jwtAuthOf e
        JWTRedirectLocations := server.JWTRedirectLocations ++ redirectLocations e }) ∧
    (¬ (e.isMinion = false ∧ e.cfgParams.JWTKey ≠ "") → server' = server) := by
  unfold generateNginxCfg.serverJWT at h
  split at h
  · rename_i hc
    simp only [Bool.and_eq_true, Bool.not_eq_true', decide_eq_true_eq] at hc
    simp only [Option.bind_eq_some, Option.some.injEq] at h
    obtain ⟨r, hr, rfl⟩ := h
    obtain ⟨ha, hs⟩ := generateNginxCfg.jwt_spec e server r hr
    refine ⟨fun _ => ⟨by rw [ha]; simp, by rw [ha, hs]⟩, fun hn => absurd hc hn⟩
  · rename_i hc
    simp only [Bool.and_eq_true, Bool.not_eq_true', decide_eq_true_eq] at hc
    simp only [Option.some.injEq] at h
    exact ⟨fun hp => absurd hp hc, fun _ => h.symm⟩

/-- The JWT block of a location (lines 190-196). -/
theorem generateNginxCfg.locationJWT_full (e : Env) (loc : Location) (server : Server)
    (r : Location × Server) (h : generateNginxCfg.locationJWT e loc server = some r) :
    (e.isMinion = true ∧ e.cfgParams.JWTKey ≠ "" →
      jwtAuthOf e ≠ none ∧ r.1 = { loc with JWTAuth := jwtAuthOf e } ∧
      r.2 = { server with
              JWTRedirectLocations := server.JWTRedirectLocations ++ redirectLocations e }) ∧
    (¬ (e.isMinion = true ∧ e.cfgParams.JWTKey ≠ "") → r = (loc, server)) := by
  unfold generateNginxCfg.locationJWT at h
  split at h
  · rename_i hc
    simp only [Bool.and_eq_true, decide_eq_true_eq] at hc
    simp only [Option.bind_eq_some, Option.some.injEq] at h
    obtain ⟨x, hx, rfl⟩ := h
    obtain ⟨ha, hs⟩ := generateNginxCfg.jwt_spec e server x hx
    refine ⟨fun _ => ⟨by rw [ha]; simp, by rw [ha], hs⟩, fun hn => absurd hc hn⟩
  · rename_i hc
    simp only [Bool.and_eq_true, decide_eq_true_eq] at hc
    simp only [Option.some.injEq] at h
    exact ⟨fun hp => absurd hp hc, fun _ => h.symm⟩

theorem generateNginxCfg.location_jwtAuth (e : Env) (upstreams : GoMap Upstream)
    (upsName path : String) (pathType : Option PathType) (backend : IngressBackend) :
    (generateNginxCfg.location e upstreams upsName path pathType backend).JWTAuth = none := rfl

/-- The auth block of the location of an honored path. -/
theorem IsLocationOf.jwtAuth {e : Env} {upstreams : GoMap Upstream} {host : String}
    {path : HTTPIngressPath} {loc : Location} (h : IsLocationOf e upstreams host path loc) :
    (loc.JWTAuth =
      if e.isMinion = true ∧ e.cfgParams.JWTKey ≠ "" then jwtAuthOf e else none) ∧
    (e.isMinion = true ∧ e.cfgParams.JWTKey ≠ "" → jwtAuthOf e ≠ none) := by
  obtain ⟨s, s', h⟩ := h
  obtain ⟨k1, k2⟩ := generateNginxCfg.locationJWT_full e _ s _ h
  by_cases hc : e.isMinion = true ∧ e.cfgParams.JWTKey ≠ ""
  · obtain ⟨a1, a2, _⟩ := k1 hc
    simp only at a2
    rw [if_pos hc, a2]
    exact ⟨rfl, fun _ => a1⟩
  · have := k2 hc
    simp only [Prod.mk.injEq] at this
    rw [if_neg hc, this.1]
    exact ⟨rfl, fun hp => absurd hp hc⟩

/-- The server after the loop over the paths of a rule: in minion mode with a JWT key,
every honored path has appended the redirect locations of its JWT block. -/
theorem generateNginxCfg.paths_jwt (e : Env) (host : String) :
    ∀ (paths : List HTTPIngressPath) (st st' : PathState),
      generateNginxCfg.paths e host paths st = some st' →
      st'.server =
        { st.server with
          JWTRedirectLocations := st.server.JWTRedirectLocations ++
            if e.isMinion = true ∧ e.cfgParams.JWTKey ≠ "" then
              (List.replicate
                (paths.filter fun p =>
                  !(e.isMinion && !GoMap.get e.ingEx.ValidMinionPaths p.Path)).length
                (redirectLocations e)).flatten
            else [] }
  | [], st, st', h => by
    simp only [generateNginxCfg.paths, Option.some.injEq] at h
    subst h
    simp
  | path :: rest, st, st', h => by
    simp only [generateNginxCfg.paths, Option.bind_eq_some] at h
    obtain ⟨st1, h1, h2⟩ := h
    have ih := generateNginxCfg.paths_jwt e host rest st1 st' h2
    have hf := honoredPaths_cons_aux e path rest
    rcases generateNginxCfg.path_spec e host st st1 path h1 with
      ⟨hs, rfl⟩ | ⟨hs, hc, ups, r, _, _, hj, rfl⟩
    · rw [if_pos hs] at hf
      rw [hf]
      exact ih
    · rw [if_neg (by rw [hs]; simp)] at hf
      rw [hf]
      obtain ⟨k1, k2⟩ := generateNginxCfg.locationJWT_full e _ _ _ hj
      by_cases hcond : e.isMinion = true ∧ e.cfgParams.JWTKey ≠ ""
      · obtain ⟨_, _, k⟩ := k1 hcond
        rw [ih]
        simp only [k, if_pos hcond, List.length_cons, List.replicate_succ, List.flatten_cons,
          List.append_assoc]
      · have k : r.2 = st.server := congrArg Prod.snd (k2 hcond)
        rw [ih]
        simp only [k, if_neg hcond]

theorem generateNginxCfg.appProtect_jwt (e : Env) (server : Server) :
    (generateNginxCfg.appProtect e server).JWTAuth = server.JWTAuth ∧
    (generateNginxCfg.appProtect e server).JWTRedirectLocations = server.JWTRedirectLocations := by
  unfold generateNginxCfg.appProtect
  split <;> exact ⟨rfl, rfl⟩

/-- The JWT blocks of the server that the body of the loop over the rules returns. -/
theorem generateNginxCfg.rule_jwt (e : Env) (upstreams upstreams' : GoMap Upstream)
    (rule : IngressRule) (server : Server)
    (h : generateNginxCfg.rule e upstreams rule = some (upstreams', server)) :
    JWTPlacement e rule server := by
  obtain ⟨s0, s1, st, r, h0, h1, h2, h3, _, rfl⟩ := generateNginxCfg.rule_spec e _ _ _ _ h
  obtain ⟨locs, hl, hfa, _, _, _⟩ := generateNginxCfg.paths_locations e _ _ _ st h2
  have hj := generateNginxCfg.paths_jwt e _ _ _ st h2
  simp only [List.nil_append] at hl
  change List.Forall₂ _ (honoredPaths e.isMinion e.ingEx rule) locs at hfa
  change st.server = { s1 with JWTRedirectLocations := s1.JWTRedirectLocations ++
    if e.isMinion = true ∧ e.cfgParams.JWTKey ≠ "" then
      (List.replicate (honoredPaths e.isMinion e.ingEx rule).length (redirectLocations e)).flatten
    else [] } at hj
  have hlen : locs.length = (honoredPaths e.isMinion e.ingEx rule).length := hfa.length_eq.symm
  -- the server before the JWT block carries no auth block and no redirect location
  have hf0 := addSSLConfig_frame _ _ _ _ _ _ _ h0
  obtain ⟨a1, a2⟩ := generateNginxCfg.appProtect_jwt e s0
  have b1 : (generateNginxCfg.appProtect e s0).JWTAuth = none := by
    rw [a1, hf0]
    rfl
  have b2 : (generateNginxCfg.appProtect e s0).JWTRedirectLocations = [] := by
    rw [a2, hf0]
    rfl
  obtain ⟨j1, j2⟩ := generateNginxCfg.serverJWT_spec e _ _ h1
  have c1 : s1.JWTAuth =
      if e.isMinion = false ∧ e.cfgParams.JWTKey ≠ "" then jwtAuthOf e else none := by
    by_cases hc : e.isMinion = false ∧ e.cfgParams.JWTKey ≠ ""
    · rw [if_pos hc, (j1 hc).2]
    · rw [if_neg hc, j2 hc, b1]
  have c2 : s1.JWTRedirectLocations =
      if e.isMinion = false ∧ e.cfgParams.JWTKey ≠ "" then redirectLocations e else [] := by
    by_cases hc : e.isMinion = false ∧ e.cfgParams.JWTKey ≠ ""
    · rw [if_pos hc, (j1 hc).2]
      simp only [b2, List.nil_append]
    · rw [if_neg hc, j2 hc, b2]
  -- the locations: those of the honored paths, then the implicit one
  have hlocs : ∃ rest, r.1.locations = locs ++ rest ∧ r.1.server = st.server ∧
      ∀ l ∈ rest, l.JWTAuth = none := by
    rcases generateNginxCfg.defaultLocation_spec e st _ r h3 with
      ⟨_, rfl⟩ | ⟨b, hcs, _, _, _, rfl⟩
    · exact ⟨[], by rw [hl]; simp, rfl, fun l hm => absurd hm (List.not_mem_nil l)⟩
    · refine ⟨_, by rw [hl], rfl, ?_⟩
      intro l hm
      rw [List.mem_singleton] at hm
      rw [hm]
      rfl
  obtain ⟨rest, r1, r2, r3⟩ := hlocs
  refine ⟨?_, ?_, ?_, ?_, ?_⟩
  · show r.1.server.JWTAuth = _
    rw [r2, hj]
    exact c1
  · show r.1.server.JWTRedirectLocations = _
    rw [r2, hj]
    simp only [c2]
  · show ∀ l ∈ r.1.locations.take _, _
    rw [r1, List.take_left' hlen]
    intro l hm
    obtain ⟨p, _, hp⟩ := exists_of_forall₂_mem_right hfa l hm
    exact hp.jwtAuth.1
  · show ∀ l ∈ r.1.locations.drop _, _
    rw [r1, List.drop_left' hlen]
    exact r3
  · intro hk hor
    rcases hor with hm | hne
    · exact (j1 ⟨hm, hk⟩).1
    · cases hb : e.isMinion with
      | false => exact (j1 ⟨hb, hk⟩).1
      | true =>
        cases hlc : locs with
        | nil =>
          rw [hlc] at hlen
          exact absurd (List.length_eq_zero.1 hlen.symm) hne
        | cons l tl =>
          obtain ⟨p, _, hp⟩ := exists_of_forall₂_mem_right hfa l (by rw [hlc]; simp)
          exact hp.jwtAuth.2 ⟨hb, hk⟩

/-- The JWT blocks of the servers after the loop over the rules. -/
theorem generateNginxCfg.rules_jwt (e : Env) :
    ∀ (rules : List IngressRule) (st st' : GoMap Upstream × List Server),
      generateNginxCfg.rules e rules st = some st' →
      ∃ servers, st'.2 = st.2 ++ servers ∧
        List.Forall₂ (JWTPlacement e)
          (rules.filter fun r => GoMap.get e.ingEx.ValidHosts r.Host) servers
  | [], st, st', h => by
    simp only [generateNginxCfg.rules, Option.some.injEq] at h
    subst h
    exact ⟨[], by simp, by simp⟩
  | rule :: rest, st, st', h => by
    rw [generateNginxCfg.rules_cons] at h
    rw [validRules_cons_aux]
    split_ifs at h with hv
    · simp only [Option.bind_eq_some] at h
      obtain ⟨r, h1, h2⟩ := h
      obtain ⟨servers, hs, hfa⟩ := generateNginxCfg.rules_jwt e rest _ st' h2
      refine ⟨r.2 :: servers, by rw [hs]; simp, ?_⟩
      rw [if_pos hv]
      exact List.Forall₂.cons (generateNginxCfg.rule_jwt e st.1 r.1 rule r.2 h1) hfa
    · rw [if_neg hv]
      exact generateNginxCfg.rules_jwt e rest st st' h

theorem JWTPlacement.grpcGate {e : Env} {rule : IngressRule} {server : Server}
    (h : JWTPlacement (generateNginxCfg.grpcGate e) rule server) : JWTPlacement e rule server := by
  obtain ⟨_, g2, g3, g4, _⟩ := generateNginxCfg.grpcGate_fields e
  unfold JWTPlacement jwtAuthOf redirectLocations at h
  simp only [g2, g3, g4] at h
  exact h

/-- The JWT blocks of the servers of a config, rule by rule. -/
theorem generateNginxCfg.synth_jwt (e : Env) (r : GoMap Upstream × List Server)
    (h : generateNginxCfg.synth e = some r) :
    List.Forall₂ (JWTPlacement e) (validRules e.ingEx) r.2 := by
  unfold generateNginxCfg.synth at h
  simp only [Option.bind_eq_some] at h
  obtain ⟨d, _, hr⟩ := h
  obtain ⟨_, g2, _⟩ := generateNginxCfg.grpcGate_fields e
  obtain ⟨servers, hs, hfa⟩ := generateNginxCfg.rules_jwt _ _ _ r hr
  simp only [List.nil_append] at hs
  rw [hs]
  simp only [g2] at hfa
  exact forall₂_imp_of_mem hfa (fun _ _ _ hp => JWTPlacement.grpcGate hp)

/-! ## C13: where the JWT auth block is attached -/

/-- C13. For every config that `generateNginxCfg` returns, `cfgParams` being the resolved
parameters and `auth` the auth block of `generateJWTConfig`: with a non-empty JWT key and
outside minion mode, every server carries the auth block and no location carries one; with
a non-empty JWT key in minion mode, no server carries an auth block and, for every rule
with a valid host, the locations of its honored paths (the first locations of its server)
all carry the auth block, while the implicit location that may follow carries none; with
an empty JWT key no server and no location carries an auth block and no server has a
redirect location. -/
theorem generateNginxCfg_jwtAuth (ext : External) (ingEx : IngressEx)
    (apResources : GoMap String) (isMinion : Bool) (baseCfgParams : ConfigParams)
    (isPlus isResolverConfigured : Bool) (staticParams : StaticConfigParams)
    (isWildcardEnabled : Bool) (cfg : IngressNginxConfig) (cfgParams : ConfigParams)
    (auth : Option JWTAuth)
    (hcfg : cfgParams = ext.parseAnnotations ingEx baseCfgParams isPlus
      staticParams.MainAppProtectLoadModule staticParams.EnableInternalRoutes)
    (hauth : auth = (generateJWTConfig ingEx.Secrets cfgParams
      (getNameForRedirectLocation ingEx.Ingress)).map Prod.fst)
    (h : generateNginxCfg ext ingEx apResources isMinion baseCfgParams isPlus
      isResolverConfigured staticParams isWildcardEnabled = some cfg) :
    (cfgParams.JWTKey ≠ "" → isMinion = false →
      ∀ s ∈ cfg.Servers,
        s.JWTAuth ≠ none ∧ s.JWTAuth = auth ∧ ∀ l ∈ s.Locations, l.JWTAuth = none) ∧
    (cfgParams.JWTKey ≠ "" → isMinion = true →
      List.Forall₂
        (fun rule s => s.JWTAuth = none ∧
          (∀ l ∈ s.Locations.take (honoredPaths true ingEx rule).length,
            l.JWTAuth ≠ none ∧ l.JWTAuth = auth) ∧
          (∀ l ∈ s.Locations.drop (honoredPaths true ingEx rule).length, l.JWTAuth = none))
        (validRules ingEx) cfg.Servers) ∧
    (cfgParams.JWTKey = "" →
      ∀ s ∈ cfg.Servers,
        s.JWTAuth = none ∧ s.JWTRedirectLocations = [] ∧ ∀ l ∈ s.Locations, l.JWTAuth = none) := by
  unfold generateNginxCfg generateNginxCfg.body at h
  simp only [Option.bind_eq_some, Option.some.injEq] at h
  obtain ⟨r, hr, rfl⟩ := h
  have hfa := generateNginxCfg.synth_jwt _ r hr
  have hfa' : List.Forall₂
      (fun rule s =>
        (s.JWTAuth = if isMinion = false ∧ cfgParams.JWTKey ≠ "" then auth else none) ∧
        (s.JWTRedirectLocations =
          (if isMinion = false ∧ cfgParams.JWTKey ≠ "" then
            redirectLocations (generateNginxCfg.locals ext ingEx apResources isMinion baseCfgParams
              isPlus isResolverConfigured staticParams isWildcardEnabled) else []) ++
          (if isMinion = true ∧ cfgParams.JWTKey ≠ "" then
            (List.replicate (honoredPaths isMinion ingEx rule).length
              (redirectLocations (generateNginxCfg.locals ext ingEx apResources isMinion
                baseCfgParams isPlus isResolverConfigured staticParams isWildcardEnabled))).flatten
           else [])) ∧
        (∀ l ∈ s.Locations.take (honoredPaths isMinion ingEx rule).length,
          l.JWTAuth = if isMinion = true ∧ cfgParams.JWTKey ≠ "" then auth else none) ∧
        (∀ l ∈ s.Locations.drop (honoredPaths isMinion ingEx rule).length, l.JWTAuth = none) ∧
        (cfgParams.JWTKey ≠ "" →
          isMinion = false ∨ honoredPaths isMinion ingEx rule ≠ [] → auth ≠ none))
      (validRules ingEx) r.2 := by
    rw [hcfg, hauth, hcfg]
    exact hfa
  have hall : ∀ (s : Server) (n : Nat), (∀ l ∈ s.Locations.take n, l.JWTAuth = none) →
      (∀ l ∈ s.Locations.drop n, l.JWTAuth = none) → ∀ l ∈ s.Locations, l.JWTAuth = none := by
    intro s n h1 h2 l hm
    rw [← List.take_append_drop n s.Locations, List.mem_append] at hm
    exact hm.elim (h1 l) (h2 l)
  refine ⟨?_, ?_, ?_⟩
  · intro hk hm s hs
    subst hm
    obtain ⟨rule, _, p1, _, p3, p4, p5⟩ := exists_of_forall₂_mem_right hfa' s hs
    rw [if_pos ⟨rfl, hk⟩] at p1
    refine ⟨?_, p1, hall s _ ?_ p4⟩
    · rw [p1]
      exact p5 hk (Or.inl rfl)
    · intro l hl
      rw [p3 l hl, if_neg (by simp)]
  · intro hk hm
    subst hm
    refine forall₂_imp_of_mem hfa' ?_
    intro rule _ s ⟨p1, _, p3, p4, p5⟩
    rw [if_neg (by simp)] at p1
    refine ⟨p1, ?_, p4⟩
    intro l hl
    have hl' := p3 l hl
    rw [if_pos ⟨rfl, hk⟩] at hl'
    refine ⟨?_, hl'⟩
    rw [hl']
    refine p5 hk (Or.inr ?_)
    intro hnil
    rw [hnil] at hl
    simp at hl
  · intro hk s hs
    obtain ⟨rule, _, p1, p2, p3, p4, _⟩ := exists_of_forall₂_mem_right hfa' s hs
    have hn1 : ¬ (isMinion = false ∧ cfgParams.JWTKey ≠ "") := fun hc => hc.2 hk
    have hn2 : ¬ (isMinion = true ∧ cfgParams.JWTKey ≠ "") := fun hc => hc.2 hk
    rw [if_neg hn1] at p1
    rw [if_neg hn1, if_neg hn2] at p2
    refine ⟨p1, by simpa using p2, hall s _ ?_ p4⟩
    intro l hl
    rw [p3 l hl, if_neg hn2]

/-- C13 on the cafe ingress with a JWT key: outside minion mode the server carries the
auth block and its three locations carry none; in minion mode the server carries none,
the location of the honored path `/tea` carries it and the implicit location carries
none. -/
theorem generateNginxCfg_jwtAuth_witness :
    (generateNginxCfg exampleExternal jwtIngress [] false jwtCfgParams true false default
        false).map (fun cfg => cfg.Servers.map fun s =>
          (s.JWTAuth.map fun a => a.Key, s.Locations.map fun l => l.JWTAuth.map fun a => a.Key))
      = some [(some "/etc/nginx/secrets/jwk", [none, none, none])] ∧
    (generateNginxCfg exampleExternal jwtIngress [] true jwtCfgParams true false default
        false).map (fun cfg => cfg.Servers.map fun s =>
          (s.JWTAuth.map fun a => a.Key, s.Locations.map fun l => l.JWTAuth.map fun a => a.Key))
      = some [(none, [some "/etc/nginx/secrets/jwk", none])] ∧
    ∀ s ∈ ((generateNginxCfg exampleExternal jwtIngress [] false jwtCfgParams true false default
        false).getD default).Servers,
      s.JWTAuth ≠ none ∧
      s.JWTAuth = (generateJWTConfig jwtIngress.Secrets jwtCfgParams
        (getNameForRedirectLocation jwtIngress.Ingress)).map Prod.fst ∧
      ∀ l ∈ s.Locations, l.JWTAuth = none :=
  ⟨by rfl, by rfl,
   (generateNginxCfg_jwtAuth exampleExternal jwtIngress [] false jwtCfgParams true false default
      false _ jwtCfgParams _ rfl rfl (by rfl)).1 (by decide) rfl⟩

/-! ## C17: the health checks of a server -/

theorem GoMap.eq_nil_of_keys {α : Type} (m : GoMap α) (h : ∀ n, n ∉ GoMap.keys m) : m = [] := by
  cases m with
  | nil => rfl
  | cons p rest => exact absurd (List.mem_cons_self _ _) (h p.1)

theorem GoMap.mem_keys_of_mem {α : Type} (m : GoMap α) (p : String × α) (h : p ∈ m) :
    p.1 ∈ GoMap.keys m :=
  List.mem_map_of_mem Prod.fst h

/-- The health checks of the server of a rule are keyed by names of upstreams to build. -/
theorem IsServerOf.healthChecks_keys {e : Env} {upstreams : GoMap Upstream} {rule : IngressRule}
    {server : Server} (h : IsServerOf e upstreams rule server)
    (hv : rule ∈ validRules e.ingEx) :
    ∀ n ∈ GoMap.keys server.HealthChecks, n ∈ builtUpstreamNames e.isMinion e.ingEx := by
  obtain ⟨s0, s1, locs, jwts, _, _, _, hk, _, _⟩ := h
  intro n hn
  unfold builtUpstreamNames
  rw [List.mem_append]
  rcases (hk n).1 hn with ⟨p, hp, _, rfl⟩ | ⟨b, hb, _, _, rfl⟩
  · right
    rw [List.mem_flatten]
    exact ⟨_, List.mem_map_of_mem _ hv, List.mem_map_of_mem _ hp⟩
  · left
    rw [hb]
    exact List.mem_singleton_self _

/-- Without health checks in the resolved parameters the server of a rule has none. -/
theorem IsServerOf.healthChecks_nil {e : Env} {upstreams : GoMap Upstream} {rule : IngressRule}
    {server : Server} (h : IsServerOf e upstreams rule server)
    (hd : e.cfgParams.HealthCheckEnabled = false) : server.HealthChecks = [] := by
  obtain ⟨s0, s1, locs, jwts, _, _, _, hk, _, _⟩ := h
  have hp : ∀ b, hasProbe e b = false := by
    intro b
    unfold hasProbe
    rw [hd]
    rfl
  apply GoMap.eq_nil_of_keys
  intro n hn
  rcases (hk n).1 hn with ⟨p, _, h1, _⟩ | ⟨b, _, _, h1, _⟩
  · rw [hp] at h1
    exact absurd h1 (by simp)
  · rw [hp] at h1
    exact absurd h1 (by simp)

/-- C17. For every config that `generateNginxCfg` returns (with
`NewUpstreamWithDefaultServer name` named `name`) and every server of it: every entry of
the `HealthChecks` map is stored under the `UpstreamName` it carries, that name is the
`Name` of an upstream of the returned `Upstreams`, and the map is empty when
`HealthCheckEnabled` is false in the resolved parameters. -/
theorem generateNginxCfg_healthChecks (ext : External) (ingEx : IngressEx)
    (apResources : GoMap String) (isMinion : Bool) (baseCfgParams : ConfigParams)
    (isPlus isResolverConfigured : Bool) (staticParams : StaticConfigParams)
    (isWildcardEnabled : Bool) (cfg : IngressNginxConfig)
    (hN : ∀ name, (ext.NewUpstreamWithDefaultServer name).Name = name)
    (h : generateNginxCfg ext ingEx apResources isMinion baseCfgParams isPlus
      isResolverConfigured staticParams isWildcardEnabled = some cfg) :
    ∀ server ∈ cfg.Servers,
      (∀ p ∈ server.HealthChecks,
        p.1 = p.2.UpstreamName ∧ p.2.UpstreamName ∈ cfg.Upstreams.map fun u => u.Name) ∧
      ((ext.parseAnnotations ingEx baseCfgParams isPlus staticParams.MainAppProtectLoadModule
          staticParams.EnableInternalRoutes).HealthCheckEnabled = false →
        server.HealthChecks = []) := by
  have hnames := generateNginxCfg_upstreams_names ext ingEx apResources isMinion baseCfgParams
    isPlus isResolverConfigured staticParams isWildcardEnabled cfg hN h
  unfold generateNginxCfg generateNginxCfg.body at h
  simp only [Option.bind_eq_some, Option.some.injEq] at h
  obtain ⟨r, hr, hcfg⟩ := h
  obtain ⟨hfa, _⟩ := generateNginxCfg.synth_servers _ r hr
  obtain ⟨_, g2, g3, g4, _⟩ := generateNginxCfg.grpcGate_fields
    (generateNginxCfg.locals ext ingEx apResources isMinion baseCfgParams isPlus
      isResolverConfigured staticParams isWildcardEnabled)
  intro server hmem
  rw [← hcfg] at hmem
  obtain ⟨rule, hrule, hs⟩ := exists_of_forall₂_mem_right hfa server hmem
  have hkeys := hs.healthChecks_keys (by rw [g2]; exact hrule)
  rw [g2, g3] at hkeys
  refine ⟨?_, ?_⟩
  · intro p hp
    obtain ⟨_, _, _, _, _, _, _, _, hn, _⟩ := hs
    have hpn := hn p hp
    refine ⟨hpn.symm, ?_⟩
    rw [hpn]
    exact (hnames p.1).2 (hkeys p.1 (GoMap.mem_keys_of_mem _ p hp))
  · intro hd
    exact hs.healthChecks_nil (by rw [g4]; exact hd)

/-- C17 on the cafe ingress with a probe on `tea-svc80` and health checks enabled: the
server has one health check, stored under the name of the upstream of `tea-svc`. -/
theorem generateNginxCfg_healthChecks_witness :
    (generateNginxCfg exampleExternal probeIngress [] false healthCheckCfgParams true false
        default false).map (fun cfg => (cfg.Upstreams.map fun u => u.Name,
          cfg.Servers.map fun s => s.HealthChecks.map fun p => (p.1, p.2.UpstreamName)))
      = some (["default-cafe--dflt-80", "default-cafe-cafe.example.com-coffee-svc-http",
               "default-cafe-cafe.example.com-tea-svc-80"],
              [[("default-cafe-cafe.example.com-tea-svc-80",
                 "default-cafe-cafe.example.com-tea-svc-80")]]) ∧
    ∀ server ∈ ((generateNginxCfg exampleExternal probeIngress [] false healthCheckCfgParams true
        false default false).getD default).Servers,
      (∀ p ∈ server.HealthChecks,
        p.1 = p.2.UpstreamName ∧
        p.2.UpstreamName ∈ ((generateNginxCfg exampleExternal probeIngress [] false
          healthCheckCfgParams true false default false).getD default).Upstreams.map
            fun u => u.Name) ∧
      ((exampleExternal.parseAnnotations probeIngress healthCheckCfgParams true
          (default : StaticConfigParams).MainAppProtectLoadModule
          (default : StaticConfigParams).EnableInternalRoutes).HealthCheckEnabled = false →
        server.HealthChecks = []) :=
  ⟨by rfl,
   generateNginxCfg_healthChecks exampleExternal probeIngress [] false healthCheckCfgParams true
      false default false _ (fun _ => rfl) (by rfl)⟩

/-! ## C18: one rule with the path `/` -/

theorem forall₂_singleton_left {α β : Type} {R : α → β → Prop} {a : α} {l : List β}
    (h : List.Forall₂ R [a] l) : ∃ b, l = [b] ∧ R a b := by
  rw [List.forall₂_cons_left_iff] at h
  obtain ⟨b, u, hr, hn, rfl⟩ := h
  rw [List.forall₂_nil_left_iff] at hn
  subst hn
  exact ⟨b, rfl, hr⟩

theorem generateIngressPath_of_not_exact (path : String) (pathType : Option PathType)
    (h : pathType ≠ some PathTypeExact) : generateIngressPath path pathType = path := by
  unfold generateIngressPath
  cases pathType with
  | none => rfl
  | some t =>
    have ht : t ≠ PathTypeExact := fun e => h (by rw [e])
    simp only [if_neg ht]

/-- C18. Outside minion mode, for an ingress with exactly one rule, whose host is valid
and which has exactly one path, `/`, of a type other than `Exact`, and with health checks
disabled in the resolved parameters `cfgParams`: every config that `generateNginxCfg`
returns has exactly one server, with exactly one location, whose `Path` is `/` and whose
`ClientMaxBodySize`, proxy timeouts and buffer settings are those of `cfgParams`, and the
`HealthChecks` map of the server is empty, whether or not a default backend is declared;
and `generateNginxCfg` returns a config when the references of the input resolve. -/
theorem generateNginxCfg_single_root (ext : External) (ingEx : IngressEx)
    (apResources : GoMap String) (baseCfgParams : ConfigParams)
    (isPlus isResolverConfigured : Bool) (staticParams : StaticConfigParams)
    (isWildcardEnabled : Bool) (cfgParams : ConfigParams) (rule : IngressRule)
    (http : HTTPIngressRuleValue) (path : HTTPIngressPath)
    (hcfg : cfgParams = ext.parseAnnotations ingEx baseCfgParams isPlus
      staticParams.MainAppProtectLoadModule staticParams.EnableInternalRoutes)
    (hrules : ingEx.Ingress.Spec.Rules = [rule])
    (hvalid : GoMap.get ingEx.ValidHosts rule.Host = true)
    (hhttp : rule.HTTP = some http) (hpaths : http.Paths = [path])
    (hpath : path.Path = "/") (htype : path.PathType ≠ some PathTypeExact)
    (hhc : cfgParams.HealthCheckEnabled = false) :
    (∀ cfg, generateNginxCfg ext ingEx apResources false baseCfgParams isPlus
        isResolverConfigured staticParams isWildcardEnabled = some cfg →
      ∃ server loc, cfg.Servers = [server] ∧ server.Locations = [loc] ∧ loc.Path = "/" ∧
        loc.ClientMaxBodySize = cfgParams.ClientMaxBodySize ∧
        loc.ProxyConnectTimeout = cfgParams.ProxyConnectTimeout ∧
        loc.ProxyReadTimeout = cfgParams.ProxyReadTimeout ∧
        loc.ProxySendTimeout = cfgParams.ProxySendTimeout ∧
        loc.ProxyBuffering = cfgParams.ProxyBuffering ∧
        loc.ProxyBuffers = cfgParams.ProxyBuffers ∧
        loc.ProxyBufferSize = cfgParams.ProxyBufferSize ∧
        loc.ProxyMaxTempFileSize = cfgParams.ProxyMaxTempFileSize ∧
        server.HealthChecks = []) ∧
    (ReferencesResolve (generateNginxCfg.locals ext ingEx apResources false baseCfgParams isPlus
        isResolverConfigured staticParams isWildcardEnabled) →
      ∃ cfg, generateNginxCfg ext ingEx apResources false baseCfgParams isPlus
        isResolverConfigured staticParams isWildcardEnabled = some cfg) := by
  subst hcfg
  refine ⟨?_, generateNginxCfg.body_isSome _⟩
  intro cfg h
  unfold generateNginxCfg generateNginxCfg.body at h
  simp only [Option.bind_eq_some, Option.some.injEq] at h
  obtain ⟨r, hr, rfl⟩ := h
  obtain ⟨hfa, _⟩ := generateNginxCfg.synth_servers _ r hr
  obtain ⟨_, g2, g3, g4, _⟩ := generateNginxCfg.grpcGate_fields
    (generateNginxCfg.locals ext ingEx apResources false baseCfgParams isPlus
      isResolverConfigured staticParams isWildcardEnabled)
  have hvr : validRules ingEx = [rule] := by
    unfold validRules
    rw [hrules]
    simp [hvalid]
  change List.Forall₂ _ (validRules ingEx) r.2 at hfa
  rw [hvr] at hfa
  obtain ⟨server, hservers, hs⟩ := forall₂_singleton_left hfa
  have hnil := hs.healthChecks_nil (by rw [g4]; exact hhc)
  obtain ⟨s0, s1, locs, jwts, _, _, hl, _, _, hsrv⟩ := hs
  have hhon : honoredPaths false ingEx rule = [path] := by
    rw [honoredPaths_eq]
    simp only [Bool.false_eq_true, if_false]
    unfold generateNginxCfg.rulePaths
    rw [hhttp]
    exact hpaths
  rw [g2, g3] at hl
  change List.Forall₂ _ (honoredPaths false ingEx rule) locs at hl
  rw [hhon] at hl
  obtain ⟨loc, hlocs, hloc⟩ := forall₂_singleton_left hl
  have hp : loc.Path = "/" := by
    rw [hloc.path.1, hpath, generateIngressPath_of_not_exact _ _ htype]
    decide
  have himp : implicitLocations (generateNginxCfg.grpcGate
      (generateNginxCfg.locals ext ingEx apResources false baseCfgParams isPlus
        isResolverConfigured staticParams isWildcardEnabled)) r.1 locs = [] :=
    (implicitLocations_spec _ _ _).1 (Or.inr ⟨loc, by rw [hlocs]; simp, hp⟩)
  have hlocations : server.Locations = [loc] := by
    rw [hsrv]
    show locs ++ implicitLocations _ r.1 locs = _
    rw [himp, hlocs]
    rfl
  obtain ⟨jwt, hf⟩ := hloc.fields
  have hc : (generateNginxCfg.grpcGate
      (generateNginxCfg.locals ext ingEx apResources false baseCfgParams isPlus
        isResolverConfigured staticParams isWildcardEnabled)).cfgParams =
      ext.parseAnnotations ingEx baseCfgParams isPlus staticParams.MainAppProtectLoadModule
        staticParams.EnableInternalRoutes := by
    rw [g4]
    rfl
  refine ⟨server, loc, hservers, hlocations, hp, ?_, ?_, ?_, ?_, ?_, ?_, ?_, ?_, hnil⟩
  all_goals
    rw [← hc, hf]
    rfl

/-- C18 on an ingress with a default backend, one rule and the path `/`, with
`ClientMaxBodySize` resolved to `16M` and health checks disabled: one server, one location
at `/` with `ClientMaxBodySize` `16M`, no health check. -/
theorem generateNginxCfg_single_root_witness :
    (generateNginxCfg exampleExternal rootIngress [] false bodySizeCfgParams true false default
        false).map (fun cfg => cfg.Servers.map fun s =>
          (s.Locations.map fun l => (l.Path, l.ClientMaxBodySize), s.HealthChecks.length))
      = some [([("/", "16M")], 0)] ∧
    ∃ server loc,
      ((generateNginxCfg exampleExternal rootIngress [] false bodySizeCfgParams true false default
        false).getD default).Servers = [server] ∧
      server.Locations = [loc] ∧ loc.Path = "/" ∧
      loc.ClientMaxBodySize = bodySizeCfgParams.ClientMaxBodySize ∧
      loc.ProxyConnectTimeout = bodySizeCfgParams.ProxyConnectTimeout ∧
      loc.ProxyReadTimeout = bodySizeCfgParams.ProxyReadTimeout ∧
      loc.ProxySendTimeout = bodySizeCfgParams.ProxySendTimeout ∧
      loc.ProxyBuffering = bodySizeCfgParams.ProxyBuffering ∧
      loc.ProxyBuffers = bodySizeCfgParams.ProxyBuffers ∧
      loc.ProxyBufferSize = bodySizeCfgParams.ProxyBufferSize ∧
      loc.ProxyMaxTempFileSize = bodySizeCfgParams.ProxyMaxTempFileSize ∧
      server.HealthChecks = [] :=
  ⟨by rfl,
   (generateNginxCfg_single_root exampleExternal rootIngress [] bodySizeCfgParams true false
      default false bodySizeCfgParams
      { Host := "web.example.com"
        HTTP := some { Paths :=
          [{ Path := "/", PathType := some PathTypePrefix
             Backend := { ServiceName := "web-svc", ServicePort := .int 80 } }] } }
      { Paths := [{ Path := "/", PathType := some PathTypePrefix
                    Backend := { ServiceName := "web-svc", ServicePort := .int 80 } }] }
      { Path := "/", PathType := some PathTypePrefix
        Backend := { ServiceName := "web-svc", ServicePort := .int 80 } }
      rfl rfl (by rfl) rfl rfl rfl (by decide) rfl).1 _ (by rfl)⟩

/-! ## C19: the flags of a location -/

theorem generateNginxCfg.grpcGate_services (e : Env) :
    (generateNginxCfg.grpcGate e).wsServices = e.wsServices ∧
    (generateNginxCfg.grpcGate e).rewrites = e.rewrites ∧
    (generateNginxCfg.grpcGate e).sslServices = e.sslServices := by
  unfold generateNginxCfg.grpcGate
  split <;> simp

/-- The flags of the location of a backend. -/
theorem generateNginxCfg.locationFlags (e : Env) (upstreams : GoMap Upstream)
    (upsName path : String) (pathType : Option PathType) (backend : IngressBackend)
    (jwt : Option JWTAuth) (l : Location)
    (h : l = { generateNginxCfg.location e upstreams upsName path pathType backend with
               JWTAuth := jwt }) :
    l.Websocket = GoMap.get e.wsServices l.ServiceName ∧
    l.Rewrite = GoMap.get e.rewrites l.ServiceName ∧
    l.SSL = (GoMap.get e.sslServices l.ServiceName ||
      (e.staticParams.NginxServiceMesh && !e.cfgParams.SpiffeServerCerts)) ∧
    l.GRPC = GoMap.get e.grpcServices l.ServiceName := by
  subst h
  exact ⟨rfl, rfl, rfl, rfl⟩

/-- The flags of every location of the server of a rule. -/
theorem IsServerOf.flagsOfLocations {e : Env} {upstreams : GoMap Upstream} {rule : IngressRule}
    {server : Server} (h : IsServerOf e upstreams rule server) :
    ∀ l ∈ server.Locations,
      l.Websocket = GoMap.get e.wsServices l.ServiceName ∧
      l.Rewrite = GoMap.get e.rewrites l.ServiceName ∧
      l.SSL = (GoMap.get e.sslServices l.ServiceName ||
        (e.staticParams.NginxServiceMesh && !e.cfgParams.SpiffeServerCerts)) ∧
      l.GRPC = GoMap.get e.grpcServices l.ServiceName := by
  obtain ⟨s0, s1, locs, jwts, _, _, hl, _, _, hsrv⟩ := h
  intro l hm
  have hlocs : server.Locations = locs ++ implicitLocations e upstreams locs :=
    congrArg Server.Locations hsrv
  rw [hlocs, List.mem_append] at hm
  rcases hm with hm | hm
  · obtain ⟨p, _, hp⟩ := exists_of_forall₂_mem_right hl l hm
    obtain ⟨jwt, hf⟩ := hp.fields
    exact generateNginxCfg.locationFlags e _ _ _ _ _ jwt l hf
  · unfold implicitLocations at hm
    split at hm
    · exact absurd hm (List.not_mem_nil l)
    · split at hm
      · exact absurd hm (List.not_mem_nil l)
      · rw [List.mem_singleton] at hm
        subst hm
        exact ⟨rfl, rfl, rfl, rfl⟩

theorem GoMap.get_of_lookup_none {α : Type} [Inhabited α] (m : GoMap α) (k : String)
    (h : GoMap.lookup m k = none) : GoMap.get m k = default := by
  unfold GoMap.get
  rw [h]
  rfl

/-- C19 as stated fails.  With the service mesh integration enabled and
`SpiffeServerCerts` false, every location of the cafe ingress has `SSL` true although no
service is listed in the ssl-services annotation; and with HTTP/2 disabled the location
of `tea-svc` has `GRPC` false although the gRPC annotation lists `tea-svc` with the
entry `true`. -/
theorem generateNginxCfg_location_flags_counterexample :
    (exampleExternal.getSSLServices exampleIngress = [] ∧
     (generateNginxCfg exampleExternal exampleIngress [] false default true false meshStaticParams
        false).map (fun cfg => cfg.Servers.map fun s =>
          s.Locations.map fun l => (l.ServiceName, l.SSL))
      = some [[("tea-svc", true), ("coffee-svc", true), ("dflt", true)]]) ∧
    (GoMap.lookup (grpcTeaExternal.getGrpcServices exampleIngress) "tea-svc" = some true ∧
     (generateNginxCfg grpcTeaExternal exampleIngress [] false default true false default
        false).map (fun cfg => cfg.Servers.map fun s =>
          s.Locations.map fun l => (l.ServiceName, l.GRPC))
      = some [[("tea-svc", false), ("coffee-svc", false), ("dflt", false)]]) :=
  ⟨⟨rfl, by rfl⟩, ⟨by rfl, by rfl⟩⟩

/-- C19, amended. For every config that `generateNginxCfg` returns, `cfgParams` being the
resolved parameters, and every location of every server, that of the implicit default
location included, whose target service is `ServiceName`: `Websocket` and `Rewrite` are
the entries of the websocket and rewrite maps under the service name, false and empty
for a service that is not listed; `SSL` is the entry of the ssl-services map, or true
whenever `NginxServiceMesh` is on and `SpiffeServerCerts` is off, so for a service that is
not listed it is false exactly when that condition fails; `GRPC` is the entry of the gRPC
map when HTTP/2 is enabled and false when HTTP/2 is disabled or the service is not
listed. -/
theorem generateNginxCfg_location_flags (ext : External) (ingEx : IngressEx)
    (apResources : GoMap String) (isMinion : Bool) (baseCfgParams : ConfigParams)
    (isPlus isResolverConfigured : Bool) (staticParams : StaticConfigParams)
    (isWildcardEnabled : Bool) (cfg : IngressNginxConfig) (cfgParams : ConfigParams)
    (hcfg : cfgParams = ext.parseAnnotations ingEx baseCfgParams isPlus
      staticParams.MainAppProtectLoadModule staticParams.EnableInternalRoutes)
    (h : generateNginxCfg ext ingEx apResources isMinion baseCfgParams isPlus
      isResolverConfigured staticParams isWildcardEnabled = some cfg) :
    ∀ server ∈ cfg.Servers, ∀ l ∈ server.Locations,
      (l.Websocket = GoMap.get (ext.getWebsocketServices ingEx) l.ServiceName ∧
       l.Rewrite = GoMap.get (ext.getRewrites ingEx) l.ServiceName ∧
       l.SSL = (GoMap.get (ext.getSSLServices ingEx) l.ServiceName ||
         (staticParams.NginxServiceMesh && !cfgParams.SpiffeServerCerts)) ∧
       l.GRPC = (cfgParams.HTTP2 && GoMap.get (ext.getGrpcServices ingEx) l.ServiceName)) ∧
      (GoMap.lookup (ext.getWebsocketServices ingEx) l.ServiceName = none →
        l.Websocket = false) ∧
      (GoMap.lookup (ext.getRewrites ingEx) l.ServiceName = none → l.Rewrite = "") ∧
      (GoMap.lookup (ext.getSSLServices ingEx) l.ServiceName = none →
        l.SSL = (staticParams.NginxServiceMesh && !cfgParams.SpiffeServerCerts)) ∧
      (GoMap.lookup (ext.getGrpcServices ingEx) l.ServiceName = none → l.GRPC = false) := by
  subst hcfg
  unfold generateNginxCfg generateNginxCfg.body at h
  simp only [Option.bind_eq_some, Option.some.injEq] at h
  obtain ⟨r, hr, rfl⟩ := h
  obtain ⟨hfa, _⟩ := generateNginxCfg.synth_servers _ r hr
  obtain ⟨_, _, _, g4, _, g6, _⟩ := generateNginxCfg.grpcGate_fields
    (generateNginxCfg.locals ext ingEx apResources isMinion baseCfgParams isPlus
      isResolverConfigured staticParams isWildcardEnabled)
  obtain ⟨w1, w2, w3⟩ := generateNginxCfg.grpcGate_services
    (generateNginxCfg.locals ext ingEx apResources isMinion baseCfgParams isPlus
      isResolverConfigured staticParams isWildcardEnabled)
  have gg : (generateNginxCfg.grpcGate (generateNginxCfg.locals ext ingEx apResources isMinion
      baseCfgParams isPlus isResolverConfigured staticParams isWildcardEnabled)).grpcServices =
      if ext.getGrpcServices ingEx ≠ [] ∧
        (ext.parseAnnotations ingEx baseCfgParams isPlus staticParams.MainAppProtectLoadModule
          staticParams.EnableInternalRoutes).HTTP2 = true then ext.getGrpcServices ingEx
      else [] :=
    generateNginxCfg.grpcGate_grpcServices _
  intro server hmem l hl
  obtain ⟨rule, _, hs⟩ := exists_of_forall₂_mem_right hfa server hmem
  obtain ⟨f1, f2, f3, f4⟩ := hs.flagsOfLocations l hl
  rw [w1] at f1
  rw [w2] at f2
  rw [w3, g4, g6] at f3
  rw [gg] at f4
  have f1 : l.Websocket = GoMap.get (ext.getWebsocketServices ingEx) l.ServiceName := f1
  have f2 : l.Rewrite = GoMap.get (ext.getRewrites ingEx) l.ServiceName := f2
  have f3 : l.SSL = (GoMap.get (ext.getSSLServices ingEx) l.ServiceName ||
      (staticParams.NginxServiceMesh &&
        !(ext.parseAnnotations ingEx baseCfgParams isPlus staticParams.MainAppProtectLoadModule
          staticParams.EnableInternalRoutes).SpiffeServerCerts)) := f3
  have f4 : l.GRPC =
      ((ext.parseAnnotations ingEx baseCfgParams isPlus staticParams.MainAppProtectLoadModule
          staticParams.EnableInternalRoutes).HTTP2 &&
        GoMap.get (ext.getGrpcServices ingEx) l.ServiceName) := by
    rw [f4]
    cases hh : (ext.parseAnnotations ingEx baseCfgParams isPlus
      staticParams.MainAppProtectLoadModule staticParams.EnableInternalRoutes).HTTP2
    · simp only [Bool.false_eq_true, and_false, if_false, Bool.false_and]
      rfl
    · cases hg : ext.getGrpcServices ingEx with
      | nil => simp
      | cons a t => simp
  refine ⟨⟨f1, f2, f3, f4⟩, ?_, ?_, ?_, ?_⟩
  · intro hn
    rw [f1, GoMap.get_of_lookup_none _ _ hn]
    rfl
  · intro hn
    rw [f2, GoMap.get_of_lookup_none _ _ hn]
    rfl
  · intro hn
    rw [f3, GoMap.get_of_lookup_none _ _ hn]
    rfl
  · intro hn
    rw [f4, GoMap.get_of_lookup_none _ _ hn]
    simp

/-- C19, amended, on the cafe ingress with `tea-svc` listed in every service annotation
and HTTP/2 enabled: the location of `tea-svc` has the entries of the maps, the other
locations have the negative defaults. -/
theorem generateNginxCfg_location_flags_witness :
    (generateNginxCfg listedExternal exampleIngress [] false http2CfgParams true false default
        false).map (fun cfg => cfg.Servers.map fun s =>
          s.Locations.map fun l => (l.ServiceName, l.Websocket, l.Rewrite, l.SSL, l.GRPC))
      = some [[("tea-svc", true, "/tea-rewritten", true, true),
               ("coffee-svc", false, "", false, false), ("dflt", false, "", false, false)]] ∧
    ∀ server ∈ ((generateNginxCfg listedExternal exampleIngress [] false http2CfgParams true
        false default false).getD default).Servers, ∀ l ∈ server.Locations,
      (l.Websocket = GoMap.get (listedExternal.getWebsocketServices exampleIngress) l.ServiceName ∧
       l.Rewrite = GoMap.get (listedExternal.getRewrites exampleIngress) l.ServiceName ∧
       l.SSL = (GoMap.get (listedExternal.getSSLServices exampleIngress) l.ServiceName ||
         ((default : StaticConfigParams).NginxServiceMesh && !http2CfgParams.SpiffeServerCerts)) ∧
       l.GRPC = (http2CfgParams.HTTP2 &&
         GoMap.get (listedExternal.getGrpcServices exampleIngress) l.ServiceName)) ∧
      (GoMap.lookup (listedExternal.getWebsocketServices exampleIngress) l.ServiceName = none →
        l.Websocket = false) ∧
      (GoMap.lookup (listedExternal.getRewrites exampleIngress) l.ServiceName = none →
        l.Rewrite = "") ∧
      (GoMap.lookup (listedExternal.getSSLServices exampleIngress) l.ServiceName = none →
        l.SSL = ((default : StaticConfigParams).NginxServiceMesh &&
          !http2CfgParams.SpiffeServerCerts)) ∧
      (GoMap.lookup (listedExternal.getGrpcServices exampleIngress) l.ServiceName = none →
        l.GRPC = false) :=
  ⟨by rfl,
   generateNginxCfg_location_flags listedExternal exampleIngress [] false http2CfgParams true false
      default false _ http2CfgParams rfl (by rfl)⟩

/-! ## C20: the composite config has one server -/

/-- A returned config has one server per rule with a valid host. -/
theorem generateNginxCfg_servers_length (ext : External) (ingEx : IngressEx)
    (apResources : GoMap String) (isMinion : Bool) (baseCfgParams : ConfigParams)
    (isPlus isResolverConfigured : Bool) (staticParams : StaticConfigParams)
    (isWildcardEnabled : Bool) (cfg : IngressNginxConfig)
    (h : generateNginxCfg ext ingEx apResources isMinion baseCfgParams isPlus
      isResolverConfigured staticParams isWildcardEnabled = some cfg) :
    cfg.Servers.length = (validRules ingEx).length := by
  unfold generateNginxCfg generateNginxCfg.body at h
  simp only [Option.bind_eq_some, Option.some.injEq] at h
  obtain ⟨r, hr, rfl⟩ := h
  exact (generateNginxCfg.synth_servers _ r hr).1.length_eq.symm

/-- The loop over the minions completes when the references of every minion resolve. -/
theorem generateNginxCfgForMergeableIngresses.minions_isSome (ext : External)
    (flt : AnnotationFilters) (master : IngressEx) (baseCfgParams : ConfigParams)
    (isPlus isResolverConfigured : Bool) (staticParams : StaticConfigParams)
    (isWildcardEnabled : Bool) :
    ∀ (minions : List IngressEx) (st : MergeState),
      (∀ minion ∈ minions, ReferencesResolve (generateNginxCfg.locals ext
        (generateNginxCfgForMergeableIngresses.minion flt master minion) [] true baseCfgParams
        isPlus isResolverConfigured staticParams isWildcardEnabled)) →
      ∃ st', generateNginxCfgForMergeableIngresses.minions ext flt master baseCfgParams isPlus
        isResolverConfigured staticParams isWildcardEnabled minions st = some st'
  | [], st, _ => ⟨st, rfl⟩
  | minion :: rest, st, h => by
    obtain ⟨cfg, hcfg⟩ := generateNginxCfg.body_isSome _ (h minion (List.mem_cons_self _ _))
    have hcfg : generateNginxCfg ext
        (generateNginxCfgForMergeableIngresses.minion flt master minion) [] true baseCfgParams
        isPlus isResolverConfigured staticParams isWildcardEnabled = some cfg := hcfg
    unfold generateNginxCfgForMergeableIngresses.minions
    rw [hcfg]
    exact generateNginxCfgForMergeableIngresses.minions_isSome ext flt master baseCfgParams
      isPlus isResolverConfigured staticParams isWildcardEnabled rest _
      (fun m hm => h m (List.mem_cons_of_mem _ hm))

theorem generateNginxCfgForMergeableIngresses.master_validRules (flt : AnnotationFilters)
    (master : IngressEx) :
    validRules (generateNginxCfgForMergeableIngresses.master flt master) = validRules master :=
  rfl

/-- C20 as stated fails: on a master whose only rule has a host that is not valid, and
on a master without rules, with an empty list of minions, the config of the master has no
server and `masterNginxCfg.Servers[0]` panics. -/
theorem generateNginxCfgForMergeableIngresses_one_server_counterexample :
    generateNginxCfgForMergeableIngresses exampleExternal exampleFilters
      { Master := hostlessMaster, Minions := [] } [] default true false default false = none ∧
    (generateNginxCfg exampleExternal
      (generateNginxCfgForMergeableIngresses.master exampleFilters hostlessMaster) [] false default
      true false default false).map (fun cfg => cfg.Servers) = some [] ∧
    generateNginxCfgForMergeableIngresses exampleExternal exampleFilters
      { Master := { hostlessMaster with
          Ingress := { hostlessMaster.Ingress with
            Spec := { hostlessMaster.Ingress.Spec with Rules := [] } } },
        Minions := [] } [] default true false default false = none :=
  ⟨by rfl, by rfl, by rfl⟩

/-- C20, amended. Every config that `generateNginxCfgForMergeableIngresses` returns
contains exactly one server.  For a master with at least one rule whose host is valid and
every list of minions, the empty list included, the call completes and returns such a
config when the references of the master and of every minion resolve (after the
annotations are filtered and merged).  On a master without a rule whose host is valid it
does not complete. -/
theorem generateNginxCfgForMergeableIngresses_one_server (ext : External)
    (flt : AnnotationFilters) (mergeableIngs : MergeableIngresses)
    (masterApResources : GoMap String) (baseCfgParams : ConfigParams)
    (isPlus isResolverConfigured : Bool) (staticParams : StaticConfigParams)
    (isWildcardEnabled : Bool) :
    (∀ cfg, generateNginxCfgForMergeableIngresses ext flt mergeableIngs masterApResources
        baseCfgParams isPlus isResolverConfigured staticParams isWildcardEnabled = some cfg →
      ∃ server, cfg.Servers = [server]) ∧
    (validRules mergeableIngs.Master ≠ [] →
      ReferencesResolve (generateNginxCfgForMergeableIngresses.masterEnv ext flt mergeableIngs
        masterApResources baseCfgParams isPlus isResolverConfigured staticParams
        isWildcardEnabled) →
      (∀ minion ∈ mergeableIngs.Minions,
        ReferencesResolve (generateNginxCfgForMergeableIngresses.minionEnv ext flt mergeableIngs
          baseCfgParams isPlus isResolverConfigured staticParams isWildcardEnabled minion)) →
      ∃ cfg server,
        generateNginxCfgForMergeableIngresses ext flt mergeableIngs masterApResources
          baseCfgParams isPlus isResolverConfigured staticParams isWildcardEnabled = some cfg ∧
        cfg.Servers = [server]) ∧
    (validRules mergeableIngs.Master = [] →
      generateNginxCfgForMergeableIngresses ext flt mergeableIngs masterApResources
        baseCfgParams isPlus isResolverConfigured staticParams isWildcardEnabled = none) := by
  have hone : ∀ cfg, generateNginxCfgForMergeableIngresses ext flt mergeableIngs
      masterApResources baseCfgParams isPlus isResolverConfigured staticParams
      isWildcardEnabled = some cfg → ∃ server, cfg.Servers = [server] := by
    intro cfg h
    unfold generateNginxCfgForMergeableIngresses at h
    simp only [Option.bind_eq_some] at h
    obtain ⟨m, _, h⟩ := h
    split at h
    · exact absurd h (by simp)
    · simp only [Option.bind_eq_some, Option.some.injEq] at h
      obtain ⟨st, _, rfl⟩ := h
      exact ⟨_, rfl⟩
  refine ⟨hone, ?_, ?_⟩
  · intro hv hm hmin
    obtain ⟨m, hmc⟩ := generateNginxCfg.body_isSome _ hm
    have hmc : generateNginxCfg ext
        (generateNginxCfgForMergeableIngresses.master flt mergeableIngs.Master) masterApResources
        false baseCfgParams isPlus isResolverConfigured staticParams isWildcardEnabled =
        some m := hmc
    have hlen := generateNginxCfg_servers_length _ _ _ _ _ _ _ _ _ _ hmc
    rw [generateNginxCfgForMergeableIngresses.master_validRules] at hlen
    have hex : ∃ cfg, generateNginxCfgForMergeableIngresses ext flt mergeableIngs
        masterApResources baseCfgParams isPlus isResolverConfigured staticParams
        isWildcardEnabled = some cfg := by
      unfold generateNginxCfgForMergeableIngresses
      simp only [hmc, Option.bind]
      cases hs : m.Servers with
      | nil =>
        rw [hs] at hlen
        exact absurd (List.length_eq_zero.1 hlen.symm) hv
      | cons s rest =>
        simp only
        obtain ⟨st, hst⟩ := generateNginxCfgForMergeableIngresses.minions_isSome ext flt
          (generateNginxCfgForMergeableIngresses.master flt mergeableIngs.Master) baseCfgParams
          isPlus isResolverConfigured staticParams isWildcardEnabled mergeableIngs.Minions
          { masterServer := { s with Locations := [] }, locations := [],
            upstreams := m.Upstreams, healthChecks := [] } hmin
        rw [hst]
        exact ⟨_, rfl⟩
    obtain ⟨cfg, hcfg⟩ := hex
    obtain ⟨server, hserver⟩ := hone cfg hcfg
    exact ⟨cfg, server, hcfg, hserver⟩
  · intro hv
    cases hmc : generateNginxCfg ext
        (generateNginxCfgForMergeableIngresses.master flt mergeableIngs.Master) masterApResources
        false baseCfgParams isPlus isResolverConfigured staticParams isWildcardEnabled with
    | none =>
      unfold generateNginxCfgForMergeableIngresses
      simp only [hmc, Option.bind]
    | some m =>
      have hlen := generateNginxCfg_servers_length _ _ _ _ _ _ _ _ _ _ hmc
      rw [generateNginxCfgForMergeableIngresses.master_validRules, hv] at hlen
      have hs : m.Servers = [] := List.length_eq_zero.1 hlen
      unfold generateNginxCfgForMergeableIngresses
      simp only [hmc, Option.bind, hs]

/-- C20, amended, on the cafe master with the minion `/tea`: the references resolve
and the call returns one server, with the location of the minion. -/
theorem generateNginxCfgForMergeableIngresses_one_server_witness :
    (generateNginxCfgForMergeableIngresses exampleExternal exampleFilters
      { Master := cafeMaster, Minions := [teaMinion] } [] default true false default false).map
      (fun cfg => cfg.Servers.map fun s => (s.Name, s.Locations.map fun l =>
        (l.Path, l.MinionIngress.map fun i => i.Name))) =
      some [("cafe.example.com", [("/tea", some "cafe-tea-minion")])] ∧
    ∃ cfg server,
      generateNginxCfgForMergeableIngresses exampleExternal exampleFilters
        { Master := cafeMaster, Minions := [teaMinion] } [] default true false default false =
        some cfg ∧
      cfg.Servers = [server] :=
  ⟨by rfl,
   (generateNginxCfgForMergeableIngresses_one_server exampleExternal exampleFilters
      { Master := cafeMaster, Minions := [teaMinion] } [] default true false default false).2.1
      (by decide)
      (by unfold ReferencesResolve; decide)
      (by
        intro minion hm
        rw [List.mem_singleton] at hm
        subst hm
        unfold ReferencesResolve
        decide)⟩

/-! ## The loops of `generateNginxCfgForMergeableIngresses` -/

theorem GoMap.insertAll_append {α : Type} (m : GoMap α) (a b : List (String × α)) :
    GoMap.insertAll m (a ++ b) = GoMap.insertAll (GoMap.insertAll m a) b := by
  unfold GoMap.insertAll
  rw [List.foldl_append]

/-- The loop over the servers of the config of one minion, in closed form. -/
theorem generateNginxCfgForMergeableIngresses.servers_eq (ingress : IngressIdentity) :
    ∀ (servers : List Server) (st : MergeState),
      generateNginxCfgForMergeableIngresses.servers ingress servers st =
        { masterServer := { st.masterServer with
            JWTRedirectLocations := st.masterServer.JWTRedirectLocations ++
              (servers.map fun s => s.JWTRedirectLocations).flatten }
          locations := st.locations ++
            (servers.map fun server =>
              server.Locations.map fun loc => { loc with MinionIngress := some ingress }).flatten
          upstreams := st.upstreams
          healthChecks :=
            GoMap.insertAll st.healthChecks (servers.map fun s => s.HealthChecks).flatten }
  | [], st => by
    simp [generateNginxCfgForMergeableIngresses.servers, GoMap.insertAll]
  | server :: rest, st => by
    rw [generateNginxCfgForMergeableIngresses.servers,
      generateNginxCfgForMergeableIngresses.servers_eq ingress rest]
    simp only [List.map_cons, List.flatten_cons, List.append_assoc, GoMap.insertAll_append]
    rfl

/-- The loop over the minions, in closed form. -/
theorem generateNginxCfgForMergeableIngresses.minions_eq (ext : External)
    (flt : AnnotationFilters) (master : IngressEx) (baseCfgParams : ConfigParams)
    (isPlus isResolverConfigured : Bool) (staticParams : StaticConfigParams)
    (isWildcardEnabled : Bool) :
    ∀ (minions : List IngressEx) (cfgs : List IngressNginxConfig) (st : MergeState),
      List.Forall₂
        (fun minion cfg =>
          generateNginxCfg ext (generateNginxCfgForMergeableIngresses.minion flt master minion)
            [] true baseCfgParams isPlus isResolverConfigured staticParams isWildcardEnabled =
            some cfg) minions cfgs →
      generateNginxCfgForMergeableIngresses.minions ext flt master baseCfgParams isPlus
        isResolverConfigured staticParams isWildcardEnabled minions st =
        some
          { masterServer := { st.masterServer with
              JWTRedirectLocations := st.masterServer.JWTRedirectLocations ++
                (cfgs.map fun cfg =>
                  (cfg.Servers.map fun s => s.JWTRedirectLocations).flatten).flatten }
            locations := st.locations ++ (cfgs.map taggedLocations).flatten
            upstreams := st.upstreams ++ (cfgs.map fun cfg => cfg.Upstreams).flatten
            healthChecks :=
              GoMap.insertAll st.healthChecks
                (cfgs.map fun cfg => (cfg.Servers.map fun s => s.HealthChecks).flatten).flatten }
  | [], cfgs, st, h => by
    rw [List.forall₂_nil_left_iff] at h
    subst h
    simp [generateNginxCfgForMergeableIngresses.minions, GoMap.insertAll]
  | minion :: rest, cfgs, st, h => by
    rw [List.forall₂_cons_left_iff] at h
    obtain ⟨cfg, cfgs', hc, hrest, rfl⟩ := h
    rw [generateNginxCfgForMergeableIngresses.minions, hc]
    simp only [Option.bind]
    rw [generateNginxCfgForMergeableIngresses.minions_eq ext flt master baseCfgParams isPlus
      isResolverConfigured staticParams isWildcardEnabled rest cfgs' _ hrest,
      generateNginxCfgForMergeableIngresses.servers_eq]
    simp only [List.map_cons, List.flatten_cons, List.append_assoc, GoMap.insertAll_append,
      taggedLocations]

/-- When the loop over the minions completes, `generateNginxCfg` has returned a config for
every minion. -/
theorem generateNginxCfgForMergeableIngresses.minions_configs (ext : External)
    (flt : AnnotationFilters) (master : IngressEx) (baseCfgParams : ConfigParams)
    (isPlus isResolverConfigured : Bool) (staticParams : StaticConfigParams)
    (isWildcardEnabled : Bool) :
    ∀ (minions : List IngressEx) (st st' : MergeState),
      generateNginxCfgForMergeableIngresses.minions ext flt master baseCfgParams isPlus
        isResolverConfigured staticParams isWildcardEnabled minions st = some st' →
      ∃ cfgs, List.Forall₂
        (fun minion cfg =>
          generateNginxCfg ext (generateNginxCfgForMergeableIngresses.minion flt master minion)
            [] true baseCfgParams isPlus isResolverConfigured staticParams isWildcardEnabled =
            some cfg) minions cfgs
  | [], _, _, _ => ⟨[], List.Forall₂.nil⟩
  | minion :: rest, st, st', h => by
    rw [generateNginxCfgForMergeableIngresses.minions] at h
    simp only [Option.bind_eq_some] at h
    obtain ⟨cfg, hc, h⟩ := h
    obtain ⟨cfgs, hcfgs⟩ := generateNginxCfgForMergeableIngresses.minions_configs ext flt master
      baseCfgParams isPlus isResolverConfigured staticParams isWildcardEnabled rest _ st' h
    exact ⟨cfg :: cfgs, List.Forall₂.cons hc hcfgs⟩

/-! ## The composite config in closed form -/

/-- The composite config when the config of the master has a first server and
`generateNginxCfg` returns a config for every minion. -/
theorem generateNginxCfgForMergeableIngresses_eq (ext : External) (flt : AnnotationFilters)
    (mergeableIngs : MergeableIngresses) (masterApResources : GoMap String)
    (baseCfgParams : ConfigParams) (isPlus isResolverConfigured : Bool)
    (staticParams : StaticConfigParams) (isWildcardEnabled : Bool)
    (masterNginxCfg : IngressNginxConfig) (masterServer : Server) (rest : List Server)
    (cfgs : List IngressNginxConfig)
    (hm : generateNginxCfg ext
      (generateNginxCfgForMergeableIngresses.master flt mergeableIngs.Master) masterApResources
      false baseCfgParams isPlus isResolverConfigured staticParams isWildcardEnabled =
      some masterNginxCfg)
    (hs : masterNginxCfg.Servers = masterServer :: rest)
    (hmin : MinionConfigs ext flt mergeableIngs baseCfgParams isPlus isResolverConfigured
      staticParams isWildcardEnabled cfgs) :
    generateNginxCfgForMergeableIngresses ext flt mergeableIngs masterApResources baseCfgParams
      isPlus isResolverConfigured staticParams isWildcardEnabled =
      some
        { Servers :=
            [{ masterServer with
               Locations := (cfgs.map taggedLocations).flatten
               HealthChecks := GoMap.insertAll []
                 (cfgs.map fun cfg => (cfg.Servers.map fun s => s.HealthChecks).flatten).flatten
               JWTRedirectLocations := masterServer.JWTRedirectLocations ++
                 (cfgs.map fun cfg =>
                   (cfg.Servers.map fun s => s.JWTRedirectLocations).flatten).flatten }]
          Upstreams := masterNginxCfg.Upstreams ++ (cfgs.map fun cfg => cfg.Upstreams).flatten
          Keepalive := masterNginxCfg.Keepalive
          Ingress := masterNginxCfg.Ingress
          SpiffeClientCerts :=
            staticParams.NginxServiceMesh && !baseCfgParams.SpiffeServerCerts } := by
  have hk : (if masterNginxCfg.Keepalive ≠ "" then masterNginxCfg.Keepalive else "") =
      masterNginxCfg.Keepalive := by
    by_cases hk : masterNginxCfg.Keepalive = ""
    · rw [if_neg (not_not.2 hk), hk]
    · rw [if_pos hk]
  unfold generateNginxCfgForMergeableIngresses
  simp only [hm, Option.bind, hs]
  rw [generateNginxCfgForMergeableIngresses.minions_eq ext flt _ baseCfgParams isPlus
    isResolverConfigured staticParams isWildcardEnabled mergeableIngs.Minions cfgs _ hmin, hk]
  simp only [List.nil_append]

/-- When the composite config is returned, the config of the master has a first server
and `generateNginxCfg` has returned a config for every minion. -/
theorem generateNginxCfgForMergeableIngresses_inv (ext : External) (flt : AnnotationFilters)
    (mergeableIngs : MergeableIngresses) (masterApResources : GoMap String)
    (baseCfgParams : ConfigParams) (isPlus isResolverConfigured : Bool)
    (staticParams : StaticConfigParams) (isWildcardEnabled : Bool) (cfg : IngressNginxConfig)
    (h : generateNginxCfgForMergeableIngresses ext flt mergeableIngs masterApResources
      baseCfgParams isPlus isResolverConfigured staticParams isWildcardEnabled = some cfg) :
    ∃ masterNginxCfg masterServer rest cfgs,
      generateNginxCfg ext
        (generateNginxCfgForMergeableIngresses.master flt mergeableIngs.Master) masterApResources
        false baseCfgParams isPlus isResolverConfigured staticParams isWildcardEnabled =
        some masterNginxCfg ∧
      masterNginxCfg.Servers = masterServer :: rest ∧
      MinionConfigs ext flt mergeableIngs baseCfgParams isPlus isResolverConfigured
        staticParams isWildcardEnabled cfgs := by
  unfold generateNginxCfgForMergeableIngresses at h
  simp only [Option.bind_eq_some] at h
  obtain ⟨m, hm, h⟩ := h
  cases hs : m.Servers with
  | nil =>
    rw [hs] at h
    exact absurd h (by simp)
  | cons s rest =>
    rw [hs] at h
    simp only [Option.bind_eq_some] at h
    obtain ⟨st, hst, _⟩ := h
    obtain ⟨cfgs, hcfgs⟩ := generateNginxCfgForMergeableIngresses.minions_configs ext flt _
      baseCfgParams isPlus isResolverConfigured staticParams isWildcardEnabled _ _ st hst
    exact ⟨m, s, rest, cfgs, hm, hs, hcfgs⟩

/-- The `Ingress` of a returned config is the identity of the input. -/
theorem generateNginxCfg_ingress (ext : External) (ingEx : IngressEx)
    (apResources : GoMap String) (isMinion : Bool) (baseCfgParams : ConfigParams)
    (isPlus isResolverConfigured : Bool) (staticParams : StaticConfigParams)
    (isWildcardEnabled : Bool) (cfg : IngressNginxConfig)
    (h : generateNginxCfg ext ingEx apResources isMinion baseCfgParams isPlus
      isResolverConfigured staticParams isWildcardEnabled = some cfg) :
    cfg.Ingress = { Name := ingEx.Ingress.Name, Namespace := ingEx.Ingress.Namespace,
                    Annotations := ingEx.Ingress.Annotations } := by
  unfold generateNginxCfg generateNginxCfg.body at h
  simp only [Option.bind_eq_some, Option.some.injEq] at h
  obtain ⟨r, _, rfl⟩ := h
  rfl

/-! ## C21: the fields that the composite server takes from the master -/

/-- C21. When the config of the master (after its annotations are filtered) has a first
server, every config that `generateNginxCfgForMergeableIngresses` returns has one server,
which agrees with that first server in every field other than `Locations`, `HealthChecks`
and `JWTRedirectLocations`; its `Keepalive` and `Ingress` are those of the config of the
master, with the name and namespace of the master; and a config is returned whenever
`generateNginxCfg` returns one for every minion. -/
theorem generateNginxCfgForMergeableIngresses_master_fields (ext : External)
    (flt : AnnotationFilters) (mergeableIngs : MergeableIngresses)
    (masterApResources : GoMap String) (baseCfgParams : ConfigParams)
    (isPlus isResolverConfigured : Bool) (staticParams : StaticConfigParams)
    (isWildcardEnabled : Bool) (masterNginxCfg : IngressNginxConfig) (masterServer : Server)
    (rest : List Server)
    (hm : generateNginxCfg ext
      (generateNginxCfgForMergeableIngresses.master flt mergeableIngs.Master) masterApResources
      false baseCfgParams isPlus isResolverConfigured staticParams isWildcardEnabled =
      some masterNginxCfg)
    (hs : masterNginxCfg.Servers = masterServer :: rest) :
    (∀ cfg, generateNginxCfgForMergeableIngresses ext flt mergeableIngs masterApResources
        baseCfgParams isPlus isResolverConfigured staticParams isWildcardEnabled = some cfg →
      ∃ server, cfg.Servers = [server] ∧
        { server with
          Locations := masterServer.Locations
          HealthChecks := masterServer.HealthChecks
          JWTRedirectLocations := masterServer.JWTRedirectLocations } = masterServer ∧
        cfg.Keepalive = masterNginxCfg.Keepalive ∧
        cfg.Ingress = masterNginxCfg.Ingress ∧
        cfg.Ingress.Name = mergeableIngs.Master.Ingress.Name ∧
        cfg.Ingress.Namespace = mergeableIngs.Master.Ingress.Namespace) ∧
    (∀ cfgs, MinionConfigs ext flt mergeableIngs baseCfgParams isPlus isResolverConfigured
        staticParams isWildcardEnabled cfgs →
      ∃ cfg, generateNginxCfgForMergeableIngresses ext flt mergeableIngs masterApResources
        baseCfgParams isPlus isResolverConfigured staticParams isWildcardEnabled = some cfg) := by
  refine ⟨?_, fun cfgs hmin => ⟨_, generateNginxCfgForMergeableIngresses_eq ext flt
    mergeableIngs masterApResources baseCfgParams isPlus isResolverConfigured staticParams
    isWildcardEnabled masterNginxCfg masterServer rest cfgs hm hs hmin⟩⟩
  intro cfg h
  obtain ⟨m, s, r, cfgs, hm', hs', hmin⟩ := generateNginxCfgForMergeableIngresses_inv ext flt
    mergeableIngs masterApResources baseCfgParams isPlus isResolverConfigured staticParams
    isWildcardEnabled cfg h
  rw [hm] at hm'
  simp only [Option.some.injEq] at hm'
  subst hm'
  rw [hs] at hs'
  simp only [List.cons.injEq] at hs'
  obtain ⟨rfl, rfl⟩ := hs'
  rw [generateNginxCfgForMergeableIngresses_eq ext flt mergeableIngs masterApResources
    baseCfgParams isPlus isResolverConfigured staticParams isWildcardEnabled masterNginxCfg
    masterServer rest cfgs hm hs hmin] at h
  simp only [Option.some.injEq] at h
  subst h
  have hi := generateNginxCfg_ingress _ _ _ _ _ _ _ _ _ _ hm
  refine ⟨_, rfl, rfl, rfl, rfl, ?_, ?_⟩
  · show masterNginxCfg.Ingress.Name = _
    rw [hi]
    rfl
  · show masterNginxCfg.Ingress.Namespace = _
    rw [hi]
    rfl

/-- C21 on the composite scenario: the master declares `nginx.org/hsts: true`, the
minion `/tea` declares `nginx.org/client-max-body-size: 2m` and no `hsts`; the composite
server has the name and `HSTS` of the server of the master, and the location of the minion
carries `2m`. -/
theorem generateNginxCfgForMergeableIngresses_master_fields_witness :
    (generateNginxCfgForMergeableIngresses scenarioExternal exampleFilters
      { Master := hstsMaster, Minions := [bodySizeMinion] } [] default true false default
      false).map
      (fun cfg => (cfg.Servers.map fun s => (s.Name, s.HSTS, s.Locations.map fun l =>
        (l.Path, l.ClientMaxBodySize)), cfg.Ingress.Name)) =
      some ([("cafe.example.com", true, [("/tea", "2m")])], "cafe-master") ∧
    ∃ server,
      ((generateNginxCfgForMergeableIngresses scenarioExternal exampleFilters
        { Master := hstsMaster, Minions := [bodySizeMinion] } [] default true false default
        false).getD default).Servers = [server] ∧
      { server with
        Locations := (((generateNginxCfg scenarioExternal
          (generateNginxCfgForMergeableIngresses.master exampleFilters hstsMaster) [] false
          default true false default false).getD default).Servers.headD default).Locations
        HealthChecks := (((generateNginxCfg scenarioExternal
          (generateNginxCfgForMergeableIngresses.master exampleFilters hstsMaster) [] false
          default true false default false).getD default).Servers.headD default).HealthChecks
        JWTRedirectLocations := (((generateNginxCfg scenarioExternal
          (generateNginxCfgForMergeableIngresses.master exampleFilters hstsMaster) [] false
          default true false default false).getD default).Servers.headD
            default).JWTRedirectLocations } =
        ((generateNginxCfg scenarioExternal
          (generateNginxCfgForMergeableIngresses.master exampleFilters hstsMaster) [] false
          default true false default false).getD default).Servers.headD default ∧
      server.HSTS = true :=
  ⟨by rfl,
   by
    obtain ⟨server, h1, h2, _⟩ :=
      (generateNginxCfgForMergeableIngresses_master_fields scenarioExternal exampleFilters
        { Master := hstsMaster, Minions := [bodySizeMinion] } [] default true false default false
        ((generateNginxCfg scenarioExternal
          (generateNginxCfgForMergeableIngresses.master exampleFilters hstsMaster) [] false
          default true false default false).getD default)
        (((generateNginxCfg scenarioExternal
          (generateNginxCfgForMergeableIngresses.master exampleFilters hstsMaster) [] false
          default true false default false).getD default).Servers.headD default)
        [] (by rfl) (by rfl)).1 _ (by rfl)
    refine ⟨server, h1, h2, ?_⟩
    have h3 := congrArg Server.HSTS h2
    exact h3.trans (by rfl)⟩

/-! ## C22: the locations of the composite server -/

/-- C22. When the config of the master has a first server and `cfgs` are the configs
that `generateNginxCfg` returns in minion mode for the minions, in input order:
`generateNginxCfgForMergeableIngresses` returns a config with one server, whose
`Locations` are the locations of every server of `cfgs`, config by config and server by
server in order, each with `MinionIngress` set to the `Ingress` of its config, which has
the name and namespace of the minion; no location is without `MinionIngress`. -/
theorem generateNginxCfgForMergeableIngresses_locations (ext : External)
    (flt : AnnotationFilters) (mergeableIngs : MergeableIngresses)
    (masterApResources : GoMap String) (baseCfgParams : ConfigParams)
    (isPlus isResolverConfigured : Bool) (staticParams : StaticConfigParams)
    (isWildcardEnabled : Bool) (masterNginxCfg : IngressNginxConfig) (masterServer : Server)
    (rest : List Server) (cfgs : List IngressNginxConfig)
    (hm : generateNginxCfg ext
      (generateNginxCfgForMergeableIngresses.master flt mergeableIngs.Master) masterApResources
      false baseCfgParams isPlus isResolverConfigured staticParams isWildcardEnabled =
      some masterNginxCfg)
    (hs : masterNginxCfg.Servers = masterServer :: rest)
    (hmin : MinionConfigs ext flt mergeableIngs baseCfgParams isPlus isResolverConfigured
      staticParams isWildcardEnabled cfgs) :
    ∃ cfg server,
      generateNginxCfgForMergeableIngresses ext flt mergeableIngs masterApResources
        baseCfgParams isPlus isResolverConfigured staticParams isWildcardEnabled = some cfg ∧
      cfg.Servers = [server] ∧
      server.Locations =
        (cfgs.map fun c =>
          (c.Servers.map fun s =>
            s.Locations.map fun loc => { loc with MinionIngress := some c.Ingress }).flatten
          ).flatten ∧
      List.Forall₂
        (fun minion c => c.Ingress.Name = minion.Ingress.Name ∧
          c.Ingress.Namespace = minion.Ingress.Namespace)
        mergeableIngs.Minions cfgs ∧
      ∀ loc ∈ server.Locations, ∃ c ∈ cfgs, loc.MinionIngress = some c.Ingress := by
  refine ⟨_, _, generateNginxCfgForMergeableIngresses_eq ext flt mergeableIngs
    masterApResources baseCfgParams isPlus isResolverConfigured staticParams isWildcardEnabled
    masterNginxCfg masterServer rest cfgs hm hs hmin, rfl, rfl, ?_, ?_⟩
  · refine hmin.imp ?_
    intro minion c hc
    have hi := generateNginxCfg_ingress _ _ _ _ _ _ _ _ _ _ hc
    rw [hi]
    exact ⟨rfl, rfl⟩
  · intro loc hloc
    simp only [List.mem_flatten, List.mem_map] at hloc
    obtain ⟨l, ⟨c, hc, rfl⟩, hl⟩ := hloc
    unfold taggedLocations at hl
    simp only [List.mem_flatten, List.mem_map] at hl
    obtain ⟨l', ⟨s, _, rfl⟩, hl'⟩ := hl
    simp only [List.mem_map] at hl'
    obtain ⟨loc0, _, rfl⟩ := hl'
    exact ⟨c, hc, rfl⟩

/-- C22 on a master that declares `/coffee` itself, with the minions `/tea` and
`/juice`: the composite server has the locations `/tea` and `/juice`, in that order, each
tagged with its minion, and not `/coffee`. -/
theorem generateNginxCfgForMergeableIngresses_locations_witness :
    (generateNginxCfgForMergeableIngresses exampleExternal exampleFilters
      { Master := coffeeMaster, Minions := [teaMinion, juiceMinion] } [] default true false
      default false).map
      (fun cfg => cfg.Servers.map fun s => s.Locations.map fun l =>
        (l.Path, l.MinionIngress.map fun i => i.Name)) =
      some [[("/tea", some "cafe-tea-minion"), ("/juice", some "cafe-juice-minion")]] ∧
    ∃ cfg server,
      generateNginxCfgForMergeableIngresses exampleExternal exampleFilters
        { Master := coffeeMaster, Minions := [teaMinion, juiceMinion] } [] default true false
        default false = some cfg ∧
      cfg.Servers = [server] ∧
      server.Locations.length = 2 :=
  ⟨by rfl,
   by
    obtain ⟨cfg, server, h1, h2, h3, _⟩ :=
      generateNginxCfgForMergeableIngresses_locations exampleExternal exampleFilters
        { Master := coffeeMaster, Minions := [teaMinion, juiceMinion] } [] default true false
        default false
        ((generateNginxCfg exampleExternal
          (generateNginxCfgForMergeableIngresses.master exampleFilters coffeeMaster) [] false
          default true false default false).getD default)
        (((generateNginxCfg exampleExternal
          (generateNginxCfgForMergeableIngresses.master exampleFilters coffeeMaster) [] false
          default true false default false).getD default).Servers.headD default)
        []
        [(generateNginxCfg exampleExternal
            (generateNginxCfgForMergeableIngresses.minion exampleFilters
              (generateNginxCfgForMergeableIngresses.master exampleFilters coffeeMaster)
              teaMinion) [] true default true false default false).getD default,
         (generateNginxCfg exampleExternal
            (generateNginxCfgForMergeableIngresses.minion exampleFilters
              (generateNginxCfgForMergeableIngresses.master exampleFilters coffeeMaster)
              juiceMinion) [] true default true false default false).getD default]
        (by rfl) (by rfl)
        (List.Forall₂.cons (by rfl) (List.Forall₂.cons (by rfl) List.Forall₂.nil))
    refine ⟨cfg, server, h1, h2, ?_⟩
    rw [h3]
    rfl⟩

/-! ## C23: the master's own locations and health checks -/

theorem GoMap.mem_insertAll {α : Type} (entries : List (String × α)) :
    ∀ (m : GoMap α) (p : String × α), p ∈ GoMap.insertAll m entries → p ∈ m ∨ p ∈ entries := by
  induction entries with
  | nil => exact fun m p h => Or.inl h
  | cons e rest ih =>
    intro m p h
    rcases ih (GoMap.insert m e.1 e.2) p h with h1 | h1
    · rcases GoMap.mem_insert m e.1 e.2 p h1 with h2 | h2
      · exact Or.inr (by rw [h2]; exact List.mem_cons_self _ _)
      · exact Or.inl h2
    · exact Or.inr (List.mem_cons_of_mem _ h1)

theorem GoMap.mem_keys_insertAll {α : Type} (entries : List (String × α)) :
    ∀ (m : GoMap α) (k : String),
      k ∈ GoMap.keys (GoMap.insertAll m entries) ↔ k ∈ GoMap.keys m ∨ k ∈ GoMap.keys entries := by
  induction entries with
  | nil =>
    intro m k
    simp [GoMap.insertAll, GoMap.keys]
  | cons e rest ih =>
    intro m k
    have h := ih (GoMap.insert m e.1 e.2) k
    have h' : GoMap.insertAll m (e :: rest) = GoMap.insertAll (GoMap.insert m e.1 e.2) rest := rfl
    rw [h', h, GoMap.mem_keys_insert]
    simp only [GoMap.keys, List.map_cons, List.mem_cons]
    tauto

/-- C23 as stated fails: for a master that declares the path `/coffee` itself, with a
probe on its backend and health checks enabled, the server of the master has the location
`/coffee` and a health check for its upstream; the composite server with the minion
`/tea` has the location `/tea` only and no health check. -/
theorem generateNginxCfgForMergeableIngresses_union_counterexample :
    (generateNginxCfg exampleExternal
      (generateNginxCfgForMergeableIngresses.master exampleFilters coffeeMaster) [] false
      healthCheckCfgParams true false default false).map
      (fun cfg => cfg.Servers.map fun s =>
        (s.Locations.map fun l => l.Path, GoMap.keys s.HealthChecks)) =
      some [(["/coffee"], ["default-cafe-master-cafe.example.com-coffee-svc-80"])] ∧
    (generateNginxCfgForMergeableIngresses exampleExternal exampleFilters
      { Master := coffeeMaster, Minions := [teaMinion] } [] healthCheckCfgParams true false
      default false).map
      (fun cfg => cfg.Servers.map fun s =>
        (s.Locations.map fun l => l.Path, GoMap.keys s.HealthChecks)) =
      some [(["/tea"], [])] :=
  ⟨by rfl, by rfl⟩

/-- C23, amended. When the config of the master has a first server and `cfgs` are the
configs that `generateNginxCfg` returns in minion mode for the minions, in input order:
the composite server's `Locations` are the tagged locations of `cfgs` in order, and its
`HealthChecks` map is the empty map after the health checks of every server of `cfgs` are
written into it in order, so every entry of it is an entry of a server of a minion and
every key of a server of a minion is a key of it.  The locations and health checks of the
config of the master are not part of it: without minions both are empty. -/
theorem generateNginxCfgForMergeableIngresses_union (ext : External)
    (flt : AnnotationFilters) (mergeableIngs : MergeableIngresses)
    (masterApResources : GoMap String) (baseCfgParams : ConfigParams)
    (isPlus isResolverConfigured : Bool) (staticParams : StaticConfigParams)
    (isWildcardEnabled : Bool) (masterNginxCfg : IngressNginxConfig) (masterServer : Server)
    (rest : List Server) (cfgs : List IngressNginxConfig)
    (hm : generateNginxCfg ext
      (generateNginxCfgForMergeableIngresses.master flt mergeableIngs.Master) masterApResources
      false baseCfgParams isPlus isResolverConfigured staticParams isWildcardEnabled =
      some masterNginxCfg)
    (hs : masterNginxCfg.Servers = masterServer :: rest)
    (hmin : MinionConfigs ext flt mergeableIngs baseCfgParams isPlus isResolverConfigured
      staticParams isWildcardEnabled cfgs) :
    ∃ cfg server,
      generateNginxCfgForMergeableIngresses ext flt mergeableIngs masterApResources
        baseCfgParams isPlus isResolverConfigured staticParams isWildcardEnabled = some cfg ∧
      cfg.Servers = [server] ∧
      server.Locations = (cfgs.map taggedLocations).flatten ∧
      server.HealthChecks = GoMap.insertAll []
        (cfgs.map fun c => (c.Servers.map fun s => s.HealthChecks).flatten).flatten ∧
      (∀ p ∈ server.HealthChecks, ∃ c ∈ cfgs, ∃ s ∈ c.Servers, p ∈ s.HealthChecks) ∧
      (∀ c ∈ cfgs, ∀ s ∈ c.Servers, ∀ n ∈ GoMap.keys s.HealthChecks,
        n ∈ GoMap.keys server.HealthChecks) ∧
      (cfgs = [] → server.Locations = [] ∧ server.HealthChecks = []) := by
  refine ⟨_, _, generateNginxCfgForMergeableIngresses_eq ext flt mergeableIngs
    masterApResources baseCfgParams isPlus isResolverConfigured staticParams isWildcardEnabled
    masterNginxCfg masterServer rest cfgs hm hs hmin, rfl, rfl, rfl, ?_, ?_, ?_⟩
  · intro p hp
    rcases GoMap.mem_insertAll _ _ p hp with h | h
    · exact absurd h (List.not_mem_nil _)
    · simp only [List.mem_flatten, List.mem_map] at h
      obtain ⟨l, ⟨c, hc, rfl⟩, hl⟩ := h
      simp only [List.mem_flatten, List.mem_map] at hl
      obtain ⟨l', ⟨s, hs', rfl⟩, hl'⟩ := hl
      exact ⟨c, hc, s, hs', hl'⟩
  · intro c hc s hs' n hn
    show n ∈ GoMap.keys (GoMap.insertAll [] _)
    rw [GoMap.mem_keys_insertAll]
    right
    unfold GoMap.keys at hn ⊢
    rw [List.mem_map] at hn ⊢
    obtain ⟨p, hp, rfl⟩ := hn
    refine ⟨p, ?_, rfl⟩
    simp only [List.mem_flatten, List.mem_map]
    exact ⟨_, ⟨c, hc, rfl⟩, by
      simp only [List.mem_flatten, List.mem_map]
      exact ⟨_, ⟨s, hs', rfl⟩, hp⟩⟩
  · rintro rfl
    exact ⟨rfl, rfl⟩

/-- C23, amended, on the master that declares `/coffee` with the minions `/tea` and
`/juice`, health checks enabled and a probe on the backends of `/coffee` and `/juice`:
the composite server has the locations of the two minions and the health check of
`/juice` only. -/
theorem generateNginxCfgForMergeableIngresses_union_witness :
    (generateNginxCfgForMergeableIngresses exampleExternal exampleFilters
      { Master := coffeeMaster, Minions := [teaMinion, juiceMinion] } [] healthCheckCfgParams
      true false default false).map
      (fun cfg => cfg.Servers.map fun s =>
        (s.Locations.map fun l => l.Path, GoMap.keys s.HealthChecks)) =
      some [(["/tea", "/juice"], ["default-cafe-juice-minion-cafe.example.com-juice-svc-80"])] ∧
    ∃ cfg server,
      generateNginxCfgForMergeableIngresses exampleExternal exampleFilters
        { Master := coffeeMaster, Minions := [teaMinion, juiceMinion] } []
        healthCheckCfgParams true false default false = some cfg ∧
      cfg.Servers = [server] ∧
      server.HealthChecks.length = 1 :=
  ⟨by rfl,
   by
    obtain ⟨cfg, server, h1, h2, _, h4, _⟩ :=
      generateNginxCfgForMergeableIngresses_union exampleExternal exampleFilters
        { Master := coffeeMaster, Minions := [teaMinion, juiceMinion] } []
        healthCheckCfgParams true false default false
        ((generateNginxCfg exampleExternal
          (generateNginxCfgForMergeableIngresses.master exampleFilters coffeeMaster) [] false
          healthCheckCfgParams true false default false).getD default)
        (((generateNginxCfg exampleExternal
          (generateNginxCfgForMergeableIngresses.master exampleFilters coffeeMaster) [] false
          healthCheckCfgParams true false default false).getD default).Servers.headD default)
        []
        [(generateNginxCfg exampleExternal
            (generateNginxCfgForMergeableIngresses.minion exampleFilters
              (generateNginxCfgForMergeableIngresses.master exampleFilters coffeeMaster)
              teaMinion) [] true healthCheckCfgParams true false default false).getD default,
         (generateNginxCfg exampleExternal
            (generateNginxCfgForMergeableIngresses.minion exampleFilters
              (generateNginxCfgForMergeableIngresses.master exampleFilters coffeeMaster)
              juiceMinion) [] true healthCheckCfgParams true false default false).getD default]
        (by rfl) (by rfl)
        (List.Forall₂.cons (by rfl) (List.Forall₂.cons (by rfl) List.Forall₂.nil))
    refine ⟨cfg, server, h1, h2, ?_⟩
    rw [h4]
    rfl⟩

/-! ## C24: the upstreams of the composite config -/

/-- C24. When the config of the master has a first server and `cfgs` are the configs
that `generateNginxCfg` returns in minion mode for the minions, in input order:
`generateNginxCfgForMergeableIngresses` returns a config whose `Upstreams` are the
`Upstreams` of the config of the master followed by those of every config of `cfgs`, in
order, with every entry kept in place. -/
theorem generateNginxCfgForMergeableIngresses_upstreams (ext : External)
    (flt : AnnotationFilters) (mergeableIngs : MergeableIngresses)
    (masterApResources : GoMap String) (baseCfgParams : ConfigParams)
    (isPlus isResolverConfigured : Bool) (staticParams : StaticConfigParams)
    (isWildcardEnabled : Bool) (masterNginxCfg : IngressNginxConfig) (masterServer : Server)
    (rest : List Server) (cfgs : List IngressNginxConfig)
    (hm : generateNginxCfg ext
      (generateNginxCfgForMergeableIngresses.master flt mergeableIngs.Master) masterApResources
      false baseCfgParams isPlus isResolverConfigured staticParams isWildcardEnabled =
      some masterNginxCfg)
    (hs : masterNginxCfg.Servers = masterServer :: rest)
    (hmin : MinionConfigs ext flt mergeableIngs baseCfgParams isPlus isResolverConfigured
      staticParams isWildcardEnabled cfgs) :
    ∃ cfg,
      generateNginxCfgForMergeableIngresses ext flt mergeableIngs masterApResources
        baseCfgParams isPlus isResolverConfigured staticParams isWildcardEnabled = some cfg ∧
      cfg.Upstreams = masterNginxCfg.Upstreams ++ (cfgs.map fun c => c.Upstreams).flatten ∧
      cfg.Upstreams.length =
        masterNginxCfg.Upstreams.length + (cfgs.map fun c => c.Upstreams.length).sum :=
  ⟨_, generateNginxCfgForMergeableIngresses_eq ext flt mergeableIngs masterApResources
    baseCfgParams isPlus isResolverConfigured staticParams isWildcardEnabled masterNginxCfg
    masterServer rest cfgs hm hs hmin, rfl, by
    show (masterNginxCfg.Upstreams ++ (cfgs.map fun c => c.Upstreams).flatten).length = _
    rw [List.length_append, List.length_flatten, List.map_map]
    rfl⟩

/-- C24 on the master that declares `/coffee` with the minion `/tea` listed twice and
the minion `/juice`: the upstream of `/coffee` comes first, then those of the minions in
input order, the upstream of `/tea` twice. -/
theorem generateNginxCfgForMergeableIngresses_upstreams_witness :
    (generateNginxCfgForMergeableIngresses exampleExternal exampleFilters
      { Master := coffeeMaster, Minions := [teaMinion, juiceMinion, teaMinion] } [] default true
      false default false).map (fun cfg => cfg.Upstreams.map fun u => u.Name) =
      some ["default-cafe-master-cafe.example.com-coffee-svc-80",
            "default-cafe-tea-minion-cafe.example.com-tea-svc-80",
            "default-cafe-juice-minion-cafe.example.com-juice-svc-80",
            "default-cafe-tea-minion-cafe.example.com-tea-svc-80"] ∧
    ∃ cfg,
      generateNginxCfgForMergeableIngresses exampleExternal exampleFilters
        { Master := coffeeMaster, Minions := [teaMinion, juiceMinion, teaMinion] } [] default
        true false default false = some cfg ∧
      cfg.Upstreams.length = 4 :=
  ⟨by rfl,
   by
    obtain ⟨cfg, h1, _, h3⟩ :=
      generateNginxCfgForMergeableIngresses_upstreams exampleExternal exampleFilters
        { Master := coffeeMaster, Minions := [teaMinion, juiceMinion, teaMinion] } [] default
        true false default false
        ((generateNginxCfg exampleExternal
          (generateNginxCfgForMergeableIngresses.master exampleFilters coffeeMaster) [] false
          default true false default false).getD default)
        (((generateNginxCfg exampleExternal
          (generateNginxCfgForMergeableIngresses.master exampleFilters coffeeMaster) [] false
          default true false default false).getD default).Servers.headD default)
        []
        [(generateNginxCfg exampleExternal
            (generateNginxCfgForMergeableIngresses.minion exampleFilters
              (generateNginxCfgForMergeableIngresses.master exampleFilters coffeeMaster)
              teaMinion) [] true default true false default false).getD default,
         (generateNginxCfg exampleExternal
            (generateNginxCfgForMergeableIngresses.minion exampleFilters
              (generateNginxCfgForMergeableIngresses.master exampleFilters coffeeMaster)
              juiceMinion) [] true default true false default false).getD default,
         (generateNginxCfg exampleExternal
            (generateNginxCfgForMergeableIngresses.minion exampleFilters
              (generateNginxCfgForMergeableIngresses.master exampleFilters coffeeMaster)
              teaMinion) [] true default true false default false).getD default]
        (by rfl) (by rfl)
        (List.Forall₂.cons (by rfl) (List.Forall₂.cons (by rfl)
          (List.Forall₂.cons (by rfl) List.Forall₂.nil)))
    refine ⟨cfg, h1, ?_⟩
    rw [h3]
    rfl⟩

/-! ## The compound directive parser -/

theorem afterKey_append : ∀ (key value : List Char), afterKey key (key ++ value) = some value
  | [], value => by cases value <;> rfl
  | k :: key, value => by
    show afterKey (k :: key) (k :: (key ++ value)) = _
    unfold afterKey
    rw [if_pos rfl]
    exact afterKey_append key value

theorem afterKey_some : ∀ (key token value : List Char),
    afterKey key token = some value → token = key ++ value
  | [], token, value, h => by
    cases token <;> simp [afterKey] at h <;> simp [h]
  | k :: key, [], value, h => by simp [afterKey] at h
  | k :: key, c :: token, value, h => by
    unfold afterKey at h
    split_ifs at h with hk
    rw [hk, afterKey_some key token value h]
    rfl

theorem takeWhile_token (token rest : List Char) (w : Char)
    (ht : ∀ c ∈ token, c.isWhitespace = false) (hw : w.isWhitespace = true) :
    (token ++ w :: rest).takeWhile (fun c => !c.isWhitespace) = token := by
  rw [List.takeWhile_append_of_pos (by simpa using ht),
    List.takeWhile_cons_of_neg (by simp [hw])]
  simp

theorem dropWhile_token (token rest : List Char) (w : Char)
    (ht : ∀ c ∈ token, c.isWhitespace = false) (hw : w.isWhitespace = true) :
    (token ++ w :: rest).dropWhile (fun c => !c.isWhitespace) = w :: rest := by
  rw [List.dropWhile_append_of_pos (by simpa using ht),
    List.dropWhile_cons_of_neg (by simp [hw])]

theorem serviceName_clean : ∀ c ∈ "serviceName=".data, c.isWhitespace = false := by decide

/-- The parser on a directive that starts with `serviceName=<value>` and a white space
character. -/
theorem parseServiceName_token (value payload : List Char) (w : Char)
    (hv : ∀ c ∈ value, c.isWhitespace = false ∧ c ≠ '=') (hw : w.isWhitespace = true) :
    parseServiceName ("serviceName=".data ++ value ++ w :: payload) = some (value, payload) := by
  have ht : ∀ c ∈ "serviceName=".data ++ value, c.isWhitespace = false := by
    intro c hc
    rcases List.mem_append.1 hc with h | h
    · exact serviceName_clean c h
    · exact (hv c h).1
  have hne : '=' ∉ value := fun h => (hv _ h).2 rfl
  unfold parseServiceName
  rw [takeWhile_token _ _ _ ht hw, dropWhile_token _ _ _ ht hw, afterKey_append]
  simp only [if_neg hne]
  rfl

/-- White space around a text that starts and ends with another character is trimmed. -/
theorem trimSpace_surround (lead trail xs ys : List Char) (x y : Char) (text : List Char)
    (hx : text = x :: xs) (hy : text.reverse = y :: ys)
    (hxw : x.isWhitespace = false) (hyw : y.isWhitespace = false)
    (hl : ∀ c ∈ lead, c.isWhitespace = true) (ht : ∀ c ∈ trail, c.isWhitespace = true) :
    trimSpace (lead ++ text ++ trail) = text := by
  unfold trimSpace
  rw [List.append_assoc, List.dropWhile_append_of_pos hl]
  have h1 : (text ++ trail).dropWhile Char.isWhitespace = text ++ trail := by
    rw [hx]
    exact List.dropWhile_cons_of_neg (by simp [hxw])
  rw [h1, List.reverse_append,
    List.dropWhile_append_of_pos (fun c hc => ht c (List.mem_reverse.1 hc)), hy,
    List.dropWhile_cons_of_neg (by simp [hyw]), ← hy, List.reverse_reverse]

/-! ## C25: `parseRewrites` on `serviceName=<s> rewrite=<p>` -/

/-- The characters of a rewrite directive. -/
theorem rewriteDirective_data (lead s p trail : String) :
    (lead ++ "serviceName=" ++ s ++ " rewrite=" ++ p ++ trail).data =
      lead.data ++ ("serviceName=".data ++ s.data ++ ' ' :: ("rewrite=".data ++ p.data)) ++
        trail.data := by
  simp only [String.data_append, List.append_assoc]
  rfl

/-- A rewrite directive without surrounding white space parses to its parts. -/
theorem parseRewrites_trimmed (service : String) (s p : List Char)
    (hs : ∀ c ∈ s, c.isWhitespace = false ∧ c ≠ '=')
    (ht : trimSpace service.data =
      "serviceName=".data ++ s ++ ' ' :: ("rewrite=".data ++ p)) :
    parseRewrites service = .ok (String.mk s, String.mk p) := by
  unfold parseRewrites
  rw [ht, parseServiceName_token s _ ' ' hs (by decide)]
  simp only [afterKey_append]

/-- C25. For every service name `s` and rewrite path `p` without white space and
without `=`, `parseRewrites` returns `(s, p)` and no error on
`serviceName=<s> rewrite=<p>`, and also on that directive between any leading and
trailing white space (spaces, tabs, carriage returns, newlines). -/
theorem parseRewrites_roundtrip (s p lead trail : String)
    (hs : ∀ c ∈ s.data, c.isWhitespace = false ∧ c ≠ '=')
    (hp : ∀ c ∈ p.data, c.isWhitespace = false ∧ c ≠ '=')
    (hl : ∀ c ∈ lead.data, c.isWhitespace = true)
    (ht : ∀ c ∈ trail.data, c.isWhitespace = true) :
    parseRewrites ("serviceName=" ++ s ++ " rewrite=" ++ p) = .ok (s, p) ∧
    parseRewrites (lead ++ "serviceName=" ++ s ++ " rewrite=" ++ p ++ trail) = .ok (s, p) := by
  have key : ∀ lead trail : String, (∀ c ∈ lead.data, c.isWhitespace = true) →
      (∀ c ∈ trail.data, c.isWhitespace = true) →
      parseRewrites (lead ++ "serviceName=" ++ s ++ " rewrite=" ++ p ++ trail) = .ok (s, p) := by
    intro lead trail hl ht
    refine parseRewrites_trimmed _ s.data p.data hs ?_
    rw [rewriteDirective_data]
    have hsplit : "serviceName=".data ++ s.data ++ ' ' :: ("rewrite=".data ++ p.data) =
        ("serviceName=".data ++ s.data ++ ' ' :: "rewrite=".data) ++ p.data := by
      simp only [List.append_assoc, List.cons_append]
    have hy : ∃ y ys, ("serviceName=".data ++ s.data ++ ' ' :: ("rewrite=".data ++ p.data)).reverse
        = y :: ys ∧ y.isWhitespace = false := by
      rw [hsplit, List.reverse_append]
      cases hr : p.data.reverse with
      | nil =>
        simp only [List.nil_append, List.reverse_append, List.reverse_cons]
        exact ⟨'=', _, rfl, by decide⟩
      | cons y ys =>
        have hm : y ∈ p.data := List.mem_reverse.1 (by rw [hr]; exact List.mem_cons_self _ _)
        exact ⟨y, ys ++ ("serviceName=".data ++ s.data ++ ' ' :: "rewrite=".data).reverse, rfl,
          (hp y hm).1⟩
    obtain ⟨y, ys, hy1, hy2⟩ := hy
    exact trimSpace_surround lead.data trail.data _ ys 's' y _ rfl hy1 (by decide) hy2 hl ht
  refine ⟨?_, key lead trail hl ht⟩
  have h := key "" "" (fun c hc => absurd hc (List.not_mem_nil _))
    (fun c hc => absurd hc (List.not_mem_nil _))
  have he : "" ++ "serviceName=" ++ s ++ " rewrite=" ++ p ++ "" =
      "serviceName=" ++ s ++ " rewrite=" ++ p := by
    apply String.ext
    simp only [String.data_append]
    simp
  rw [he] at h
  exact h

/-- C25 on the directives of `TestParseRewrites` and
`TestParseRewritesWithLeadingAndTrailingWhitespace`. -/
theorem parseRewrites_roundtrip_witness :
    parseRewrites "serviceName=coffee-svc rewrite=/beans/" = .ok ("coffee-svc", "/beans/") ∧
    parseRewrites "\t\n serviceName=coffee-svc rewrite=/beans/ \t\n" =
      .ok ("coffee-svc", "/beans/") ∧
    parseRewrites ("serviceName=" ++ "coffee-svc" ++ " rewrite=" ++ "/beans/") =
      .ok ("coffee-svc", "/beans/") ∧
    parseRewrites ("\t\n " ++ "serviceName=" ++ "coffee-svc" ++ " rewrite=" ++ "/beans/" ++
      " \t\n") = .ok ("coffee-svc", "/beans/") :=
  ⟨by rfl, by rfl,
   parseRewrites_roundtrip "coffee-svc" "/beans/" "\t\n " " \t\n" (by decide) (by decide)
     (by decide) (by decide)⟩

/-! ## Trailing white space and the token `serviceName=<value>` -/

theorem trimSpace_eq_trimRight (s : List Char) :
    trimSpace s = trimRight (s.dropWhile Char.isWhitespace) := rfl

/-- The text without its trailing white space, character by character. -/
theorem trimRight_cons (x : Char) (l : List Char) :
    trimRight (x :: l) =
      if trimRight l = [] then (if x.isWhitespace = true then [] else [x])
      else x :: trimRight l := by
  unfold trimRight
  rw [List.reverse_cons, List.dropWhile_append]
  by_cases h : l.reverse.dropWhile Char.isWhitespace = []
  · rw [h]
    simp only [List.isEmpty_nil, if_true, List.reverse_nil]
    by_cases hx : x.isWhitespace = true
    · rw [List.dropWhile_cons_of_pos hx, if_pos hx]
      rfl
    · rw [List.dropWhile_cons_of_neg hx, if_neg hx]
      rfl
  · have h1 : (l.reverse.dropWhile Char.isWhitespace).isEmpty = false := by
      cases hd : l.reverse.dropWhile Char.isWhitespace with
      | nil => exact absurd hd h
      | cons a b => rfl
    have h2 : (l.reverse.dropWhile Char.isWhitespace).reverse ≠ [] := by
      intro hr
      exact h (List.reverse_eq_nil_iff.1 hr)
    rw [h1, if_neg h2]
    simp

/-- Trailing white space is removed behind a text without white space. -/
theorem trimRight_append (token rest : List Char)
    (ht : ∀ c ∈ token, c.isWhitespace = false) :
    trimRight (token ++ rest) = token ++ trimRight rest := by
  induction token with
  | nil => rfl
  | cons x xs ih =>
    have hx : x.isWhitespace = false := ht x (List.mem_cons_self _ _)
    have ih' := ih fun c hc => ht c (List.mem_cons_of_mem _ hc)
    rw [List.cons_append, trimRight_cons, ih']
    by_cases he : xs ++ trimRight rest = []
    · rw [if_pos he, List.cons_append, he]
      simp [hx]
    · rw [if_neg he]
      rfl

/-- The first character of a text stays its first character when the trailing white
space is removed. -/
theorem trimRight_head (rest : List Char) (c : Char)
    (h : (trimRight rest).head? = some c) : rest.head? = some c := by
  cases rest with
  | nil => exact absurd h (by simp [trimRight])
  | cons x l =>
    rw [trimRight_cons] at h
    split_ifs at h
    · exact absurd h (by simp)
    · exact h
    · exact h

/-- A text that does not end in white space has no trailing white space. -/
theorem trimRight_of_last (l : List Char)
    (h : ∀ last, l.getLast? = some last → last.isWhitespace = false) : trimRight l = l := by
  unfold trimRight
  cases hr : l.reverse with
  | nil =>
    have : l = [] := List.reverse_eq_nil_iff.1 hr
    rw [this]
    rfl
  | cons y ys =>
    have hy : l.getLast? = some y := by
      rw [List.getLast?_eq_head?_reverse, hr]
      rfl
    rw [List.dropWhile_cons_of_neg (by simp [h y hy]), ← hr, List.reverse_reverse]

/-- The parser on a directive that starts with a token `serviceName=<value>`: the payload
is what follows the white space character that ends the token. -/
theorem parseServiceName_of_token (value rest : List Char)
    (hv : ∀ c ∈ value, c.isWhitespace = false ∧ c ≠ '=')
    (hr : ∀ c, rest.head? = some c → c.isWhitespace = true) :
    parseServiceName ("serviceName=".data ++ value ++ rest) = some (value, rest.drop 1) := by
  cases rest with
  | nil =>
    have ht : ∀ c ∈ "serviceName=".data ++ value, (!c.isWhitespace) = true := by
      intro c hc
      rcases List.mem_append.1 hc with h | h
      · simp [serviceName_clean c h]
      · simp [(hv c h).1]
    have hne : '=' ∉ value := fun h => (hv _ h).2 rfl
    unfold parseServiceName
    rw [List.append_nil, List.takeWhile_eq_self_iff.2 ht, List.dropWhile_eq_nil_iff.2 ht,
      afterKey_append]
    simp only [if_neg hne]
  | cons w payload => exact parseServiceName_token value payload w hv (hr w rfl)

/-- The directive after `strings.TrimSpace` when it holds, after leading white space, a
token `serviceName=<value>`. -/
theorem trimSpace_of_token (lead value rest : List Char)
    (hl : ∀ c ∈ lead, c.isWhitespace = true)
    (hv : ∀ c ∈ value, c.isWhitespace = false ∧ c ≠ '=') :
    trimSpace (lead ++ ("serviceName=".data ++ value ++ rest)) =
      "serviceName=".data ++ value ++ trimRight rest := by
  have ht : ∀ c ∈ "serviceName=".data ++ value, c.isWhitespace = false := by
    intro c hc
    rcases List.mem_append.1 hc with h | h
    · exact serviceName_clean c h
    · exact (hv c h).1
  have hd : (lead ++ ("serviceName=".data ++ value ++ rest)).dropWhile Char.isWhitespace =
      "serviceName=".data ++ value ++ rest := by
    rw [List.dropWhile_append_of_pos hl]
    exact List.dropWhile_cons_of_neg (by decide)
  rw [trimSpace_eq_trimRight, hd, trimRight_append _ _ ht]

/-- The result of `parseStickyService` on a directive that holds, after leading white
space, a token `serviceName=<value>`: the value, and what follows the white space
character that ends the token, without the trailing white space of the directive. -/
theorem parseStickyService_of_token (directive : String) (lead value rest : List Char)
    (hd : directive.data = lead ++ ("serviceName=".data ++ value ++ rest))
    (hl : ∀ c ∈ lead, c.isWhitespace = true)
    (hv : ∀ c ∈ value, c.isWhitespace = false ∧ c ≠ '=')
    (hr : ∀ c, rest.head? = some c → c.isWhitespace = true) :
    parseStickyService directive =
      .ok (String.mk value, String.mk ((trimRight rest).drop 1)) := by
  unfold parseStickyService
  rw [hd, trimSpace_of_token lead value rest hl hv,
    parseServiceName_of_token value (trimRight rest) hv
      (fun c hc => hr c (trimRight_head rest c hc))]

/-! ## C26: the payload of `parseStickyService` -/

/-- C26 as stated fails: the cookie specification `srv_id `, which is not empty and ends
in a space, is not returned as it stands: the white space at the end of the directive is
insignificant, and `parseStickyService` returns `srv_id`. -/
theorem parseStickyService_payload_counterexample :
    parseStickyService ("serviceName=" ++ "coffee-svc" ++ " " ++ "srv_id ") =
      .ok ("coffee-svc", "srv_id") ∧
    parseStickyService ("serviceName=" ++ "coffee-svc" ++ " " ++ "srv_id ") ≠
      .ok ("coffee-svc", "srv_id ") ∧
    "srv_id " ≠ "" :=
  ⟨by rfl,
   fun h => absurd
     (Except.ok.inj (((by rfl : parseStickyService
       ("serviceName=" ++ "coffee-svc" ++ " " ++ "srv_id ") =
         Except.ok ("coffee-svc", "srv_id")).symm.trans h))) (by decide),
   by decide⟩

/-- C26, amended. For every service name `s` without white space and without `=` and
every cookie specification `c`: on `serviceName=<s>`, a space and `c`,
`parseStickyService` returns no error, the service name `s`, and `c` without its trailing
white space, whatever spaces and `=` signs `c` holds; so it returns `(s, c)`, the payload
after the first token as it stands, for every `c` that does not end in white space. -/
theorem parseStickyService_payload (s c : String)
    (hs : ∀ x ∈ s.data, x.isWhitespace = false ∧ x ≠ '=') :
    parseStickyService ("serviceName=" ++ s ++ " " ++ c) =
      .ok (s, String.mk (trimRight c.data)) ∧
    ((∀ last, c.data.getLast? = some last → last.isWhitespace = false) →
      parseStickyService ("serviceName=" ++ s ++ " " ++ c) = .ok (s, c)) := by
  have hd : ("serviceName=" ++ s ++ " " ++ c).data =
      [] ++ ("serviceName=".data ++ s.data ++ ' ' :: c.data) := by
    simp only [String.data_append, List.append_assoc, List.nil_append]
    rfl
  have hrun := parseStickyService_of_token _ [] s.data (' ' :: c.data) hd
    (fun x hx => absurd hx (List.not_mem_nil _)) hs
    (by intro x hx; simp only [List.head?_cons, Option.some.injEq] at hx; rw [← hx]; decide)
  have hdrop : (trimRight (' ' :: c.data)).drop 1 = trimRight c.data := by
    rw [trimRight_cons]
    by_cases he : trimRight c.data = []
    · rw [if_pos he, he]
      rfl
    · rw [if_neg he]
      rfl
  rw [hdrop] at hrun
  refine ⟨hrun, fun hc => ?_⟩
  rw [hrun, trimRight_of_last c.data hc]

/-- C26, amended, on the directive of `TestParseStickyService`, whose cookie
specification ends in `/`. -/
theorem parseStickyService_payload_witness :
    parseStickyService "serviceName=coffee-svc srv_id expires=1h domain=.example.com path=/" =
      .ok ("coffee-svc", "srv_id expires=1h domain=.example.com path=/") ∧
    parseStickyService
      ("serviceName=" ++ "coffee-svc" ++ " " ++ "srv_id expires=1h domain=.example.com path=/") =
      .ok ("coffee-svc", "srv_id expires=1h domain=.example.com path=/") :=
  ⟨by rfl,
   (parseStickyService_payload "coffee-svc" "srv_id expires=1h domain=.example.com path=/"
     (by decide)).2 (by decide)⟩

/-! ## C27: directives without a `serviceName=` token -/

/-- A directive that the parser accepts starts with a parseable `serviceName=<value>`
token. -/
theorem parseServiceName_some (directive value payload : List Char)
    (h : parseServiceName directive = some (value, payload)) :
    ServiceNameToken directive value := by
  unfold parseServiceName at h
  split at h
  · exact absurd h (by simp)
  · rename_i v hv
    split_ifs at h with he
    simp only [Option.some.injEq, Prod.mk.injEq] at h
    obtain ⟨rfl, _⟩ := h
    have htok := afterKey_some _ _ _ hv
    refine ⟨directive.dropWhile fun c => !c.isWhitespace, ?_, ?_, ?_⟩
    · rw [← htok]
      exact (List.takeWhile_append_dropWhile _ directive).symm
    · intro c hc
      have hm : c ∈ directive.takeWhile fun c => !c.isWhitespace := by
        rw [htok]
        exact List.mem_append_right _ hc
      have := List.mem_takeWhile_imp hm
      refine ⟨by simpa using this, ?_⟩
      rintro rfl
      exact he hc
    · intro c hc
      have := List.head?_dropWhile_not (fun c => !c.isWhitespace) directive
      rw [hc] at this
      simpa using this

/-- A string is its trimmed text between leading and trailing white space. -/
theorem trimSpace_decomp (s : List Char) :
    ∃ lead trail, s = lead ++ trimSpace s ++ trail ∧
      (∀ c ∈ lead, c.isWhitespace = true) ∧ (∀ c ∈ trail, c.isWhitespace = true) := by
  refine ⟨s.takeWhile Char.isWhitespace,
    ((s.dropWhile Char.isWhitespace).reverse.takeWhile Char.isWhitespace).reverse, ?_,
    fun c hc => List.mem_takeWhile_imp hc,
    fun c hc => List.mem_takeWhile_imp (List.mem_reverse.1 hc)⟩
  unfold trimSpace
  rw [List.append_assoc, ← List.reverse_append, List.takeWhile_append_dropWhile,
    List.reverse_reverse, List.takeWhile_append_dropWhile]

/-- A token followed by white space is still a token. -/
theorem ServiceNameToken.append {directive value : List Char}
    (h : ServiceNameToken directive value) (trail : List Char)
    (ht : ∀ c ∈ trail, c.isWhitespace = true) : ServiceNameToken (directive ++ trail) value := by
  obtain ⟨rest, hd, hv, hr⟩ := h
  refine ⟨rest ++ trail, by rw [hd, List.append_assoc], hv, ?_⟩
  intro c hc
  cases rest with
  | nil => exact ht c (List.mem_of_mem_head? hc)
  | cons r rs => exact hr c hc

/-- C27. `parseRewrites` and `parseStickyService` are total functions, and each of them
returns an error, which names the directive, for every directive that does not hold,
after leading white space, a parseable token `serviceName=<value>`: the key
`serviceName`, `=`, and a value without `=` that ends at white space or with the
directive.  Both return the error on the directives of the tests, where the service name
follows the key without `=`. -/
theorem parse_requires_serviceName :
    (∀ directive : String,
      (¬ ∃ lead tail value, directive.data = lead ++ tail ∧
        (∀ c ∈ lead, c.isWhitespace = true) ∧ ServiceNameToken tail value) →
      parseRewrites directive = .error directive) ∧
    (∀ directive : String,
      (¬ ∃ lead tail value, directive.data = lead ++ tail ∧
        (∀ c ∈ lead, c.isWhitespace = true) ∧ ServiceNameToken tail value) →
      parseStickyService directive = .error directive) ∧
    parseRewrites "serviceNamecoffee-svc rewrite=/" =
      .error "serviceNamecoffee-svc rewrite=/" ∧
    parseStickyService "serviceNamecoffee-svc srv_id expires=1h domain=.example.com path=/" =
      .error "serviceNamecoffee-svc srv_id expires=1h domain=.example.com path=/" := by
  have key : ∀ directive : String, ∀ r,
      parseServiceName (trimSpace directive.data) = some r →
      ∃ lead tail value, directive.data = lead ++ tail ∧
        (∀ c ∈ lead, c.isWhitespace = true) ∧ ServiceNameToken tail value := by
    intro directive r hp
    obtain ⟨value, payload⟩ := r
    obtain ⟨lead, trail, hd, hl, ht⟩ := trimSpace_decomp directive.data
    refine ⟨lead, trimSpace directive.data ++ trail, value, ?_, hl,
      (parseServiceName_some _ _ _ hp).append trail ht⟩
    rw [← List.append_assoc]
    exact hd
  refine ⟨?_, ?_, by rfl, by rfl⟩
  · intro directive hn
    unfold parseRewrites
    cases hp : parseServiceName (trimSpace directive.data) with
    | none => rfl
    | some r => exact absurd (key directive r hp) hn
  · intro directive hn
    unfold parseStickyService
    cases hp : parseServiceName (trimSpace directive.data) with
    | none => rfl
    | some r => exact absurd (key directive r hp) hn

/-- C27 on a directive whose first token has another key, between white space: it holds
no token `serviceName=<value>`, and both parsers return the error. -/
theorem parse_requires_serviceName_witness :
    (¬ ∃ lead tail value, " service=coffee-svc srv_id ".data = lead ++ tail ∧
      (∀ c ∈ lead, c.isWhitespace = true) ∧ ServiceNameToken tail value) ∧
    parseRewrites " service=coffee-svc srv_id " = .error " service=coffee-svc srv_id " ∧
    parseStickyService " service=coffee-svc srv_id " = .error " service=coffee-svc srv_id " ∧
    parseStickyService "serviceName=a=b srv_id" = .error "serviceName=a=b srv_id" ∧
    parseStickyService "" = .error "" ∧
    parseRewrites "serviceName rewrite=/" = .error "serviceName rewrite=/" := by
  have hn : ¬ ∃ lead tail value, " service=coffee-svc srv_id ".data = lead ++ tail ∧
      (∀ c ∈ lead, c.isWhitespace = true) ∧ ServiceNameToken tail value := by
    rintro ⟨lead, tail, value, hd, hl, rest, rfl, hv, hr⟩
    have hrun := parseStickyService_of_token " service=coffee-svc srv_id " lead value rest hd hl
      hv hr
    have herr : parseStickyService " service=coffee-svc srv_id " =
        .error " service=coffee-svc srv_id " := by rfl
    rw [herr] at hrun
    exact absurd hrun (by simp)
  exact ⟨hn, parse_requires_serviceName.1 _ hn, parse_requires_serviceName.2.1 _ hn,
    by rfl, by rfl, by rfl⟩

/-! ## C28 and C29: the annotation filters -/

theorem GoMap.lookup_filter {α : Type} (f : String → Bool) :
    ∀ (m : GoMap α) (k : String),
      GoMap.lookup (m.filter fun p => f p.1) k = if f k = true then GoMap.lookup m k else none
  | [], k => by simp [GoMap.lookup]
  | (k0, v0) :: rest, k => by
    have ih := GoMap.lookup_filter f rest k
    by_cases h0 : f k0 = true
    · rw [List.filter_cons_of_pos (by simpa using h0)]
      by_cases hk : k0 = k
      · subst hk
        simp [GoMap.lookup, h0]
      · simp only [GoMap.lookup, if_neg hk]
        exact ih
    · rw [List.filter_cons_of_neg (by simpa using h0), ih]
      by_cases hk : k0 = k
      · subst hk
        simp [h0]
      · simp only [GoMap.lookup, if_neg hk]

theorem removedKeys_spec (f : String → Bool) (m : GoMap String) :
    (∀ k, k ∈ (m.filter fun p => !f p.1).map Prod.fst ↔ k ∈ GoMap.keys m ∧ f k = false) ∧
    ((GoMap.keys m).Nodup → ((m.filter fun p => !f p.1).map Prod.fst).Nodup) := by
  refine ⟨?_, fun hnd => hnd.sublist ((List.filter_sublist m).map Prod.fst)⟩
  intro k
  simp only [GoMap.keys, List.mem_map, List.mem_filter, Bool.not_eq_true']
  constructor
  · rintro ⟨p, ⟨hp, hf⟩, rfl⟩
    exact ⟨⟨p, hp, rfl⟩, hf⟩
  · rintro ⟨⟨p, hp, rfl⟩, hf⟩
    exact ⟨p, ⟨hp, hf⟩, rfl⟩

/-- C28. For every annotation map `m`, with distinct keys, and every pair of
allow-lists: `filterMasterAnnotations` returns exactly the keys of `m` that are not
allowed on a master, each once, and leaves in the map exactly the other keys, each with
its value; `filterMinionAnnotations` does the same with the keys that are not allowed on
a minion. -/
theorem filterAnnotations_spec (lists : AnnotationLists) (m : GoMap String)
    (hnd : (GoMap.keys m).Nodup) :
    ((∀ k, k ∈ (filterMasterAnnotations lists m).2 ↔
        k ∈ GoMap.keys m ∧ lists.masterAllowed k = false) ∧
      (filterMasterAnnotations lists m).2.Nodup ∧
      (∀ k, GoMap.lookup (filterMasterAnnotations lists m).1 k =
        if lists.masterAllowed k = true then GoMap.lookup m k else none) ∧
      (∀ k, k ∈ GoMap.keys (filterMasterAnnotations lists m).1 ↔
        k ∈ GoMap.keys m ∧ lists.masterAllowed k = true)) ∧
    ((∀ k, k ∈ (filterMinionAnnotations lists m).2 ↔
        k ∈ GoMap.keys m ∧ lists.minionAllowed k = false) ∧
      (filterMinionAnnotations lists m).2.Nodup ∧
      (∀ k, GoMap.lookup (filterMinionAnnotations lists m).1 k =
        if lists.minionAllowed k = true then GoMap.lookup m k else none) ∧
      (∀ k, k ∈ GoMap.keys (filterMinionAnnotations lists m).1 ↔
        k ∈ GoMap.keys m ∧ lists.minionAllowed k = true)) := by
  have hkeys : ∀ f : String → Bool, ∀ k,
      k ∈ GoMap.keys (m.filter fun p => f p.1) ↔ k ∈ GoMap.keys m ∧ f k = true := by
    intro f k
    simp only [GoMap.keys, List.mem_map, List.mem_filter]
    constructor
    · rintro ⟨p, ⟨hp, hf⟩, rfl⟩
      exact ⟨⟨p, hp, rfl⟩, hf⟩
    · rintro ⟨⟨p, hp, rfl⟩, hf⟩
      exact ⟨p, ⟨hp, hf⟩, rfl⟩
  exact
    ⟨⟨(removedKeys_spec lists.masterAllowed m).1, (removedKeys_spec lists.masterAllowed m).2 hnd,
      GoMap.lookup_filter lists.masterAllowed m, hkeys lists.masterAllowed⟩,
     ⟨(removedKeys_spec lists.minionAllowed m).1, (removedKeys_spec lists.minionAllowed m).2 hnd,
      GoMap.lookup_filter lists.minionAllowed m, hkeys lists.minionAllowed⟩⟩

/-- C28 on the annotations of `TestFilterMasterAnnotations` and
`TestFilterMinionAnnotations`, with the key lists of the tests: `rewrites` and
`ssl-services` are removed from a master, the three `hsts` keys from a minion. -/
theorem filterAnnotations_spec_witness :
    filterMasterAnnotations testLists testAnnotations =
      ([("nginx.org/hsts", "True"), ("nginx.org/hsts-max-age", "2700000"),
        ("nginx.org/hsts-include-subdomains", "True")],
       ["nginx.org/rewrites", "nginx.org/ssl-services"]) ∧
    filterMinionAnnotations testLists testAnnotations =
      ([("nginx.org/rewrites", "serviceName=service1 rewrite=rewrite1"),
        ("nginx.org/ssl-services", "service1")],
       ["nginx.org/hsts", "nginx.org/hsts-max-age", "nginx.org/hsts-include-subdomains"]) ∧
    (filterMasterAnnotations testLists testAnnotations).2.Nodup ∧
    (filterMinionAnnotations testLists testAnnotations).2.Nodup :=
  ⟨by rfl, by rfl,
   (filterAnnotations_spec testLists testAnnotations (by decide)).1.2.1,
   (filterAnnotations_spec testLists testAnnotations (by decide)).2.2.1⟩

/-- C29. `filterMasterAnnotations` and `filterMinionAnnotations` are idempotent: on the
map that the filter has left, the same filter removes no key and leaves the map as it
is. -/
theorem filterAnnotations_idempotent (lists : AnnotationLists) (m : GoMap String) :
    filterMasterAnnotations lists (filterMasterAnnotations lists m).1 =
      ((filterMasterAnnotations lists m).1, []) ∧
    filterMinionAnnotations lists (filterMinionAnnotations lists m).1 =
      ((filterMinionAnnotations lists m).1, []) := by
  have key : ∀ f : String → Bool,
      ((m.filter fun p => f p.1).filter fun p => f p.1) = (m.filter fun p => f p.1) ∧
      (((m.filter fun p => f p.1).filter fun p => !f p.1).map Prod.fst) = [] := by
    intro f
    refine ⟨?_, ?_⟩
    · rw [List.filter_filter]
      congr 1
      funext p
      simp
    · rw [List.filter_filter]
      have : (fun p : String × String => (!f p.1 && f p.1)) = fun _ => false := by
        funext p
        cases f p.1 <;> rfl
      rw [this, List.filter_false]
      rfl
  unfold filterMasterAnnotations filterMinionAnnotations
  simp only [key lists.masterAllowed, key lists.minionAllowed, and_self]

/-! ## C30: `mergeMasterAnnotationsIntoMinion` -/

/-- The reads of the minion map after the merge. -/
theorem mergeMasterAnnotationsIntoMinion_lookup (lists : AnnotationLists) :
    ∀ (master minion : GoMap String) (k : String),
      GoMap.lookup (mergeMasterAnnotationsIntoMinion lists minion master) k =
        match GoMap.lookup minion k with
        | some v => some v
        | none => if lists.inherited k = true then GoMap.lookup master k else none
  | [], minion, k => by
    show GoMap.lookup minion k = _
    cases GoMap.lookup minion k <;> simp [GoMap.lookup]
  | (k0, v0) :: rest, minion, k => by
    show GoMap.lookup (mergeMasterAnnotationsIntoMinion lists
      (if (GoMap.lookup minion k0).isNone ∧ lists.inherited k0 = true then
        GoMap.insert minion k0 v0 else minion) rest) k = _
    rw [mergeMasterAnnotationsIntoMinion_lookup lists rest]
    by_cases hc : (GoMap.lookup minion k0).isNone ∧ lists.inherited k0 = true
    · rw [if_pos hc, GoMap.lookup_insert]
      by_cases hk : k0 = k
      · subst hk
        have hn : GoMap.lookup minion k0 = none := by
          simpa using hc.1
        simp [hn, hc.2, GoMap.lookup]
      · simp only [if_neg hk, GoMap.lookup]
    · rw [if_neg hc]
      cases hm : GoMap.lookup minion k with
      | some v => rfl
      | none =>
        simp only
        by_cases hi : lists.inherited k = true
        · have hk : k0 ≠ k := by
            rintro rfl
            exact hc ⟨by simp [hm], hi⟩
          simp only [if_pos hi, GoMap.lookup, if_neg hk]
        · simp only [if_neg hi]

/-- The merge keeps the keys of the minion map distinct. -/
theorem mergeMasterAnnotationsIntoMinion_nodup (lists : AnnotationLists) :
    ∀ (master minion : GoMap String), (GoMap.keys minion).Nodup →
      (GoMap.keys (mergeMasterAnnotationsIntoMinion lists minion master)).Nodup
  | [], _, h => h
  | (k0, v0) :: rest, minion, h => by
    show (GoMap.keys (mergeMasterAnnotationsIntoMinion lists
      (if (GoMap.lookup minion k0).isNone ∧ lists.inherited k0 = true then
        GoMap.insert minion k0 v0 else minion) rest)).Nodup
    apply mergeMasterAnnotationsIntoMinion_nodup lists rest
    split_ifs
    · exact GoMap.nodup_keys_insert minion k0 v0 h
    · exact h

/-- C30 as stated fails: on the maps of `TestMergeMasterAnnotationsIntoMinion` the merge
returns the map that the test expects, without `nginx.org/hsts`, although the master
declares that key, the minion does not, and the key is allowed on a master:
`filterMasterAnnotations` keeps it in `TestFilterMasterAnnotations`. -/
theorem mergeMasterAnnotationsIntoMinion_counterexample :
    mergeMasterAnnotationsIntoMinion testLists testMinionAnnotations testMasterAnnotations =
      [("nginx.org/client-max-body-size", "2m"),
       ("nginx.org/proxy-connect-timeout", "20s"),
       ("nginx.org/proxy-buffering", "True"),
       ("nginx.org/proxy-buffers", "2"),
       ("nginx.org/proxy-buffer-size", "8k")] ∧
    GoMap.lookup testMasterAnnotations "nginx.org/hsts" = some "True" ∧
    GoMap.lookup testMinionAnnotations "nginx.org/hsts" = none ∧
    GoMap.lookup (filterMasterAnnotations testLists testAnnotations).1 "nginx.org/hsts" =
      some "True" ∧
    "nginx.org/hsts" ∉ (filterMasterAnnotations testLists testMasterAnnotations).2 ∧
    GoMap.lookup
      (mergeMasterAnnotationsIntoMinion testLists testMinionAnnotations testMasterAnnotations)
      "nginx.org/hsts" = none :=
  ⟨by rfl, by rfl, by rfl, by rfl, by decide, by rfl⟩

/-- C30, amended. For every minion map and master map, after
`mergeMasterAnnotationsIntoMinion` every key that the minion map held reads its minion
value, a key that it did not hold reads the value of the master when the key is on the
list of inherited keys and the master holds it, and no other key is in the map; the keys
stay distinct.  The list of inherited keys is not the list of the keys allowed on a
master. -/
theorem mergeMasterAnnotationsIntoMinion_spec (lists : AnnotationLists)
    (minion master : GoMap String) :
    (∀ k v, GoMap.lookup minion k = some v →
      GoMap.lookup (mergeMasterAnnotationsIntoMinion lists minion master) k = some v) ∧
    (∀ k, GoMap.lookup minion k = none → lists.inherited k = true →
      GoMap.lookup (mergeMasterAnnotationsIntoMinion lists minion master) k =
        GoMap.lookup master k) ∧
    (∀ k, GoMap.lookup minion k = none → lists.inherited k = false →
      GoMap.lookup (mergeMasterAnnotationsIntoMinion lists minion master) k = none) ∧
    (∀ k, k ∈ GoMap.keys (mergeMasterAnnotationsIntoMinion lists minion master) ↔
      k ∈ GoMap.keys minion ∨ (lists.inherited k = true ∧ k ∈ GoMap.keys master)) ∧
    ((GoMap.keys minion).Nodup →
      (GoMap.keys (mergeMasterAnnotationsIntoMinion lists minion master)).Nodup) := by
  have hl := mergeMasterAnnotationsIntoMinion_lookup lists master minion
  refine ⟨?_, ?_, ?_, ?_, mergeMasterAnnotationsIntoMinion_nodup lists master minion⟩
  · intro k v h
    rw [hl, h]
  · intro k h hi
    rw [hl, h]
    simp only [if_pos hi]
  · intro k h hi
    rw [hl, h]
    simp [hi]
  · intro k
    rw [← GoMap.lookup_isSome_iff, ← GoMap.lookup_isSome_iff, ← GoMap.lookup_isSome_iff, hl]
    cases hm : GoMap.lookup minion k with
    | some v => simp
    | none =>
      by_cases hi : lists.inherited k = true
      · simp [hi]
      · simp [hi]

/-- C30, amended, on the maps of `TestMergeMasterAnnotationsIntoMinion`:
`nginx.org/proxy-connect-timeout` keeps the value `20s` of the minion,
`nginx.org/proxy-buffers` is copied from the master, `nginx.com/jwt-token` is not. -/
theorem mergeMasterAnnotationsIntoMinion_spec_witness :
    GoMap.lookup testMinionAnnotations "nginx.org/proxy-connect-timeout" = some "20s" ∧
    GoMap.lookup
      (mergeMasterAnnotationsIntoMinion testLists testMinionAnnotations testMasterAnnotations)
      "nginx.org/proxy-connect-timeout" = some "20s" ∧
    GoMap.lookup
      (mergeMasterAnnotationsIntoMinion testLists testMinionAnnotations testMasterAnnotations)
      "nginx.org/proxy-buffers" = GoMap.lookup testMasterAnnotations "nginx.org/proxy-buffers" ∧
    GoMap.lookup
      (mergeMasterAnnotationsIntoMinion testLists testMinionAnnotations testMasterAnnotations)
      "nginx.com/jwt-token" = none :=
  ⟨by rfl,
   (mergeMasterAnnotationsIntoMinion_spec testLists testMinionAnnotations
      testMasterAnnotations).1 _ _ (by rfl),
   (mergeMasterAnnotationsIntoMinion_spec testLists testMinionAnnotations
      testMasterAnnotations).2.1 _ (by rfl) (by rfl),
   (mergeMasterAnnotationsIntoMinion_spec testLists testMinionAnnotations
      testMasterAnnotations).2.2.1 _ (by rfl) (by rfl)⟩

/-! ## C33: the redirect locations of a server -/

/-- C33 fails on the code in minion mode.  On a minion with a JWT key, a login URL and
two valid paths under one host, `generateNginxCfg` in minion mode returns a server with
two redirect locations of the same name `@login_url_default-cafe-minion`, one per honored
path, and `generateNginxCfgForMergeableIngresses` hands both to the server of the master;
on the same ingress outside minion mode the server carries one. -/
theorem generateNginxCfg_redirect_locations_per_path :
    (generateNginxCfg jwtExternal teaCoffeeMinion [] true default true false default false).map
        (fun cfg => cfg.Servers.map fun s => s.JWTRedirectLocations.map fun r => r.Name)
      = some [["@login_url_default-cafe-minion", "@login_url_default-cafe-minion"]] ∧
    (generateNginxCfg jwtExternal teaCoffeeMinion [] false default true false default false).map
        (fun cfg => cfg.Servers.map fun s => s.JWTRedirectLocations.map fun r => r.Name)
      = some [["@login_url_default-cafe-minion"]] ∧
    (generateNginxCfgForMergeableIngresses jwtExternal exampleFilters
        { Master := cafeMaster, Minions := [teaCoffeeMinion] } [] default true false default
        false).map
        (fun cfg => cfg.Servers.map fun s => s.JWTRedirectLocations.map fun r => r.Name)
      = some [["@login_url_default-cafe-minion", "@login_url_default-cafe-minion"]] ∧
    ¬ (["@login_url_default-cafe-minion", "@login_url_default-cafe-minion"] : List String).Nodup :=
  ⟨by rfl, by rfl, by rfl, by decide⟩

/-! ## C34: the default backend of a minion -/

/-- The loop over the minions does not read the default backend of a minion. -/
theorem generateNginxCfgForMergeableIngresses.minions_withBackend (ext : External)
    (flt : AnnotationFilters) (master : IngressEx) (baseCfgParams : ConfigParams)
    (isPlus isResolverConfigured : Bool) (staticParams : StaticConfigParams)
    (isWildcardEnabled : Bool) {minions minions' : List IngressEx}
    (h : List.Forall₂ (fun m m' => ∃ backend, m' = m.withBackend backend) minions minions') :
    ∀ st, generateNginxCfgForMergeableIngresses.minions ext flt master baseCfgParams isPlus
        isResolverConfigured staticParams isWildcardEnabled minions' st =
      generateNginxCfgForMergeableIngresses.minions ext flt master baseCfgParams isPlus
        isResolverConfigured staticParams isWildcardEnabled minions st := by
  induction h with
  | nil => exact fun _ => rfl
  | cons hab _ ih =>
    intro st
    obtain ⟨backend, rfl⟩ := hab
    simp only [generateNginxCfgForMergeableIngresses.minions]
    have hm : ∀ m : IngressEx, generateNginxCfgForMergeableIngresses.minion flt master
        (m.withBackend backend) = generateNginxCfgForMergeableIngresses.minion flt master m :=
      fun _ => rfl
    rw [hm]
    congr 1
    funext nginxCfg
    exact ih _

/-- A config that `generateNginxCfg` returns for an ingress without default backend:
every location of a server is the location of an honored path of its rule, every health
check is stored under the upstream name of such a path, and every upstream is stored in
the `upstreams` map under the name of such a path. -/
theorem generateNginxCfg_of_no_backend (ext : External) (ingEx : IngressEx)
    (apResources : GoMap String) (isMinion : Bool) (baseCfgParams : ConfigParams)
    (isPlus isResolverConfigured : Bool) (staticParams : StaticConfigParams)
    (isWildcardEnabled : Bool) (cfg : IngressNginxConfig)
    (hb : ingEx.Ingress.Spec.Backend = none)
    (h : generateNginxCfg ext ingEx apResources isMinion baseCfgParams isPlus
      isResolverConfigured staticParams isWildcardEnabled = some cfg) :
    (∀ server ∈ cfg.Servers, ∃ rule ∈ validRules ingEx,
      (∀ loc ∈ server.Locations, ∃ path ∈ honoredPaths isMinion ingEx rule,
        loc.Path = generateIngressPath (pathOrDefault path.Path) path.PathType ∧
        loc.ServiceName = path.Backend.ServiceName) ∧
      (∀ n ∈ GoMap.keys server.HealthChecks, ∃ path ∈ honoredPaths isMinion ingEx rule,
        n = getNameForUpstream ingEx.Ingress rule.Host path.Backend)) ∧
    ((∀ name, (ext.NewUpstreamWithDefaultServer name).Name = name) →
      ∀ u ∈ cfg.Upstreams, ∃ rule ∈ validRules ingEx,
        ∃ path ∈ honoredPaths isMinion ingEx rule,
          u.Name = getNameForUpstream ingEx.Ingress rule.Host path.Backend) := by
  unfold generateNginxCfg generateNginxCfg.body at h
  simp only [Option.bind_eq_some, Option.some.injEq] at h
  obtain ⟨r, hr, rfl⟩ := h
  obtain ⟨hfa, _⟩ := generateNginxCfg.synth_servers _ r hr
  obtain ⟨hk, hnamed⟩ := generateNginxCfg.synth_upstreams _ r hr
  obtain ⟨_, g2, g3, _⟩ := generateNginxCfg.grpcGate_fields
    (generateNginxCfg.locals ext ingEx apResources isMinion baseCfgParams isPlus
      isResolverConfigured staticParams isWildcardEnabled)
  refine ⟨?_, ?_⟩
  · intro server hs
    obtain ⟨rule, hrule, hsrv⟩ := exists_of_forall₂_mem_right hfa server hs
    refine ⟨rule, hrule, ?_, ?_⟩
    · obtain ⟨s0, s1, locs, jwts, _, _, hl, _, _, hsv⟩ := hsrv
      have hlocs : server.Locations = locs ++ implicitLocations _ r.1 locs :=
        congrArg Server.Locations hsv
      have hi := (implicitLocations_spec
        (generateNginxCfg.grpcGate (generateNginxCfg.locals ext ingEx apResources isMinion
          baseCfgParams isPlus isResolverConfigured staticParams isWildcardEnabled)) r.1 locs).1
        (Or.inl (by rw [g2]; exact hb))
      rw [hi, List.append_nil] at hlocs
      rw [g2, g3] at hl
      intro loc hloc
      rw [hlocs] at hloc
      obtain ⟨path, hp, hlo⟩ := exists_of_forall₂_mem_right hl loc hloc
      exact ⟨path, hp, hlo.path⟩
    · obtain ⟨s0, s1, locs, jwts, _, _, _, hkeys, _, _⟩ := hsrv
      intro n hn
      rw [g2, g3] at hkeys
      rcases (hkeys n).1 hn with ⟨p, hp, _, rfl⟩ | ⟨b, hb', _⟩
      · exact ⟨p, hp, rfl⟩
      · have hb'' : ingEx.Ingress.Spec.Backend = some b := hb'
        rw [hb] at hb''
        exact absurd hb'' (by simp)
  · intro hN u hu
    have hnamed := hnamed hN
    have hn : u.Name ∈ (upstreamMapToSlice r.1).map fun u => u.Name :=
      List.mem_map_of_mem _ hu
    rw [upstreamMapToSlice_names r.1 hnamed] at hn
    have hn' : u.Name ∈ GoMap.keys r.1 := (sortStrings_perm _).subset hn
    have hb' := (hk _).1 hn'
    have hbn : u.Name ∈ builtUpstreamNames isMinion ingEx := hb'
    unfold builtUpstreamNames at hbn
    rw [hb] at hbn
    simp only [List.nil_append, List.mem_flatten, List.mem_map] at hbn
    obtain ⟨l, ⟨rule, hrule, rfl⟩, hl⟩ := hbn
    simp only [List.mem_map] at hl
    obtain ⟨path, hp, hpn⟩ := hl
    exact ⟨rule, hrule, path, hp, hpn.symm⟩

/-- C34. For every master and every list of minions: replacing or removing the default
backend `Spec.Backend` of any of the minions leaves the result of
`generateNginxCfgForMergeableIngresses` unchanged; and in every config that it returns,
every location of the server is the location of a path that a rule with a valid host of
one of the minions declares and that `ValidMinionPaths` of that minion marks true, every
health check is stored under the upstream name of such a path, and every upstream is an
upstream of the config of the master or has the name of such a path (with
`NewUpstreamWithDefaultServer name` named `name`). -/
theorem generateNginxCfgForMergeableIngresses_minion_backend (ext : External)
    (flt : AnnotationFilters) (master : IngressEx) (minions minions' : List IngressEx)
    (masterApResources : GoMap String) (baseCfgParams : ConfigParams)
    (isPlus isResolverConfigured : Bool) (staticParams : StaticConfigParams)
    (isWildcardEnabled : Bool)
    (hrep : List.Forall₂ (fun m m' => ∃ backend, m' = m.withBackend backend) minions minions') :
    generateNginxCfgForMergeableIngresses ext flt { Master := master, Minions := minions' }
        masterApResources baseCfgParams isPlus isResolverConfigured staticParams
        isWildcardEnabled =
      generateNginxCfgForMergeableIngresses ext flt { Master := master, Minions := minions }
        masterApResources baseCfgParams isPlus isResolverConfigured staticParams
        isWildcardEnabled ∧
    ∀ cfg, generateNginxCfgForMergeableIngresses ext flt
        { Master := master, Minions := minions } masterApResources baseCfgParams isPlus
        isResolverConfigured staticParams isWildcardEnabled = some cfg →
      (∀ server ∈ cfg.Servers,
        (∀ loc ∈ server.Locations, ∃ minion ∈ minions, ∃ rule ∈ validRules minion,
          ∃ path ∈ generateNginxCfg.rulePaths rule,
            GoMap.get minion.ValidMinionPaths path.Path = true ∧
            loc.Path = generateIngressPath (pathOrDefault path.Path) path.PathType ∧
            loc.ServiceName = path.Backend.ServiceName) ∧
        (∀ n ∈ GoMap.keys server.HealthChecks, ∃ minion ∈ minions, ∃ rule ∈ validRules minion,
          ∃ path ∈ generateNginxCfg.rulePaths rule,
            GoMap.get minion.ValidMinionPaths path.Path = true ∧
            n = getNameForUpstream minion.Ingress rule.Host path.Backend)) ∧
      ((∀ name, (ext.NewUpstreamWithDefaultServer name).Name = name) →
        ∀ u ∈ cfg.Upstreams,
          (∃ masterNginxCfg, generateNginxCfg ext
              (generateNginxCfgForMergeableIngresses.master flt master) masterApResources false
              baseCfgParams isPlus isResolverConfigured staticParams isWildcardEnabled =
              some masterNginxCfg ∧ u ∈ masterNginxCfg.Upstreams) ∨
          ∃ minion ∈ minions, ∃ rule ∈ validRules minion,
            ∃ path ∈ generateNginxCfg.rulePaths rule,
              GoMap.get minion.ValidMinionPaths path.Path = true ∧
              u.Name = getNameForUpstream minion.Ingress rule.Host path.Backend) := by
  refine ⟨?_, ?_⟩
  · simp only [generateNginxCfgForMergeableIngresses,
      generateNginxCfgForMergeableIngresses.minions_withBackend ext flt _ baseCfgParams isPlus
        isResolverConfigured staticParams isWildcardEnabled hrep]
  · intro cfg h
    obtain ⟨masterNginxCfg, masterServer, rest, cfgs, hm, hs, hmin⟩ :=
      generateNginxCfgForMergeableIngresses_inv _ _ _ _ _ _ _ _ _ _ h
    rw [generateNginxCfgForMergeableIngresses_eq ext flt _ masterApResources baseCfgParams
      isPlus isResolverConfigured staticParams isWildcardEnabled masterNginxCfg masterServer
      rest cfgs hm hs hmin] at h
    simp only [Option.some.injEq] at h
    subst h
    have hmin' : List.Forall₂
        (fun minion c =>
          generateNginxCfg ext
            (generateNginxCfgForMergeableIngresses.minion flt
              (generateNginxCfgForMergeableIngresses.master flt master) minion) [] true
            baseCfgParams isPlus isResolverConfigured staticParams isWildcardEnabled = some c)
        minions cfgs := hmin
    have hpath : ∀ (minion : IngressEx) (rule : IngressRule) (path : HTTPIngressPath),
        path ∈ honoredPaths true
          (generateNginxCfgForMergeableIngresses.minion flt
            (generateNginxCfgForMergeableIngresses.master flt master) minion) rule →
        path ∈ generateNginxCfg.rulePaths rule ∧
          GoMap.get minion.ValidMinionPaths path.Path = true := by
      intro minion rule path hp
      unfold honoredPaths at hp
      rw [List.mem_filter] at hp
      refine ⟨hp.1, ?_⟩
      have h2 := hp.2
      simp only [Bool.true_and, Bool.not_not] at h2
      exact h2
    refine ⟨?_, ?_⟩
    · intro server hsrv
      simp only [List.mem_singleton] at hsrv
      subst hsrv
      refine ⟨?_, ?_⟩
      · intro loc hloc
        simp only [List.mem_flatten, List.mem_map] at hloc
        obtain ⟨l, ⟨c, hc, rfl⟩, hl⟩ := hloc
        unfold taggedLocations at hl
        simp only [List.mem_flatten, List.mem_map] at hl
        obtain ⟨l', ⟨s, hsm, rfl⟩, hl'⟩ := hl
        simp only [List.mem_map] at hl'
        obtain ⟨loc0, hloc0, rfl⟩ := hl'
        obtain ⟨minion, hmem, hrun⟩ := exists_of_forall₂_mem_right hmin' c hc
        obtain ⟨rule, hrule, hl1, _⟩ :=
          (generateNginxCfg_of_no_backend _ _ _ _ _ _ _ _ _ _ rfl hrun).1 s hsm
        obtain ⟨path, hp, hp1, hp2⟩ := hl1 loc0 hloc0
        exact ⟨minion, hmem, rule, hrule, path, (hpath minion rule path hp).1,
          (hpath minion rule path hp).2, hp1, hp2⟩
      · intro n hn
        rw [GoMap.mem_keys_insertAll] at hn
        rcases hn with hn | hn
        · exact absurd hn (List.not_mem_nil _)
        · obtain ⟨p, hp, rfl⟩ := List.mem_map.1 hn
          simp only [List.mem_flatten, List.mem_map] at hp
          obtain ⟨l, ⟨c, hc, rfl⟩, hl⟩ := hp
          rw [List.mem_flatten] at hl
          obtain ⟨m, hm', hpm⟩ := hl
          obtain ⟨s, hsm, rfl⟩ := List.mem_map.1 hm'
          obtain ⟨minion, hmem, hrun⟩ := exists_of_forall₂_mem_right hmin' c hc
          obtain ⟨rule, hrule, _, hk1⟩ :=
            (generateNginxCfg_of_no_backend _ _ _ _ _ _ _ _ _ _ rfl hrun).1 s hsm
          obtain ⟨path, hp, hp1⟩ := hk1 p.1 (GoMap.mem_keys_of_mem _ p hpm)
          exact ⟨minion, hmem, rule, hrule, path, (hpath minion rule path hp).1,
            (hpath minion rule path hp).2, hp1⟩
    · intro hN u hu
      rcases List.mem_append.1 hu with hu | hu
      · exact Or.inl ⟨masterNginxCfg, hm, hu⟩
      · right
        simp only [List.mem_flatten, List.mem_map] at hu
        obtain ⟨l, ⟨c, hc, rfl⟩, hl⟩ := hu
        obtain ⟨minion, hmem, hrun⟩ := exists_of_forall₂_mem_right hmin' c hc
        obtain ⟨rule, hrule, path, hp, hp1⟩ :=
          (generateNginxCfg_of_no_backend _ _ _ _ _ _ _ _ _ _ rfl hrun).2 hN u hl
        exact ⟨minion, hmem, rule, hrule, path, (hpath minion rule path hp).1,
          (hpath minion rule path hp).2, hp1⟩

/-- C34 on the cafe master with the minion `/tea`, which declares the default backend
`dflt`: the composite config is the one of the same minion without default backend, and
it has the location `/tea` only and the upstream of `tea-svc` only. -/
theorem generateNginxCfgForMergeableIngresses_minion_backend_witness :
    teaMinion.Ingress.Spec.Backend = some { ServiceName := "dflt", ServicePort := .int 80 } ∧
    (generateNginxCfgForMergeableIngresses exampleExternal exampleFilters
        { Master := cafeMaster, Minions := [teaMinion] } [] default true false default
        false).map
        (fun cfg => (cfg.Servers.map fun s => s.Locations.map fun l => l.Path,
          cfg.Upstreams.map fun u => u.Name)) =
      some ([["/tea"]], ["default-cafe-tea-minion-cafe.example.com-tea-svc-80"]) ∧
    generateNginxCfgForMergeableIngresses exampleExternal exampleFilters
        { Master := cafeMaster, Minions := [teaMinion.withBackend none] } [] default true false
        default false =
      generateNginxCfgForMergeableIngresses exampleExternal exampleFilters
        { Master := cafeMaster, Minions := [teaMinion] } [] default true false default false :=
  ⟨by rfl, by rfl,
   (generateNginxCfgForMergeableIngresses_minion_backend exampleExternal exampleFilters
      cafeMaster [teaMinion] [teaMinion.withBackend none] [] default true false default false
      (List.Forall₂.cons ⟨none, rfl⟩ List.Forall₂.nil)).1⟩

/-! ## C35: the upstream of a location -/

/-- The elements of the returned list are the upstreams stored in the map. -/
theorem mem_upstreamMapToSlice (m : GoMap Upstream) (u : Upstream) :
    u ∈ upstreamMapToSlice m ↔ ∃ k ∈ GoMap.keys m, GoMap.get m k = u := by
  unfold upstreamMapToSlice
  simp only [List.mem_map]
  constructor
  · rintro ⟨k, hk, rfl⟩
    exact ⟨k, (sortStrings_perm _).subset hk, rfl⟩
  · rintro ⟨k, hk, rfl⟩
    exact ⟨k, (sortStrings_perm _).symm.subset hk, rfl⟩

/-- The upstream stored under a key of the map is the only element of the returned list
with its name, which is the key. -/
theorem upstreamMapToSlice_get (m : GoMap Upstream) (h : UpstreamsNamed m) (k : String)
    (hk : k ∈ GoMap.keys m) :
    GoMap.get m k ∈ upstreamMapToSlice m ∧ (GoMap.get m k).Name = k ∧
    ∀ u ∈ upstreamMapToSlice m, u.Name = k → u = GoMap.get m k := by
  have hname : ∀ k' ∈ GoMap.keys m, (GoMap.get m k').Name = k' := by
    intro k' hk'
    obtain ⟨p, hp, rfl⟩ := List.mem_map.1 hk'
    rw [GoMap.get_of_mem m h.1 p hp]
    exact h.2 p hp
  refine ⟨(mem_upstreamMapToSlice m _).2 ⟨k, hk, rfl⟩, hname k hk, ?_⟩
  intro u hu hn
  obtain ⟨k', hk', rfl⟩ := (mem_upstreamMapToSlice m u).1 hu
  rw [hname k' hk'] at hn
  rw [hn]

/-- C35. For every config `cfg` that `generateNginxCfg` returns (with
`NewUpstreamWithDefaultServer name` named `name`), every server of it and every location
of the server: the `Upstream` of the location is an element of `cfg.Upstreams`, and it is
the only element of `cfg.Upstreams` with its name, so every element of the list with that
name is equal to it in every field. -/
theorem generateNginxCfg_location_upstream (ext : External) (ingEx : IngressEx)
    (apResources : GoMap String) (isMinion : Bool) (baseCfgParams : ConfigParams)
    (isPlus isResolverConfigured : Bool) (staticParams : StaticConfigParams)
    (isWildcardEnabled : Bool) (cfg : IngressNginxConfig)
    (hN : ∀ name, (ext.NewUpstreamWithDefaultServer name).Name = name)
    (h : generateNginxCfg ext ingEx apResources isMinion baseCfgParams isPlus
      isResolverConfigured staticParams isWildcardEnabled = some cfg) :
    ∀ server ∈ cfg.Servers, ∀ loc ∈ server.Locations,
      loc.Upstream ∈ cfg.Upstreams ∧
      ∀ u ∈ cfg.Upstreams, u.Name = loc.Upstream.Name → u = loc.Upstream := by
  unfold generateNginxCfg generateNginxCfg.body at h
  simp only [Option.bind_eq_some, Option.some.injEq] at h
  obtain ⟨r, hr, rfl⟩ := h
  obtain ⟨hfa, _⟩ := generateNginxCfg.synth_servers _ r hr
  obtain ⟨hk, hnamed⟩ := generateNginxCfg.synth_upstreams _ r hr
  have hnamed := hnamed hN
  have hk : ∀ n, n ∈ GoMap.keys r.1 ↔ n ∈ builtUpstreamNames isMinion ingEx := hk
  obtain ⟨_, g2, g3, _⟩ := generateNginxCfg.grpcGate_fields
    (generateNginxCfg.locals ext ingEx apResources isMinion baseCfgParams isPlus
      isResolverConfigured staticParams isWildcardEnabled)
  have key : ∀ k, k ∈ GoMap.keys r.1 → ∀ loc : Location, loc.Upstream = GoMap.get r.1 k →
      loc.Upstream ∈ upstreamMapToSlice r.1 ∧
      ∀ u ∈ upstreamMapToSlice r.1, u.Name = loc.Upstream.Name → u = loc.Upstream := by
    intro k hkm loc hl
    obtain ⟨h1, h2, h3⟩ := upstreamMapToSlice_get r.1 hnamed k hkm
    rw [hl]
    refine ⟨h1, ?_⟩
    intro u hu hn
    rw [h2] at hn
    exact h3 u hu hn
  intro server hs loc hloc
  obtain ⟨rule, hrule, hsrv⟩ := exists_of_forall₂_mem_right hfa server hs
  obtain ⟨s0, s1, locs, jwts, _, _, hl, _, _, hsv⟩ := hsrv
  have hlocs : server.Locations = locs ++ implicitLocations _ r.1 locs :=
    congrArg Server.Locations hsv
  rw [g2, g3] at hl
  rw [hlocs] at hloc
  rcases List.mem_append.1 hloc with hm | hm
  · obtain ⟨path, hp, hlo⟩ := exists_of_forall₂_mem_right hl loc hm
    obtain ⟨jwt, hf⟩ := hlo.fields
    rw [g2] at hf
    refine key (getNameForUpstream ingEx.Ingress rule.Host path.Backend) ?_ loc ?_
    · rw [hk]
      unfold builtUpstreamNames
      refine List.mem_append_right _ ?_
      rw [List.mem_flatten]
      exact ⟨_, List.mem_map_of_mem _ hrule, List.mem_map_of_mem _ hp⟩
    · rw [hf]
      rfl
  · obtain ⟨i1, i2⟩ := implicitLocations_spec
      (generateNginxCfg.grpcGate (generateNginxCfg.locals ext ingEx apResources isMinion
        baseCfgParams isPlus isResolverConfigured staticParams isWildcardEnabled)) r.1 locs
    rw [g2] at i1 i2
    cases hb : ingEx.Ingress.Spec.Backend with
    | none =>
      rw [i1 (Or.inl hb)] at hm
      exact absurd hm (List.not_mem_nil _)
    | some backend =>
      by_cases hroot : ∃ l ∈ locs, l.Path = "/"
      · rw [i1 (Or.inr hroot)] at hm
        exact absurd hm (List.not_mem_nil _)
      · rw [i2 backend hb (fun l hl hp => hroot ⟨l, hl, hp⟩), List.mem_singleton] at hm
        refine key (getNameForUpstream ingEx.Ingress emptyHost backend) ?_ loc ?_
        · rw [hk]
          unfold builtUpstreamNames
          rw [hb]
          exact List.mem_append_left _ (List.mem_singleton_self _)
        · rw [hm]
          rfl

/-- C35 on the cafe ingress: the locations `/tea`, `= /coffee` and `/` carry the three
upstreams of the returned list. -/
theorem generateNginxCfg_location_upstream_witness :
    (generateNginxCfg exampleExternal exampleIngress [] false default true false default
        false).map
        (fun cfg => (cfg.Servers.map fun s => s.Locations.map fun l => (l.Path, l.Upstream.Name),
          cfg.Upstreams.map fun u => u.Name)) =
      some ([[("/tea", "default-cafe-cafe.example.com-tea-svc-80"),
              ("= /coffee", "default-cafe-cafe.example.com-coffee-svc-http"),
              ("/", "default-cafe--dflt-80")]],
            ["default-cafe--dflt-80", "default-cafe-cafe.example.com-coffee-svc-http",
             "default-cafe-cafe.example.com-tea-svc-80"]) ∧
    ∀ server ∈ ((generateNginxCfg exampleExternal exampleIngress [] false default true false
        default false).getD default).Servers, ∀ loc ∈ server.Locations,
      loc.Upstream ∈ ((generateNginxCfg exampleExternal exampleIngress [] false default true
        false default false).getD default).Upstreams ∧
      ∀ u ∈ ((generateNginxCfg exampleExternal exampleIngress [] false default true
        false default false).getD default).Upstreams,
        u.Name = loc.Upstream.Name → u = loc.Upstream :=
  ⟨by rfl,
   generateNginxCfg_location_upstream exampleExternal exampleIngress [] false default true false
     default false _ (fun _ => rfl) (by rfl)⟩

/-! ## C36: the path `/` with the path type `Exact` -/

/-- The location path of the path `/`, or of the empty path, with the path type
`Exact`. -/
theorem generateIngressPath_exact_root (path : String) (pathType : Option PathType)
    (hp : path = "/" ∨ path = "") (ht : pathType = some PathTypeExact) :
    generateIngressPath (pathOrDefault path) pathType = "= /" := by
  subst ht
  rcases hp with rfl | rfl <;> decide

/-- C36. For every config that `generateNginxCfg` returns, every rule with a valid host
and its server: the server starts with one location per honored path, in order, and the
location of a path `/`, or of an empty path, with the path type `Exact` has the `Path`
`= /`; when the ingress declares a default backend and every honored path of the rule is
such a path or yields a location path other than `/`, these locations are followed by
exactly one more, the implicit location with the `Path` `/` for the service of the default
backend. -/
theorem generateNginxCfg_exact_root (ext : External) (ingEx : IngressEx)
    (apResources : GoMap String) (isMinion : Bool) (baseCfgParams : ConfigParams)
    (isPlus isResolverConfigured : Bool) (staticParams : StaticConfigParams)
    (isWildcardEnabled : Bool) (cfg : IngressNginxConfig)
    (h : generateNginxCfg ext ingEx apResources isMinion baseCfgParams isPlus
      isResolverConfigured staticParams isWildcardEnabled = some cfg) :
    List.Forall₂
      (fun rule server =>
        ∃ locs : List Location,
          List.Forall₂
            (fun path loc =>
              loc.ServiceName = path.Backend.ServiceName ∧
              ((path.Path = "/" ∨ path.Path = "") → path.PathType = some PathTypeExact →
                loc.Path = "= /"))
            (honoredPaths isMinion ingEx rule) locs ∧
          (∃ tail, server.Locations = locs ++ tail) ∧
          ∀ backend, ingEx.Ingress.Spec.Backend = some backend →
            (∀ path ∈ honoredPaths isMinion ingEx rule,
              ((path.Path = "/" ∨ path.Path = "") ∧ path.PathType = some PathTypeExact) ∨
              generateIngressPath (pathOrDefault path.Path) path.PathType ≠ "/") →
            ∃ loc, server.Locations = locs ++ [loc] ∧ loc.Path = "/" ∧
              loc.ServiceName = backend.ServiceName)
      (validRules ingEx) cfg.Servers := by
  unfold generateNginxCfg generateNginxCfg.body at h
  simp only [Option.bind_eq_some, Option.some.injEq] at h
  obtain ⟨r, hr, rfl⟩ := h
  obtain ⟨hfa, _⟩ := generateNginxCfg.synth_servers _ r hr
  obtain ⟨_, g2, g3, _⟩ := generateNginxCfg.grpcGate_fields
    (generateNginxCfg.locals ext ingEx apResources isMinion baseCfgParams isPlus
      isResolverConfigured staticParams isWildcardEnabled)
  refine forall₂_imp_of_mem hfa ?_
  intro rule _ server hs
  obtain ⟨s0, s1, locs, jwts, _, _, hl, _, _, hsrv⟩ := hs
  have hlocs : server.Locations = locs ++ implicitLocations _ r.1 locs :=
    congrArg Server.Locations hsrv
  obtain ⟨_, i2⟩ := implicitLocations_spec
    (generateNginxCfg.grpcGate (generateNginxCfg.locals ext ingEx apResources isMinion
      baseCfgParams isPlus isResolverConfigured staticParams isWildcardEnabled)) r.1 locs
  rw [g2] at i2
  rw [g2, g3] at hl
  refine ⟨locs, forall₂_imp_of_mem hl ?_, ⟨_, hlocs⟩, ?_⟩
  · intro path _ loc hloc
    refine ⟨hloc.path.2, fun hp ht => ?_⟩
    rw [hloc.path.1]
    exact generateIngressPath_exact_root _ _ hp ht
  · intro b hb hn
    have hne : ∀ l ∈ locs, l.Path ≠ "/" := by
      intro l hlm
      obtain ⟨path, hpm, hlo⟩ := exists_of_forall₂_mem_right hl l hlm
      rw [hlo.path.1]
      rcases hn path hpm with ⟨hp, ht⟩ | hne
      · rw [generateIngressPath_exact_root _ _ hp ht]
        decide
      · exact hne
    exact ⟨_, by rw [hlocs, i2 b hb hne], rfl, rfl⟩

/-- C36 on an ingress with the default backend `dflt` and a rule with the paths `/`,
of the path type `Exact`, and `/tea`: the locations are `= /`, `/tea` and the implicit
`/` of `dflt`; the same holds with the empty path in place of `/`. -/
theorem generateNginxCfg_exact_root_witness :
    (generateNginxCfg exampleExternal exactRootIngress [] false default true false default
        false).map
        (fun cfg => cfg.Servers.map fun s => s.Locations.map fun l => (l.Path, l.ServiceName)) =
      some [[("= /", "web-svc"), ("/tea", "tea-svc"), ("/", "dflt")]] ∧
    (generateNginxCfg exampleExternal exactEmptyIngress [] false default true false default
        false).map
        (fun cfg => cfg.Servers.map fun s => s.Locations.map fun l => (l.Path, l.ServiceName)) =
      some [[("= /", "web-svc"), ("/tea", "tea-svc"), ("/", "dflt")]] ∧
    List.Forall₂
      (fun rule server =>
        ∃ locs : List Location,
          List.Forall₂
            (fun path loc =>
              loc.ServiceName = path.Backend.ServiceName ∧
              ((path.Path = "/" ∨ path.Path = "") → path.PathType = some PathTypeExact →
                loc.Path = "= /"))
            (honoredPaths false exactRootIngress rule) locs ∧
          (∃ tail, server.Locations = locs ++ tail) ∧
          ∀ backend, exactRootIngress.Ingress.Spec.Backend = some backend →
            (∀ path ∈ honoredPaths false exactRootIngress rule,
              ((path.Path = "/" ∨ path.Path = "") ∧ path.PathType = some PathTypeExact) ∨
              generateIngressPath (pathOrDefault path.Path) path.PathType ≠ "/") →
            ∃ loc, server.Locations = locs ++ [loc] ∧ loc.Path = "/" ∧
              loc.ServiceName = backend.ServiceName)
      (validRules exactRootIngress)
      ((generateNginxCfg exampleExternal exactRootIngress [] false default true false default
        false).getD default).Servers :=
  ⟨by rfl, by rfl,
   generateNginxCfg_exact_root exampleExternal exactRootIngress [] false default true false
     default false _ (by rfl)⟩

/-! ## C37: several TLS entries for one host -/

/-- The loop over the TLS entries when `tls` is the last entry that lists the host. -/
theorem addSSLConfig.entries_last (host : String) (before after : List IngressTLS)
    (tls : IngressTLS) (hhost : host ∈ tls.Hosts) (hafter : ∀ t ∈ after, host ∉ t.Hosts)
    (st : Bool × String) :
    addSSLConfig.entries host (before ++ tls :: after) st = (true, tls.SecretName) := by
  have hf : ((before ++ tls :: after).filter fun t => decide (host ∈ t.Hosts)) =
      (before.filter fun t => decide (host ∈ t.Hosts)) ++ [tls] := by
    rw [List.filter_append, List.filter_cons_of_pos (by simpa using hhost)]
    have : (after.filter fun t => decide (host ∈ t.Hosts)) = [] := by
      rw [List.filter_eq_nil_iff]
      intro t ht
      simpa using hafter t ht
    rw [this]
  rw [addSSLConfig.entries_eq, hf, List.getLast?_append, List.getLast?_singleton]
  rfl

/-- C37. When several TLS entries list the host, `tls` being the last of them in
declaration order: the loops of `addSSLConfig` end with TLS enabled and the secret name of
`tls`, whatever the entries before it name, so the call returns what it returns on the
entry `tls` alone; when `tls` has no secret name, that is the wildcard certificate, or the
placeholder when the wildcard is not enabled, even if an earlier entry names a valid
secret.  Within one entry the search stops at the first host that matches: the hosts
after it are not read. -/
theorem addSSLConfig_last_entry (ext : External) (server : Server) (host : String)
    (before after : List IngressTLS) (tls : IngressTLS) (secrets : GoMap SecretReference)
    (isWildcardEnabled : Bool)
    (hhost : host ∈ tls.Hosts) (hafter : ∀ t ∈ after, host ∉ t.Hosts) :
    addSSLConfig.entries host (before ++ tls :: after) (false, "") = (true, tls.SecretName) ∧
    addSSLConfig ext server host (before ++ tls :: after) secrets isWildcardEnabled =
      addSSLConfig ext server host [tls] secrets isWildcardEnabled ∧
    (tls.SecretName = "" →
      ∃ server', addSSLConfig ext server host (before ++ tls :: after) secrets
          isWildcardEnabled = some server' ∧
        server'.SSL = true ∧
        server'.SSLCertificate =
          (if isWildcardEnabled = true then ext.pemFileNameForWildcardTLSSecret
           else ext.pemFileNameForMissingTLSSecret) ∧
        server'.SSLCertificateKey = server'.SSLCertificate) ∧
    (∀ (secretName : String) (pre post : List String) (st : Bool × String),
      addSSLConfig.hosts host secretName (pre ++ host :: post) st = (true, secretName) ∧
      addSSLConfig.hosts host secretName (pre ++ host :: post) st =
        addSSLConfig.hosts host secretName (pre ++ [host]) st) := by
  have he := addSSLConfig.entries_last host before after tls hhost hafter (false, "")
  have he1 : addSSLConfig.entries host [tls] (false, "") = (true, tls.SecretName) :=
    addSSLConfig.entries_last host [] [] tls hhost (fun t ht => absurd ht (List.not_mem_nil _))
      (false, "")
  have hrun := addSSLConfig_of_entries ext server host (before ++ tls :: after) secrets
    isWildcardEnabled _ he
  have hrun1 := addSSLConfig_of_entries ext server host [tls] secrets isWildcardEnabled _ he1
  refine ⟨he, by rw [hrun, hrun1], ?_, ?_⟩
  · intro hempty
    have hp : addSSLConfig.pemFile ext tls.SecretName secrets isWildcardEnabled =
        some (if isWildcardEnabled = true then ext.pemFileNameForWildcardTLSSecret
              else ext.pemFileNameForMissingTLSSecret) := by
      unfold addSSLConfig.pemFile
      rw [if_neg (by simp [hempty])]
      split <;> rfl
    rw [hp] at hrun
    exact ⟨_, hrun, rfl, rfl, rfl⟩
  · intro secretName pre post st
    rw [addSSLConfig.hosts_eq, addSSLConfig.hosts_eq]
    simp

/-- C37 on TLS entries that list `cafe.example.com` first with the valid secret
`cafe-secret` and then without a secret name: the server gets the wildcard certificate,
and the placeholder when the wildcard is not enabled. -/
theorem addSSLConfig_last_entry_witness :
    (addSSLConfig exampleExternal default "cafe.example.com" repeatedTLS exampleIngress.Secrets
        true).map (fun s => (s.SSL, s.SSLCertificate, s.SSLCiphers)) =
      some (true, "/etc/nginx/secrets/wildcard", "") ∧
    (addSSLConfig exampleExternal default "cafe.example.com" repeatedTLS exampleIngress.Secrets
        false).map (fun s => (s.SSL, s.SSLCertificate, s.SSLCiphers)) =
      some (true, "/etc/nginx/secrets/default", "NULL") ∧
    (addSSLConfig exampleExternal default "cafe.example.com" (repeatedTLS.take 1)
        exampleIngress.Secrets true).map (fun s => (s.SSL, s.SSLCertificate, s.SSLCiphers)) =
      some (true, "/etc/nginx/secrets/default-cafe-secret", "") ∧
    addSSLConfig exampleExternal default "cafe.example.com" repeatedTLS exampleIngress.Secrets
        true =
      addSSLConfig exampleExternal default "cafe.example.com"
        [{ Hosts := ["cafe.example.com"], SecretName := "" }] exampleIngress.Secrets true :=
  ⟨by rfl, by rfl, by rfl,
   (addSSLConfig_last_entry exampleExternal default "cafe.example.com"
      [{ Hosts := ["tea.example.com", "cafe.example.com", "cafe.example.com"],
         SecretName := "cafe-secret" }]
      [{ Hosts := ["coffee.example.com"], SecretName := "coffee-secret" }]
      { Hosts := ["cafe.example.com"], SecretName := "" } exampleIngress.Secrets true
      (by decide) (by decide)).2.1⟩

/-! ## C38: the health check of the default backend -/

theorem exists_of_forall₂_mem_left {α β : Type} {R : α → β → Prop} {l1 : List α}
    {l2 : List β} (h : List.Forall₂ R l1 l2) (a : α) (ha : a ∈ l1) : ∃ b ∈ l2, R a b := by
  induction h with
  | nil => exact absurd ha (List.not_mem_nil _)
  | cons hab _ ih =>
    rcases List.mem_cons.1 ha with rfl | hm
    · exact ⟨_, List.mem_cons_self _ _, hab⟩
    · obtain ⟨b, hb1, hb2⟩ := ih hm
      exact ⟨b, List.mem_cons_of_mem _ hb1, hb2⟩

/-- C38. For every config that `generateNginxCfg` returns, every rule with a valid host
and its server, when the ingress declares a default backend and no honored path of the
rule has the upstream name of the default backend: if an honored path of the rule yields
the location path `/`, the `HealthChecks` map of the server has no entry under the
upstream name of the default backend, whatever the parameters and the probes are; an
entry under that name is in the map only when the locations of the honored paths are
followed by the implicit location `/` of the default backend; and without a location
path `/` among the honored paths the entry is in the map exactly when health checks are
enabled and a probe exists for the default backend.  The upstream of the default backend
is in the returned `Upstreams` in every case. -/
theorem generateNginxCfg_default_healthCheck (ext : External) (ingEx : IngressEx)
    (apResources : GoMap String) (isMinion : Bool) (baseCfgParams : ConfigParams)
    (isPlus isResolverConfigured : Bool) (staticParams : StaticConfigParams)
    (isWildcardEnabled : Bool) (cfg : IngressNginxConfig) (backend : IngressBackend)
    (hb : ingEx.Ingress.Spec.Backend = some backend)
    (h : generateNginxCfg ext ingEx apResources isMinion baseCfgParams isPlus
      isResolverConfigured staticParams isWildcardEnabled = some cfg) :
    List.Forall₂
      (fun rule server =>
        (∀ path ∈ honoredPaths isMinion ingEx rule,
          getNameForUpstream ingEx.Ingress rule.Host path.Backend ≠
            getNameForUpstream ingEx.Ingress emptyHost backend) →
        ((∃ path ∈ honoredPaths isMinion ingEx rule,
            generateIngressPath (pathOrDefault path.Path) path.PathType = "/") →
          GoMap.lookup server.HealthChecks (getNameForUpstream ingEx.Ingress emptyHost backend) =
            none) ∧
        (getNameForUpstream ingEx.Ingress emptyHost backend ∈ GoMap.keys server.HealthChecks →
          ∃ locs loc, server.Locations = locs ++ [loc] ∧
            locs.length = (honoredPaths isMinion ingEx rule).length ∧ loc.Path = "/" ∧
            loc.ServiceName = backend.ServiceName) ∧
        ((∀ path ∈ honoredPaths isMinion ingEx rule,
            generateIngressPath (pathOrDefault path.Path) path.PathType ≠ "/") →
          (getNameForUpstream ingEx.Ingress emptyHost backend ∈ GoMap.keys server.HealthChecks ↔
            hasProbe (generateNginxCfg.locals ext ingEx apResources isMinion baseCfgParams isPlus
              isResolverConfigured staticParams isWildcardEnabled) backend = true)))
      (validRules ingEx) cfg.Servers ∧
    ∃ u ∈ cfg.Upstreams,
      createUpstream ext ingEx (getNameForUpstream ingEx.Ingress emptyHost backend) backend
        (GoMap.get (ext.getSessionPersistenceServices ingEx) backend.ServiceName)
        (ext.parseAnnotations ingEx baseCfgParams isPlus
          staticParams.MainAppProtectLoadModule staticParams.EnableInternalRoutes)
        isPlus isResolverConfigured staticParams.EnableLatencyMetrics = some u := by
  unfold generateNginxCfg generateNginxCfg.body at h
  simp only [Option.bind_eq_some, Option.some.injEq] at h
  obtain ⟨r, hr, rfl⟩ := h
  obtain ⟨hfa, hdef⟩ := generateNginxCfg.synth_servers _ r hr
  obtain ⟨_, g2, g3, g4, _⟩ := generateNginxCfg.grpcGate_fields
    (generateNginxCfg.locals ext ingEx apResources isMinion baseCfgParams isPlus
      isResolverConfigured staticParams isWildcardEnabled)
  have hprobe : ∀ b, hasProbe (generateNginxCfg.grpcGate
      (generateNginxCfg.locals ext ingEx apResources isMinion baseCfgParams isPlus
        isResolverConfigured staticParams isWildcardEnabled)) b =
      hasProbe (generateNginxCfg.locals ext ingEx apResources isMinion baseCfgParams isPlus
        isResolverConfigured staticParams isWildcardEnabled) b := by
    intro b
    unfold hasProbe
    rw [g2, g4]
  refine ⟨forall₂_imp_of_mem hfa ?_, ?_⟩
  · intro rule _ server hs hne
    obtain ⟨s0, s1, locs, jwts, _, _, hl, hkeys, _, hsrv⟩ := hs
    have hlocs : server.Locations = locs ++ implicitLocations _ r.1 locs :=
      congrArg Server.Locations hsrv
    obtain ⟨_, i2⟩ := implicitLocations_spec
      (generateNginxCfg.grpcGate (generateNginxCfg.locals ext ingEx apResources isMinion
        baseCfgParams isPlus isResolverConfigured staticParams isWildcardEnabled)) r.1 locs
    rw [g2] at i2
    rw [g2, g3] at hl hkeys
    have hk : getNameForUpstream ingEx.Ingress emptyHost backend ∈ GoMap.keys server.HealthChecks ↔
        (∀ l ∈ locs, l.Path ≠ "/") ∧
        hasProbe (generateNginxCfg.locals ext ingEx apResources isMinion baseCfgParams isPlus
          isResolverConfigured staticParams isWildcardEnabled) backend = true := by
      rw [hkeys]
      constructor
      · rintro (⟨p, hp, _, hn⟩ | ⟨b, hb', hroot, hpr, _⟩)
        · exact absurd hn.symm (hne p hp)
        · have hb'' : ingEx.Ingress.Spec.Backend = some b := hb'
          rw [hb] at hb''
          cases hb''
          rw [hprobe] at hpr
          exact ⟨hroot, hpr⟩
      · rintro ⟨hroot, hpr⟩
        exact Or.inr ⟨backend, hb, hroot, by rw [hprobe]; exact hpr, rfl⟩
    refine ⟨?_, ?_, ?_⟩
    · rintro ⟨path, hp, hpath⟩
      rw [GoMap.lookup_eq_none_iff, hk]
      rintro ⟨hroot, _⟩
      obtain ⟨l, hlm, hlo⟩ := exists_of_forall₂_mem_left hl path hp
      exact hroot l hlm (by rw [hlo.path.1]; exact hpath)
    · intro hmem
      obtain ⟨hroot, _⟩ := hk.1 hmem
      exact ⟨locs, _, by rw [hlocs, i2 backend hb hroot], hl.length_eq.symm, rfl, rfl⟩
    · intro hnr
      rw [hk]
      constructor
      · exact fun hh => hh.2
      · intro hpr
        refine ⟨?_, hpr⟩
        intro l hlm
        obtain ⟨path, hpm, hlo⟩ := exists_of_forall₂_mem_right hl l hlm
        rw [hlo.path.1]
        exact hnr path hpm
  · obtain ⟨u, hu, hlk⟩ := hdef backend hb
    refine ⟨u, ?_, hu⟩
    show u ∈ upstreamMapToSlice r.1
    rw [mem_upstreamMapToSlice]
    refine ⟨_, (GoMap.lookup_isSome_iff _ _).1 (by rw [hlk]; rfl), ?_⟩
    unfold GoMap.get
    rw [hlk]
    rfl

/-- C38 on an ingress with the default backend `dflt`, a probe on it and health checks
enabled: with the path `/` the server has the health check of `web-svc` only, although the
upstream of `dflt` is returned; with the path `/tea` instead it has the one of `dflt`
too. -/
theorem generateNginxCfg_default_healthCheck_witness :
    (generateNginxCfg exampleExternal rootProbeIngress [] false healthCheckCfgParams true false
        default false).map
        (fun cfg => (cfg.Upstreams.map fun u => u.Name,
          cfg.Servers.map fun s => (s.Locations.map fun l => l.Path, GoMap.keys s.HealthChecks))) =
      some (["default-web--dflt-80", "default-web-web.example.com-web-svc-80"],
            [(["/"], ["default-web-web.example.com-web-svc-80"])]) ∧
    (generateNginxCfg exampleExternal teaProbeIngress [] false healthCheckCfgParams true false
        default false).map
        (fun cfg => cfg.Servers.map fun s =>
          (s.Locations.map fun l => l.Path, GoMap.keys s.HealthChecks)) =
      some [(["/tea", "/"],
             ["default-web-web.example.com-web-svc-80", "default-web--dflt-80"])] ∧
    hasProbe (generateNginxCfg.locals exampleExternal rootProbeIngress [] false
      healthCheckCfgParams true false default false)
      { ServiceName := "dflt", ServicePort := .int 80 } = true ∧
    List.Forall₂
      (fun rule server =>
        (∀ path ∈ honoredPaths false rootProbeIngress rule,
          getNameForUpstream rootProbeIngress.Ingress rule.Host path.Backend ≠
            getNameForUpstream rootProbeIngress.Ingress emptyHost
              { ServiceName := "dflt", ServicePort := .int 80 }) →
        ((∃ path ∈ honoredPaths false rootProbeIngress rule,
            generateIngressPath (pathOrDefault path.Path) path.PathType = "/") →
          GoMap.lookup server.HealthChecks
            (getNameForUpstream rootProbeIngress.Ingress emptyHost
              { ServiceName := "dflt", ServicePort := .int 80 }) = none) ∧
        (getNameForUpstream rootProbeIngress.Ingress emptyHost
            { ServiceName := "dflt", ServicePort := .int 80 } ∈ GoMap.keys server.HealthChecks →
          ∃ locs loc, server.Locations = locs ++ [loc] ∧
            locs.length = (honoredPaths false rootProbeIngress rule).length ∧ loc.Path = "/" ∧
            loc.ServiceName = "dflt") ∧
        ((∀ path ∈ honoredPaths false rootProbeIngress rule,
            generateIngressPath (pathOrDefault path.Path) path.PathType ≠ "/") →
          (getNameForUpstream rootProbeIngress.Ingress emptyHost
              { ServiceName := "dflt", ServicePort := .int 80 } ∈
              GoMap.keys server.HealthChecks ↔
            hasProbe (generateNginxCfg.locals exampleExternal rootProbeIngress [] false
              healthCheckCfgParams true false default false)
              { ServiceName := "dflt", ServicePort := .int 80 } = true)))
      (validRules rootProbeIngress)
      ((generateNginxCfg exampleExternal rootProbeIngress [] false healthCheckCfgParams true
        false default false).getD default).Servers :=
  ⟨by rfl, by rfl, by rfl,
   (generateNginxCfg_default_healthCheck exampleExternal rootProbeIngress [] false
      healthCheckCfgParams true false default false _
      { ServiceName := "dflt", ServicePort := .int 80 } (by rfl) (by rfl)).1⟩

/-! ## The validators of the typed scalar keys and their grammars -/

/-- The digits at the start of a text that goes on with another character. -/
theorem takeWhile_isDigit (digits rest : List Char) (hd : ∀ c ∈ digits, c.isDigit = true)
    (hr : ∀ c, rest.head? = some c → c.isDigit = false) :
    (digits ++ rest).takeWhile Char.isDigit = digits ∧
    (digits ++ rest).dropWhile Char.isDigit = rest := by
  cases rest with
  | nil =>
    rw [List.append_nil]
    exact ⟨List.takeWhile_eq_self_iff.2 hd, List.dropWhile_eq_nil_iff.2 hd⟩
  | cons r rs =>
    have hr' : r.isDigit = false := hr r rfl
    rw [List.takeWhile_append_of_pos hd, List.dropWhile_append_of_pos hd,
      List.takeWhile_cons_of_neg (by simp [hr']), List.dropWhile_cons_of_neg (by simp [hr'])]
    simp

/-- A text whose leading digits are not empty starts with `<integer>`. -/
theorem isInteger_takeWhile (s : List Char)
    (h : (s.takeWhile Char.isDigit).isEmpty = false) : IsInteger (s.takeWhile Char.isDigit) := by
  refine ⟨?_, fun c hc => List.mem_takeWhile_imp hc⟩
  intro hn
  rw [hn] at h
  exact absurd h (by simp)

theorem isInteger_not_isEmpty (digits : List Char) (h : IsInteger digits) :
    digits.isEmpty = false := by
  cases digits with
  | nil => exact absurd rfl h.1
  | cons c cs => rfl

/-- The check of the size-offset validator decides its grammar. -/
theorem sizeOffsetValidator.check_sizeOffset (units : List Char) (hu : ∀ u ∈ units, u.isDigit = false)
    (s : List Char) : sizeOffsetValidator.check units s = true ↔ IsSizeOffset units s := by
  unfold sizeOffsetValidator.check IsSizeOffset
  constructor
  · intro h
    rw [Bool.and_eq_true] at h
    obtain ⟨h1, h2⟩ := h
    refine ⟨s.takeWhile Char.isDigit, s.dropWhile Char.isDigit,
      (List.takeWhile_append_dropWhile _ s).symm, isInteger_takeWhile s (by simpa using h1), ?_⟩
    split at h2
    · rename_i heq
      exact Or.inl heq
    · rename_i u heq
      exact Or.inr ⟨u, by simpa using h2, heq⟩
    · exact absurd h2 (by simp)
  · rintro ⟨digits, unit, rfl, hd, hunit⟩
    rcases hunit with rfl | ⟨u, hum, rfl⟩
    · obtain ⟨t1, t2⟩ := takeWhile_isDigit digits [] hd.2 (by simp)
      rw [t1, t2, isInteger_not_isEmpty digits hd]
      rfl
    · obtain ⟨t1, t2⟩ := takeWhile_isDigit digits [u] hd.2
        (by intro c hc; simp only [List.head?_cons, Option.some.injEq] at hc; rw [← hc]; exact hu u hum)
      rw [t1, t2, isInteger_not_isEmpty digits hd]
      simp [hum]

theorem offsetUnits_not_digit : ∀ u ∈ offsetUnits, u.isDigit = false := by decide

theorem sizeUnits_not_digit : ∀ u ∈ sizeUnits, u.isDigit = false := by decide

/-- The check of the size-pair validator decides its grammar. -/
theorem sizePairValidator.check_sizePair (s : List Char) :
    sizePairValidator.check s = true ↔ IsSizePair s := by
  unfold sizePairValidator.check IsSizePair
  constructor
  · intro h
    rw [Bool.and_eq_true] at h
    obtain ⟨h1, h2⟩ := h
    split at h2
    · rename_i size heq
      refine ⟨s.takeWhile Char.isDigit, size, ?_, isInteger_takeWhile s (by simpa using h1),
        (sizeOffsetValidator.check_sizeOffset sizeUnits sizeUnits_not_digit size).1 h2⟩
      rw [← heq]
      exact (List.takeWhile_append_dropWhile _ s).symm
    · exact absurd h2 (by simp)
  · rintro ⟨count, size, rfl, hc, hs⟩
    obtain ⟨t1, t2⟩ := takeWhile_isDigit count (' ' :: size) hc.2
      (by intro c hc'; simp only [List.head?_cons, Option.some.injEq] at hc'; rw [← hc']; decide)
    rw [t1, t2, isInteger_not_isEmpty count hc]
    simp only [Bool.not_false, Bool.true_and]
    exact (sizeOffsetValidator.check_sizeOffset sizeUnits sizeUnits_not_digit size).2 hs

/-- The size-offset validator returns the string it is given, when the string is in the
grammar, and fails otherwise. -/
theorem sizeOffsetValidator_spec (units : List Char) (hu : ∀ u ∈ units, u.isDigit = false)
    (v : String) :
    (IsSizeOffset units v.data → sizeOffsetValidator units v = some v) ∧
    (¬ IsSizeOffset units v.data → sizeOffsetValidator units v = none) := by
  unfold sizeOffsetValidator
  rw [← sizeOffsetValidator.check_sizeOffset units hu]
  constructor
  · intro h
    rw [if_pos h]
  · intro h
    rw [if_neg h]

/-- The size-pair validator returns the string it is given, when the string is in the
grammar, and fails otherwise. -/
theorem sizePairValidator_spec (v : String) :
    (IsSizePair v.data → sizePairValidator v = some v) ∧
    (¬ IsSizePair v.data → sizePairValidator v = none) := by
  unfold sizePairValidator
  rw [← sizePairValidator.check_sizePair]
  constructor
  · intro h
    rw [if_pos h]
  · intro h
    rw [if_neg h]

/-- The non-negative-integer validator returns the integer that the string denotes, when
the string is in the grammar, and fails otherwise. -/
theorem nonNegativeIntegerValidator_spec (v : String) :
    (IsNonNegativeInteger v.data →
      nonNegativeIntegerValidator v = some (digitsValue v.data : Int)) ∧
    (¬ IsNonNegativeInteger v.data → nonNegativeIntegerValidator v = none) := by
  have hiff : (!v.data.isEmpty && v.data.all Char.isDigit &&
      decide (digitsValue v.data < 2 ^ 63)) = true ↔ IsNonNegativeInteger v.data := by
    unfold IsNonNegativeInteger IsInteger
    simp only [Bool.and_eq_true, Bool.not_eq_true', List.all_eq_true, decide_eq_true_eq,
      List.isEmpty_eq_false, ne_eq]
  unfold nonNegativeIntegerValidator
  rw [← hiff]
  constructor
  · intro h
    rw [if_pos h]
  · intro h
    rw [if_neg h]

/-! ## The duration validator and its grammar -/

/-- A unit at the start of a text is one of the fixed set. -/
theorem durationValidator.unit_some (s rest : List Char)
    (h : durationValidator.unit s = some rest) : ∃ u ∈ timeUnits, s = u ++ rest := by
  unfold durationValidator.unit at h
  split at h
  · simp only [Option.some.injEq] at h
    subst h
    exact ⟨"ms".data, by decide, rfl⟩
  · rename_i c t _
    split_ifs at h with hc
    simp only [Option.some.injEq] at h
    subst h
    simp only [List.mem_cons, List.mem_singleton, List.not_mem_nil, or_false] at hc
    rcases hc with rfl | rfl | rfl | rfl | rfl | rfl | rfl
    · exact ⟨"s".data, by decide, rfl⟩
    · exact ⟨"m".data, by decide, rfl⟩
    · exact ⟨"h".data, by decide, rfl⟩
    · exact ⟨"d".data, by decide, rfl⟩
    · exact ⟨"w".data, by decide, rfl⟩
    · exact ⟨"M".data, by decide, rfl⟩
    · exact ⟨"y".data, by decide, rfl⟩
  · exact absurd h (by simp)

/-- A unit of the fixed set at the start of a text that does not go on with `s` is
found, with the text that follows it. -/
theorem durationValidator.unit_append (u : List Char) (hu : u ∈ timeUnits) (t : List Char)
    (ht : t.head? ≠ some 's') : durationValidator.unit (u ++ t) = some t := by
  have hm : ∀ t : List Char, t.head? ≠ some 's' →
      durationValidator.unit ('m' :: t) = some t := by
    intro t ht
    cases t with
    | nil => rfl
    | cons c cs =>
      have hc : c ≠ 's' := fun e => ht (by rw [e]; rfl)
      unfold durationValidator.unit
      split
      · rename_i heq
        simp only [List.cons.injEq, true_and] at heq
        exact absurd heq.1 hc
      · rename_i c' t' _ heq
        simp only [List.cons.injEq] at heq
        obtain ⟨rfl, rfl⟩ := heq
        rfl
      · rename_i heq
        exact absurd heq (by simp)
  unfold timeUnits at hu
  simp only [List.mem_cons, List.mem_singleton, List.not_mem_nil, or_false] at hu
  rcases hu with rfl | rfl | rfl | rfl | rfl | rfl | rfl | rfl
  · rfl
  · rfl
  · exact hm t ht
  · rfl
  · rfl
  · rfl
  · rfl
  · rfl

/-- A unit of the fixed set starts with a character that is not a digit. -/
theorem timeUnits_head : ∀ u ∈ timeUnits, ∃ c cs, u = c :: cs ∧ c.isDigit = false := by
  intro u hu
  unfold timeUnits at hu
  simp only [List.mem_cons, List.mem_singleton, List.not_mem_nil, or_false] at hu
  rcases hu with rfl | rfl | rfl | rfl | rfl | rfl | rfl | rfl <;>
    exact ⟨_, _, rfl, by decide⟩

/-- A text of the grammar starts with a digit. -/
theorem IsDuration.head {s : List Char} (h : IsDuration s) :
    ∃ d ds, s = d :: ds ∧ d.isDigit = true := by
  have key : ∀ digits tail : List Char, IsInteger digits →
      ∃ d ds, digits ++ tail = d :: ds ∧ d.isDigit = true := by
    intro digits tail hd
    cases digits with
    | nil => exact absurd rfl hd.1
    | cons d ds => exact ⟨d, ds ++ tail, rfl, hd.2 d (List.mem_cons_self _ _)⟩
  cases h with
  | token digits unit hd hu => exact key digits unit hd
  | cons digits unit spaces rest hd hu hsp hrest =>
    rw [List.append_assoc, List.append_assoc]
    exact key digits _ hd

/-- The scan of the duration validator accepts only texts of the grammar. -/
theorem durationValidator.tokens_sound :
    ∀ (fuel : Nat) (s : List Char), durationValidator.tokens fuel s = true → IsDuration s
  | 0, _, h => by simp [durationValidator.tokens] at h
  | fuel + 1, s, h => by
    rw [durationValidator.tokens] at h
    split_ifs at h with hd
    have hint := isInteger_takeWhile s (by simpa using hd)
    have hs := (List.takeWhile_append_dropWhile Char.isDigit s).symm
    split at h
    · exact absurd h (by simp)
    · rename_i heq
      obtain ⟨u, hu, hdrop⟩ := durationValidator.unit_some _ _ heq
      rw [List.append_nil] at hdrop
      rw [hs, hdrop]
      exact IsDuration.token _ u hint hu
    · rename_i c rest heq
      obtain ⟨u, hu, hdrop⟩ := durationValidator.unit_some _ _ heq
      have ih := durationValidator.tokens_sound fuel _ h
      have hsp := (List.takeWhile_append_dropWhile (fun x => decide (x = ' ')) (c :: rest)).symm
      have hfull : s = s.takeWhile Char.isDigit ++ u ++
          (c :: rest).takeWhile (fun x => decide (x = ' ')) ++
          (c :: rest).dropWhile (fun x => decide (x = ' ')) := by
        rw [List.append_assoc, List.append_assoc, ← hsp, ← hdrop]
        exact hs
      rw [hfull]
      refine IsDuration.cons _ u _ _ hint hu ?_ ih
      intro x hx
      have := List.mem_takeWhile_imp hx
      simpa using this

/-- The scan of the duration validator accepts every text of the grammar. -/
theorem durationValidator.tokens_complete {s : List Char} (h : IsDuration s) :
    ∀ fuel, s.length < fuel → durationValidator.tokens fuel s = true := by
  induction h with
  | token digits unit hd hu =>
    intro fuel hf
    cases fuel with
    | zero => exact absurd hf (Nat.not_lt_zero _)
    | succ fuel =>
      obtain ⟨c, cs, hc, hcd⟩ := timeUnits_head unit hu
      obtain ⟨t1, t2⟩ := takeWhile_isDigit digits unit hd.2
        (by intro x hx; rw [hc] at hx; simp only [List.head?_cons, Option.some.injEq] at hx
            rw [← hx]; exact hcd)
      have hunit := durationValidator.unit_append unit hu [] (by simp)
      rw [List.append_nil] at hunit
      rw [durationValidator.tokens, t1, t2, isInteger_not_isEmpty digits hd, hunit]
      rfl
  | cons digits unit spaces rest hd hu hsp hrest ih =>
    intro fuel hf
    cases fuel with
    | zero => exact absurd hf (Nat.not_lt_zero _)
    | succ fuel =>
      obtain ⟨d, ds, hrd, hdd⟩ := hrest.head
      obtain ⟨c, cs, hc, hcd⟩ := timeUnits_head unit hu
      have hassoc : digits ++ unit ++ spaces ++ rest = digits ++ (unit ++ (spaces ++ rest)) := by
        simp only [List.append_assoc]
      obtain ⟨t1, t2⟩ := takeWhile_isDigit digits (unit ++ (spaces ++ rest)) hd.2
        (by intro x hx; rw [hc] at hx
            simp only [List.cons_append, List.head?_cons, Option.some.injEq] at hx
            rw [← hx]; exact hcd)
      have hd_ne_space : d ≠ ' ' := by
        rintro rfl
        exact absurd hdd (by decide)
      have hd_ne_s : d ≠ 's' := by
        rintro rfl
        exact absurd hdd (by decide)
      have hhead : (spaces ++ rest).head? ≠ some 's' := by
        cases spaces with
        | nil =>
          rw [List.nil_append, hrd]
          intro he
          exact hd_ne_s (Option.some.inj he)
        | cons x xs =>
          have hx : x = ' ' := hsp x (List.mem_cons_self _ _)
          rw [hx]
          simp only [List.cons_append, List.head?_cons, Option.some.injEq]
          decide
      have hunit := durationValidator.unit_append unit hu (spaces ++ rest) hhead
      have hcons : ∃ y ys, spaces ++ rest = y :: ys := by
        cases spaces with
        | nil => exact ⟨d, ds, by rw [List.nil_append, hrd]⟩
        | cons x xs => exact ⟨x, xs ++ rest, rfl⟩
      obtain ⟨y, ys, hy⟩ := hcons
      have hdrop : (y :: ys).dropWhile (fun x => decide (x = ' ')) = rest := by
        rw [← hy, List.dropWhile_append_of_pos (by simpa using hsp), hrd,
          List.dropWhile_cons_of_neg (by simpa using hd_ne_space)]
      have hlen : rest.length < fuel := by
        have : (digits ++ unit ++ spaces ++ rest).length = digits.length + unit.length +
            spaces.length + rest.length := by
          simp only [List.length_append]
        have hpos : 0 < digits.length := List.length_pos.2 hd.1
        omega
      rw [hassoc, durationValidator.tokens, t1, t2, isInteger_not_isEmpty digits hd, hunit, hy]
      simp only [Bool.false_eq_true, if_false]
      rw [hdrop]
      exact ih fuel hlen

/-- The duration validator returns the string it is given, when the string is in the
grammar, and fails otherwise. -/
theorem durationValidator_spec (v : String) :
    (IsDuration v.data → durationValidator v = some v) ∧
    (¬ IsDuration v.data → durationValidator v = none) := by
  unfold durationValidator
  constructor
  · intro h
    rw [if_pos (durationValidator.tokens_complete h _ (Nat.lt_succ_self _))]
  · intro h
    rw [if_neg]
    intro ht
    exact h (durationValidator.tokens_sound _ _ ht)

/-! ## The resolution of the typed scalar keys -/

/-- The validator of a typed scalar key returns the value that the string denotes, when
the string is in the grammar of the key, and fails otherwise. -/
theorem TypedKey.validator_spec (k : TypedKey) (v : String) :
    (k.Accepts v → k.validator v = some (k.denotes v)) ∧
    (¬ k.Accepts v → k.validator v = none) := by
  cases k
  case proxyConnectTimeout =>
    exact ⟨fun h => by rw [TypedKey.validator, (durationValidator_spec v).1 h]; rfl,
      fun h => by rw [TypedKey.validator, (durationValidator_spec v).2 h]; rfl⟩
  case proxyReadTimeout =>
    exact ⟨fun h => by rw [TypedKey.validator, (durationValidator_spec v).1 h]; rfl,
      fun h => by rw [TypedKey.validator, (durationValidator_spec v).2 h]; rfl⟩
  case proxySendTimeout =>
    exact ⟨fun h => by rw [TypedKey.validator, (durationValidator_spec v).1 h]; rfl,
      fun h => by rw [TypedKey.validator, (durationValidator_spec v).2 h]; rfl⟩
  case failTimeout =>
    exact ⟨fun h => by rw [TypedKey.validator, (durationValidator_spec v).1 h]; rfl,
      fun h => by rw [TypedKey.validator, (durationValidator_spec v).2 h]; rfl⟩
  case clientMaxBodySize =>
    exact ⟨fun h => by
        rw [TypedKey.validator, (sizeOffsetValidator_spec _ offsetUnits_not_digit v).1 h]; rfl,
      fun h => by
        rw [TypedKey.validator, (sizeOffsetValidator_spec _ offsetUnits_not_digit v).2 h]; rfl⟩
  case proxyBufferSize =>
    exact ⟨fun h => by
        rw [TypedKey.validator, (sizeOffsetValidator_spec _ sizeUnits_not_digit v).1 h]; rfl,
      fun h => by
        rw [TypedKey.validator, (sizeOffsetValidator_spec _ sizeUnits_not_digit v).2 h]; rfl⟩
  case proxyMaxTempFileSize =>
    exact ⟨fun h => by
        rw [TypedKey.validator, (sizeOffsetValidator_spec _ sizeUnits_not_digit v).1 h]; rfl,
      fun h => by
        rw [TypedKey.validator, (sizeOffsetValidator_spec _ sizeUnits_not_digit v).2 h]; rfl⟩
  case upstreamZoneSize =>
    exact ⟨fun h => by
        rw [TypedKey.validator, (sizeOffsetValidator_spec _ sizeUnits_not_digit v).1 h]; rfl,
      fun h => by
        rw [TypedKey.validator, (sizeOffsetValidator_spec _ sizeUnits_not_digit v).2 h]; rfl⟩
  case proxyBuffers =>
    exact ⟨fun h => by rw [TypedKey.validator, (sizePairValidator_spec v).1 h]; rfl,
      fun h => by rw [TypedKey.validator, (sizePairValidator_spec v).2 h]; rfl⟩
  case maxFails =>
    exact ⟨fun h => by rw [TypedKey.validator, (nonNegativeIntegerValidator_spec v).1 h]; rfl,
      fun h => by rw [TypedKey.validator, (nonNegativeIntegerValidator_spec v).2 h]; rfl⟩
  case maxConns =>
    exact ⟨fun h => by rw [TypedKey.validator, (nonNegativeIntegerValidator_spec v).1 h]; rfl,
      fun h => by rw [TypedKey.validator, (nonNegativeIntegerValidator_spec v).2 h]; rfl⟩

/-- The resolution of a field, mapped into the values of the typed fields. -/
theorem resolveField_map {α : Type} (f : α → TypedValue) (validator : String → Option α)
    (raw : GoMap String) (key : String) (base : α) :
    f (resolveField validator raw key base) =
      resolveField (fun v => (validator v).map f) raw key (f base) := by
  unfold resolveField
  cases GoMap.lookup raw key with
  | none => rfl
  | some value =>
    simp only
    cases validator value <;> rfl

/-- The field of a typed scalar key after `parseAnnotations`. -/
theorem parseAnnotations_field (k : TypedKey) (ingEx : IngressEx) (baseCfgParams : ConfigParams)
    (isPlus hasAppProtect enableInternalRoutes : Bool) :
    k.field (parseAnnotations ingEx baseCfgParams isPlus hasAppProtect enableInternalRoutes) =
      resolveField k.validator ingEx.Ingress.Annotations ("nginx.org/" ++ k.name)
        (k.field baseCfgParams) := by
  cases k <;> exact resolveField_map _ _ _ _ _

/-- The field of a typed scalar key after `ParseConfigMap`. -/
theorem ParseConfigMap_field (k : TypedKey) (defaults : ConfigParams) (cfgm : GoMap String)
    (nginxPlus hasAppProtect : Bool) :
    k.field (ParseConfigMap defaults cfgm nginxPlus hasAppProtect) =
      resolveField k.validator cfgm k.name (k.field defaults) := by
  cases k <;> exact resolveField_map _ _ _ _ _

/-- The resolution of a typed scalar key from the value stored under a key of a map. -/
theorem TypedKey.resolveField_spec (k : TypedKey) (raw : GoMap String) (key : String)
    (base : TypedValue) :
    (GoMap.lookup raw key = none → resolveField k.validator raw key base = base) ∧
    (∀ v, GoMap.lookup raw key = some v → k.Accepts v →
      resolveField k.validator raw key base = k.denotes v) ∧
    (∀ v, GoMap.lookup raw key = some v → ¬ k.Accepts v →
      resolveField k.validator raw key base = base) := by
  unfold resolveField
  refine ⟨?_, ?_, ?_⟩
  · intro h
    rw [h]
  · intro v h ha
    rw [h]
    simp only [(k.validator_spec v).1 ha]
  · intro v h ha
    rw [h]
    simp only [(k.validator_spec v).2 ha]

/-- The names of the typed scalar keys are distinct. -/
theorem TypedKey.name_injective (k k' : TypedKey) (h : k.name = k'.name) : k = k' := by
  cases k <;> cases k' <;> first | rfl | exact absurd h (by decide)

/-- A text of the grammar of durations is made of digits, spaces and unit letters. -/
theorem IsDuration.alphabet {s : List Char} (h : IsDuration s) :
    ∀ c ∈ s, c.isDigit = true ∨ c = ' ' ∨ c ∈ ['m', 's', 'h', 'd', 'w', 'M', 'y'] := by
  have hunit : ∀ u ∈ timeUnits, ∀ c ∈ u, c ∈ ['m', 's', 'h', 'd', 'w', 'M', 'y'] := by decide
  induction h with
  | token digits unit hd hu =>
    intro c hc
    rcases List.mem_append.1 hc with h1 | h1
    · exact Or.inl (hd.2 c h1)
    · exact Or.inr (Or.inr (hunit unit hu c h1))
  | cons digits unit spaces rest hd hu hsp _ ih =>
    intro c hc
    rcases List.mem_append.1 hc with h1 | h1
    · rcases List.mem_append.1 h1 with h2 | h2
      · rcases List.mem_append.1 h2 with h3 | h3
        · exact Or.inl (hd.2 c h3)
        · exact Or.inr (Or.inr (hunit unit hu c h3))
      · exact Or.inr (Or.inl (hsp c h2))
    · exact ih c h1

/-! ## C31: `parseAnnotations` on the typed scalar keys -/

/-- C31. `parseAnnotations` is a total function, and for every typed scalar key `k`
(the four timeouts, `client-max-body-size`, `proxy-buffer-size`,
`proxy-max-temp-file-size`, `upstream-zone-size`, `proxy-buffers`, `max-fails`,
`max-conns`), every ingress, base parameter set and capability flags: the field of `k`
is the field of the base when the annotation `nginx.org/<k>` is absent; it is the value
`v` of the annotation, the same string or the integer it denotes, when `v` is in the
grammar of `k`; and it is the field of the base when `v` is outside the grammar.
Outside the grammars are: for a size other than `client-max-body-size` an integer with
the unit `g`, which `client-max-body-size` accepts; for the integers every string with a
character that is not a digit, a sign included; for the durations every string with a
character other than a digit, a space and a unit letter; and the values `60secs`,
`32Megabytes`, `2k` for `proxy-buffers`, `8 1g` and `-1` of the tests. -/
theorem parseAnnotations_typed :
    (∀ (k : TypedKey) (ingEx : IngressEx) (baseCfgParams : ConfigParams)
        (isPlus hasAppProtect enableInternalRoutes : Bool),
      (GoMap.lookup ingEx.Ingress.Annotations ("nginx.org/" ++ k.name) = none →
        k.field (parseAnnotations ingEx baseCfgParams isPlus hasAppProtect
          enableInternalRoutes) = k.field baseCfgParams) ∧
      (∀ v, GoMap.lookup ingEx.Ingress.Annotations ("nginx.org/" ++ k.name) = some v →
        k.Accepts v →
        k.field (parseAnnotations ingEx baseCfgParams isPlus hasAppProtect
          enableInternalRoutes) = k.denotes v) ∧
      (∀ v, GoMap.lookup ingEx.Ingress.Annotations ("nginx.org/" ++ k.name) = some v →
        ¬ k.Accepts v →
        k.field (parseAnnotations ingEx baseCfgParams isPlus hasAppProtect
          enableInternalRoutes) = k.field baseCfgParams)) ∧
    (∀ digits : List Char, IsInteger digits →
      IsSizeOffset offsetUnits (digits ++ ['g']) ∧ ¬ IsSizeOffset sizeUnits (digits ++ ['g'])) ∧
    (∀ s : List Char, (∃ c ∈ s, c.isDigit = false) → ¬ IsNonNegativeInteger s) ∧
    (∀ s : List Char, (∃ c ∈ s, c.isDigit = false ∧ c ≠ ' ' ∧
      c ∉ ['m', 's', 'h', 'd', 'w', 'M', 'y']) → ¬ IsDuration s) ∧
    ¬ IsDuration "60secs".data ∧
    ¬ IsSizeOffset offsetUnits "32Megabytes".data ∧
    ¬ IsSizeOffset sizeUnits "32Megabytes".data ∧
    ¬ IsSizePair "2k".data ∧ ¬ IsSizePair "8 1g".data ∧
    ¬ IsNonNegativeInteger "-1".data := by
  refine ⟨?_, ?_, ?_, ?_, ?_, ?_, ?_, ?_, ?_, ?_⟩
  · intro k ingEx baseCfgParams isPlus hasAppProtect enableInternalRoutes
    rw [parseAnnotations_field]
    exact k.resolveField_spec _ _ _
  · intro digits hd
    refine ⟨⟨digits, ['g'], rfl, hd, Or.inr ⟨'g', by decide, rfl⟩⟩, ?_⟩
    rw [← sizeOffsetValidator.check_sizeOffset sizeUnits sizeUnits_not_digit]
    obtain ⟨t1, t2⟩ := takeWhile_isDigit digits ['g'] hd.2
      (by intro c hc; simp only [List.head?_cons, Option.some.injEq] at hc; rw [← hc]; decide)
    unfold sizeOffsetValidator.check
    rw [t1, t2]
    simp only [Bool.and_eq_true, not_and]
    intro _
    decide
  · rintro s ⟨c, hc, hcd⟩ h
    rw [h.1.2 c hc] at hcd
    exact absurd hcd (by simp)
  · rintro s ⟨c, hc, h1, h2, h3⟩ h
    rcases h.alphabet c hc with h4 | h4 | h4
    · rw [h4] at h1
      exact absurd h1 (by simp)
    · exact h2 h4
    · exact h3 h4
  · exact fun h => absurd ((durationValidator_spec "60secs").1 h) (by decide)
  · exact fun h => absurd
      ((sizeOffsetValidator_spec offsetUnits offsetUnits_not_digit "32Megabytes").1 h) (by decide)
  · exact fun h => absurd
      ((sizeOffsetValidator_spec sizeUnits sizeUnits_not_digit "32Megabytes").1 h) (by decide)
  · exact fun h => absurd ((sizePairValidator_spec "2k").1 h) (by decide)
  · exact fun h => absurd ((sizePairValidator_spec "8 1g").1 h) (by decide)
  · exact fun h => absurd ((nonNegativeIntegerValidator_spec "-1").1 h) (by decide)

/-- C31 on the values of the tests of `annotations_test.go`, resolved over example
defaults, with the capability flags of the tests. -/
theorem parseAnnotations_typed_witness :
    (["30s", "1m 30s", "1m30s", "30s 2m", "10s", "60secs", "invalid_time_string"].map fun v =>
      let cfg := parseAnnotations
        (createTestIngress [("nginx.org/proxy-connect-timeout", v), ("nginx.org/proxy-read-timeout", v),
          ("nginx.org/proxy-send-timeout", v), ("nginx.org/fail-timeout", v)])
        exampleDefaults true false false
      (cfg.ProxyConnectTimeout, cfg.ProxyReadTimeout, cfg.ProxySendTimeout, cfg.FailTimeout)) =
      [("30s", "30s", "30s", "30s"), ("1m 30s", "1m 30s", "1m 30s", "1m 30s"),
       ("1m30s", "1m30s", "1m30s", "1m30s"), ("30s 2m", "30s 2m", "30s 2m", "30s 2m"),
       ("10s", "10s", "10s", "10s"), ("60s", "60s", "60s", "10s"), ("60s", "60s", "60s", "10s")] ∧
    (["2k", "16M", "1g", "12M", "32Megabytes", "invalid_size_string"].map fun v =>
      let cfg := parseAnnotations
        (createTestIngress [("nginx.org/client-max-body-size", v), ("nginx.org/proxy-buffer-size", v),
          ("nginx.org/proxy-max-temp-file-size", v), ("nginx.org/upstream-zone-size", v)])
        exampleDefaults true false false
      (cfg.ClientMaxBodySize, cfg.ProxyBufferSize, cfg.ProxyMaxTempFileSize,
        cfg.UpstreamZoneSize)) =
      [("2k", "2k", "2k", "2k"), ("16M", "16M", "16M", "16M"), ("1g", "4k", "1024m", "256k"),
       ("12M", "12M", "12M", "12M"), ("1m", "4k", "1024m", "256k"),
       ("1m", "4k", "1024m", "256k")] ∧
    (["8 2k", "4 16M", "1 12M", "2k", "8 1g", "6 32Megabytes",
      "invalid_proxy_buffers_string"].map fun v =>
      (parseAnnotations (createTestIngress [("nginx.org/proxy-buffers", v)])
        exampleDefaults true false false).ProxyBuffers) =
      ["8 2k", "4 16M", "1 12M", "8 4k", "8 4k", "8 4k", "8 4k"] ∧
    (["0", "1", "100", "-1", "-100", "invalid_non_negative_int"].map fun v =>
      let cfg := parseAnnotations
        (createTestIngress [("nginx.org/max-fails", v), ("nginx.org/max-conns", v)])
        exampleDefaults true false false
      (cfg.MaxFails, cfg.MaxConns)) =
      [(0, 0), (1, 1), (100, 100), (1, 7), (1, 7), (1, 7)] ∧
    TypedKey.proxyConnectTimeout.field
      (parseAnnotations (createTestIngress [("nginx.org/proxy-connect-timeout", "1m 30s")])
        exampleDefaults true false false) = .str "1m 30s" ∧
    TypedKey.maxConns.field
      (parseAnnotations (createTestIngress [("nginx.org/max-conns", "-100")])
        exampleDefaults true false false) = .int 7 ∧
    TypedKey.proxyBuffers.field
      (parseAnnotations (createTestIngress []) exampleDefaults true false false) =
        .str "8 4k" :=
  ⟨by rfl, by rfl, by rfl, by rfl,
   (parseAnnotations_typed.1 .proxyConnectTimeout
      (createTestIngress [("nginx.org/proxy-connect-timeout", "1m 30s")]) exampleDefaults true
      false false).2.1 "1m 30s" (by rfl) (durationValidator.tokens_sound 7 _ (by rfl)),
   (parseAnnotations_typed.1 .maxConns
      (createTestIngress [("nginx.org/max-conns", "-100")]) exampleDefaults true
      false false).2.2 "-100" (by rfl) (by decide : ¬ IsNonNegativeInteger "-100".data),
   (parseAnnotations_typed.1 .proxyBuffers (createTestIngress []) exampleDefaults true
      false false).1 (by rfl)⟩

/-! ## C32: `ParseConfigMap` on the typed scalar keys -/

/-- C32. For every typed scalar key `k`, every value `v`, all built-in defaults and all
flags: on a ConfigMap that holds only `k = v`, `ParseConfigMap` resolves the field of
every typed scalar key to the value that `parseAnnotations` resolves it to over the
built-in defaults on an ingress whose only annotation is `nginx.org/<k> = v`; the field
of `k` is `v`, the same string or the integer it denotes, when `v` is in the grammar of
`k`, and the built-in default otherwise. -/
theorem ParseConfigMap_typed (k : TypedKey) (v : String) (defaults : ConfigParams)
    (ingEx : IngressEx) (nginxPlus hasAppProtect isPlus hasAppProtectAnnotations
      enableInternalRoutes : Bool)
    (hann : ingEx.Ingress.Annotations = [("nginx.org/" ++ k.name, v)]) :
    (∀ k' : TypedKey,
      k'.field (ParseConfigMap defaults [(k.name, v)] nginxPlus hasAppProtect) =
        k'.field (parseAnnotations ingEx defaults isPlus hasAppProtectAnnotations
          enableInternalRoutes)) ∧
    (k.Accepts v →
      k.field (ParseConfigMap defaults [(k.name, v)] nginxPlus hasAppProtect) = k.denotes v) ∧
    (¬ k.Accepts v →
      k.field (ParseConfigMap defaults [(k.name, v)] nginxPlus hasAppProtect) =
        k.field defaults) := by
  have hself : GoMap.lookup [(k.name, v)] k.name = some v := by
    simp [GoMap.lookup]
  refine ⟨?_, ?_, ?_⟩
  · intro k'
    rw [ParseConfigMap_field, parseAnnotations_field, hann]
    have hl : GoMap.lookup [("nginx.org/" ++ k.name, v)] ("nginx.org/" ++ k'.name) =
        GoMap.lookup [(k.name, v)] k'.name := by
      by_cases hk : k = k'
      · subst hk
        simp [GoMap.lookup]
      · have h1 : k.name ≠ k'.name := fun h => hk (TypedKey.name_injective k k' h)
        have h2 : "nginx.org/" ++ k.name ≠ "nginx.org/" ++ k'.name := by
          intro h
          apply h1
          have hd := congrArg String.data h
          simp only [String.data_append] at hd
          exact String.ext (List.append_cancel_left hd)
        simp [GoMap.lookup, h1, h2]
    unfold resolveField
    rw [hl]
  · intro ha
    rw [ParseConfigMap_field]
    exact (k.resolveField_spec _ _ _).2.1 v hself ha
  · intro ha
    rw [ParseConfigMap_field]
    exact (k.resolveField_spec _ _ _).2.2 v hself ha

/-- C32 on the values of the tests of `configmaps_test.go`, resolved over example
defaults: the fields after `ParseConfigMap` are those after `parseAnnotations` on the
annotation of the same name. -/
theorem ParseConfigMap_typed_witness :
    (["60s", "1m 30s", "1m30s", "30s 2m", "60secs", "invalid_time_string"].map fun v =>
      let cfg := ParseConfigMap exampleDefaults
        [("proxy-connect-timeout", v), ("proxy-read-timeout", v), ("proxy-send-timeout", v),
         ("fail-timeout", v)] true false
      (cfg.ProxyConnectTimeout, cfg.ProxyReadTimeout, cfg.ProxySendTimeout, cfg.FailTimeout)) =
      [("60s", "60s", "60s", "60s"), ("1m 30s", "1m 30s", "1m 30s", "1m 30s"),
       ("1m30s", "1m30s", "1m30s", "1m30s"), ("30s 2m", "30s 2m", "30s 2m", "30s 2m"),
       ("60s", "60s", "60s", "10s"), ("60s", "60s", "60s", "10s")] ∧
    (["2k", "16M", "1g", "12M", "32Megabytes", "invalid_size_string"].map fun v =>
      let cfg := ParseConfigMap exampleDefaults
        [("client-max-body-size", v), ("proxy-buffer-size", v), ("proxy-max-temp-file-size", v),
         ("upstream-zone-size", v)] true false
      (cfg.ClientMaxBodySize, cfg.ProxyBufferSize, cfg.ProxyMaxTempFileSize,
        cfg.UpstreamZoneSize)) =
      [("2k", "2k", "2k", "2k"), ("16M", "16M", "16M", "16M"), ("1g", "4k", "1024m", "256k"),
       ("12M", "12M", "12M", "12M"), ("1m", "4k", "1024m", "256k"),
       ("1m", "4k", "1024m", "256k")] ∧
    (["8 2k", "4 16M", "1 12M", "2k", "8 1g", "6 32Megabytes",
      "invalid_proxy_buffers_string"].map fun v =>
      (ParseConfigMap exampleDefaults [("proxy-buffers", v)] true false).ProxyBuffers) =
      ["8 2k", "4 16M", "1 12M", "8 4k", "8 4k", "8 4k", "8 4k"] ∧
    (["0", "1", "100", "-1", "-100", "invalid_non_negative_int"].map fun v =>
      (ParseConfigMap exampleDefaults [("max-fails", v)] true false).MaxFails) =
      [0, 1, 100, 1, 1, 1] ∧
    (∀ k' : TypedKey,
      k'.field (ParseConfigMap exampleDefaults [(TypedKey.maxFails.name, "100")] true false) =
        k'.field (parseAnnotations (createTestIngress [("nginx.org/max-fails", "100")])
          exampleDefaults true false false)) :=
  ⟨by rfl, by rfl, by rfl, by rfl,
   (ParseConfigMap_typed .maxFails "100" exampleDefaults
      (createTestIngress [("nginx.org/max-fails", "100")]) true false true false false
      (by rfl)).1⟩

end Configs
